import Mathlib

/-!
# Density-matrix container (`module_elecstate/module_dm/density_matrix.cpp`)

A shallow embedding of the `elecstate::DensityMatrix` container: its constructors,
the element accessors of DM(k), the three `init_DMR` overloads, the DM(k) → DM(R)
transform, the spin merge and the snapshot files of DM(k), and theorems about them.
With it come the parts of the DFT+U operator `hamilt::DFTUNew` (`dftu_new.cpp`,
`dftu_force_stress.hpp`) and of `StressTools` (`FORCE_gamma_new.cpp`) that work on
the occupation matrix, the force and the stress.

Conventions of the embedding.

* The production build is embedded: the `#ifdef __DEBUG` blocks are absent.
* `double` is an arbitrary type `F` that carries the operations the code uses
  (`0`, `1`, `+`, `-`, `*`, unary `-`, conversion from `int`).  The definitions
  assume no law about them.  A theorem that needs arithmetic laws says so, by a
  hypothesis on the operations or by asking for `[CommRing F]` (exact arithmetic,
  in which rounding is absent).  The arithmetic the code runs in is the instance
  `Dbl`: the finite values of the normal range of IEEE 754 binary64, rounded to
  nearest, ties to even.
* `TWO_PI` and `sincos` of `module_base` are black boxes, passed in as a
  `Libm F`.
* Exceptions are `Except.error`; an access outside a buffer, or through a
  pointer that was never set, is the error `Err.Undefined`.  The predicates
  `WellFormed_multi_k`, `WellFormed_gamma` and `WellFormed_sum` describe the
  states on which the transforms and the spin merge have no such access.
* An `int` is a mathematical integer (`Int`, or `Nat` for a count or an atom
  number); no overflow is modelled.
* A `for` loop with an upward counter is `loopM` (fallible body) or `loop`.
* A file is what is inserted into its stream, operand by operand (`OutItem`).  An
  input stream is a black box (`InStream`); what the theorems need of `operator>>`
  is a hypothesis.  For `Dbl` the text of a file is modelled too (`file_words`:
  the numbers in decimal notation, correctly rounded), with the stream that reads
  it (`text_stream`); a step that this model of the text does not describe is the
  error `Err.Unmodelled`.
* A failed `assert` of the production build is the error `Err.Abort`.
* The classes `HContainer`, `AtomPair`, `BaseMatrix`, `Parallel_Orbitals`,
  `K_Vectors`, `UnitCell`, `Grid_Driver`, `Record_adj`, `AdjacentAtomInfo` and
  the BLAS wrapper are not among the sources; the parts of them that the
  container uses are modelled from the specification.

The file has two parts: the definitions, then the theorems.
-/

namespace elecstate

/-- The failures of the embedded code. -/
inductive Err where
  /-- the thrown string "nspin must be 1, 2 or 4" -/
  | InvalidConfig
  /-- the thrown string "Atom-pair not belong this process" -/
  | OwnershipViolation
  /-- an access the C++ standard leaves undefined (outside a buffer, null or unset pointer) -/
  | Undefined
  /-- the end of the program by a failed `assert` or by `WARNING_QUIT` -/
  | Abort
  /-- a step on the text of a file that the model of the text does not describe -/
  | Unmodelled
  deriving DecidableEq

/-- The message carried by a thrown exception. -/
def Err.what : Err → String
  | .InvalidConfig => "nspin must be 1, 2 or 4"
  | .OwnershipViolation => "Atom-pair not belong this process"
  | .Undefined => ""
  | .Abort => ""
  | .Unmodelled => ""

/-- The loop `for (int i = 0; i < n; ++i) s = body(i, s)`. -/
def loop {σ : Type} (n : Nat) (body : Nat → σ → σ) (s : σ) : σ :=
  match n with
  | 0 => s
  | k + 1 => body k (loop k body s)

/-- The loop `for (int i = 0; i < n; ++i) s = body(i, s)` with a body that may fail;
the first failure ends the loop. -/
def loopM {σ : Type} (n : Nat) (body : Nat → σ → Except Err σ) (s : σ) : Except Err σ :=
  match n with
  | 0 => .ok s
  | k + 1 =>
    match loopM k body s with
    | .error e => .error e
    | .ok t => body k t

/-! ## Collaborators: `module_base`, the layout descriptor, the k-point set -/

/-- The type `ModuleBase::Vector3<T>`. -/
structure Vector3 (T : Type) where
  x : T
  y : T
  z : T
  deriving DecidableEq

/-- Modelled from the spec: `operator*` of two `ModuleBase::Vector3`, the dot product
(`k·R` of the transform); its header is not among the sources. -/
def Vector3.dot {T : Type} [Add T] [Mul T] (u v : Vector3 T) : T :=
  u.x * v.x + u.y * v.y + u.z * v.z

/-- The constructor `Vector3<double> dR(r[0], r[1], r[2])` from three `int`. -/
def Vector3.ofInt {F : Type} [IntCast F] (r : Vector3 Int) : Vector3 F :=
  ⟨(r.x : F), (r.y : F), (r.z : F)⟩

/-- The type `std::complex<double>`: two adjacent doubles, real part first. -/
structure Cplx (F : Type) where
  re : F
  im : F
  deriving DecidableEq

/-- The value-initialized `std::complex<double>`. -/
instance Cplx.instZero {F : Type} [Zero F] : Zero (Cplx F) := ⟨⟨0, 0⟩⟩

/-- The product `std::complex<double> * std::complex<double>`. -/
instance Cplx.instHMul {F : Type} [Add F] [Sub F] [Mul F] :
    HMul (Cplx F) (Cplx F) (Cplx F) :=
  ⟨fun a b => ⟨a.re * b.re - a.im * b.im, a.re * b.im + a.im * b.re⟩⟩

/-- The product `std::complex<double> * double`. -/
instance Cplx.instHMulReal {F : Type} [Mul F] : HMul (Cplx F) F (Cplx F) :=
  ⟨fun a b => ⟨a.re * b, a.im * b⟩⟩

/-- The black boxes of `module_base`: the constant `ModuleBase::TWO_PI` and
`ModuleBase::libm::sincos`, which returns `(sin, cos)`. -/
structure Libm (F : Type) where
  TWO_PI : F
  sincos : F → F × F

/-- The part of `K_Vectors` the container reads. -/
structure K_Vectors (F : Type) where
  nks : Nat
  kvec_d : List (Vector3 F)
  deriving DecidableEq

/-- The part of `Parallel_Orbitals` the container reads: the local dimensions, the
offset tables (`-1` for an atom without local rows or columns) and the per-atom
local sizes. -/
structure Parallel_Orbitals where
  nrow : Nat
  ncol : Nat
  atom_begin_row : Nat → Int
  atom_begin_col : Nat → Int
  get_row_size : Nat → Nat
  get_col_size : Nat → Nat

/-! ## The sparse container `hamilt::HContainer` -/

/-- Modelled from the spec: `hamilt::BaseMatrix`, a dense block in contiguous
row-major storage; its source is not among the sources. -/
structure BaseMatrix (F : Type) where
  nrow_local : Nat
  ncol_local : Nat
  value_begin : List F
  deriving DecidableEq

/-- Modelled from the spec: `BaseMatrix::set_zero`, zeroes the values. -/
def BaseMatrix.set_zero {F : Type} [Zero F] (m : BaseMatrix F) : BaseMatrix F :=
  { m with value_begin := m.value_begin.map (fun _ => 0) }

/-- Modelled from the spec: `BaseMatrix::add_element(mu, nu, value)` on row-major
storage. -/
def BaseMatrix.add_element {F : Type} [Add F] (m : BaseMatrix F) (mu nu : Nat) (value : F) :
    Except Err (BaseMatrix F) :=
  match m.value_begin[mu * m.ncol_local + nu]? with
  | none => .error .Undefined
  | some y => .ok { m with value_begin := m.value_begin.set (mu * m.ncol_local + nu) (y + value) }

/-- Modelled from the spec: `hamilt::AtomPair`, the blocks of one ordered atom pair,
one block per stored lattice translation; its source is not among the sources. -/
structure AtomPair (F : Type) where
  atom_i : Nat
  atom_j : Nat
  row_size : Nat
  col_size : Nat
  R_index : List (Vector3 Int)
  values : List (BaseMatrix F)
  deriving DecidableEq

/-- The number of stored translations, `AtomPair::get_R_size`. -/
def AtomPair.get_R_size {F : Type} (ap : AtomPair F) : Nat := ap.R_index.length

/-- The translation number `ir`, `AtomPair::get_R_index(ir)`. -/
def AtomPair.get_R_index {F : Type} (ap : AtomPair F) (ir : Nat) : Option (Vector3 Int) :=
  ap.R_index[ir]?

/-- Modelled from the spec: `AtomPair::find_R`, the position of the first stored
translation equal to `r`. -/
def AtomPair.find_R {F : Type} (ap : AtomPair F) (r : Vector3 Int) : Option Nat :=
  let k := ap.R_index.indexOf r
  if k < ap.R_index.length then some k else none

/-- Modelled from the spec: `AtomPair::find_matrix(rx, ry, rz)`, the block lookup by
translation. -/
def AtomPair.find_matrix {F : Type} (ap : AtomPair F) (r : Vector3 Int) : Option (BaseMatrix F) :=
  match ap.find_R r with
  | none => none
  | some k => ap.values[k]?

/-- Modelled from the spec: `AtomPair::set_zero`. -/
def AtomPair.set_zero {F : Type} [Zero F] (ap : AtomPair F) : AtomPair F :=
  { ap with values := ap.values.map BaseMatrix.set_zero }

/-- Modelled from the spec: `hamilt::HContainer`, the sparse container of one spin;
its source is not among the sources. -/
structure HContainer (F : Type) where
  gamma_only : Bool
  atom_pairs : List (AtomPair F)
  deriving DecidableEq

/-- The number of atom pairs, `HContainer::size_atom_pairs`. -/
def HContainer.size_atom_pairs {F : Type} (c : HContainer F) : Nat := c.atom_pairs.length

/-- The atom pair number `i`, `HContainer::get_atom_pair(i)`. -/
def HContainer.get_atom_pair {F : Type} (c : HContainer F) (i : Nat) : Option (AtomPair F) :=
  c.atom_pairs[i]?

/-- Modelled from the spec: `HContainer::set_zero`, zeroes the values of every block. -/
def HContainer.set_zero {F : Type} [Zero F] (c : HContainer F) : HContainer F :=
  { c with atom_pairs := c.atom_pairs.map AtomPair.set_zero }

/-- Modelled from the spec: `HContainer::fix_gamma`, marks the structure Gamma-fixed. -/
def HContainer.fix_gamma {F : Type} (c : HContainer F) : HContainer F :=
  { c with gamma_only := true }

/-! ## The container `DensityMatrix<TK, TR>` with `TR = double` -/

/-- The data members of `DensityMatrix<TK, double>`; `_kv` is never set by the
Gamma-only constructor. -/
structure DensityMatrix (TK F : Type) where
  _kv : Option (K_Vectors F)
  _paraV : Parallel_Orbitals
  _nspin : Nat
  _nks : Nat
  _DMK : List (List TK)
  _DMR : List (HContainer F)

/-- The constructor for multi-k, lines 24-54. -/
def DensityMatrix.DensityMatrix_multi_k {TK F : Type} [Zero TK]
    (kv_in : K_Vectors F) (paraV_in : Parallel_Orbitals) (nspin : Int) :
    Except Err (DensityMatrix TK F) :=
  let finish (_nspin : Nat) : DensityMatrix TK F :=
    let tmp_DMK : List TK := List.replicate (paraV_in.nrow * paraV_in.ncol) 0
    { _kv := some kv_in
      _paraV := paraV_in
      _nspin := _nspin
      _nks := kv_in.nks / _nspin
      _DMK := loop kv_in.nks (fun _ dmk => dmk ++ [tmp_DMK]) []
      _DMR := [] }
  if nspin = 1 ∨ nspin = 4 then .ok (finish 1)
  else if nspin = 2 then .ok (finish 2)
  else .error .InvalidConfig

/-- The constructor for Gamma-only, lines 57-83. -/
def DensityMatrix.DensityMatrix_gamma {TK F : Type} [Zero TK]
    (paraV_in : Parallel_Orbitals) (nspin : Int) : Except Err (DensityMatrix TK F) :=
  let finish (_nspin : Nat) : DensityMatrix TK F :=
    let tmp_DMK : List TK := List.replicate (paraV_in.nrow * paraV_in.ncol) 0
    { _kv := none
      _paraV := paraV_in
      _nspin := _nspin
      _nks := 1
      _DMK := loop _nspin (fun _ dmk => dmk ++ [tmp_DMK]) []
      _DMR := [] }
  if nspin = 1 ∨ nspin = 4 then .ok (finish 1)
  else if nspin = 2 then .ok (finish 2)
  else .error .InvalidConfig

/-! ## The transform DM(k) → DM(R) -/

/-- The loop `for (int i = 0; i < n; ++i) { T& x = xs[i]; ... }` whose body works on
the element number `i` through a reference and may fail. -/
def updateEachM {α : Type} (n : Nat) (f : Nat → α → Except Err α) (xs : List α) :
    Except Err (List α) :=
  loopM n (fun i xs =>
    match xs[i]? with
    | none => .error .Undefined
    | some x =>
      match f i x with
      | .error e => .error e
      | .ok y => .ok (xs.set i y)) xs

/-- The element `p[d]` of a real buffer, for `p = buf.data()`. -/
def readReal {F : Type} (buf : List F) (d : Int) : Option F :=
  if d < 0 then none else buf[d.toNat]?

/-- The double `p[d]` for `p = (double*) buf.data()`: a complex buffer seen as
interleaved doubles, real part at the even and imaginary part at the odd positions. -/
def readInterleaved {F : Type} (buf : List (Cplx F)) (d : Int) : Option F :=
  if d < 0 then none
  else
    match buf[d.toNat / 2]? with
    | none => none
    | some z => some (if d.toNat % 2 = 0 then z.re else z.im)

/-- Modelled from the spec: `BlasConnector::axpy(n, alpha, X, incX, Y, incY)`, the
scaled-vector accumulate `Y[i*incY] += alpha * X[i*incX]` for `i < n`.  The pointer `X`
is given by what it reads at each offset, the pointer `Y` by its buffer and the
position `y0` in it. -/
def axpy {F : Type} [Add F] [Mul F] (n : Nat) (alpha : F) (X : Int → Option F) (incX : Int)
    (Y : List F) (y0 : Nat) (incY : Nat) : Except Err (List F) :=
  loopM n (fun i Y =>
    match X (i * incX), Y[y0 + i * incY]? with
    | some x, some y => .ok (Y.set (y0 + i * incY) (y + alpha * x))
    | _, _ => .error .Undefined) Y

/-- The loop over the atom pairs of one container with the ownership test, lines
379-390 (314-325 and 467-478 are the same text); `body` is the rest of the loop body. -/
def HContainer.for_each_atom_pair {F : Type} (paraV : Parallel_Orbitals) (tmp_DMR : HContainer F)
    (body : (iat1 iat2 : Nat) → (row_ap col_ap : Int) → AtomPair F → Except Err (AtomPair F)) :
    Except Err (HContainer F) :=
  match updateEachM tmp_DMR.size_atom_pairs (fun _ tmp_ap =>
      let iat1 := tmp_ap.atom_i
      let iat2 := tmp_ap.atom_j
      let row_ap := paraV.atom_begin_row iat1
      let col_ap := paraV.atom_begin_col iat2
      if row_ap = -1 ∨ col_ap = -1 then .error .OwnershipViolation
      else body iat1 iat2 row_ap col_ap tmp_ap) tmp_DMR.atom_pairs with
  | .error e => .error e
  | .ok aps => .ok { tmp_DMR with atom_pairs := aps }

/-- Writing a block back through the pointer that `find_matrix` returned. -/
def AtomPair.store_matrix {F : Type} (ap : AtomPair F) (r : Vector3 Int) (m : BaseMatrix F) :
    AtomPair F :=
  match ap.find_R r with
  | none => ap
  | some k => { ap with values := ap.values.set k m }

/-- The loop over the stored translations of one atom pair, lines 391-394 (326-329 are
the same text, 526-529 the same for the pair of the first spin); `body` works on the
block that `find_matrix` returns. -/
def AtomPair.for_each_R {F : Type} (tmp_ap : AtomPair F)
    (body : Vector3 Int → BaseMatrix F → Except Err (BaseMatrix F)) : Except Err (AtomPair F) :=
  loopM tmp_ap.get_R_size (fun ir tmp_ap =>
    match tmp_ap.get_R_index ir with
    | none => .error .Undefined
    | some r_index =>
      match tmp_ap.find_matrix r_index with
      | none => .error .Undefined
      | some tmp_matrix =>
        match body r_index tmp_matrix with
        | .error e => .error e
        | .ok m => .ok (tmp_ap.store_matrix r_index m)) tmp_ap

/-- The phase of one k-point, lines 343-347 and 407-411: `kphase = (cosp, sinp)`. -/
def kphase {F : Type} [Add F] [Mul F] [IntCast F] (lm : Libm F) (kvec_d : Vector3 F)
    (r_index : Vector3 Int) : Cplx F :=
  let dR : Vector3 F := Vector3.ofInt r_index
  let arg := (kvec_d.dot dR) * lm.TWO_PI
  let sc := lm.sincos arg
  ⟨sc.2, sc.1⟩

/-- The loop over the spins, lines 305-310, 370-375 and 452-458; only `_DMR` is
assigned, `body` gets `ik_begin` and `_DMR[is - 1]`. -/
def DensityMatrix.for_each_spin {TK F : Type} (st : DensityMatrix TK F)
    (body : (ik_begin : Nat) → HContainer F → Except Err (HContainer F)) :
    Except Err (DensityMatrix TK F) :=
  match updateEachM st._nspin (fun i tmp_DMR =>
      let is := i + 1
      let ik_begin := st._nks * (is - 1)
      body ik_begin tmp_DMR) st._DMR with
  | .error e => .error e
  | .ok dmr => .ok { st with _DMR := dmr }

/-- The element loops of `cal_DMR_test` for one k-point, lines 349-357; `ik` is the
position `ik_begin + ik` in the DM(k) store. -/
def cal_DMR_test_fill {TK F : Type} [Add F] [HMul (Cplx F) TK (Cplx F)]
    (paraV : Parallel_Orbitals) (iat1 iat2 : Nat) (row_ap col_ap : Int) (kphase : Cplx F)
    (_DMK : List (List TK)) (ik : Nat) (tmp_matrix : BaseMatrix F) : Except Err (BaseMatrix F) :=
  loopM (paraV.get_row_size iat1) (fun i tmp_matrix =>
    loopM (paraV.get_col_size iat2) (fun j tmp_matrix =>
      match _DMK[ik]? with
      | none => .error .Undefined
      | some DMK =>
        match readReal DMK ((col_ap + j) * paraV.nrow + row_ap + i) with
        | none => .error .Undefined
        | some d =>
          let tmp_res : Cplx F := kphase * d
          tmp_matrix.add_element i j tmp_res.re) tmp_matrix) tmp_matrix

/-- The loop over the k-points of `cal_DMR_test` for one block, lines 337-358. -/
def DensityMatrix.cal_DMR_test_block {TK F : Type} [Add F] [Mul F] [IntCast F]
    [HMul (Cplx F) TK (Cplx F)] (lm : Libm F) (st : DensityMatrix TK F) (ik_begin : Nat)
    (iat1 iat2 : Nat) (row_ap col_ap : Int) (r_index : Vector3 Int)
    (tmp_matrix : BaseMatrix F) : Except Err (BaseMatrix F) :=
  loopM st._nks (fun ik tmp_matrix =>
    match st._kv with
    | none => .error .Undefined
    | some kv =>
      match kv.kvec_d[ik]? with
      | none => .error .Undefined
      | some kvec =>
        cal_DMR_test_fill st._paraV iat1 iat2 row_ap col_ap (kphase lm kvec r_index)
          st._DMK (ik_begin + ik) tmp_matrix) tmp_matrix

/-- The scalar reference transform `DensityMatrix::cal_DMR_test`, lines 302-362. -/
def DensityMatrix.cal_DMR_test {TK F : Type} [Zero F] [Add F] [Mul F] [IntCast F]
    [HMul (Cplx F) TK (Cplx F)] (lm : Libm F) (st : DensityMatrix TK F) :
    Except Err (DensityMatrix TK F) :=
  st.for_each_spin (fun ik_begin tmp_DMR =>
    tmp_DMR.set_zero.for_each_atom_pair st._paraV (fun iat1 iat2 row_ap col_ap tmp_ap =>
      tmp_ap.for_each_R (fun r_index tmp_matrix =>
        st.cal_DMR_test_block lm ik_begin iat1 iat2 row_ap col_ap r_index tmp_matrix)))

/-- The two `axpy` sweeps over the rows of one block for one k-point, lines 413-439.
The loop carries `tmp_DMK_pointer` (a position in the complex buffer), `tmp_DMR_pointer`
(a position in the block) and the values of the block. -/
def cal_DMR_multi_k_sweep {F : Type} [Add F] [Mul F] [Neg F]
    (paraV : Parallel_Orbitals) (iat1 iat2 : Nat) (row_ap col_ap : Int) (ld_hk2 : Int)
    (kphase : Cplx F) (DMK : List (Cplx F)) (tmp_matrix : BaseMatrix F) :
    Except Err (BaseMatrix F) :=
  match loopM (paraV.get_row_size iat1) (fun _ (s : Int × Nat × List F) =>
      let tmp_DMK_pointer := s.1
      let tmp_DMR_pointer := s.2.1
      let DMK_real_pointer : Int → Option F := fun d => readInterleaved DMK (2 * tmp_DMK_pointer + d)
      let DMK_imag_pointer : Int → Option F := fun d => DMK_real_pointer (1 + d)
      match axpy (paraV.get_col_size iat2) kphase.re DMK_real_pointer ld_hk2 s.2.2
          tmp_DMR_pointer 1 with
      | .error e => .error e
      | .ok Y1 =>
        match axpy (paraV.get_col_size iat2) (-kphase.im) DMK_imag_pointer ld_hk2 Y1
            tmp_DMR_pointer 1 with
        | .error e => .error e
        | .ok Y2 => .ok (tmp_DMK_pointer + 1, tmp_DMR_pointer + paraV.get_col_size iat2, Y2))
      (0 + (col_ap * paraV.nrow + row_ap), 0, tmp_matrix.value_begin) with
  | .error e => .error e
  | .ok s => .ok { tmp_matrix with value_begin := s.2.2 }

/-- The loop over the k-points of the multi-k transform for one block, lines 403-440. -/
def DensityMatrix.cal_DMR_multi_k_block {F : Type} [Add F] [Mul F] [Neg F] [IntCast F]
    (lm : Libm F) (st : DensityMatrix (Cplx F) F) (ld_hk2 : Int) (ik_begin : Nat)
    (iat1 iat2 : Nat) (row_ap col_ap : Int) (r_index : Vector3 Int)
    (tmp_matrix : BaseMatrix F) : Except Err (BaseMatrix F) :=
  loopM st._nks (fun ik tmp_matrix =>
    match st._kv with
    | none => .error .Undefined
    | some kv =>
      match kv.kvec_d[ik]? with
      | none => .error .Undefined
      | some kvec =>
        match st._DMK[ik + ik_begin]? with
        | none => .error .Undefined
        | some DMK =>
          cal_DMR_multi_k_sweep st._paraV iat1 iat2 row_ap col_ap ld_hk2
            (kphase lm kvec r_index) DMK tmp_matrix) tmp_matrix

/-- The transform for multi-k, `DensityMatrix<std::complex<double>, double>::cal_DMR`,
lines 365-444. -/
def DensityMatrix.cal_DMR_multi_k {F : Type} [Zero F] [Add F] [Mul F] [Neg F] [IntCast F]
    (lm : Libm F) (st : DensityMatrix (Cplx F) F) : Except Err (DensityMatrix (Cplx F) F) :=
  let ld_hk : Int := st._paraV.nrow
  let ld_hk2 : Int := 2 * ld_hk
  st.for_each_spin (fun ik_begin tmp_DMR =>
    tmp_DMR.set_zero.for_each_atom_pair st._paraV (fun iat1 iat2 row_ap col_ap tmp_ap =>
      tmp_ap.for_each_R (fun r_index tmp_matrix =>
        st.cal_DMR_multi_k_block lm ld_hk2 ik_begin iat1 iat2 row_ap col_ap r_index
          tmp_matrix)))

/-- The `axpy` sweep over the rows of one block, lines 494-505 (`kphase = 1`). -/
def cal_DMR_gamma_sweep {F : Type} [One F] [Add F] [Mul F]
    (paraV : Parallel_Orbitals) (iat1 iat2 : Nat) (row_ap col_ap : Int) (ld_hk : Int)
    (DMK : List F) (tmp_matrix : BaseMatrix F) : Except Err (BaseMatrix F) :=
  let kphase : F := 1
  match loopM (paraV.get_row_size iat1) (fun _ (s : Int × Nat × List F) =>
      let tmp_DMK_pointer := s.1
      let tmp_DMR_pointer := s.2.1
      match axpy (paraV.get_col_size iat2) kphase (fun d => readReal DMK (tmp_DMK_pointer + d))
          ld_hk s.2.2 tmp_DMR_pointer 1 with
      | .error e => .error e
      | .ok Y1 => .ok (tmp_DMK_pointer + 1, tmp_DMR_pointer + paraV.get_col_size iat2, Y1))
      (0 + (col_ap * paraV.nrow + row_ap), 0, tmp_matrix.value_begin) with
  | .error e => .error e
  | .ok s => .ok { tmp_matrix with value_begin := s.2.2 }

/-- The work of the Gamma-only transform on one atom pair, lines 479-505. -/
def DensityMatrix.cal_DMR_gamma_pair {F : Type} [One F] [Add F] [Mul F]
    (st : DensityMatrix F F) (ld_hk : Int) (ik_begin : Nat) (iat1 iat2 : Nat)
    (row_ap col_ap : Int) (tmp_ap : AtomPair F) : Except Err (AtomPair F) :=
  match tmp_ap.get_R_index 0 with
  | none => .error .Undefined
  | some r_index =>
    match tmp_ap.find_matrix r_index with
    | none => .error .Undefined
    | some tmp_matrix =>
      match st._DMK[0 + ik_begin]? with
      | none => .error .Undefined
      | some DMK =>
        match cal_DMR_gamma_sweep st._paraV iat1 iat2 row_ap col_ap ld_hk DMK tmp_matrix with
        | .error e => .error e
        | .ok m => .ok (tmp_ap.store_matrix r_index m)

/-- The transform for Gamma-only, `DensityMatrix<double, double>::cal_DMR`, lines
448-508. -/
def DensityMatrix.cal_DMR_gamma {F : Type} [Zero F] [One F] [Add F] [Mul F]
    (st : DensityMatrix F F) : Except Err (DensityMatrix F F) :=
  let ld_hk : Int := st._paraV.nrow
  st.for_each_spin (fun ik_begin tmp_DMR =>
    tmp_DMR.fix_gamma.set_zero.for_each_atom_pair st._paraV
      (fun iat1 iat2 row_ap col_ap tmp_ap =>
        st.cal_DMR_gamma_pair ld_hk ik_begin iat1 iat2 row_ap col_ap tmp_ap))

/-! ## Reading the state, and the states without undefined behaviour -/

/-- The k-vector `_kv->kvec_d[ik]`. -/
def DensityMatrix.kvec_d {TK F : Type} (st : DensityMatrix TK F) (ik : Nat) :
    Option (Vector3 F) :=
  match st._kv with
  | none => none
  | some kv => kv.kvec_d[ik]?

/-- The element at offset `off` of the DM(k) buffer number `idx`. -/
def DensityMatrix.DMK_at {TK F : Type} (st : DensityMatrix TK F) (idx : Nat) (off : Int) :
    Option TK :=
  match st._DMK[idx]? with
  | none => none
  | some buf => readReal buf off

/-- The element at offset `p` of the DM(R) block of spin `s` (counted from 1), atom pair
number `iap` and translation `R`. -/
def DensityMatrix.DMR_at {TK F : Type} (st : DensityMatrix TK F) (s iap : Nat)
    (R : Vector3 Int) (p : Nat) : Option F :=
  match st._DMR[s - 1]? with
  | none => none
  | some c =>
    match c.get_atom_pair iap with
    | none => none
    | some ap =>
      match ap.find_matrix R with
      | none => none
      | some m => m.value_begin[p]?

/-- The atom pair is resident on this process: neither offset is `-1`. -/
@[reducible] def owned {F : Type} (paraV : Parallel_Orbitals) (ap : AtomPair F) : Prop :=
  paraV.atom_begin_row ap.atom_i ≠ -1 ∧ paraV.atom_begin_col ap.atom_j ≠ -1

/-- The rows and columns of the atom pair lie inside the local `nrow x ncol` matrix. -/
@[reducible] def InRange {F : Type} (paraV : Parallel_Orbitals) (ap : AtomPair F) : Prop :=
  0 ≤ paraV.atom_begin_row ap.atom_i ∧
  paraV.atom_begin_row ap.atom_i + paraV.get_row_size ap.atom_i ≤ paraV.nrow ∧
  0 ≤ paraV.atom_begin_col ap.atom_j ∧
  paraV.atom_begin_col ap.atom_j + paraV.get_col_size ap.atom_j ≤ paraV.ncol

/-- The block has the dimensions of its atom pair and storage for all its elements. -/
@[reducible] def BlockOK {F : Type} (paraV : Parallel_Orbitals) (iat1 iat2 : Nat)
    (m : BaseMatrix F) : Prop :=
  m.nrow_local = paraV.get_row_size iat1 ∧ m.ncol_local = paraV.get_col_size iat2 ∧
  m.value_begin.length = paraV.get_row_size iat1 * paraV.get_col_size iat2

/-- The atom pair is a mapping from translations to blocks: no translation is stored
twice, each has its block, and each block has the dimensions of the pair. -/
@[reducible] def PairOK {F : Type} (paraV : Parallel_Orbitals) (ap : AtomPair F) : Prop :=
  ap.R_index.Nodup ∧ ap.values.length = ap.R_index.length ∧
  ∀ m ∈ ap.values, BlockOK paraV ap.atom_i ap.atom_j m

/-- The DM(R) store has one container per spin, made of well-formed atom pairs, and the
resident pairs lie inside the local matrix. -/
@[reducible] def DensityMatrix.DMR_ok {TK F : Type} (st : DensityMatrix TK F) : Prop :=
  st._DMR.length = st._nspin ∧
  ∀ c ∈ st._DMR, ∀ ap ∈ c.atom_pairs,
    PairOK st._paraV ap ∧ (owned st._paraV ap → InRange st._paraV ap)

/-- The DM(k) store has a buffer for each spin and k-point, of `nrow * ncol` elements. -/
@[reducible] def DensityMatrix.DMK_ok {TK F : Type} (st : DensityMatrix TK F) : Prop :=
  st._nspin * st._nks ≤ st._DMK.length ∧
  ∀ buf ∈ st._DMK, buf.length = st._paraV.nrow * st._paraV.ncol

/-- The k-point set is there and has a k-vector for each of the `_nks` k-points. -/
@[reducible] def DensityMatrix.kv_ok {TK F : Type} (st : DensityMatrix TK F) : Prop :=
  match st._kv with
  | none => False
  | some kv => st._nks ≤ kv.kvec_d.length

/-- Whether the k-point set is there with enough k-vectors can be computed. -/
instance DensityMatrix.kv_ok_decidable {TK F : Type} (st : DensityMatrix TK F) :
    Decidable st.kv_ok :=
  match h : st._kv with
  | none => isFalse (by unfold DensityMatrix.kv_ok; rw [h]; exact id)
  | some kv => decidable_of_iff (st._nks ≤ kv.kvec_d.length)
      (by unfold DensityMatrix.kv_ok; rw [h])

/-- The states on which the multi-k transform and the reference transform have defined
behaviour. -/
@[reducible] def DensityMatrix.WellFormed_multi_k {TK F : Type} (st : DensityMatrix TK F) :
    Prop :=
  st.DMR_ok ∧ st.DMK_ok ∧ st.kv_ok

/-- The states on which the Gamma-only transform has defined behaviour: one k-point, and
each atom pair stores the single translation `(0, 0, 0)`. -/
@[reducible] def DensityMatrix.WellFormed_gamma {TK F : Type} (st : DensityMatrix TK F) :
    Prop :=
  st.DMR_ok ∧ st.DMK_ok ∧ st._nks = 1 ∧
  ∀ c ∈ st._DMR, ∀ ap ∈ c.atom_pairs, ap.R_index = [⟨0, 0, 0⟩]

/-- Every stored atom pair of the first `_nspin` containers is resident. -/
@[reducible] def DensityMatrix.all_owned {TK F : Type} (st : DensityMatrix TK F) : Prop :=
  ∀ c ∈ st._DMR, ∀ ap ∈ c.atom_pairs, owned st._paraV ap

/-- The body of the loop over the translations of an atom pair, as a function of the
number of the translation and of its block. -/
def AtomPair.body_at {F : Type} (ap : AtomPair F)
    (body : Vector3 Int → BaseMatrix F → Except Err (BaseMatrix F)) (ir : Nat)
    (m : BaseMatrix F) : Except Err (BaseMatrix F) :=
  match ap.R_index[ir]? with
  | none => .error .Undefined
  | some r => body r m

/-- The atom pair with other blocks. -/
def AtomPair.with_values {F : Type} (ap : AtomPair F) (vs : List (BaseMatrix F)) :
    AtomPair F :=
  { ap with values := vs }

/-- The body of the loop over the atom pairs, as a function of the atom pair: the
ownership test of lines 385-390, then `body`. -/
def pair_step {F : Type} (paraV : Parallel_Orbitals)
    (body : (iat1 iat2 : Nat) → (row_ap col_ap : Int) → AtomPair F → Except Err (AtomPair F))
    (tmp_ap : AtomPair F) : Except Err (AtomPair F) :=
  if paraV.atom_begin_row tmp_ap.atom_i = -1 ∨ paraV.atom_begin_col tmp_ap.atom_j = -1 then
    .error .OwnershipViolation
  else body tmp_ap.atom_i tmp_ap.atom_j (paraV.atom_begin_row tmp_ap.atom_i)
    (paraV.atom_begin_col tmp_ap.atom_j) tmp_ap

/-- The container with other atom pairs. -/
def HContainer.with_pairs {F : Type} (c : HContainer F) (aps : List (AtomPair F)) :
    HContainer F :=
  { c with atom_pairs := aps }

/-- The state with another DM(R) store. -/
def DensityMatrix.with_DMR {TK F : Type} (st : DensityMatrix TK F) (dmr : List (HContainer F)) :
    DensityMatrix TK F :=
  { st with _DMR := dmr }

/-- The container `c2` has the atom pairs and translations of `c`, block by block of the
same shape, and each of its blocks is in the relation `Q` to its atom pair and
translation. -/
def blocks_rel {F : Type} [Zero F] (Q : AtomPair F → Vector3 Int → BaseMatrix F → Prop)
    (c c2 : HContainer F) : Prop :=
  c2.atom_pairs.length = c.atom_pairs.length ∧
  ∀ (iap : Nat) (ap : AtomPair F), c.atom_pairs[iap]? = some ap →
    ∃ vs, c2.atom_pairs[iap]? = some (ap.set_zero.with_values vs) ∧
      vs.length = ap.values.length ∧
      ∀ (ir : Nat) (r : Vector3 Int) (m : BaseMatrix F),
        ap.R_index[ir]? = some r → ap.values[ir]? = some m →
        ∃ m2, vs[ir]? = some m2 ∧ m2.nrow_local = m.nrow_local ∧
          m2.ncol_local = m.ncol_local ∧
          m2.value_begin.length = m.value_begin.length ∧ Q ap r m2

/-- What the multi-k transform leaves in the block `m2` of atom pair `ap` and translation
`r` for the spin number `i` (counted from 0): at row `mu` and column `nu` the accumulation
over the k-points, started from zero, of `cos * Re D` and then `(-sin) * Im D`, where `D`
is the element of the DM(k) buffer `k + _nks * i` at offset
`(atom_begin_col + nu) * nrow + atom_begin_row + mu`. -/
def multi_k_block_spec {F : Type} [Zero F] [Add F] [Mul F] [Neg F] [IntCast F]
    (lm : Libm F) (st : DensityMatrix (Cplx F) F) (i : Nat) (ap : AtomPair F)
    (r : Vector3 Int) (m2 : BaseMatrix F) : Prop :=
  ∀ mu nu, mu < st._paraV.get_row_size ap.atom_i → nu < st._paraV.get_col_size ap.atom_j →
    ∀ (K : Nat → Vector3 F) (D : Nat → Cplx F),
      (∀ k, k < st._nks → st.kvec_d k = some (K k)) →
      (∀ k, k < st._nks → st.DMK_at (k + st._nks * i)
        ((st._paraV.atom_begin_col ap.atom_j + nu) * st._paraV.nrow
          + st._paraV.atom_begin_row ap.atom_i + mu) = some (D k)) →
      m2.value_begin[mu * st._paraV.get_col_size ap.atom_j + nu]? =
        some (loop st._nks (fun k y =>
          y + (kphase lm (K k) r).re * (D k).re + -(kphase lm (K k) r).im * (D k).im) 0)

/-- What the Gamma-only transform leaves in the block `m2` of atom pair `ap` for the spin
number `i` (counted from 0): at row `mu` and column `nu` the value `0 + 1 * d`, where `d`
is the element of the DM(k) buffer `0 + _nks * i` at offset
`(atom_begin_col + nu) * nrow + atom_begin_row + mu`. -/
def gamma_block_spec {F : Type} [Zero F] [One F] [Add F] [Mul F]
    (st : DensityMatrix F F) (i : Nat) (ap : AtomPair F) (_ : Vector3 Int)
    (m2 : BaseMatrix F) : Prop :=
  ∀ mu nu, mu < st._paraV.get_row_size ap.atom_i → nu < st._paraV.get_col_size ap.atom_j →
    ∀ d : F, st.DMK_at (0 + st._nks * i)
        ((st._paraV.atom_begin_col ap.atom_j + nu) * st._paraV.nrow
          + st._paraV.atom_begin_row ap.atom_i + mu) = some d →
      m2.value_begin[mu * st._paraV.get_col_size ap.atom_j + nu]? = some (0 + 1 * d)

/-- Two states that agree on the DM(k) store, the layout, the k-vectors, the spin and
k-point counts and the sparse structure of the DM(R) store (the two stores are equal once
their block values are zeroed), whatever the block values are. -/
def DensityMatrix.same_inputs {TK F : Type} [Zero F] (st1 st2 : DensityMatrix TK F) : Prop :=
  st1._kv = st2._kv ∧ st1._paraV = st2._paraV ∧ st1._nspin = st2._nspin ∧
  st1._nks = st2._nks ∧ st1._DMK = st2._DMK ∧
  st1._DMR.map HContainer.set_zero = st2._DMR.map HContainer.set_zero

/-! ## Element access to DM(k) -/

/-- The assignment `p[d] = value` for `p = buf.data()`; `none` outside the buffer. -/
def writeAt {α : Type} (buf : List α) (d : Int) (value : α) : Option (List α) :=
  if d < 0 then none
  else if d.toNat < buf.length then some (buf.set d.toNat value) else none

/-- The setter `DensityMatrix::set_DMK`, lines 251-260: the element at offset
`i * nrow + j` of the buffer `ik + _nks * (ispin - 1)`.  The `int` arguments are
mathematical integers. -/
def DensityMatrix.set_DMK {TK F : Type} (st : DensityMatrix TK F) (ispin ik i j : Int)
    (value : TK) : Except Err (DensityMatrix TK F) :=
  let idx : Int := ik + st._nks * (ispin - 1)
  if idx < 0 then .error .Undefined
  else
    match st._DMK[idx.toNat]? with
    | none => .error .Undefined
    | some buf =>
      match writeAt buf (i * st._paraV.nrow + j) value with
      | none => .error .Undefined
      | some buf2 => .ok { st with _DMK := st._DMK.set idx.toNat buf2 }

/-- The getter `DensityMatrix::get_DMK`, lines 263-271. -/
def DensityMatrix.get_DMK {TK F : Type} (st : DensityMatrix TK F) (ispin ik i j : Int) :
    Except Err TK :=
  let idx : Int := ik + st._nks * (ispin - 1)
  if idx < 0 then .error .Undefined
  else
    match st._DMK[idx.toNat]? with
    | none => .error .Undefined
    | some buf =>
      match readReal buf (i * st._paraV.nrow + j) with
      | none => .error .Undefined
      | some value => .ok value

/-- The state with another DM(k) store. -/
def DensityMatrix.with_DMK {TK F : Type} (st : DensityMatrix TK F) (dmk : List (List TK)) :
    DensityMatrix TK F :=
  { st with _DMK := dmk }

/-! ## Building the sparse structure: `init_DMR` -/

/-- Modelled from the spec: `AdjacentAtomInfo`, the neighbours of one atom as parallel
arrays of type, index in the type and translation, with the atom itself in the extra
slot `adj_num`; its header is not among the sources. -/
structure AdjacentAtomInfo where
  adj_num : Nat
  ntype : List Int
  natom : List Int
  box : List (Vector3 Int)

/-- Modelled from the spec: the part of `UnitCell` that `init_DMR` reads: the number of
atoms, the positions, and the two maps between the atom number `iat` and the pair
(index in the type `ia`, type `it`); its header is not among the sources. -/
structure UnitCell (F : Type) where
  nat : Nat
  get_tau : Nat → Vector3 F
  iat2iait : Nat → Int × Int
  itia2iat : Int → Int → Nat

/-- Modelled from the spec: `Grid_Driver`, the neighbour search; `Find_atom` returns
the neighbours of the atom at `tau` of type `T` and index `I`. -/
structure Grid_Driver (F : Type) where
  Find_atom : UnitCell F → Vector3 F → Int → Int → AdjacentAtomInfo

/-- Modelled from the spec: `Record_adj`, the recorded neighbours: `na_each[iat]` is the
number of neighbours of the atom `iat`, and `info[iat][ad]` holds the translation in
the places 0, 1, 2, the type in place 3 and the index in the type in place 4. -/
structure Record_adj where
  na_each : List Nat
  info : List (List (List Int))

/-- The entry `ra.info[iat1][ad][c]`. -/
def Record_adj.info_at (ra : Record_adj) (iat1 ad c : Nat) : Option Int :=
  match ra.info[iat1]? with
  | none => none
  | some row =>
    match row[ad]? with
    | none => none
    | some entry => entry[c]?

/-- Modelled from the spec: the constructor `AtomPair(iat1, iat2, rx, ry, rz, paraV)`:
the pair with the single translation `(rx, ry, rz)`, whose block has the dimensions
`get_row_size(iat1) x get_col_size(iat2)` and no storage yet. -/
def AtomPair.AtomPair_R {F : Type} (iat1 iat2 : Nat) (rx ry rz : Int)
    (paraV : Parallel_Orbitals) : AtomPair F :=
  { atom_i := iat1
    atom_j := iat2
    row_size := paraV.get_row_size iat1
    col_size := paraV.get_col_size iat2
    R_index := [⟨rx, ry, rz⟩]
    values := [⟨paraV.get_row_size iat1, paraV.get_col_size iat2, []⟩] }

/-- Modelled from the spec: `AtomPair::merge`: the translations of `other` that are not
stored yet are added, each with its block. -/
def AtomPair.merge {F : Type} (ap other : AtomPair F) : AtomPair F :=
  (other.R_index.zip other.values).foldl (fun ap rm =>
    if rm.1 ∈ ap.R_index then ap
    else { ap with R_index := ap.R_index ++ [rm.1], values := ap.values ++ [rm.2] }) ap

/-- Modelled from the spec: the constructor `HContainer(paraV)`: no atom pair, not
Gamma-fixed. -/
def HContainer.HContainer_paraV {F : Type} : HContainer F := ⟨false, []⟩

/-- Modelled from the spec: the copy constructor `HContainer(const HContainer&)`, a deep
copy. -/
def HContainer.HContainer_copy {F : Type} (c : HContainer F) : HContainer F := c

/-- Modelled from the spec: `HContainer::insert_pair`: the tuple is added to the atom
pair `(i, j)` when the container has it, and the atom pair is appended otherwise. -/
def HContainer.insert_pair {F : Type} (c : HContainer F) (atom_ij : AtomPair F) :
    HContainer F :=
  if c.atom_pairs.any
      (fun ap => decide (ap.atom_i = atom_ij.atom_i ∧ ap.atom_j = atom_ij.atom_j)) then
    { c with atom_pairs := c.atom_pairs.map (fun ap =>
        if ap.atom_i = atom_ij.atom_i ∧ ap.atom_j = atom_ij.atom_j then ap.merge atom_ij
        else ap) }
  else { c with atom_pairs := c.atom_pairs ++ [atom_ij] }

/-- Modelled from the spec: `BaseMatrix::allocate` with zero filling. -/
def BaseMatrix.allocate {F : Type} [Zero F] (m : BaseMatrix F) : BaseMatrix F :=
  { m with value_begin := List.replicate (m.nrow_local * m.ncol_local) 0 }

/-- Modelled from the spec: `AtomPair::allocate` with zero filling. -/
def AtomPair.allocate {F : Type} [Zero F] (ap : AtomPair F) : AtomPair F :=
  { ap with values := ap.values.map BaseMatrix.allocate }

/-- Modelled from the spec: `HContainer::allocate(true)`: the storage of every block is
allocated and filled with zeros. -/
def HContainer.allocate {F : Type} [Zero F] (c : HContainer F) : HContainer F :=
  { c with atom_pairs := c.atom_pairs.map AtomPair.allocate }

/-- The ownership filter and the insertion, lines 112-119 (158-163 are the same text):
`R_index` is read only when the pair passes the filter. -/
def init_DMR_insert {F : Type} (paraV : Parallel_Orbitals) (tmp_DMR : HContainer F)
    (iat1 iat2 : Nat) (R_index : Option (Vector3 Int)) : Except Err (HContainer F) :=
  if paraV.get_row_size iat1 ≤ 0 ∨ paraV.get_col_size iat2 ≤ 0 then .ok tmp_DMR
  else
    match R_index with
    | none => .error .Undefined
    | some R_index =>
      .ok (tmp_DMR.insert_pair
        (AtomPair.AtomPair_R iat1 iat2 R_index.x R_index.y R_index.z paraV))

/-- The body of the loop over the neighbour slots `ad`, lines 109-119. -/
def init_DMR_Grid_step {F : Type} (paraV : Parallel_Orbitals) (itia2iat : Int → Int → Nat)
    (adjs : AdjacentAtomInfo) (iat1 ad : Nat) (tmp_DMR : HContainer F) :
    Except Err (HContainer F) :=
  match adjs.ntype[ad]? with
  | none => .error .Undefined
  | some T2 =>
    match adjs.natom[ad]? with
    | none => .error .Undefined
    | some I2 => init_DMR_insert paraV tmp_DMR iat1 (itia2iat T2 I2) adjs.box[ad]?

/-- The translation `(info[iat1][ad][0], info[iat1][ad][1], info[iat1][ad][2])`. -/
def Record_adj.box_at (ra : Record_adj) (iat1 ad : Nat) : Option (Vector3 Int) :=
  match ra.info_at iat1 ad 0 with
  | none => none
  | some rx =>
    match ra.info_at iat1 ad 1 with
    | none => none
    | some ry =>
      match ra.info_at iat1 ad 2 with
      | none => none
      | some rz => some ⟨rx, ry, rz⟩

/-- The body of the loop over the recorded neighbours `ad`, lines 155-163. -/
def init_DMR_RA_step {F : Type} (paraV : Parallel_Orbitals) (itia2iat : Int → Int → Nat)
    (ra : Record_adj) (iat1 ad : Nat) (tmp_DMR : HContainer F) : Except Err (HContainer F) :=
  match ra.info_at iat1 ad 3 with
  | none => .error .Undefined
  | some T2 =>
    match ra.info_at iat1 ad 4 with
    | none => .error .Undefined
    | some I2 => init_DMR_insert paraV tmp_DMR iat1 (itia2iat T2 I2) (ra.box_at iat1 ad)

/-- The end of the two overloads that walk the neighbours, lines 122-131 and 166-175:
allocation with zero filling, and the copy for the second spin. -/
def DensityMatrix.init_DMR_finish {TK F : Type} [Zero F] (st : DensityMatrix TK F)
    (tmp_DMR : HContainer F) : DensityMatrix TK F :=
  let tmp_DMR := tmp_DMR.allocate
  let _DMR : List (HContainer F) := [] ++ [tmp_DMR]
  if st._nspin = 2 then { st with _DMR := _DMR ++ [HContainer.HContainer_copy tmp_DMR] }
  else { st with _DMR := _DMR }

/-- The body of the loop over the atoms `iat1`, lines 101-120: the neighbours of the
atom are asked for, then walked. -/
def init_DMR_Grid_atom {F : Type} (paraV : Parallel_Orbitals) (GridD_in : Grid_Driver F)
    (ucell : UnitCell F) (iat1 : Nat) (tmp_DMR : HContainer F) : Except Err (HContainer F) :=
  let tau1 := ucell.get_tau iat1
  let I1 := (ucell.iat2iait iat1).1
  let T1 := (ucell.iat2iait iat1).2
  let adjs := GridD_in.Find_atom ucell tau1 T1 I1
  loopM (adjs.adj_num + 1) (fun ad tmp_DMR =>
    init_DMR_Grid_step paraV ucell.itia2iat adjs iat1 ad tmp_DMR) tmp_DMR

/-- The overload `init_DMR(Grid_Driver*, const UnitCell*)`, lines 86-132. -/
def DensityMatrix.init_DMR_Grid {TK F : Type} [Zero F] (st : DensityMatrix TK F)
    (GridD_in : Grid_Driver F) (ucell : UnitCell F) : Except Err (DensityMatrix TK F) :=
  match loopM ucell.nat (fun iat1 tmp_DMR =>
      init_DMR_Grid_atom st._paraV GridD_in ucell iat1 tmp_DMR)
      HContainer.HContainer_paraV with
  | .error e => .error e
  | .ok tmp_DMR => .ok (st.init_DMR_finish tmp_DMR)

/-- The body of the loop over the atoms `iat1`, lines 150-164: the recorded neighbours
of the atom are walked. -/
def init_DMR_RA_atom {F : Type} (paraV : Parallel_Orbitals) (ra : Record_adj)
    (ucell : UnitCell F) (iat1 : Nat) (tmp_DMR : HContainer F) : Except Err (HContainer F) :=
  match ra.na_each[iat1]? with
  | none => .error .Undefined
  | some na =>
    loopM na (fun ad tmp_DMR =>
      init_DMR_RA_step paraV ucell.itia2iat ra iat1 ad tmp_DMR) tmp_DMR

/-- The overload `init_DMR(Record_adj&, const UnitCell*)`, lines 135-176. -/
def DensityMatrix.init_DMR_RA {TK F : Type} [Zero F] (st : DensityMatrix TK F)
    (ra : Record_adj) (ucell : UnitCell F) : Except Err (DensityMatrix TK F) :=
  match loopM ucell.nat (fun iat1 tmp_DMR =>
      init_DMR_RA_atom st._paraV ra ucell iat1 tmp_DMR)
      HContainer.HContainer_paraV with
  | .error e => .error e
  | .ok tmp_DMR => .ok (st.init_DMR_finish tmp_DMR)

/-- The overload `init_DMR(const hamilt::HContainer<TR>&)`, lines 179-197. -/
def DensityMatrix.init_DMR_template {TK F : Type} [Zero F] (st : DensityMatrix TK F)
    (DMR_in : HContainer F) : DensityMatrix TK F :=
  { st with _DMR := loop st._nspin (fun _ _DMR =>
      _DMR ++ [(HContainer.HContainer_copy DMR_in).set_zero]) [] }

/-- Modelled from the spec: what the copy constructor `HContainer(const HContainer&)`
leaves of its argument.  The copy is deep: it has storage of its own, and the argument,
a reference to const, is as it was. -/
def HContainer.HContainer_copy_arg {F : Type} (c : HContainer F) : HContainer F := c

/-- The overload `init_DMR(const hamilt::HContainer<TR>&)`, lines 179-197, with the
object behind the reference `DMR_in` carried along: each pass copies it (line 192) and
zeroes the copy (line 194).  The result is the state and the template as the call leaves
it. -/
def DensityMatrix.init_DMR_template_objects {TK F : Type} [Zero F] (st : DensityMatrix TK F)
    (DMR_in : HContainer F) : DensityMatrix TK F × HContainer F :=
  let s := loop st._nspin (fun _ (s : List (HContainer F) × HContainer F) =>
    let tmp_DMR := HContainer.HContainer_copy s.2
    let DMR_in := HContainer.HContainer_copy_arg s.2
    let tmp_DMR := tmp_DMR.set_zero
    (s.1 ++ [tmp_DMR], DMR_in)) ([], DMR_in)
  (st.with_DMR s.1, s.2)

/-! ## Spin merge: `sum_DMR_spin` -/

/-- The number of elements of a block of the pair, `AtomPair::get_size`. -/
def AtomPair.get_size {F : Type} (ap : AtomPair F) : Nat := ap.row_size * ap.col_size

/-- The element loop of lines 533-536: `ptr_up[i] += ptr_down[i]` for `i < n`. -/
def sum_DMR_spin_add {F : Type} [Add F] (n : Nat) (ptr_up ptr_down : List F) :
    Except Err (List F) :=
  loopM n (fun i ptr_up =>
    match ptr_up[i]? with
    | none => .error .Undefined
    | some u =>
      match ptr_down[i]? with
      | none => .error .Undefined
      | some d => .ok (ptr_up.set i (u + d))) ptr_up

/-- The work of `sum_DMR_spin` on the block of one translation, lines 530-536; a
translation that the pair of the second spin does not store gives a null pointer. -/
def sum_DMR_spin_block {F : Type} [Add F] (n : Nat) (tmp_ap_down : AtomPair F)
    (r_index : Vector3 Int) (tmp_matrix_up : BaseMatrix F) : Except Err (BaseMatrix F) :=
  match tmp_ap_down.find_matrix r_index with
  | none => .error .Undefined
  | some tmp_matrix_down =>
    match sum_DMR_spin_add n tmp_matrix_up.value_begin tmp_matrix_down.value_begin with
    | .error e => .error e
    | .ok ptr_up => .ok { tmp_matrix_up with value_begin := ptr_up }

/-- The work of `sum_DMR_spin` on the atom pair number `i`, lines 524-537. -/
def sum_DMR_spin_pair {F : Type} [Add F] (tmp_DMR_down : HContainer F) (i : Nat)
    (tmp_ap_up : AtomPair F) : Except Err (AtomPair F) :=
  match tmp_DMR_down.get_atom_pair i with
  | none => .error .Undefined
  | some tmp_ap_down =>
    tmp_ap_up.for_each_R (sum_DMR_spin_block tmp_ap_up.get_size tmp_ap_down)

/-- The spin merge `DensityMatrix::sum_DMR_spin`, lines 511-540. -/
def DensityMatrix.sum_DMR_spin {TK F : Type} [Add F] (st : DensityMatrix TK F) :
    Except Err (DensityMatrix TK F) :=
  if st._nspin = 1 then .ok st
  else if st._nspin = 2 then
    match st._DMR[0]? with
    | none => .error .Undefined
    | some tmp_DMR_up =>
      match st._DMR[1]? with
      | none => .error .Undefined
      | some tmp_DMR_down =>
        match updateEachM tmp_DMR_up.size_atom_pairs (sum_DMR_spin_pair tmp_DMR_down)
            tmp_DMR_up.atom_pairs with
        | .error e => .error e
        | .ok aps => .ok (st.with_DMR (st._DMR.set 0 (tmp_DMR_up.with_pairs aps)))
  else .ok st

/-! ## Predicates for the statements about `init_DMR` and `sum_DMR_spin` -/

/-- The container stores the tuple `(i, j, R)`. -/
def HContainer.has_entry {F : Type} (c : HContainer F) (i j : Nat) (R : Vector3 Int) : Prop :=
  ∃ ap ∈ c.atom_pairs, ap.atom_i = i ∧ ap.atom_j = j ∧ R ∈ ap.R_index

/-- Whether the container stores a tuple can be computed. -/
instance HContainer.has_entry_decidable {F : Type} (c : HContainer F) (i j : Nat)
    (R : Vector3 Int) : Decidable (c.has_entry i j R) := by
  unfold HContainer.has_entry
  infer_instance

/-- The tuples of an atom pair, each with the dimensions of its block. -/
def AtomPair.entries {F : Type} (ap : AtomPair F) : List (Nat × Nat × Vector3 Int × Nat × Nat) :=
  (ap.R_index.zip ap.values).map
    (fun rm => (ap.atom_i, ap.atom_j, rm.1, rm.2.nrow_local, rm.2.ncol_local))

/-- The tuples `(atom i, atom j, R)` of a container, atom pair by atom pair, each with
the dimensions of its block. -/
def HContainer.entries {F : Type} (c : HContainer F) :
    List (List (Nat × Nat × Vector3 Int × Nat × Nat)) :=
  c.atom_pairs.map AtomPair.entries

/-- The neighbours of the atom `iat1`, as `init_DMR` asks for them in lines 101-105. -/
def Grid_Driver.adjs {F : Type} (GridD_in : Grid_Driver F) (ucell : UnitCell F) (iat1 : Nat) :
    AdjacentAtomInfo :=
  GridD_in.Find_atom ucell (ucell.get_tau iat1) (ucell.iat2iait iat1).2 (ucell.iat2iait iat1).1

/-- One of the first `n` slots of the neighbours holds the atom `iat2` and the
translation `R`. -/
def AdjacentAtomInfo.holds (adjs : AdjacentAtomInfo) (itia2iat : Int → Int → Nat) (n : Nat)
    (iat2 : Nat) (R : Vector3 Int) : Prop :=
  ∃ ad T2 I2, ad < n ∧ adjs.ntype[ad]? = some T2 ∧ adjs.natom[ad]? = some I2 ∧
    adjs.box[ad]? = some R ∧ iat2 = itia2iat T2 I2

/-- The neighbour search offers the candidate `(iat1, iat2, R)`: `iat1` is an atom of
the cell and some slot `ad` in `0..adj_num` of its neighbours holds the atom `iat2` and
the translation `R`. -/
def Grid_Driver.offers {F : Type} (GridD_in : Grid_Driver F) (ucell : UnitCell F)
    (iat1 iat2 : Nat) (R : Vector3 Int) : Prop :=
  iat1 < ucell.nat ∧
    (GridD_in.adjs ucell iat1).holds ucell.itia2iat ((GridD_in.adjs ucell iat1).adj_num + 1)
      iat2 R

/-- The arrays of the neighbour search hold the `adj_num + 1` slots of every atom of
the cell. -/
def Grid_Driver.arrays_ok {F : Type} (GridD_in : Grid_Driver F) (ucell : UnitCell F) : Prop :=
  ∀ iat1, iat1 < ucell.nat →
    (GridD_in.adjs ucell iat1).adj_num < (GridD_in.adjs ucell iat1).ntype.length ∧
    (GridD_in.adjs ucell iat1).adj_num < (GridD_in.adjs ucell iat1).natom.length ∧
    (GridD_in.adjs ucell iat1).adj_num < (GridD_in.adjs ucell iat1).box.length

/-- Every atom pair of the container passes the ownership filter. -/
def HContainer.filtered {F : Type} (paraV : Parallel_Orbitals) (c : HContainer F) : Prop :=
  ∀ ap ∈ c.atom_pairs, 0 < paraV.get_row_size ap.atom_i ∧ 0 < paraV.get_col_size ap.atom_j

/-- The record holds, for every atom `iat1` of the cell, the number of its neighbours
and the five entries of each of them. -/
def Record_adj.arrays_ok (ra : Record_adj) (nat : Nat) : Prop :=
  ∀ iat1, iat1 < nat → ∃ na, ra.na_each[iat1]? = some na ∧
    ∀ ad, ad < na → ∀ c, c < 5 → ∃ v, ra.info_at iat1 ad c = some v

/-- The atom pair is a mapping from translations to blocks with storage for
`get_size` elements each. -/
@[reducible] def AtomPair.sized {F : Type} (ap : AtomPair F) : Prop :=
  ap.R_index.Nodup ∧ ap.values.length = ap.R_index.length ∧
  ∀ m ∈ ap.values, m.value_begin.length = ap.get_size

/-- The states on which the spin merge with two spins has defined behaviour: two
containers with the same atom pairs and translations, and storage for every block. -/
@[reducible] def DensityMatrix.WellFormed_sum {TK F : Type} [Zero F]
    (st : DensityMatrix TK F) : Prop :=
  st._nspin = 2 ∧ st._DMR.length = 2 ∧
  (∀ c ∈ st._DMR, ∀ ap ∈ c.atom_pairs, ap.sized) ∧
  ∀ c1 ∈ st._DMR, ∀ c2 ∈ st._DMR,
    c1.atom_pairs.map AtomPair.set_zero = c2.atom_pairs.map AtomPair.set_zero

/-! ## Bulk access and persistence of DM(k) -/

/-- The bulk setter `DensityMatrix::set_DMK_pointer`, lines 241-248: the buffer `ik`
is assigned the `nrow * ncol` elements behind the pointer; `DMK_in` is the array that
the pointer points into. -/
def DensityMatrix.set_DMK_pointer {TK F : Type} (st : DensityMatrix TK F) (ik : Int)
    (DMK_in : List TK) : Except Err (DensityMatrix TK F) :=
  if ik < 0 then .error .Undefined
  else
    match st._DMK[ik.toNat]? with
    | none => .error .Undefined
    | some _ =>
      if DMK_in.length < st._paraV.nrow * st._paraV.ncol then .error .Undefined
      else .ok (st.with_DMK
        (st._DMK.set ik.toNat (DMK_in.take (st._paraV.nrow * st._paraV.ncol))))

/-- Modelled from the spec: the input side of the persistence, as black boxes over a
type `S` of stream states: `std::ifstream::open` on a file name, `operator!`,
`operator>>` into an element (it returns the stream and the element), and the checks
`ModuleBase::CHECK_DOUBLE` and `ModuleBase::CHECK_INT`, which read a value, compare it,
and may end the program.  Neither `<fstream>` nor `module_base` is among the sources.
The stream is local to `read_DMK`: closing it at the end leaves nothing to look at. -/
structure InStream (S TK F : Type) where
  ifs_open : String → S
  fail : S → Bool
  extract : S → TK → S × TK
  CHECK_DOUBLE : S → F → Bool → Except Err S
  CHECK_INT : S → Int → Except Err S

/-- The name of the snapshot file, lines 551, 595 and 629. -/
def dmk_file_name (directory : String) (ispin ik : Int) : String :=
  directory ++ "SPIN" ++ toString ispin ++ "_" ++ toString ik ++ ".dmk"

/-- The k-vector `_kv->kvec_d[ik]` for an `int` index. -/
def DensityMatrix.kvec_d_int {TK F : Type} (st : DensityMatrix TK F) (ik : Int) :
    Option (Vector3 F) :=
  if ik < 0 then none else st.kvec_d ik.toNat

/-- The first part of `read_DMK`, lines 553-573: when the file could be opened, the
k-vector and the dimensions are checked against the file. -/
def DensityMatrix.read_DMK_header {S TK F : Type} (io : InStream S TK F)
    (st : DensityMatrix TK F) (ik : Int) (ifs : S) : Except Err S :=
  if io.fail ifs then .ok ifs
  else
    let quit := false
    match st.kvec_d_int ik with
    | none => .error .Undefined
    | some kvec =>
      match io.CHECK_DOUBLE ifs kvec.x quit with
      | .error e => .error e
      | .ok ifs =>
        match io.CHECK_DOUBLE ifs kvec.y quit with
        | .error e => .error e
        | .ok ifs =>
          match io.CHECK_DOUBLE ifs kvec.z quit with
          | .error e => .error e
          | .ok ifs =>
            match io.CHECK_INT ifs st._paraV.nrow with
            | .error e => .error e
            | .ok ifs => io.CHECK_INT ifs st._paraV.ncol

/-- The body of the loops of `read_DMK`, line 580:
`ifs >> _DMK[ik + _nks * (ispin - 1)][i * ncol + j]`, on the stream and the DM(k)
store. -/
def DensityMatrix.read_DMK_element {S TK F : Type} (io : InStream S TK F)
    (st : DensityMatrix TK F) (ispin ik : Int) (i j : Nat) (s : S × List (List TK)) :
    Except Err (S × List (List TK)) :=
  let idx : Int := ik + st._nks * (ispin - 1)
  if idx < 0 then .error .Undefined
  else
    match s.2[idx.toNat]? with
    | none => .error .Undefined
    | some buf =>
      match buf[i * st._paraV.ncol + j]? with
      | none => .error .Undefined
      | some x =>
        let r := io.extract s.1 x
        .ok (r.1, s.2.set idx.toNat (buf.set (i * st._paraV.ncol + j) r.2))

/-- The loader `DensityMatrix::read_DMK`, lines 543-584. -/
def DensityMatrix.read_DMK {S TK F : Type} (io : InStream S TK F) (st : DensityMatrix TK F)
    (directory : String) (ispin ik : Int) : Except Err (DensityMatrix TK F) :=
  let fn := dmk_file_name directory ispin ik
  let ifs := io.ifs_open fn
  match st.read_DMK_header io ik ifs with
  | .error e => .error e
  | .ok ifs =>
    match loopM st._paraV.nrow (fun i s =>
        loopM st._paraV.ncol (fun j s => st.read_DMK_element io ispin ik i j s) s)
        (ifs, st._DMK) with
    | .error e => .error e
    | .ok s => .ok (st.with_DMK s.2)

/-- What is inserted into the output stream with `<<`: a string, a `double`, an `int`,
`std::endl`, `std::setprecision(n)` or `std::scientific`. -/
inductive OutItem (F : Type) where
  | str (s : String)
  | dbl (x : F)
  | int (n : Int)
  | endl
  | setprecision (n : Nat)
  | scientific
  deriving DecidableEq

/-- The body of the loops of `write_DMK`, lines 612-614 and 646-648; `re` is the
identity for `double` and `.real()` for `std::complex<double>`. -/
def DensityMatrix.write_DMK_element {TK F : Type} (re : TK → F) (st : DensityMatrix TK F)
    (ispin ik : Int) (i j : Nat) (ofs : List (OutItem F)) : Except Err (List (OutItem F)) :=
  let ofs := if j % 8 = 0 then ofs ++ [.str "\n"] else ofs
  let idx : Int := ik + st._nks * (ispin - 1)
  if idx < 0 then .error .Undefined
  else
    match st._DMK[idx.toNat]? with
    | none => .error .Undefined
    | some buf =>
      match buf[i * st._paraV.ncol + j]? with
      | none => .error .Undefined
      | some x => .ok (ofs ++ [.str " ", .dbl (re x)])

/-- The text of the two specializations of `write_DMK`, lines 587-619 and 621-653,
which differ in `re` only: the name of the file and what is inserted into the stream,
in order.  The file receives it when it could be created (otherwise a warning is
logged and the insertions have no effect). -/
def DensityMatrix.write_DMK_with {TK F : Type} (re : TK → F) (st : DensityMatrix TK F)
    (directory : String) (ispin ik : Int) : Except Err (String × List (OutItem F)) :=
  let fn := dmk_file_name directory ispin ik
  match st.kvec_d_int ik with
  | none => .error .Undefined
  | some kvec =>
    let ofs : List (OutItem F) := [.dbl kvec.x, .str " ", .dbl kvec.y, .str " ", .dbl kvec.z, .endl]
    let ofs := ofs ++ [.str "\n  ", .int st._paraV.nrow, .str " ", .int st._paraV.ncol, .endl]
    let ofs := ofs ++ [.setprecision 3]
    let ofs := ofs ++ [.scientific]
    match loopM st._paraV.nrow (fun i ofs =>
        loopM st._paraV.ncol (fun j ofs => st.write_DMK_element re ispin ik i j ofs) ofs)
        ofs with
    | .error e => .error e
    | .ok ofs => .ok (fn, ofs)

/-- The specialization `DensityMatrix<double, double>::write_DMK`, lines 587-619. -/
def DensityMatrix.write_DMK_gamma {F : Type} (st : DensityMatrix F F) (directory : String)
    (ispin ik : Int) : Except Err (String × List (OutItem F)) :=
  st.write_DMK_with (fun x => x) directory ispin ik

/-- The specialization `DensityMatrix<std::complex<double>, double>::write_DMK`, lines
621-653. -/
def DensityMatrix.write_DMK_multi_k {F : Type} (st : DensityMatrix (Cplx F) F)
    (directory : String) (ispin ik : Int) : Except Err (String × List (OutItem F)) :=
  st.write_DMK_with Cplx.re directory ispin ik

/-- The value tokens `vals`, each after a blank, numbered from `p`, with a line break
before the tokens whose number satisfies `brk`. -/
def value_layout {F : Type} (brk : Nat → Bool) : Nat → List F → List (OutItem F)
  | _, [] => []
  | p, v :: vs =>
    (if brk p then [OutItem.str "\n"] else []) ++ [.str " ", .dbl v] ++
      value_layout brk (p + 1) vs

/-- The `double` values among what was inserted into the stream. -/
def OutItem.values {F : Type} : List (OutItem F) → List F
  | [] => []
  | .dbl x :: rest => x :: OutItem.values rest
  | _ :: rest => OutItem.values rest

/-! ## DFT+U: `hamilt::DFTUNew` (`dftu_new.cpp`, `dftu_force_stress.hpp`) -/

/-- The value of `int(sqrt(n))` for the size `n` of a vector: the largest `r` with
`r * r ≤ n`. -/
def int_sqrt (n : Nat) : Nat :=
  loop n (fun k r => if (k + 1) * (k + 1) ≤ n then k + 1 else r) 0

/-- The dimension `m_size = int(sqrt(v.size()))` that `cal_HR_IJR`, `cal_occupations` and
`cal_v_of_u` derive from the length of a vector, lines 300, 357 and 397. -/
def DFTUNew.m_size_of {F : Type} (v : List F) : Nat := int_sqrt v.length

/-- The loop `for (int i = 0; i < n; i += npol)` with the number of polarizations
`npol` (1 or 2, from `ucell->get_npol()`); `body` gets the value of `i`. -/
def loopStrideM {σ : Type} (n npol : Nat) (body : Nat → σ → Except Err σ) (s : σ) :
    Except Err σ :=
  loopM ((n + npol - 1) / npol) (fun t s => body (t * npol) s) s

/-- The vector `step_trace`, lines 218-219 (305-306 and 362-363 are the same text). -/
def step_trace (npol : Nat) (col_indexes : List Int) : List Nat :=
  if npol = 2 then (List.replicate npol 0).set 1 (col_indexes.length + 1)
  else List.replicate npol 0

/-- The statement `p[d] += v` on an array. -/
def add_at {F : Type} [Add F] (p : List F) (d : Nat) (v : F) : Except Err (List F) :=
  match p[d]? with
  | none => .error .Undefined
  | some y => .ok (p.set d (y + v))

/-- The lookup `nlm_all.find(indexes[iwl])->second` in the map from orbital indices to
vectors; the map is given by its lookup function. -/
def nlm_find {F : Type} (indexes : List Int) (nlm_all : Int → Option (List F)) (iwl : Nat) :
    Option (List F) :=
  match indexes[iwl]? with
  | none => none
  | some iw => nlm_all iw

/-- The three statements of lines 239-241: the contribution of `(m1, m2)` to the three
components of the force. -/
def cal_force_IJR_add {F : Type} [Add F] [Mul F] (vu_in nlm1 nlm2 dm : List F)
    (m_size m_size2 : Nat) (step_trace : List Nat) (dm_pointer is m1 m2 : Nat)
    (force : List F) : Except Err (List F) :=
  match vu_in[m1 * m_size + m2 + is * m_size2]?, nlm2[m2]?, step_trace[is]? with
  | some vu, some n2, some st =>
    match dm[dm_pointer + st]?, nlm1[m1 + m_size]?, nlm1[m1 + m_size * 2]?,
        nlm1[m1 + m_size * 3]? with
    | some d, some n1x, some n1y, some n1z =>
      match add_at force 0 (vu * n1x * n2 * d) with
      | .error e => .error e
      | .ok force =>
        match add_at force 1 (vu * n1y * n2 * d) with
        | .error e => .error e
        | .ok force => add_at force 2 (vu * n1z * n2 * d)
    | _, _, _, _ => .error .Undefined
  | _, _, _ => .error .Undefined

/-- The force of one atom pair, `DFTUNew::cal_force_IJR`, lines 190-250.  The index
vectors `paraV->get_indexes_row(iat1)` and `paraV->get_indexes_col(iat2)` and the number
of polarizations are parameters; `dmR_pointer[is]` is the data of the block of the spin
`is`, and `force` the array behind the pointer.  The counter of the loop of line 233 has
the name of the counter of the loop over the spins of line 221, and hides it. -/
def DFTUNew.cal_force_IJR {F : Type} [Add F] [Mul F] (npol : Nat)
    (row_indexes col_indexes : List Int) (nlm1_all nlm2_all : Int → Option (List F))
    (vu_in : List F) (dmR_pointer : List (List F)) (nspin : Nat) (force : List F) :
    Except Err (List F) :=
  if nspin = 0 then .error .Undefined
  else
    let m_size := int_sqrt (vu_in.length / nspin)
    let m_size2 := m_size * m_size
    let step_trace := step_trace npol col_indexes
    loopM nspin (fun is force =>
      match dmR_pointer[is]? with
      | none => .error .Undefined
      | some dm =>
        match loopStrideM row_indexes.length npol (fun iw1l s =>
            match nlm_find row_indexes nlm1_all iw1l with
            | none => .error .Undefined
            | some nlm1 =>
              match loopStrideM col_indexes.length npol (fun iw2l s =>
                  match nlm_find col_indexes nlm2_all iw2l with
                  | none => .error .Undefined
                  | some nlm2 =>
                    match loopM npol (fun is force =>
                        loopM m_size (fun m1 force =>
                          loopM m_size (fun m2 force =>
                            cal_force_IJR_add vu_in nlm1 nlm2 dm m_size m_size2 step_trace
                              s.1 is m1 m2 force) force) force) s.2 with
                    | .error e => .error e
                    | .ok force => .ok (s.1 + npol, force)) s with
              | .error e => .error e
              | .ok s => .ok (s.1 + (npol - 1) * col_indexes.length, s.2))
            (0, force) with
        | .error e => .error e
        | .ok s => .ok s.2) force

/-- The sum that the force of one spin is said to be: for the spin `s` and the
direction `d`, over the row orbitals `iw1`, the column orbitals `iw2` and `m1, m2 < m`,
of `vu_in[m1*m + m2 + s*m*m] * nlm1(iw1)[m1 + (d+1)*m] * nlm2(iw2)[m2] *
DM_s[iw1*ncols + iw2]`; a term that reads outside an array counts as zero. -/
def force_per_spin_said {F : Type} [Zero F] [Add F] [Mul F] (row_indexes col_indexes : List Int)
    (nlm1_all nlm2_all : Int → Option (List F)) (vu_in : List F) (DM : List (List F))
    (m s d : Nat) : F :=
  loop row_indexes.length (fun iw1 acc =>
    loop col_indexes.length (fun iw2 acc =>
      loop m (fun m1 acc =>
        loop m (fun m2 acc =>
          match vu_in[m1 * m + m2 + s * m * m]?, nlm_find row_indexes nlm1_all iw1,
              nlm_find col_indexes nlm2_all iw2, DM[s]? with
          | some vu, some nlm1, some nlm2, some dm =>
            match nlm1[m1 + (d + 1) * m]?, nlm2[m2]?, dm[iw1 * col_indexes.length + iw2]? with
            | some n1, some n2, some x => acc + vu * n1 * n2 * x
            | _, _, _ => acc
          | _, _, _, _ => acc) acc) acc) acc) 0

/-- The occupation matrix of one atom pair, `DFTUNew::cal_occupations`, lines 336-389:
`occ` is resized to `m_size * m_size` zeros and the contributions of the pair are
added. -/
def DFTUNew.cal_occupations {F : Type} [Zero F] [Add F] [Mul F] (npol : Nat)
    (row_indexes col_indexes : List Int) (nlm1_all nlm2_all : Int → Option (List F))
    (dm : List F) (occ : List F) : Except Err (List F) :=
  let m_size := DFTUNew.m_size_of occ
  let step_trace := step_trace npol col_indexes
  let occ : List F := List.replicate (m_size * m_size) 0
  match loopStrideM row_indexes.length npol (fun iw1l s =>
      match nlm_find row_indexes nlm1_all iw1l with
      | none => .error .Undefined
      | some nlm1 =>
        match loopStrideM col_indexes.length npol (fun iw2l s =>
            match nlm_find col_indexes nlm2_all iw2l with
            | none => .error .Undefined
            | some nlm2 =>
              match loopM npol (fun is occ =>
                  loopM m_size (fun m1 occ =>
                    loopM m_size (fun m2 occ =>
                      match nlm1[m1]?, nlm2[m2]?, step_trace[is]? with
                      | some n1, some n2, some st =>
                        match dm[s.1 + st]? with
                        | none => .error .Undefined
                        | some d => add_at occ (m1 * m_size + m2) (n1 * n2 * d)
                      | _, _, _ => .error .Undefined) occ) occ) s.2 with
              | .error e => .error e
              | .ok occ => .ok (s.1 + npol, occ)) s with
        | .error e => .error e
        | .ok s => .ok (s.1 + (npol - 1) * col_indexes.length, s.2))
      (0, occ) with
  | .error e => .error e
  | .ok s => .ok s.2

/-- The potential `DFTUNew::cal_v_of_u(occ, u_value, VU)`, lines 391-410; `half` is the
literal `0.5`, and `(m1 == m2)` is 1 or 0. -/
def DFTUNew.cal_v_of_u {F : Type} [Zero F] [One F] [Sub F] [Mul F] (half : F) (occ : List F)
    (u_value : F) (VU : List F) : Except Err (List F) :=
  let m_size := DFTUNew.m_size_of occ
  loopM m_size (fun m1 VU =>
    loopM m_size (fun m2 VU =>
      match occ[m1 * m_size + m2]? with
      | none => .error .Undefined
      | some o =>
        if m1 * m_size + m2 < VU.length then
          .ok (VU.set (m1 * m_size + m2)
            (u_value * (half * (if m1 = m2 then 1 else 0) - o)))
        else .error .Undefined) VU) VU

/-- The contribution to H(R) of one atom pair, `DFTUNew::cal_HR_IJR`, lines 279-334;
`data_pointer` is the data of the block. -/
def DFTUNew.cal_HR_IJR {F : Type} [Zero F] [Add F] [Mul F] (npol : Nat)
    (row_indexes col_indexes : List Int) (nlm1_all nlm2_all : Int → Option (List F))
    (VU : List F) (data : List F) : Except Err (List F) :=
  let m_size := DFTUNew.m_size_of VU
  let step_trace := step_trace npol col_indexes
  match loopStrideM row_indexes.length npol (fun iw1l s =>
      match nlm_find row_indexes nlm1_all iw1l with
      | none => .error .Undefined
      | some nlm1 =>
        match loopStrideM col_indexes.length npol (fun iw2l s =>
            match nlm_find col_indexes nlm2_all iw2l with
            | none => .error .Undefined
            | some nlm2 =>
              match loopM npol (fun is data =>
                  match loopM m_size (fun m1 nlm_tmp =>
                      loopM m_size (fun m2 nlm_tmp =>
                        match nlm1[m1]?, nlm2[m2]?, VU[m1 * m_size + m2]? with
                        | some n1, some n2, some vu => .ok (nlm_tmp + n1 * n2 * vu)
                        | _, _, _ => .error .Undefined) nlm_tmp) (0 : F) with
                  | .error e => .error e
                  | .ok nlm_tmp =>
                    match step_trace[is]? with
                    | none => .error .Undefined
                    | some st => add_at data (s.1 + st) nlm_tmp) s.2 with
              | .error e => .error e
              | .ok data => .ok (s.1 + npol, data)) s with
        | .error e => .error e
        | .ok s => .ok (s.1 + (npol - 1) * col_indexes.length, s.2))
      (0, data) with
  | .error e => .error e
  | .ok s => .ok s.2

/-- The vector `occ` as `calculate_HR` creates it, line 216. -/
def DFTUNew.calculate_HR_occ {F : Type} [Zero F] (target_L : Nat) : List F :=
  List.replicate (target_L * 2 + 1) 0

/-- The vector `VU` as `calculate_HR` creates it, line 244. -/
def DFTUNew.calculate_HR_VU {F : Type} [Zero F] (target_L : Nat) : List F :=
  List.replicate (target_L * 2 + 1 * target_L * 2 + 1) 0

/-- The length of a vector `nlm_target` of `calculate_HR`, line 193. -/
def DFTUNew.calculate_HR_nlm_target_size (target_L : Nat) : Nat := 2 * target_L + 1

/-- Modelled from the spec: `ModuleBase::matrix`, a dense matrix in row-major storage
behind the public pointer `c`; its header is not among the sources. -/
structure matrix (F : Type) where
  nr : Nat
  nc : Nat
  c : List F
  deriving DecidableEq

/-- The element `m(ir, ic)`, `ModuleBase::matrix::operator()`. -/
def matrix.at {F : Type} (m : matrix F) (ir ic : Nat) : Option F := m.c[ir * m.nc + ic]?

/-- The assignment `m(ir, ic) = v`. -/
def matrix.assign {F : Type} (m : matrix F) (ir ic : Nat) (v : F) : Except Err (matrix F) :=
  if ir * m.nc + ic < m.c.length then .ok { m with c := m.c.set (ir * m.nc + ic) v }
  else .error .Undefined

/-- The assignment `m.c[i] = m.c[k]`. -/
def matrix.copy_c {F : Type} (m : matrix F) (i k : Nat) : Except Err (matrix F) :=
  match m.c[k]? with
  | none => .error .Undefined
  | some v =>
    if i < m.c.length then .ok { m with c := m.c.set i v } else .error .Undefined

/-- The block `// stress renormalization` at the end of `DFTUNew::cal_force_stress`,
lines 171-185; `stress_tmp` is the local vector of the six packed values as the loops
over the atoms leave it, `lat0` and `omega` are `ucell->lat0` and `ucell->omega`. -/
def DFTUNew.cal_force_stress_renormalization {F : Type} [Neg F] [OfNat F 2] [Mul F] [Div F]
    (cal_stress : Bool) (lat0 omega : F) (stress_tmp : List F) (stress : matrix F) :
    Except Err (matrix F) :=
  if cal_stress then
    let weight : F := -2 * lat0 / omega
    match loopM 6 (fun i stress =>
        match stress_tmp[i]? with
        | none => .error .Undefined
        | some t =>
          if i < stress.c.length then .ok { stress with c := stress.c.set i (t * weight) }
          else .error .Undefined) stress with
    | .error e => .error e
    | .ok stress =>
      match stress.copy_c 8 5 with
      | .error e => .error e
      | .ok stress =>
        match stress.copy_c 7 4 with
        | .error e => .error e
        | .ok stress =>
          match stress.copy_c 6 2 with
          | .error e => .error e
          | .ok stress =>
            match stress.copy_c 5 4 with
            | .error e => .error e
            | .ok stress =>
              match stress.copy_c 4 3 with
              | .error e => .error e
              | .ok stress => stress.copy_c 3 1
  else .ok stress

/-! ## `StressTools::stress_fill_new` (`FORCE_gamma_new.cpp`) -/

/-- The body of the loops of `stress_fill_new`, lines 285-287. -/
def StressTools.stress_fill_new_step {F : Type} [Mul F] (weight : F) (i j : Nat)
    (stress_matrix : matrix F) : Except Err (matrix F) :=
  let mirrored : Except Err (matrix F) :=
    if j > i then
      match stress_matrix.at i j with
      | none => .error .Undefined
      | some v => stress_matrix.assign j i v
    else .ok stress_matrix
  match mirrored with
  | .error e => .error e
  | .ok stress_matrix =>
    match stress_matrix.at i j with
    | none => .error .Undefined
    | some v => stress_matrix.assign i j (v * weight)

/-- The function `StressTools::stress_fill_new`, lines 277-290; a failed `assert` ends
the program. -/
def StressTools.stress_fill_new {F : Type} [Zero F] [LT F] [DecidableRel (fun a b : F => a < b)]
    [Mul F] [Div F] (lat0_ omega_ : F) (stress_matrix : matrix F) : Except Err (matrix F) :=
  if omega_ > 0 then
    let weight : F := lat0_ / omega_
    loopM 3 (fun i stress_matrix =>
      loopM 3 (fun j stress_matrix =>
        StressTools.stress_fill_new_step weight i j stress_matrix) stress_matrix)
      stress_matrix
  else .error .Abort

/-! ## Predicates for the statements about the DM(k) store -/

/-- The state `st2` has the layout and the number of DM(k) buffers of `st`, and all its
buffers have `nrow * ncol` elements if all those of `st` have. -/
def DensityMatrix.keeps_DMK_shape {TK F : Type} (st st2 : DensityMatrix TK F) : Prop :=
  st2._paraV = st._paraV ∧ st2._DMK.length = st._DMK.length ∧
  ((∀ buf ∈ st._DMK, buf.length = st._paraV.nrow * st._paraV.ncol) →
    ∀ buf ∈ st2._DMK, buf.length = st._paraV.nrow * st._paraV.ncol)

/-- What a snapshot of DM(k) is made of: the three components of the k-vector, the end
of the line, an empty line, the dimensions, the end of the line, the format of the
values, and the value tokens with their line breaks. -/
def snapshot_items {F : Type} (kvec : Vector3 F) (nrow ncol : Nat) (brk : Nat → Bool)
    (vals : List F) : List (OutItem F) :=
  [.dbl kvec.x, .str " ", .dbl kvec.y, .str " ", .dbl kvec.z, .endl,
    .str "\n  ", .int nrow, .str " ", .int ncol, .endl, .setprecision 3, .scientific] ++
    value_layout brk 0 vals

/-! ## The arithmetic of `double` and the text of a `double`

The finite values of the normal range of IEEE 754 binary64, with rounding to nearest,
ties to even: the arithmetic the code runs in.  The bounds on the exponent (overflow,
subnormal values), the sign of zero, infinities and NaN are outside this model. -/

/-- The number of binary digits of `n`, by halving; `f` bounds the number of steps. -/
def bit_length_fuel : Nat → Nat → Nat
  | 0, _ => 0
  | f + 1, n => if n = 0 then 0 else bit_length_fuel f (n / 2) + 1

/-- The number of binary digits of `n`: 0 for 0, and `b` with `2 ^ (b - 1) ≤ n < 2 ^ b`
otherwise. -/
def bit_length (n : Nat) : Nat := bit_length_fuel n n

/-- The quotient of `N` by `M` rounded to the nearest integer, ties to even. -/
def round_div (N M : Nat) : Nat :=
  if 2 * (N % M) > M ∨ (2 * (N % M) = M ∧ (N / M) % 2 = 1) then N / M + 1 else N / M

/-- A finite `double`: the value `m * 2 ^ e`, with `2 ^ 52 ≤ |m| < 2 ^ 53`, or zero as
`m = 0`, `e = 0`. -/
structure Dbl where
  m : Int
  e : Int
  deriving DecidableEq

/-- The `double` nearest to `m * 2 ^ e`, ties to even. -/
def Dbl.round (m e : Int) : Dbl :=
  let a := m.natAbs
  let n := bit_length a
  if a = 0 then ⟨0, 0⟩
  else if n ≤ 53 then ⟨m * 2 ^ (53 - n), e - ((53 - n : Nat) : Int)⟩
  else
    let q := round_div a (2 ^ (n - 53))
    if q = 2 ^ 53 then ⟨m.sign * 2 ^ 52, e + ((n - 53 : Nat) : Int) + 1⟩
    else ⟨m.sign * q, e + ((n - 53 : Nat) : Int)⟩

/-- The sum of two `double`: the exact sum, rounded. -/
def Dbl.add (x y : Dbl) : Dbl :=
  if x.m = 0 then y
  else if y.m = 0 then x
  else
    let e := min x.e y.e
    Dbl.round (x.m * 2 ^ (x.e - e).toNat + y.m * 2 ^ (y.e - e).toNat) e

/-- The product of two `double`: the exact product, rounded. -/
def Dbl.mul (x y : Dbl) : Dbl := Dbl.round (x.m * y.m) (x.e + y.e)

/-- The opposite of a `double`, which is exact. -/
def Dbl.neg (x : Dbl) : Dbl := ⟨-x.m, x.e⟩

instance Dbl.instZero : Zero Dbl := ⟨⟨0, 0⟩⟩

instance Dbl.instOne : One Dbl := ⟨⟨4503599627370496, -52⟩⟩

instance Dbl.instAdd : Add Dbl := ⟨Dbl.add⟩

instance Dbl.instMul : Mul Dbl := ⟨Dbl.mul⟩

instance Dbl.instNeg : Neg Dbl := ⟨Dbl.neg⟩

/-- The difference `x - y` of two `double`: the exact difference, rounded. -/
instance Dbl.instSub : Sub Dbl := ⟨fun x y => Dbl.add x (Dbl.neg y)⟩

/-- The conversion of an `int` to `double`. -/
instance Dbl.instIntCast : IntCast Dbl := ⟨fun n => Dbl.round n 0⟩

/-- The summand of the closed form of the transform, in the words of the specification:
`cos(a) * Re(D) - sin(a) * Im(D)` with `a = (kvec · R) * TWO_PI`. -/
def closed_form_term {F : Type} [Add F] [Sub F] [Mul F] [IntCast F] (lm : Libm F)
    (kvec : Vector3 F) (R : Vector3 Int) (D : Cplx F) : F :=
  (lm.sincos (kvec.dot (Vector3.ofInt R) * lm.TWO_PI)).2 * D.re
    - (lm.sincos (kvec.dot (Vector3.ofInt R) * lm.TWO_PI)).1 * D.im

/-! ## The text of a file and the input stream on it -/

/-- A layout descriptor with a 2 x 3 local block, for the concrete checks. -/
def paraV_2x3 : Parallel_Orbitals :=
  { nrow := 2, ncol := 3, atom_begin_row := fun _ => 0, atom_begin_col := fun _ => 0,
    get_row_size := fun _ => 2, get_col_size := fun _ => 3 }

/-- A k-point set with three k-points, for the concrete checks. -/
def kv_3 : K_Vectors Int := { nks := 3, kvec_d := [⟨0, 0, 0⟩, ⟨1, 0, 0⟩, ⟨0, 1, 0⟩] }

/-- A k-point set with four k-points, for the concrete checks. -/
def kv_4 : K_Vectors Int :=
  { nks := 4, kvec_d := [⟨0, 0, 0⟩, ⟨1, 0, 0⟩, ⟨0, 0, 0⟩, ⟨1, 0, 0⟩] }

/-- A layout descriptor with a 4 x 4 local block: atoms 0 and 1 own two rows and two
columns each, every other atom owns nothing. -/
def paraV_4x4 : Parallel_Orbitals :=
  { nrow := 4, ncol := 4
    atom_begin_row := fun i => if i = 0 then 0 else if i = 1 then 2 else -1
    atom_begin_col := fun i => if i = 0 then 0 else if i = 1 then 2 else -1
    get_row_size := fun i => if i < 2 then 2 else 0
    get_col_size := fun i => if i < 2 then 2 else 0 }

/-- A 2 x 2 block filled with `v`. -/
def block_2x2 (v : Int) : BaseMatrix Int := ⟨2, 2, [v, v, v, v]⟩

/-- A container with the pair (0, 0) at the translation (0, 0, 0) and the pair (0, 1) at
the translations (0, 0, 0) and (1, 0, 0), with stale values in the blocks. -/
def container_2 : HContainer Int :=
  ⟨false, [⟨0, 0, 2, 2, [⟨0, 0, 0⟩], [block_2x2 7]⟩,
    ⟨0, 1, 2, 2, [⟨0, 0, 0⟩, ⟨1, 0, 0⟩], [block_2x2 5, block_2x2 6]⟩]⟩

/-- Stand-ins for `TWO_PI` and `sincos` over the integers: `TWO_PI = 3`,
`sincos a = (a, a + 1)`. -/
def libm_Z : Libm Int := ⟨3, fun a => (a, a + 1)⟩

/-- A multi-k state over the integers: one spin, two k-points, DM(k) buffers with
element `p` equal to `p + 100 i` and `1000 + p + (2000 + p) i`. -/
def state_multi_k : DensityMatrix (Cplx Int) Int :=
  { _kv := some ⟨2, [⟨1, 0, 0⟩, ⟨0, 1, 0⟩]⟩
    _paraV := paraV_4x4
    _nspin := 1
    _nks := 2
    _DMK := [(List.range 16).map (fun n => ⟨(n : Int), 100 + n⟩),
      (List.range 16).map (fun n => ⟨1000 + (n : Int), 2000 + n⟩)]
    _DMR := [container_2] }

/-- A container with the pairs (0, 0) and (0, 1), each at the single translation
(0, 0, 0), with stale values in the blocks. -/
def container_gamma : HContainer Int :=
  ⟨false, [⟨0, 0, 2, 2, [⟨0, 0, 0⟩], [block_2x2 7]⟩, ⟨0, 1, 2, 2, [⟨0, 0, 0⟩], [block_2x2 5]⟩]⟩

/-- A Gamma-only state over the integers: two spins, DM(k) buffers with element `p` equal
to `p` and `100 + p`. -/
def state_gamma : DensityMatrix Int Int :=
  { _kv := none
    _paraV := paraV_4x4
    _nspin := 2
    _nks := 1
    _DMK := [(List.range 16).map (fun n => (n : Int)),
      (List.range 16).map (fun n => 100 + (n : Int))]
    _DMR := [container_gamma, container_gamma] }

/-- A multi-k state over the integers with the single k-point (0, 0, 0) per spin: two
spins, the sparse structure of `state_gamma` with other stale values, and DM(k) buffers
whose real parts are the buffers of `state_gamma`. -/
def state_multi_k_at_gamma : DensityMatrix (Cplx Int) Int :=
  { _kv := some ⟨2, [⟨0, 0, 0⟩, ⟨0, 0, 0⟩]⟩
    _paraV := paraV_4x4
    _nspin := 2
    _nks := 1
    _DMK := [(List.range 16).map (fun n => ⟨(n : Int), 50 + n⟩),
      (List.range 16).map (fun n => ⟨100 + (n : Int), 70 + n⟩)]
    _DMR := [container_gamma.set_zero, container_gamma.set_zero] }

/-- A container that stores the pair (0, 2), whose second atom owns no column. -/
def container_foreign : HContainer Int :=
  ⟨false, [⟨0, 0, 2, 2, [⟨0, 0, 0⟩], [block_2x2 7]⟩, ⟨0, 2, 2, 0, [⟨0, 0, 0⟩], [⟨2, 0, []⟩]⟩]⟩

/-- The state `state_multi_k` with a DM(R) store that holds a pair not resident here. -/
def state_multi_k_foreign : DensityMatrix (Cplx Int) Int :=
  state_multi_k.with_DMR [container_foreign]

/-- The state `state_gamma` with a DM(R) store that holds a pair not resident here. -/
def state_gamma_foreign : DensityMatrix Int Int :=
  state_gamma.with_DMR [container_foreign, container_foreign]

/-- A k-point set with the single k-point Γ, for the concrete checks. -/
def kv_1 : K_Vectors Int := { nks := 1, kvec_d := [⟨0, 0, 0⟩] }

/-- A layout descriptor in which the atom 0 owns two rows and two columns and the atom 1
owns two columns and no row. -/
def paraV_rows : Parallel_Orbitals :=
  { nrow := 2, ncol := 4
    atom_begin_row := fun i => if i = 0 then 0 else -1
    atom_begin_col := fun i => if i = 0 then 0 else if i = 1 then 2 else -1
    get_row_size := fun i => if i = 0 then 2 else 0
    get_col_size := fun i => if i < 2 then 2 else 0 }

/-- A cell with two atoms of one type; the atom number is the index in the type. -/
def ucell_2 : UnitCell Int :=
  { nat := 2, get_tau := fun _ => ⟨0, 0, 0⟩, iat2iait := fun iat => (iat, 0)
    itia2iat := fun _ I => I.toNat }

/-- A neighbour search in which each of the two atoms has the other one as its only
neighbour, at the translation (0, 0, 0), and itself in the extra slot. -/
def grid_2 : Grid_Driver Int :=
  { Find_atom := fun _ _ _ I =>
      { adj_num := 1, ntype := [0, 0], natom := [1 - I, I], box := [⟨0, 0, 0⟩, ⟨0, 0, 0⟩] } }

/-- The recorded neighbours of the two atoms: the other atom and the atom itself, at the
translation (0, 0, 0). -/
def ra_2 : Record_adj :=
  { na_each := [2, 2]
    info := [[[0, 0, 0, 0, 1], [0, 0, 0, 0, 0]], [[0, 0, 0, 0, 0], [0, 0, 0, 0, 1]]] }

/-- A Gamma-only state with two spins on the layout `paraV_rows`, with a stale DM(R)
store. -/
def state_rows : DensityMatrix Int Int :=
  { _kv := none
    _paraV := paraV_rows
    _nspin := 2
    _nks := 1
    _DMK := [List.replicate 8 0, List.replicate 8 0]
    _DMR := [container_2] }

/-- A container with the structure of `container_gamma` and other values. -/
def container_down : HContainer Int :=
  ⟨false, [⟨0, 0, 2, 2, [⟨0, 0, 0⟩], [block_2x2 1]⟩, ⟨0, 1, 2, 2, [⟨0, 0, 0⟩], [block_2x2 2]⟩]⟩

/-- The state `state_gamma` with different values in the containers of the two spins. -/
def state_two_spins : DensityMatrix Int Int :=
  state_gamma.with_DMR [container_gamma, container_down]

/-- A layout descriptor with a 3 x 2 local block, for the concrete checks. -/
def paraV_3x2 : Parallel_Orbitals :=
  { nrow := 3, ncol := 2, atom_begin_row := fun _ => 0, atom_begin_col := fun _ => 0,
    get_row_size := fun _ => 3, get_col_size := fun _ => 2 }

/-- The vector of every row orbital for the concrete check of the force: the value
`9` and the three gradient components `1`, `10`, `100` for `m_size = 1`. -/
def nlm_row : Int → Option (List Int) := fun _ => some [9, 1, 10, 100]

/-- The vector of every column orbital for the concrete check of the force. -/
def nlm_col : Int → Option (List Int) := fun _ => some [1, 7, 7, 7]

/-- The vector `nlm_target` of every orbital for the concrete check of the dimensions:
`2 L + 1 = 3` elements for the shell `L = 1`. -/
def nlm_p : Int → Option (List Int) := fun _ => some [1, 2, 3]

/-- A layout descriptor with a 2 x 12 local block, for the concrete checks. -/
def paraV_2x12 : Parallel_Orbitals :=
  { nrow := 2, ncol := 12, atom_begin_row := fun _ => 0, atom_begin_col := fun _ => 0,
    get_row_size := fun _ => 2, get_col_size := fun _ => 12 }

/-- A state with one spin, one k-point and a 2 x 12 local block whose DM(k) buffer holds
the numbers 0 to 23. -/
def state_2x12 : DensityMatrix Int Int :=
  { _kv := some kv_1
    _paraV := paraV_2x12
    _nspin := 1
    _nks := 1
    _DMK := [(List.range 24).map (fun n => (n : Int))]
    _DMR := [] }

/-- An input stream of a directory without snapshot files: every file fails to open,
and extraction from the failed stream leaves its operand as it was. -/
def stream_missing : InStream Unit Int Int :=
  { ifs_open := fun _ => ()
    fail := fun _ => true
    extract := fun s x => (s, x)
    CHECK_DOUBLE := fun s _ _ => .ok s
    CHECK_INT := fun s _ => .ok s }

/-- A 3 x 3 matrix of rationals with a lower triangle that differs from the upper. -/
def matrix_3x3 : matrix ℚ := ⟨3, 3, [1, 2, 3, 40, 5, 6, 70, 80, 9]⟩

/-- The `double` 6.283185307179586, the value of `ModuleBase::TWO_PI`. -/
def dbl_two_pi : Dbl := ⟨7074237752028440, -50⟩

/-- The `double` 3.141592653589793, the nearest to π. -/
def dbl_pi : Dbl := ⟨7074237752028440, -51⟩

/-- The `double` 1.2246467991473532e-16, the sine of the `double` nearest to π. -/
def dbl_sin_pi : Dbl := ⟨4967757600021511, -105⟩

/-- The `double` 0.5. -/
def dbl_half : Dbl := ⟨4503599627370496, -53⟩

/-- The constant `TWO_PI` and the values of `sincos` at the two arguments of the concrete
state: `sincos(0) = (0, 1)` and `sincos(3.141592653589793) = (1.2246467991473532e-16, -1)`;
at other arguments, which do not occur, a stand-in. -/
def libm_dbl : Libm Dbl :=
  ⟨dbl_two_pi, fun a => if a = dbl_pi then (dbl_sin_pi, -1) else (0, 1)⟩

/-- The k-points (0, 0, 0) and (0.5, 0, 0). -/
def kv_dbl : K_Vectors Dbl := { nks := 2, kvec_d := [⟨0, 0, 0⟩, ⟨dbl_half, 0, 0⟩] }

/-- A layout descriptor with one atom and a 1 x 1 local block. -/
def paraV_1x1 : Parallel_Orbitals :=
  { nrow := 1, ncol := 1, atom_begin_row := fun _ => 0, atom_begin_col := fun _ => 0,
    get_row_size := fun _ => 1, get_col_size := fun _ => 1 }

/-- A multi-k state over `double`: one spin, the two k-points of `kv_dbl`, a 1 x 1 block,
the DM(k) elements `1` and `1 + i`, and the pair (0, 0) at the translation (1, 0, 0). -/
def state_dbl : DensityMatrix (Cplx Dbl) Dbl :=
  { _kv := some kv_dbl
    _paraV := paraV_1x1
    _nspin := 1
    _nks := 2
    _DMK := [[⟨1, 0⟩], [⟨1, 1⟩]]
    _DMR := [⟨false, [⟨0, 0, 1, 1, [⟨1, 0, 0⟩], [⟨1, 1, [0]⟩]⟩]⟩] }

theorem loop_push_back {α : Type} (t : α) (n : Nat) :
    loop n (fun _ dmk => dmk ++ [t]) [] = List.replicate n t := by
  induction n with
  | zero => rfl
  | succ k ih => rw [loop, ih, List.replicate_succ']

theorem DensityMatrix_multi_k_eq {TK F : Type} [Zero TK] (kv_in : K_Vectors F)
    (paraV_in : Parallel_Orbitals) (nspin : Int) (n : Nat)
    (h : (nspin = 1 ∨ nspin = 4) ∧ n = 1 ∨ nspin = 2 ∧ n = 2) :
    (DensityMatrix.DensityMatrix_multi_k kv_in paraV_in nspin : Except Err (DensityMatrix TK F)) =
      .ok { _kv := some kv_in, _paraV := paraV_in, _nspin := n, _nks := kv_in.nks / n,
            _DMK := List.replicate kv_in.nks (List.replicate (paraV_in.nrow * paraV_in.ncol) 0),
            _DMR := [] } := by
  unfold DensityMatrix.DensityMatrix_multi_k
  rcases h with ⟨h, rfl⟩ | ⟨rfl, rfl⟩
  · simp [h, loop_push_back]
  · simp [loop_push_back]

theorem DensityMatrix_gamma_eq {TK F : Type} [Zero TK]
    (paraV_in : Parallel_Orbitals) (nspin : Int) (n : Nat)
    (h : (nspin = 1 ∨ nspin = 4) ∧ n = 1 ∨ nspin = 2 ∧ n = 2) :
    (DensityMatrix.DensityMatrix_gamma paraV_in nspin : Except Err (DensityMatrix TK F)) =
      .ok { _kv := none, _paraV := paraV_in, _nspin := n, _nks := 1,
            _DMK := List.replicate n (List.replicate (paraV_in.nrow * paraV_in.ncol) 0),
            _DMR := [] } := by
  unfold DensityMatrix.DensityMatrix_gamma
  rcases h with ⟨h, rfl⟩ | ⟨rfl, rfl⟩
  · simp [h, loop_push_back]
  · simp [loop_push_back]

theorem DensityMatrix_multi_k_error {TK F : Type} [Zero TK] (kv_in : K_Vectors F)
    (paraV_in : Parallel_Orbitals) (nspin : Int) (h : ¬ (nspin = 1 ∨ nspin = 2 ∨ nspin = 4)) :
    (DensityMatrix.DensityMatrix_multi_k kv_in paraV_in nspin : Except Err (DensityMatrix TK F)) =
      .error .InvalidConfig := by
  unfold DensityMatrix.DensityMatrix_multi_k
  have h1 : ¬ (nspin = 1 ∨ nspin = 4) := fun h' => h (h'.elim Or.inl (fun x => Or.inr (Or.inr x)))
  have h2 : ¬ nspin = 2 := fun h' => h (Or.inr (Or.inl h'))
  simp [h1, h2]

theorem DensityMatrix_gamma_error {TK F : Type} [Zero TK]
    (paraV_in : Parallel_Orbitals) (nspin : Int) (h : ¬ (nspin = 1 ∨ nspin = 2 ∨ nspin = 4)) :
    (DensityMatrix.DensityMatrix_gamma paraV_in nspin : Except Err (DensityMatrix TK F)) =
      .error .InvalidConfig := by
  unfold DensityMatrix.DensityMatrix_gamma
  have h1 : ¬ (nspin = 1 ∨ nspin = 4) := fun h' => h (h'.elim Or.inl (fun x => Or.inr (Or.inr x)))
  have h2 : ¬ nspin = 2 := fun h' => h (Or.inr (Or.inl h'))
  simp [h1, h2]

/-- The spin count a valid flag is normalized to: 1 for the flags 1 and 4, 2 for the flag 2. -/
theorem normalized_cases (nspin : Int) (h : nspin = 1 ∨ nspin = 2 ∨ nspin = 4) :
    ∃ n : Nat, ((nspin = 1 ∨ nspin = 4) ∧ n = 1 ∨ nspin = 2 ∧ n = 2) := by
  rcases h with h | h | h
  · exact ⟨1, Or.inl ⟨Or.inl h, rfl⟩⟩
  · exact ⟨2, Or.inr ⟨h, rfl⟩⟩
  · exact ⟨1, Or.inl ⟨Or.inr h, rfl⟩⟩

/-- C8: both constructors normalize the spin flag: the flags 1 and 4 give `_nspin = 1`, the
flag 2 gives `_nspin = 2`, every other integer fails with the invalid-configuration error,
and construction fails exactly when the flag is not 1, 2 or 4. -/
theorem C8_nspin_normalized {TK F : Type} [Zero TK] (kv_in : K_Vectors F)
    (paraV_in : Parallel_Orbitals) (nspin : Int) :
    let multi_k : Except Err (DensityMatrix TK F) :=
      DensityMatrix.DensityMatrix_multi_k kv_in paraV_in nspin
    let gamma : Except Err (DensityMatrix TK F) :=
      DensityMatrix.DensityMatrix_gamma paraV_in nspin
    ((nspin = 1 ∨ nspin = 4) →
      (∃ dm, multi_k = .ok dm ∧ dm._nspin = 1) ∧ (∃ dm, gamma = .ok dm ∧ dm._nspin = 1)) ∧
    (nspin = 2 →
      (∃ dm, multi_k = .ok dm ∧ dm._nspin = 2) ∧ (∃ dm, gamma = .ok dm ∧ dm._nspin = 2)) ∧
    (¬ (nspin = 1 ∨ nspin = 2 ∨ nspin = 4) →
      multi_k = .error .InvalidConfig ∧ gamma = .error .InvalidConfig) ∧
    ((∃ e, multi_k = .error e) ↔ ¬ (nspin = 1 ∨ nspin = 2 ∨ nspin = 4)) ∧
    ((∃ e, gamma = .error e) ↔ ¬ (nspin = 1 ∨ nspin = 2 ∨ nspin = 4)) := by
  intro multi_k gamma
  refine ⟨fun h => ?_, fun h => ?_, fun h => ?_, ?_, ?_⟩
  · exact ⟨⟨_, DensityMatrix_multi_k_eq kv_in paraV_in nspin 1 (Or.inl ⟨h, rfl⟩), rfl⟩,
      ⟨_, DensityMatrix_gamma_eq paraV_in nspin 1 (Or.inl ⟨h, rfl⟩), rfl⟩⟩
  · exact ⟨⟨_, DensityMatrix_multi_k_eq kv_in paraV_in nspin 2 (Or.inr ⟨h, rfl⟩), rfl⟩,
      ⟨_, DensityMatrix_gamma_eq paraV_in nspin 2 (Or.inr ⟨h, rfl⟩), rfl⟩⟩
  · exact ⟨DensityMatrix_multi_k_error kv_in paraV_in nspin h,
      DensityMatrix_gamma_error paraV_in nspin h⟩
  · constructor
    · rintro ⟨e, he⟩ hv
      obtain ⟨n, hn⟩ := normalized_cases nspin hv
      have := @DensityMatrix_multi_k_eq TK F _ kv_in paraV_in nspin n hn
      simp only [multi_k] at he
      rw [this] at he
      cases he
    · exact fun h => ⟨_, DensityMatrix_multi_k_error kv_in paraV_in nspin h⟩
  · constructor
    · rintro ⟨e, he⟩ hv
      obtain ⟨n, hn⟩ := normalized_cases nspin hv
      have := @DensityMatrix_gamma_eq TK F _ paraV_in nspin n hn
      simp only [gamma] at he
      rw [this] at he
      cases he
    · exact fun h => ⟨_, DensityMatrix_gamma_error paraV_in nspin h⟩

/-- C9 as stated fails: with the flag `nspin = 2` and `kv.nks = 3` the multi-k constructor
succeeds and builds 3 buffers, while `_nspin * _nks = 2 * (3 / 2) = 2`. -/
theorem C9_counterexample :
    ∃ dm : DensityMatrix Int Int,
      DensityMatrix.DensityMatrix_multi_k kv_3 paraV_2x3 2 = .ok dm ∧
      dm._DMK.length = 3 ∧ dm._nspin * dm._nks = 2 ∧ dm._DMK.length ≠ dm._nspin * dm._nks :=
  ⟨_, DensityMatrix_multi_k_eq kv_3 paraV_2x3 2 2 (Or.inr ⟨rfl, rfl⟩), by decide, by decide,
    by decide⟩

/-- C9, amended: for a valid flag `nspin`, and `kv.nks` even when `nspin = 2`, the multi-k
constructor yields `_nspin * _nks` buffers with `_nks = kv.nks / _nspin`; the Gamma-only
constructor yields `_nspin` buffers and `_nks = 1`. -/
theorem C9_store_length {TK F : Type} [Zero TK] (kv_in : K_Vectors F)
    (paraV_in : Parallel_Orbitals) (nspin : Int) (hv : nspin = 1 ∨ nspin = 2 ∨ nspin = 4)
    (heven : nspin = 2 → kv_in.nks % 2 = 0) :
    (∃ dm : DensityMatrix TK F,
      DensityMatrix.DensityMatrix_multi_k kv_in paraV_in nspin = .ok dm ∧
      dm._DMK.length = dm._nspin * dm._nks ∧ dm._nks = kv_in.nks / dm._nspin ∧
      dm._DMK.length = kv_in.nks) ∧
    (∃ dm : DensityMatrix TK F,
      DensityMatrix.DensityMatrix_gamma paraV_in nspin = .ok dm ∧
      dm._DMK.length = dm._nspin ∧ dm._nks = 1) := by
  obtain ⟨n, hn⟩ := normalized_cases nspin hv
  refine ⟨⟨_, DensityMatrix_multi_k_eq kv_in paraV_in nspin n hn, ?_, rfl, ?_⟩,
    ⟨_, DensityMatrix_gamma_eq paraV_in nspin n hn, ?_, rfl⟩⟩
  · simp only [List.length_replicate]
    rcases hn with ⟨_, rfl⟩ | ⟨h2, rfl⟩
    · simp
    · have := heven h2
      omega
  · simp
  · simp

/-- C9, amended, at the flag 2 with four k-points. -/
theorem C9_store_length_witness :
    (∃ dm : DensityMatrix Int Int,
      DensityMatrix.DensityMatrix_multi_k kv_4 paraV_2x3 2 = .ok dm ∧
      dm._DMK.length = dm._nspin * dm._nks ∧ dm._nks = kv_4.nks / dm._nspin ∧
      dm._DMK.length = kv_4.nks) ∧
    (∃ dm : DensityMatrix Int Int,
      DensityMatrix.DensityMatrix_gamma paraV_2x3 2 = .ok dm ∧
      dm._DMK.length = dm._nspin ∧ dm._nks = 1) :=
  C9_store_length kv_4 paraV_2x3 2 (by decide) (fun _ => by decide)

/-- C10: after either constructor every DM(k) buffer has exactly `nrow * ncol` elements and
every element is zero.  The multi-k constructor leaves `kv.nks` buffers and the Gamma-only
constructor one buffer for each spin, at least one; each of them is `nrow * ncol`
zeros. -/
theorem C10_buffers_zero {TK F : Type} [Zero TK] (kv_in : K_Vectors F)
    (paraV_in : Parallel_Orbitals) (nspin : Int) (dm : DensityMatrix TK F)
    (h : DensityMatrix.DensityMatrix_multi_k kv_in paraV_in nspin = .ok dm ∨
      DensityMatrix.DensityMatrix_gamma paraV_in nspin = .ok dm) :
    (DensityMatrix.DensityMatrix_multi_k kv_in paraV_in nspin = .ok dm →
      dm._DMK = List.replicate kv_in.nks (List.replicate (paraV_in.nrow * paraV_in.ncol) 0)) ∧
    (DensityMatrix.DensityMatrix_gamma paraV_in nspin = .ok dm →
      0 < dm._nspin ∧
      dm._DMK = List.replicate dm._nspin (List.replicate (paraV_in.nrow * paraV_in.ncol) 0)) ∧
    ∀ buf ∈ dm._DMK, buf.length = paraV_in.nrow * paraV_in.ncol ∧ ∀ x ∈ buf, x = 0 := by
  have hv : nspin = 1 ∨ nspin = 2 ∨ nspin = 4 := by
    by_contra hv
    rcases h with h | h
    · rw [DensityMatrix_multi_k_error kv_in paraV_in nspin hv] at h
      cases h
    · rw [DensityMatrix_gamma_error paraV_in nspin hv] at h
      cases h
  obtain ⟨n, hn⟩ := normalized_cases nspin hv
  have hpos : 0 < n := by
    rcases hn with ⟨_, rfl⟩ | ⟨_, rfl⟩ <;> decide
  have key : ∀ k : Nat, ∀ buf ∈ List.replicate k
      (List.replicate (paraV_in.nrow * paraV_in.ncol) (0 : TK)),
      buf.length = paraV_in.nrow * paraV_in.ncol ∧ ∀ x ∈ buf, x = 0 := by
    intro k buf hb
    rw [List.eq_of_mem_replicate hb]
    exact ⟨List.length_replicate _ _, fun x hx => List.eq_of_mem_replicate hx⟩
  refine ⟨fun h1 => ?_, fun h2 => ?_, ?_⟩
  · rw [DensityMatrix_multi_k_eq kv_in paraV_in nspin n hn] at h1
    cases h1
    rfl
  · rw [DensityMatrix_gamma_eq paraV_in nspin n hn] at h2
    cases h2
    exact ⟨hpos, rfl⟩
  · rcases h with h | h
    · rw [DensityMatrix_multi_k_eq kv_in paraV_in nspin n hn] at h
      cases h
      exact key _
    · rw [DensityMatrix_gamma_eq paraV_in nspin n hn] at h
      cases h
      exact key _

/-- C10 on both constructors with a 2 x 3 local block and the flag 2: the multi-k
constructor with four k-points leaves four buffers of six zeros, the Gamma-only
constructor two buffers of six zeros. -/
theorem C10_buffers_zero_witness :
    (∃ dm : DensityMatrix Int Int,
      DensityMatrix.DensityMatrix_multi_k kv_4 paraV_2x3 2 = .ok dm ∧
      dm._DMK = [[0, 0, 0, 0, 0, 0], [0, 0, 0, 0, 0, 0], [0, 0, 0, 0, 0, 0],
        [0, 0, 0, 0, 0, 0]] ∧
      ∀ buf ∈ dm._DMK, buf.length = paraV_2x3.nrow * paraV_2x3.ncol ∧ ∀ x ∈ buf, x = 0) ∧
    (∃ dm : DensityMatrix Int Int,
      DensityMatrix.DensityMatrix_gamma paraV_2x3 2 = .ok dm ∧
      dm._DMK = [[0, 0, 0, 0, 0, 0], [0, 0, 0, 0, 0, 0]] ∧
      ∀ buf ∈ dm._DMK, buf.length = paraV_2x3.nrow * paraV_2x3.ncol ∧ ∀ x ∈ buf, x = 0) :=
  ⟨⟨_, DensityMatrix_multi_k_eq kv_4 paraV_2x3 2 2 (Or.inr ⟨rfl, rfl⟩),
      ((C10_buffers_zero kv_4 paraV_2x3 2 _
        (Or.inl (DensityMatrix_multi_k_eq kv_4 paraV_2x3 2 2 (Or.inr ⟨rfl, rfl⟩)))).1
        (DensityMatrix_multi_k_eq kv_4 paraV_2x3 2 2 (Or.inr ⟨rfl, rfl⟩))).trans rfl,
      (C10_buffers_zero kv_4 paraV_2x3 2 _
        (Or.inl (DensityMatrix_multi_k_eq kv_4 paraV_2x3 2 2 (Or.inr ⟨rfl, rfl⟩)))).2.2⟩,
    ⟨_, DensityMatrix_gamma_eq paraV_2x3 2 2 (Or.inr ⟨rfl, rfl⟩),
      ((C10_buffers_zero kv_4 paraV_2x3 2 _
        (Or.inr (DensityMatrix_gamma_eq paraV_2x3 2 2 (Or.inr ⟨rfl, rfl⟩)))).2.1
        (DensityMatrix_gamma_eq paraV_2x3 2 2 (Or.inr ⟨rfl, rfl⟩))).2.trans rfl,
      (C10_buffers_zero kv_4 paraV_2x3 2 _
        (Or.inr (DensityMatrix_gamma_eq paraV_2x3 2 2 (Or.inr ⟨rfl, rfl⟩)))).2.2⟩⟩
/-! ## Loops -/

theorem loopM_succ {σ : Type} (k : Nat) (body : Nat → σ → Except Err σ) (s : σ) :
    loopM (k + 1) body s =
      (match loopM k body s with
       | .error e => .error e
       | .ok t => body k t) := rfl

/-- A loop whose body succeeds and keeps an invariant succeeds and ends in the invariant. -/
theorem loopM_total {σ : Type} (Inv : Nat → σ → Prop) (n : Nat)
    (body : Nat → σ → Except Err σ) (s0 : σ) (h0 : Inv 0 s0)
    (hstep : ∀ i, i < n → ∀ s, Inv i s → ∃ t, body i s = .ok t ∧ Inv (i + 1) t) :
    ∃ t, loopM n body s0 = .ok t ∧ Inv n t := by
  induction n with
  | zero => exact ⟨s0, rfl, h0⟩
  | succ k ih =>
    obtain ⟨t, ht, hinv⟩ := ih (fun i hi => hstep i (Nat.lt_succ_of_lt hi))
    obtain ⟨u, hu, hinv2⟩ := hstep k (Nat.lt_succ_self k) t hinv
    exact ⟨u, by rw [loopM_succ, ht]; exact hu, hinv2⟩

/-- A loop that succeeds ends in every invariant that the successful steps keep. -/
theorem loopM_inv {σ : Type} (Inv : Nat → σ → Prop) (n : Nat)
    (body : Nat → σ → Except Err σ) (s0 : σ) (h0 : Inv 0 s0)
    (hstep : ∀ i, i < n → ∀ s t, Inv i s → body i s = .ok t → Inv (i + 1) t)
    (t : σ) (h : loopM n body s0 = .ok t) : Inv n t := by
  induction n generalizing t with
  | zero =>
    cases h
    exact h0
  | succ k ih =>
    rw [loopM_succ] at h
    cases hk : loopM k body s0 with
    | error e => rw [hk] at h; cases h
    | ok u =>
      rw [hk] at h
      exact hstep k (Nat.lt_succ_self k) u t
        (ih (fun i hi => hstep i (Nat.lt_succ_of_lt hi)) u hk) h

/-- Two loops whose bodies agree on the states of an invariant, which the first body
keeps, have the same outcome. -/
theorem loopM_congr {σ : Type} (Inv : Nat → σ → Prop) (n : Nat)
    (body1 body2 : Nat → σ → Except Err σ) (s0 : σ) (h0 : Inv 0 s0)
    (hstep : ∀ i, i < n → ∀ s, Inv i s →
      body1 i s = body2 i s ∧ ∀ t, body1 i s = .ok t → Inv (i + 1) t) :
    loopM n body1 s0 = loopM n body2 s0 := by
  have key : ∀ m, m ≤ n → loopM m body1 s0 = loopM m body2 s0 ∧
      ∀ t, loopM m body1 s0 = .ok t → Inv m t := by
    intro m
    induction m with
    | zero =>
      intro _
      refine ⟨rfl, fun t ht => ?_⟩
      cases ht
      exact h0
    | succ k ih =>
      intro hk
      obtain ⟨e1, e2⟩ := ih (Nat.le_of_succ_le hk)
      rw [loopM_succ, loopM_succ, ← e1]
      cases hl : loopM k body1 s0 with
      | error e => exact ⟨rfl, fun t ht => by cases ht⟩
      | ok u =>
        obtain ⟨a, b⟩ := hstep k hk u (e2 u hl)
        exact ⟨a, b⟩
  exact (key n (Nat.le_refl n)).1

/-- A failure of the body after a successful start of the loop is the outcome of the loop. -/
theorem loopM_error {σ : Type} (n i : Nat) (hi : i < n)
    (body : Nat → σ → Except Err σ) (s0 t : σ) (e : Err)
    (hpre : loopM i body s0 = .ok t) (hfail : body i t = .error e) :
    loopM n body s0 = .error e := by
  have key : ∀ d, loopM (i + 1 + d) body s0 = .error e := by
    intro d
    induction d with
    | zero => rw [Nat.add_zero, loopM_succ, hpre]; exact hfail
    | succ d ih => rw [← Nat.add_assoc, loopM_succ, ih]
  have := key (n - (i + 1))
  rwa [Nat.add_sub_cancel' hi] at this

/-! ### The loop over the elements of a list -/

/-- The outcome of `updateEachM` when every step succeeds: element `i < n` is replaced by
the result of `f i`, the others stay. -/
theorem updateEachM_ok {α : Type} (n : Nat) (f : Nat → α → Except Err α) (xs : List α)
    (h : ∀ i, i < n → ∃ x y, xs[i]? = some x ∧ f i x = .ok y) :
    ∃ ys, updateEachM n f xs = .ok ys ∧ ys.length = xs.length ∧
      (∀ i, i < n → ∀ x, xs[i]? = some x → ∃ y, f i x = .ok y ∧ ys[i]? = some y) ∧
      (∀ i, n ≤ i → ys[i]? = xs[i]?) := by
  have := loopM_total
    (fun m (s : List α) => s.length = xs.length ∧
      (∀ i, i < m → ∀ x, xs[i]? = some x → ∃ y, f i x = .ok y ∧ s[i]? = some y) ∧
      (∀ i, m ≤ i → s[i]? = xs[i]?)) n
    (fun i xs =>
      match xs[i]? with
      | none => .error .Undefined
      | some x =>
        match f i x with
        | .error e => .error e
        | .ok y => .ok (xs.set i y)) xs
    ⟨rfl, fun i hi => absurd hi (Nat.not_lt_zero i), fun _ _ => rfl⟩
    (by
      intro i hi s ⟨hlen, hlt, hge⟩
      obtain ⟨x, y, hx, hy⟩ := h i hi
      have hsi : s[i]? = some x := by rw [hge i (Nat.le_refl i)]; exact hx
      refine ⟨s.set i y, ?_, ?_, ?_, ?_⟩
      · simp only [hsi, hy]
      · simp [hlen]
      · intro j hj x2 hx2
        rcases Nat.lt_succ_iff_lt_or_eq.mp hj with hj2 | rfl
        · obtain ⟨y2, hy2, hs2⟩ := hlt j hj2 x2 hx2
          refine ⟨y2, hy2, ?_⟩
          rw [List.getElem?_set_ne (by omega)]
          exact hs2
        · rw [hx] at hx2
          cases hx2
          refine ⟨y, hy, ?_⟩
          have hlt2 : j < s.length := by
            rcases List.getElem?_eq_some.mp hsi with ⟨hh, _⟩
            exact hh
          simp [List.getElem?_set_self, hlt2]
      · intro j hj
        rw [List.getElem?_set_ne (by omega)]
        exact hge j (by omega))
  exact this

/-- What a successful `updateEachM` did: every step succeeded, element `i < n` holds the
result of `f i`, the others stayed. -/
theorem updateEachM_inv {α : Type} (n : Nat) (f : Nat → α → Except Err α) (xs ys : List α)
    (h : updateEachM n f xs = .ok ys) :
    ys.length = xs.length ∧
      (∀ i, i < n → ∃ x y, xs[i]? = some x ∧ f i x = .ok y ∧ ys[i]? = some y) ∧
      (∀ i, n ≤ i → ys[i]? = xs[i]?) := by
  refine loopM_inv
    (fun m (s : List α) => s.length = xs.length ∧
      (∀ i, i < m → ∃ x y, xs[i]? = some x ∧ f i x = .ok y ∧ s[i]? = some y) ∧
      (∀ i, m ≤ i → s[i]? = xs[i]?)) n _ xs
    ⟨rfl, fun i hi => absurd hi (Nat.not_lt_zero i), fun _ _ => rfl⟩ ?_ ys h
  intro i _ s t ⟨hlen, hlt, hge⟩ hbody
  cases hsi : s[i]? with
  | none => simp only [hsi] at hbody; cases hbody
  | some x =>
    simp only [hsi] at hbody
    cases hf : f i x with
    | error e => simp only [hf] at hbody; cases hbody
    | ok y =>
      simp only [hf] at hbody
      cases hbody
      have hxi : xs[i]? = some x := by rw [← hge i (Nat.le_refl i)]; exact hsi
      have hlt2 : i < s.length := (List.getElem?_eq_some.mp hsi).1
      refine ⟨by simp [hlen], ?_, ?_⟩
      · intro j hj
        rcases Nat.lt_succ_iff_lt_or_eq.mp hj with hj2 | rfl
        · obtain ⟨x2, y2, h1, h2, h3⟩ := hlt j hj2
          exact ⟨x2, y2, h1, h2, by rw [List.getElem?_set_ne (by omega)]; exact h3⟩
        · exact ⟨x, y, hxi, hf, by simp [List.getElem?_set_self, hlt2]⟩
      · intro j hj
        rw [List.getElem?_set_ne (by omega)]
        exact hge j (by omega)

/-- The first failing step of `updateEachM` is its outcome. -/
theorem updateEachM_error {α : Type} (n i : Nat) (hi : i < n) (f : Nat → α → Except Err α)
    (xs : List α) (x : α) (e : Err)
    (hpre : ∀ j, j < i → ∃ x y, xs[j]? = some x ∧ f j x = .ok y)
    (hx : xs[i]? = some x) (hfail : f i x = .error e) :
    updateEachM n f xs = .error e := by
  obtain ⟨ys, hys, _, _, hge⟩ := updateEachM_ok i f xs hpre
  refine loopM_error n i hi _ xs ys e hys ?_
  simp only [hge i (Nat.le_refl i), hx, hfail]

/-- Writing to a list the element it holds changes nothing. -/
theorem set_of_getElem? {α : Type} (xs : List α) (i : Nat) (x : α) (h : xs[i]? = some x) :
    xs.set i x = xs := by
  apply List.ext_getElem?
  intro j
  by_cases hij : i = j
  · subst hij
    rw [List.getElem?_set_self (List.getElem?_eq_some.mp h).1, h]
  · rw [List.getElem?_set_ne hij]

/-- Two runs of `updateEachM` over lists of one length have the same outcome when their
steps agree element by element and the lists agree beyond the range of the loop. -/
theorem updateEachM_congr {α : Type} (n : Nat) (f g : Nat → α → Except Err α)
    (xs ys : List α) (hlen : xs.length = ys.length)
    (hfg : ∀ i, i < n → ∀ x y, xs[i]? = some x → ys[i]? = some y → f i x = g i y)
    (htail : ∀ i, n ≤ i → xs[i]? = ys[i]?) :
    updateEachM n f xs = updateEachM n g ys := by
  have key : ∀ m, m ≤ n →
      (∃ e, updateEachM m f xs = .error e ∧ updateEachM m g ys = .error e) ∨
      (∃ s t, updateEachM m f xs = .ok s ∧ updateEachM m g ys = .ok t ∧
        s.length = t.length ∧ (∀ j, j < m → s[j]? = t[j]?) ∧
        (∀ j, m ≤ j → s[j]? = xs[j]? ∧ t[j]? = ys[j]?)) := by
    intro m
    induction m with
    | zero =>
      intro _
      exact Or.inr ⟨xs, ys, rfl, rfl, hlen, fun j hj => absurd hj (Nat.not_lt_zero j),
        fun j _ => ⟨rfl, rfl⟩⟩
    | succ k ih =>
      intro hk
      rcases ih (Nat.le_of_succ_le hk) with ⟨e, h1, h2⟩ | ⟨s, t, h1, h2, hl, hlt, hge⟩
      · left
        refine ⟨e, ?_, ?_⟩
        · unfold updateEachM at h1 ⊢
          rw [loopM_succ, h1]
        · unfold updateEachM at h2 ⊢
          rw [loopM_succ, h2]
      · unfold updateEachM at h1 h2 ⊢
        rw [loopM_succ, loopM_succ, h1, h2]
        simp only
        obtain ⟨hsk, htk⟩ := hge k (Nat.le_refl k)
        rw [hsk, htk]
        cases hx : xs[k]? with
        | none =>
          have hy : ys[k]? = none := by
            rw [List.getElem?_eq_none_iff] at hx ⊢
            omega
          rw [hy]
          exact Or.inl ⟨_, rfl, rfl⟩
        | some x =>
          have hkx : k < xs.length := (List.getElem?_eq_some.mp hx).1
          have hky : k < ys.length := by omega
          have hy : ys[k]? = some ys[k] := List.getElem?_eq_getElem hky
          rw [hy]
          simp only
          rw [hfg k hk x ys[k] hx hy]
          cases hg : g k ys[k] with
          | error e => exact Or.inl ⟨e, rfl, rfl⟩
          | ok z =>
            right
            refine ⟨s.set k z, t.set k z, rfl, rfl, by simp [hl], ?_, ?_⟩
            · intro j hj
              rcases Nat.lt_succ_iff_lt_or_eq.mp hj with hj2 | rfl
              · rw [List.getElem?_set_ne (by omega), List.getElem?_set_ne (by omega)]
                exact hlt j hj2
              · have hs : j < s.length := by
                  have := hsk
                  rw [hx] at this
                  exact (List.getElem?_eq_some.mp this).1
                have ht : j < t.length := by omega
                simp [List.getElem?_set_self, hs, ht]
            · intro j hj
              rw [List.getElem?_set_ne (by omega), List.getElem?_set_ne (by omega)]
              exact hge j (by omega)
  rcases key n (Nat.le_refl n) with ⟨e, h1, h2⟩ | ⟨s, t, h1, h2, hl, hlt, hge⟩
  · rw [h1, h2]
  · rw [h1, h2]
    congr 1
    apply List.ext_getElem?
    intro j
    rcases Nat.lt_or_ge j n with hj | hj
    · exact hlt j hj
    · rw [(hge j hj).1, (hge j hj).2]
      exact htail j hj

/-! ## The kernels: `axpy` and the sweeps over one block -/

/-- The scaled-vector accumulate with unit stride in `Y`: when `X` can be read at the `n`
strided positions and `Y` holds the `n` positions from `y0` on, those positions get
`y + alpha * x` and the rest of `Y` stays. -/
theorem axpy_ok {F : Type} [Add F] [Mul F] (n : Nat) (alpha : F) (X : Int → Option F)
    (incX : Int) (Y : List F) (y0 : Nat) (x : Nat → F)
    (hx : ∀ i, i < n → X (i * incX) = some (x i)) (hY : y0 + n ≤ Y.length) :
    ∃ Z, axpy n alpha X incX Y y0 1 = .ok Z ∧ Z.length = Y.length ∧
      ∀ p, Z[p]? = if y0 ≤ p ∧ p < y0 + n then Y[p]?.map (fun y => y + alpha * x (p - y0))
        else Y[p]? := by
  refine loopM_total
    (fun m (Z : List F) => Z.length = Y.length ∧
      ∀ p, Z[p]? = if y0 ≤ p ∧ p < y0 + m then Y[p]?.map (fun y => y + alpha * x (p - y0))
        else Y[p]?) n _ Y ⟨rfl, fun p => by rw [if_neg (by omega)]⟩ ?_
  intro i hi Z ⟨hlen, hZ⟩
  have hlt : y0 + i * 1 < Z.length := by omega
  have hZi : Z[y0 + i * 1]? = Y[y0 + i * 1]? := by
    rw [hZ]
    simp
  have hYi : Y[y0 + i * 1]? = some Y[y0 + i * 1] := List.getElem?_eq_getElem (by omega)
  refine ⟨Z.set (y0 + i * 1) (Y[y0 + i * 1] + alpha * x i), ?_, by simp [hlen], ?_⟩
  · simp only [hx i hi, hZi, hYi]
  · intro p
    by_cases hp : y0 + i * 1 = p
    · subst hp
      rw [List.getElem?_set_self hlt, hYi]
      simp
    · rw [List.getElem?_set_ne hp, hZ]
      by_cases h1 : y0 ≤ p ∧ p < y0 + i
      · have h2 : y0 ≤ p ∧ p < y0 + (i + 1) := ⟨h1.1, by omega⟩
        simp only [h1, h2, and_self, if_true]
      · have h2 : ¬ (y0 ≤ p ∧ p < y0 + (i + 1)) := by omega
        simp only [h1, h2, if_false]

/-- A position of row-major storage lies in row `mu0` exactly when its row index is `mu0`. -/
theorem row_major_row (cs mu0 mu nu : Nat) (hnu : nu < cs) :
    (mu0 * cs ≤ mu * cs + nu ∧ mu * cs + nu < mu0 * cs + cs) ↔ mu = mu0 := by
  constructor
  · rintro ⟨h1, h2⟩
    rcases Nat.lt_trichotomy mu mu0 with h | h | h
    · have : (mu + 1) * cs ≤ mu0 * cs := Nat.mul_le_mul_right cs h
      rw [Nat.add_mul] at this
      omega
    · exact h
    · have : (mu0 + 1) * cs ≤ mu * cs := Nat.mul_le_mul_right cs h
      rw [Nat.add_mul] at this
      omega
  · rintro rfl
    omega

/-- A position of row-major storage lies inside a block of `rs` rows. -/
theorem row_major_lt (rs cs mu nu : Nat) (hmu : mu < rs) (hnu : nu < cs) :
    mu * cs + nu < rs * cs := by
  have : (mu + 1) * cs ≤ rs * cs := Nat.mul_le_mul_right cs hmu
  rw [Nat.add_mul] at this
  omega

/-- A complex buffer seen as doubles: the real part sits at the even positions. -/
theorem readInterleaved_even {F : Type} (buf : List (Cplx F)) (k : Int) :
    readInterleaved buf (2 * k) = (readReal buf k).map Cplx.re := by
  unfold readInterleaved readReal
  by_cases hk : k < 0
  · have : 2 * k < 0 := by omega
    simp [hk, this]
  · have h2 : ¬ 2 * k < 0 := by omega
    have e1 : (2 * k).toNat / 2 = k.toNat := by omega
    have e2 : (2 * k).toNat % 2 = 0 := by omega
    simp only [hk, h2, if_false, e1, e2]
    cases buf[k.toNat]? <;> simp

/-- A complex buffer seen as doubles: the imaginary part sits at the odd positions. -/
theorem readInterleaved_odd {F : Type} (buf : List (Cplx F)) (k : Int) :
    readInterleaved buf (2 * k + 1) = (readReal buf k).map Cplx.im := by
  unfold readInterleaved readReal
  by_cases hk : k < 0
  · have : 2 * k + 1 < 0 := by omega
    simp [hk, this]
  · have h2 : ¬ 2 * k + 1 < 0 := by omega
    have e1 : (2 * k + 1).toNat / 2 = k.toNat := by omega
    have e2 : ¬ (2 * k + 1).toNat % 2 = 0 := by omega
    simp only [hk, h2, if_false, e1, e2]
    cases buf[k.toNat]? <;> simp

/-- Two blocks of one shape that agree at every row and column are equal. -/
theorem BaseMatrix.ext_row_major {F : Type} (rs cs : Nat) (m1 m2 : BaseMatrix F)
    (hr : m1.nrow_local = m2.nrow_local) (hc : m1.ncol_local = m2.ncol_local)
    (h1 : m1.value_begin.length = rs * cs) (h2 : m2.value_begin.length = rs * cs)
    (h : ∀ mu nu, mu < rs → nu < cs →
      m1.value_begin[mu * cs + nu]? = m2.value_begin[mu * cs + nu]?) : m1 = m2 := by
  have hv : m1.value_begin = m2.value_begin := by
    apply List.ext_getElem?
    intro p
    by_cases hp : p < rs * cs
    · have hcs : 0 < cs := by
        rcases Nat.eq_zero_or_pos cs with h0 | h0
        · rw [h0] at hp; simp at hp
        · exact h0
      have hdiv : p / cs < rs := (Nat.div_lt_iff_lt_mul hcs).mpr hp
      have := h (p / cs) (p % cs) hdiv (Nat.mod_lt p hcs)
      rwa [Nat.div_add_mod' p cs] at this
    · rw [List.getElem?_eq_none (by omega), List.getElem?_eq_none (by omega)]
  cases m1
  cases m2
  simp only at hr hc hv
  rw [hr, hc, hv]

/-- The Gamma-only sweep adds `1 * d` to every element of the block, where `d` is the
element of the DM(k) buffer at offset `(col_ap + nu) * nrow + row_ap + mu`. -/
theorem cal_DMR_gamma_sweep_ok {F : Type} [One F] [Add F] [Mul F]
    (paraV : Parallel_Orbitals) (iat1 iat2 : Nat) (row_ap col_ap : Int) (DMK : List F)
    (m : BaseMatrix F) (d : Nat → Nat → F)
    (hd : ∀ mu nu, mu < paraV.get_row_size iat1 → nu < paraV.get_col_size iat2 →
      readReal DMK ((col_ap + nu) * paraV.nrow + row_ap + mu) = some (d mu nu))
    (hm : m.value_begin.length = paraV.get_row_size iat1 * paraV.get_col_size iat2) :
    ∃ m2, cal_DMR_gamma_sweep paraV iat1 iat2 row_ap col_ap paraV.nrow DMK m = .ok m2 ∧
      m2.nrow_local = m.nrow_local ∧ m2.ncol_local = m.ncol_local ∧
      m2.value_begin.length = m.value_begin.length ∧
      ∀ mu nu, mu < paraV.get_row_size iat1 → nu < paraV.get_col_size iat2 →
        m2.value_begin[mu * paraV.get_col_size iat2 + nu]? =
          (m.value_begin[mu * paraV.get_col_size iat2 + nu]?).map
            (fun y => y + 1 * d mu nu) := by
  generalize hrs : paraV.get_row_size iat1 = rs at *
  generalize hcs : paraV.get_col_size iat2 = cs at *
  obtain ⟨s, hs, h1, h2, h3, h4⟩ := loopM_total
    (fun mu0 (s : Int × Nat × List F) =>
      s.1 = 0 + (col_ap * paraV.nrow + row_ap) + mu0 ∧ s.2.1 = mu0 * cs ∧
      s.2.2.length = m.value_begin.length ∧
      ∀ mu nu, mu < rs → nu < cs →
        s.2.2[mu * cs + nu]? =
          if mu < mu0 then (m.value_begin[mu * cs + nu]?).map (fun y => y + 1 * d mu nu)
          else m.value_begin[mu * cs + nu]?) rs
    (fun _ (s : Int × Nat × List F) =>
      match axpy cs (1 : F) (fun d => readReal DMK (s.1 + d)) paraV.nrow s.2.2 s.2.1 1 with
      | .error e => .error e
      | .ok Y1 => .ok (s.1 + 1, s.2.1 + cs, Y1))
    (0 + (col_ap * paraV.nrow + row_ap), 0, m.value_begin)
    ⟨by simp, by simp, rfl, fun mu nu _ _ => by simp⟩
    (by
      rintro mu0 hmu0 ⟨p, q, Z⟩ ⟨hp, hq, hlen, hZ⟩
      simp only at hp hq hlen hZ
      obtain ⟨Y1, hY1, hl1, hc1⟩ := axpy_ok cs (1 : F)
        (fun d => readReal DMK (p + d)) paraV.nrow Z q (fun i => d mu0 i)
        (by
          intro i hi
          have := hd mu0 i hmu0 hi
          have e : p + (i : Int) * (paraV.nrow : Int) =
              (col_ap + i) * paraV.nrow + row_ap + mu0 := by rw [hp]; ring
          simp only [e, this])
        (by
          rw [hq, hlen, hm]
          have := row_major_lt rs cs mu0 0 hmu0
          have : (mu0 + 1) * cs ≤ rs * cs := Nat.mul_le_mul_right cs hmu0
          rw [Nat.add_mul] at this
          omega)
      refine ⟨(p + 1, q + cs, Y1), by simp only [hY1], ?_, ?_, ?_, ?_⟩
      · simp only [hp]; push_cast; ring
      · simp only [hq, Nat.add_mul, Nat.one_mul]
      · simp only [hl1, hlen]
      · intro mu nu hmu hnu
        simp only
        rw [hc1, hq]
        by_cases hrow : mu = mu0
        · subst hrow
          have hin := (row_major_row cs mu mu nu hnu).mpr rfl
          rw [if_pos hin, hZ mu nu hmu hnu, if_neg (Nat.lt_irrefl mu),
            if_pos (Nat.lt_succ_self mu)]
          simp
        · have hout : ¬ (mu0 * cs ≤ mu * cs + nu ∧ mu * cs + nu < mu0 * cs + cs) :=
            fun h => hrow ((row_major_row cs mu0 mu nu hnu).mp h)
          rw [if_neg hout, hZ mu nu hmu hnu]
          by_cases hlt : mu < mu0
          · rw [if_pos hlt, if_pos (Nat.lt_succ_of_lt hlt)]
          · rw [if_neg hlt, if_neg (by omega)])
  refine ⟨{ m with value_begin := s.2.2 }, ?_, rfl, rfl, h3, ?_⟩
  · unfold cal_DMR_gamma_sweep
    simp only [hrs, hcs]
    erw [hs]
  · intro mu nu hmu hnu
    simp only
    rw [h4 mu nu hmu hnu, if_pos hmu]

/-- The multi-k sweep adds `kphase.re * D.re` and then `(-kphase.im) * D.im` to every
element of the block, where `D` is the element of the DM(k) buffer at offset
`(col_ap + nu) * nrow + row_ap + mu`. -/
theorem cal_DMR_multi_k_sweep_ok {F : Type} [Add F] [Mul F] [Neg F]
    (paraV : Parallel_Orbitals) (iat1 iat2 : Nat) (row_ap col_ap : Int) (kphase : Cplx F)
    (DMK : List (Cplx F)) (m : BaseMatrix F) (D : Nat → Nat → Cplx F)
    (hD : ∀ mu nu, mu < paraV.get_row_size iat1 → nu < paraV.get_col_size iat2 →
      readReal DMK ((col_ap + nu) * paraV.nrow + row_ap + mu) = some (D mu nu))
    (hm : m.value_begin.length = paraV.get_row_size iat1 * paraV.get_col_size iat2) :
    ∃ m2, cal_DMR_multi_k_sweep paraV iat1 iat2 row_ap col_ap (2 * paraV.nrow) kphase DMK m
        = .ok m2 ∧
      m2.nrow_local = m.nrow_local ∧ m2.ncol_local = m.ncol_local ∧
      m2.value_begin.length = m.value_begin.length ∧
      ∀ mu nu, mu < paraV.get_row_size iat1 → nu < paraV.get_col_size iat2 →
        m2.value_begin[mu * paraV.get_col_size iat2 + nu]? =
          (m.value_begin[mu * paraV.get_col_size iat2 + nu]?).map
            (fun y => y + kphase.re * (D mu nu).re + -kphase.im * (D mu nu).im) := by
  generalize hrs : paraV.get_row_size iat1 = rs at *
  generalize hcs : paraV.get_col_size iat2 = cs at *
  obtain ⟨s, hs, h1, h2, h3, h4⟩ := loopM_total
    (fun mu0 (s : Int × Nat × List F) =>
      s.1 = 0 + (col_ap * paraV.nrow + row_ap) + mu0 ∧ s.2.1 = mu0 * cs ∧
      s.2.2.length = m.value_begin.length ∧
      ∀ mu nu, mu < rs → nu < cs →
        s.2.2[mu * cs + nu]? =
          if mu < mu0 then (m.value_begin[mu * cs + nu]?).map
            (fun y => y + kphase.re * (D mu nu).re + -kphase.im * (D mu nu).im)
          else m.value_begin[mu * cs + nu]?) rs
    (fun _ (s : Int × Nat × List F) =>
      match axpy cs kphase.re (fun d => readInterleaved DMK (2 * s.1 + d))
          (2 * paraV.nrow) s.2.2 s.2.1 1 with
      | .error e => .error e
      | .ok Y1 =>
        match axpy cs (-kphase.im) (fun d => readInterleaved DMK (2 * s.1 + (1 + d)))
            (2 * paraV.nrow) Y1 s.2.1 1 with
        | .error e => .error e
        | .ok Y2 => .ok (s.1 + 1, s.2.1 + cs, Y2))
    (0 + (col_ap * paraV.nrow + row_ap), 0, m.value_begin)
    ⟨by simp, by simp, rfl, fun mu nu _ _ => by simp⟩
    (by
      rintro mu0 hmu0 ⟨p, q, Z⟩ ⟨hp, hq, hlen, hZ⟩
      simp only at hp hq hlen hZ
      have hroom : q + cs ≤ Z.length := by
        rw [hq, hlen, hm]
        have : (mu0 + 1) * cs ≤ rs * cs := Nat.mul_le_mul_right cs hmu0
        rw [Nat.add_mul] at this
        omega
      have hread : ∀ i, i < cs → readReal DMK (p + (i : Int) * (paraV.nrow : Int)) =
          some (D mu0 i) := by
        intro i hi
        have e : p + (i : Int) * (paraV.nrow : Int) =
            (col_ap + i) * paraV.nrow + row_ap + mu0 := by rw [hp]; ring
        rw [e]
        exact hD mu0 i hmu0 hi
      obtain ⟨Y1, hY1, hl1, hc1⟩ := axpy_ok cs kphase.re
        (fun d => readInterleaved DMK (2 * p + d)) (2 * paraV.nrow) Z q
        (fun i => (D mu0 i).re)
        (by
          intro i hi
          have e : 2 * p + (i : Int) * (2 * (paraV.nrow : Int)) =
              2 * (p + (i : Int) * (paraV.nrow : Int)) := by ring
          simp only [e, readInterleaved_even, hread i hi, Option.map_some'])
        hroom
      obtain ⟨Y2, hY2, hl2, hc2⟩ := axpy_ok cs (-kphase.im)
        (fun d => readInterleaved DMK (2 * p + (1 + d))) (2 * paraV.nrow) Y1 q
        (fun i => (D mu0 i).im)
        (by
          intro i hi
          have e : 2 * p + (1 + (i : Int) * (2 * (paraV.nrow : Int))) =
              2 * (p + (i : Int) * (paraV.nrow : Int)) + 1 := by ring
          simp only [e, readInterleaved_odd, hread i hi, Option.map_some'])
        (by rw [hl1]; exact hroom)
      refine ⟨(p + 1, q + cs, Y2), by simp only [hY1, hY2], ?_, ?_, ?_, ?_⟩
      · simp only [hp]; push_cast; ring
      · simp only [hq, Nat.add_mul, Nat.one_mul]
      · simp only [hl2, hl1, hlen]
      · intro mu nu hmu hnu
        simp only
        rw [hc2, hc1, hq]
        by_cases hrow : mu = mu0
        · subst hrow
          have hin := (row_major_row cs mu mu nu hnu).mpr rfl
          simp only [if_pos hin, hZ mu nu hmu hnu, if_neg (Nat.lt_irrefl mu),
            if_pos (Nat.lt_succ_self mu), Nat.add_sub_cancel_left, Option.map_map]
          rfl
        · have hout : ¬ (mu0 * cs ≤ mu * cs + nu ∧ mu * cs + nu < mu0 * cs + cs) :=
            fun h => hrow ((row_major_row cs mu0 mu nu hnu).mp h)
          simp only [if_neg hout, hZ mu nu hmu hnu]
          by_cases hlt : mu < mu0
          · rw [if_pos hlt, if_pos (Nat.lt_succ_of_lt hlt)]
          · rw [if_neg hlt, if_neg (by omega)])
  refine ⟨{ m with value_begin := s.2.2 }, ?_, rfl, rfl, h3, ?_⟩
  · unfold cal_DMR_multi_k_sweep
    simp only [hrs, hcs]
    erw [hs]
  · intro mu nu hmu hnu
    simp only
    rw [h4 mu nu hmu hnu, if_pos hmu]

/-- Two positions of row-major storage are equal exactly when row and column are. -/
theorem row_major_inj (cs i j mu nu : Nat) (hj : j < cs) (hnu : nu < cs) :
    i * cs + j = mu * cs + nu ↔ i = mu ∧ j = nu := by
  constructor
  · intro h
    have hmu : mu = i := (row_major_row cs i mu nu hnu).mp ⟨by omega, by omega⟩
    subst hmu
    exact ⟨rfl, by omega⟩
  · rintro ⟨rfl, rfl⟩
    rfl

/-- The element loops of the reference transform add the real part of `kphase * D` to
every element of the block. -/
theorem cal_DMR_test_fill_ok {TK F : Type} [Add F] [HMul (Cplx F) TK (Cplx F)]
    (paraV : Parallel_Orbitals) (iat1 iat2 : Nat) (row_ap col_ap : Int) (kphase : Cplx F)
    (_DMK : List (List TK)) (ik : Nat) (DMK : List TK) (m : BaseMatrix F)
    (D : Nat → Nat → TK) (hik : _DMK[ik]? = some DMK)
    (hD : ∀ mu nu, mu < paraV.get_row_size iat1 → nu < paraV.get_col_size iat2 →
      readReal DMK ((col_ap + nu) * paraV.nrow + row_ap + mu) = some (D mu nu))
    (hc : m.ncol_local = paraV.get_col_size iat2)
    (hm : m.value_begin.length = paraV.get_row_size iat1 * paraV.get_col_size iat2) :
    ∃ m2, cal_DMR_test_fill paraV iat1 iat2 row_ap col_ap kphase _DMK ik m = .ok m2 ∧
      m2.nrow_local = m.nrow_local ∧ m2.ncol_local = m.ncol_local ∧
      m2.value_begin.length = m.value_begin.length ∧
      ∀ mu nu, mu < paraV.get_row_size iat1 → nu < paraV.get_col_size iat2 →
        m2.value_begin[mu * paraV.get_col_size iat2 + nu]? =
          (m.value_begin[mu * paraV.get_col_size iat2 + nu]?).map
            (fun y => y + (kphase * D mu nu : Cplx F).re) := by
  generalize hrs : paraV.get_row_size iat1 = rs at *
  generalize hcs : paraV.get_col_size iat2 = cs at *
  unfold cal_DMR_test_fill
  simp only [hrs, hcs]
  refine (loopM_total
    (fun i0 (s : BaseMatrix F) =>
      s.nrow_local = m.nrow_local ∧ s.ncol_local = m.ncol_local ∧
      s.value_begin.length = m.value_begin.length ∧
      ∀ mu nu, mu < rs → nu < cs →
        s.value_begin[mu * cs + nu]? =
          if mu < i0 then (m.value_begin[mu * cs + nu]?).map
            (fun y => y + (kphase * D mu nu : Cplx F).re)
          else m.value_begin[mu * cs + nu]?) rs _ m
    ⟨rfl, rfl, rfl, fun mu nu _ _ => by simp⟩ ?_).imp
    (fun m2 h => ⟨h.1, h.2.1, h.2.2.1, h.2.2.2.1, fun mu nu hmu hnu => by
      rw [h.2.2.2.2 mu nu hmu hnu, if_pos hmu]⟩)
  intro i hi s ⟨hs1, hs2, hs3, hs4⟩
  refine (loopM_total
      (fun j0 (t : BaseMatrix F) =>
        t.nrow_local = m.nrow_local ∧ t.ncol_local = m.ncol_local ∧
        t.value_begin.length = m.value_begin.length ∧
        ∀ mu nu, mu < rs → nu < cs →
          t.value_begin[mu * cs + nu]? =
            if mu < i ∨ (mu = i ∧ nu < j0) then (m.value_begin[mu * cs + nu]?).map
              (fun y => y + (kphase * D mu nu : Cplx F).re)
            else m.value_begin[mu * cs + nu]?) cs _ s
      ⟨hs1, hs2, hs3, fun mu nu hmu hnu => by
        rw [hs4 mu nu hmu hnu]
        simp⟩ ?_).imp
      (fun t h => ⟨h.1, h.2.1, h.2.2.1, h.2.2.2.1, fun mu nu hmu hnu => by
          rw [h.2.2.2.2 mu nu hmu hnu]
          by_cases h1 : mu < i
          · rw [if_pos (Or.inl h1), if_pos (Nat.lt_succ_of_lt h1)]
          · by_cases h2 : mu = i
            · subst h2
              rw [if_pos (Or.inr ⟨rfl, hnu⟩), if_pos (Nat.lt_succ_self mu)]
            · rw [if_neg (by omega), if_neg (by omega)]⟩)
  intro j hj t ⟨ht1, ht2, ht3, ht4⟩
  have hpos : i * cs + j < t.value_begin.length := by
    rw [ht3, hm]
    exact row_major_lt rs cs i j hi hj
  have hcur : t.value_begin[i * cs + j]? = m.value_begin[i * cs + j]? := by
    rw [ht4 i j hi hj, if_neg (by omega)]
  have hmij : m.value_begin[i * cs + j]? = some m.value_begin[i * cs + j] :=
    List.getElem?_eq_getElem (by rw [hm]; exact row_major_lt rs cs i j hi hj)
  have hcol : t.ncol_local = cs := by rw [ht2, hc]
  let v : F := m.value_begin[i * cs + j] + (kphase * D i j : Cplx F).re
  refine ⟨{ t with value_begin := t.value_begin.set (i * cs + j) v }, ?_, ht1, ht2,
      by simp [ht3], ?_⟩
  · simp only [hik, hD i j hi hj, BaseMatrix.add_element, hcol, hcur, hmij, v]
  · intro mu nu hmu hnu
    simp only
    by_cases hsame : i * cs + j = mu * cs + nu
    · obtain ⟨rfl, rfl⟩ := (row_major_inj cs i j mu nu hj hnu).mp hsame
      rw [List.getElem?_set_self hpos, if_pos (Or.inr ⟨rfl, Nat.lt_succ_self j⟩), hmij]
      rfl
    · rw [List.getElem?_set_ne hsame, ht4 mu nu hmu hnu]
      have hne : ¬ (i = mu ∧ j = nu) :=
        fun h => hsame ((row_major_inj cs i j mu nu hj hnu).mpr h)
      by_cases h1 : mu < i ∨ (mu = i ∧ nu < j)
      · rw [if_pos h1, if_pos (by omega)]
      · rw [if_neg h1, if_neg (by omega)]

/-! ## One block: the loop over the k-points -/

/-- A read at an offset inside the buffer succeeds. -/
theorem readReal_some {T : Type} (buf : List T) (off : Int) (z : T) (h0 : 0 ≤ off)
    (h1 : off < buf.length) : readReal buf off = some ((readReal buf off).getD z) := by
  unfold readReal
  rw [if_neg (by omega), List.getElem?_eq_getElem (by omega)]
  rfl

/-- The offsets that the transform reads lie inside a buffer of `nrow * ncol` elements
when the rows and columns of the atom pair lie inside the local matrix. -/
theorem offset_in_range (nrow ncol rs cs mu nu : Nat) (row_ap col_ap : Int)
    (h1 : 0 ≤ row_ap) (h2 : row_ap + rs ≤ nrow) (h3 : 0 ≤ col_ap) (h4 : col_ap + cs ≤ ncol)
    (hmu : mu < rs) (hnu : nu < cs) :
    0 ≤ (col_ap + nu) * nrow + row_ap + mu ∧
      (col_ap + nu) * nrow + row_ap + mu < ((nrow * ncol : Nat) : Int) := by
  have hmu2 : (mu : Int) < rs := by exact_mod_cast hmu
  have hnu2 : (nu : Int) < cs := by exact_mod_cast hnu
  have hn : (0 : Int) ≤ nrow := Int.natCast_nonneg nrow
  have hc : 0 ≤ col_ap + nu := by omega
  have hp : 0 ≤ (col_ap + nu) * nrow := Int.mul_nonneg hc hn
  have hle : (col_ap + nu + 1) * nrow ≤ (ncol : Int) * nrow :=
    Int.mul_le_mul_of_nonneg_right (by omega) hn
  have e1 : (col_ap + nu + 1) * (nrow : Int) = (col_ap + nu) * nrow + nrow := by ring
  have e2 : ((nrow * ncol : Nat) : Int) = (ncol : Int) * nrow := by push_cast; ring
  rw [e2]
  constructor
  · omega
  · omega

/-- The multi-k loop over the k-points of one block: every k-point adds
`cos * Re D` and then `(-sin) * Im D` to each element. -/
theorem cal_DMR_multi_k_block_ok {F : Type} [Add F] [Mul F] [Neg F] [IntCast F]
    (lm : Libm F) (st : DensityMatrix (Cplx F) F) (ik_begin iat1 iat2 : Nat)
    (row_ap col_ap : Int) (r : Vector3 Int) (m : BaseMatrix F)
    (K : Nat → Vector3 F) (B : Nat → List (Cplx F)) (D : Nat → Nat → Nat → Cplx F)
    (hK : ∀ k, k < st._nks → st.kvec_d k = some (K k))
    (hB : ∀ k, k < st._nks → st._DMK[k + ik_begin]? = some (B k))
    (hD : ∀ k mu nu, k < st._nks → mu < st._paraV.get_row_size iat1 →
      nu < st._paraV.get_col_size iat2 →
      readReal (B k) ((col_ap + nu) * st._paraV.nrow + row_ap + mu) = some (D k mu nu))
    (hm : m.value_begin.length = st._paraV.get_row_size iat1 * st._paraV.get_col_size iat2) :
    ∃ m2, st.cal_DMR_multi_k_block lm (2 * st._paraV.nrow) ik_begin iat1 iat2 row_ap col_ap r m
        = .ok m2 ∧
      m2.nrow_local = m.nrow_local ∧ m2.ncol_local = m.ncol_local ∧
      m2.value_begin.length = m.value_begin.length ∧
      ∀ mu nu, mu < st._paraV.get_row_size iat1 → nu < st._paraV.get_col_size iat2 →
        m2.value_begin[mu * st._paraV.get_col_size iat2 + nu]? =
          (m.value_begin[mu * st._paraV.get_col_size iat2 + nu]?).map
            (fun y => loop st._nks (fun k y =>
              y + (kphase lm (K k) r).re * (D k mu nu).re
                + -(kphase lm (K k) r).im * (D k mu nu).im) y) := by
  unfold DensityMatrix.cal_DMR_multi_k_block
  refine loopM_total
    (fun k0 (t : BaseMatrix F) =>
      t.nrow_local = m.nrow_local ∧ t.ncol_local = m.ncol_local ∧
      t.value_begin.length = m.value_begin.length ∧
      ∀ mu nu, mu < st._paraV.get_row_size iat1 → nu < st._paraV.get_col_size iat2 →
        t.value_begin[mu * st._paraV.get_col_size iat2 + nu]? =
          (m.value_begin[mu * st._paraV.get_col_size iat2 + nu]?).map
            (fun y => loop k0 (fun k y =>
              y + (kphase lm (K k) r).re * (D k mu nu).re
                + -(kphase lm (K k) r).im * (D k mu nu).im) y)) st._nks _ m
    ⟨rfl, rfl, rfl, fun mu nu _ _ => by simp [loop]⟩ ?_
  intro k hk t ⟨ht1, ht2, ht3, ht4⟩
  have hKk := hK k hk
  unfold DensityMatrix.kvec_d at hKk
  cases hkv : st._kv with
  | none => rw [hkv] at hKk; cases hKk
  | some kv =>
    rw [hkv] at hKk
    simp only at hKk
    obtain ⟨m2, h1, h2, h3, h4, h5⟩ := cal_DMR_multi_k_sweep_ok st._paraV iat1 iat2 row_ap
      col_ap (kphase lm (K k) r) (B k) t (D k) (fun mu nu hmu hnu => hD k mu nu hk hmu hnu)
      (by rw [ht3, hm])
    refine ⟨m2, ?_, by rw [h2, ht1], by rw [h3, ht2], by rw [h4, ht3], ?_⟩
    · simp only [hKk, hB k hk]
      exact h1
    · intro mu nu hmu hnu
      rw [h5 mu nu hmu hnu, ht4 mu nu hmu hnu, Option.map_map]
      rfl

/-- The reference loop over the k-points of one block: every k-point adds the real part
of `kphase * D` to each element. -/
theorem cal_DMR_test_block_ok {TK F : Type} [Add F] [Mul F] [IntCast F]
    [HMul (Cplx F) TK (Cplx F)]
    (lm : Libm F) (st : DensityMatrix TK F) (ik_begin iat1 iat2 : Nat)
    (row_ap col_ap : Int) (r : Vector3 Int) (m : BaseMatrix F)
    (K : Nat → Vector3 F) (B : Nat → List TK) (D : Nat → Nat → Nat → TK)
    (hK : ∀ k, k < st._nks → st.kvec_d k = some (K k))
    (hB : ∀ k, k < st._nks → st._DMK[ik_begin + k]? = some (B k))
    (hD : ∀ k mu nu, k < st._nks → mu < st._paraV.get_row_size iat1 →
      nu < st._paraV.get_col_size iat2 →
      readReal (B k) ((col_ap + nu) * st._paraV.nrow + row_ap + mu) = some (D k mu nu))
    (hc : m.ncol_local = st._paraV.get_col_size iat2)
    (hm : m.value_begin.length = st._paraV.get_row_size iat1 * st._paraV.get_col_size iat2) :
    ∃ m2, st.cal_DMR_test_block lm ik_begin iat1 iat2 row_ap col_ap r m = .ok m2 ∧
      m2.nrow_local = m.nrow_local ∧ m2.ncol_local = m.ncol_local ∧
      m2.value_begin.length = m.value_begin.length ∧
      ∀ mu nu, mu < st._paraV.get_row_size iat1 → nu < st._paraV.get_col_size iat2 →
        m2.value_begin[mu * st._paraV.get_col_size iat2 + nu]? =
          (m.value_begin[mu * st._paraV.get_col_size iat2 + nu]?).map
            (fun y => loop st._nks (fun k y =>
              y + (kphase lm (K k) r * D k mu nu : Cplx F).re) y) := by
  unfold DensityMatrix.cal_DMR_test_block
  refine loopM_total
    (fun k0 (t : BaseMatrix F) =>
      t.nrow_local = m.nrow_local ∧ t.ncol_local = m.ncol_local ∧
      t.value_begin.length = m.value_begin.length ∧
      ∀ mu nu, mu < st._paraV.get_row_size iat1 → nu < st._paraV.get_col_size iat2 →
        t.value_begin[mu * st._paraV.get_col_size iat2 + nu]? =
          (m.value_begin[mu * st._paraV.get_col_size iat2 + nu]?).map
            (fun y => loop k0 (fun k y =>
              y + (kphase lm (K k) r * D k mu nu : Cplx F).re) y)) st._nks _ m
    ⟨rfl, rfl, rfl, fun mu nu _ _ => by simp [loop]⟩ ?_
  intro k hk t ⟨ht1, ht2, ht3, ht4⟩
  have hKk := hK k hk
  unfold DensityMatrix.kvec_d at hKk
  cases hkv : st._kv with
  | none => rw [hkv] at hKk; cases hKk
  | some kv =>
    rw [hkv] at hKk
    simp only at hKk
    obtain ⟨m2, h1, h2, h3, h4, h5⟩ := cal_DMR_test_fill_ok st._paraV iat1 iat2 row_ap
      col_ap (kphase lm (K k) r) st._DMK (ik_begin + k) (B k) t (D k) (hB k hk)
      (fun mu nu hmu hnu => hD k mu nu hk hmu hnu) (by rw [ht2, hc]) (by rw [ht3, hm])
    refine ⟨m2, ?_, by rw [h2, ht1], by rw [h3, ht2], by rw [h4, ht3], ?_⟩
    · simp only [hKk]
      exact h1
    · intro mu nu hmu hnu
      rw [h5 mu nu hmu hnu, ht4 mu nu hmu hnu, Option.map_map]
      rfl

/-! ## The loops over translations, atom pairs and spins -/

/-- The block that `find_matrix` returns for the translation number `ir` is the block
number `ir`, when no translation is stored twice. -/
theorem find_R_getElem {F : Type} (ap : AtomPair F) (hnd : ap.R_index.Nodup) (ir : Nat)
    (r : Vector3 Int) (h : ap.R_index[ir]? = some r) : ap.find_R r = some ir := by
  obtain ⟨hlt, hr⟩ := List.getElem?_eq_some.mp h
  unfold AtomPair.find_R
  have : ap.R_index.indexOf r = ir := by
    rw [← hr]
    exact List.indexOf_getElem hnd ir hlt
  simp only [this, hlt, if_true]

/-- Two loops, the states of the second mapped to those of the first by `φ`, whose
bodies correspond on the states of an invariant of the second, have corresponding
outcomes. -/
theorem loopM_map {σ τ : Type} (φ : τ → σ) (Inv : Nat → τ → Prop) (n : Nat)
    (body1 : Nat → σ → Except Err σ) (body2 : Nat → τ → Except Err τ) (t0 : τ)
    (h0 : Inv 0 t0)
    (hstep : ∀ i, i < n → ∀ t, Inv i t →
      body1 i (φ t) = (body2 i t).map φ ∧ ∀ u, body2 i t = .ok u → Inv (i + 1) u) :
    loopM n body1 (φ t0) = (loopM n body2 t0).map φ := by
  have key : ∀ m, m ≤ n → loopM m body1 (φ t0) = (loopM m body2 t0).map φ ∧
      ∀ u, loopM m body2 t0 = .ok u → Inv m u := by
    intro m
    induction m with
    | zero =>
      intro _
      refine ⟨rfl, fun u hu => ?_⟩
      cases hu
      exact h0
    | succ k ih =>
      intro hk
      obtain ⟨e1, e2⟩ := ih (Nat.le_of_succ_le hk)
      rw [loopM_succ, loopM_succ, e1]
      cases hl : loopM k body2 t0 with
      | error e => exact ⟨rfl, fun u hu => by cases hu⟩
      | ok u =>
        obtain ⟨a, b⟩ := hstep k hk u (e2 u hl)
        exact ⟨a, b⟩
  exact (key n (Nat.le_refl n)).1

/-- The loop over the translations of a well-formed atom pair works on the blocks one by
one, in the order of the translations. -/
theorem for_each_R_eq {F : Type} (ap : AtomPair F)
    (body : Vector3 Int → BaseMatrix F → Except Err (BaseMatrix F))
    (hnd : ap.R_index.Nodup) (hlen : ap.values.length = ap.R_index.length) :
    ap.for_each_R body =
      (updateEachM ap.R_index.length (ap.body_at body) ap.values).map ap.with_values := by
  have hap : ap = ap.with_values ap.values := rfl
  unfold AtomPair.for_each_R updateEachM AtomPair.get_R_size
  conv => lhs; rw [hap]
  refine loopM_map ap.with_values
    (fun _ (vs : List (BaseMatrix F)) => vs.length = ap.values.length) ap.R_index.length
    _ _ ap.values rfl ?_
  intro i hi vs hvs
  have hr : ap.R_index[i]? = some ap.R_index[i] := List.getElem?_eq_getElem hi
  have hv : vs[i]? = some vs[i] := List.getElem?_eq_getElem (by omega)
  have hfind : (ap.with_values vs).find_R ap.R_index[i] = some i :=
    find_R_getElem (ap.with_values vs) hnd i _ hr
  have hri : (ap.with_values vs).R_index[i]? = some ap.R_index[i] := hr
  have hvi : (ap.with_values vs).values[i]? = some vs[i] := hv
  simp only [AtomPair.get_R_index, AtomPair.find_matrix, AtomPair.store_matrix,
    AtomPair.body_at, hri, hvi, hr, hv, hfind]
  cases hb : body ap.R_index[i] vs[i] with
  | error e => exact ⟨rfl, fun u hu => by cases hu⟩
  | ok m =>
    refine ⟨rfl, fun u hu => ?_⟩
    cases hu
    simp [hvs]

/-- A run of `updateEachM` whose steps either succeed or fail with one fixed error either
succeeds, all steps having succeeded, or fails with that error at some step. -/
theorem updateEachM_dichotomy {α : Type} (n : Nat) (f : Nat → α → Except Err α)
    (xs : List α) (e0 : Err) (hn : n ≤ xs.length)
    (h : ∀ i x, i < n → xs[i]? = some x → (∃ y, f i x = .ok y) ∨ f i x = .error e0) :
    (∃ ys, updateEachM n f xs = .ok ys ∧
        ∀ i, i < n → ∃ x y, xs[i]? = some x ∧ f i x = .ok y) ∨
      (updateEachM n f xs = .error e0 ∧ ∃ i x, i < n ∧ xs[i]? = some x ∧ f i x = .error e0) := by
  by_cases hall : ∀ i, i < n → ∃ x y, xs[i]? = some x ∧ f i x = .ok y
  · obtain ⟨ys, hys, _⟩ := updateEachM_ok n f xs hall
    exact Or.inl ⟨ys, hys, hall⟩
  · right
    have hex : ∃ i, i < n ∧ ¬ ∃ x y, xs[i]? = some x ∧ f i x = .ok y := by
      by_contra hcon
      exact hall (fun i hi => by
        by_contra h2
        exact hcon ⟨i, hi, h2⟩)
    classical
    let i := Nat.find hex
    have hi : i < n ∧ ¬ ∃ x y, xs[i]? = some x ∧ f i x = .ok y := Nat.find_spec hex
    have hmin : ∀ j, j < i → ∃ x y, xs[j]? = some x ∧ f j x = .ok y := by
      intro j hj
      by_contra h2
      exact Nat.find_min hex hj ⟨Nat.lt_trans hj hi.1, h2⟩
    have hx : xs[i]? = some xs[i] := List.getElem?_eq_getElem (by omega)
    have hfail : f i xs[i] = .error e0 := by
      rcases h i xs[i] hi.1 hx with ⟨y, hy⟩ | he
      · exact absurd ⟨xs[i], y, hx, hy⟩ hi.2
      · exact he
    exact ⟨updateEachM_error n i hi.1 f xs xs[i] e0 hmin hx hfail, i, xs[i], hi.1, hx, hfail⟩

/-- The loop over the atom pairs is `updateEachM` with the ownership test in each step. -/
theorem for_each_atom_pair_eq {F : Type} (paraV : Parallel_Orbitals) (c : HContainer F)
    (body : (iat1 iat2 : Nat) → (row_ap col_ap : Int) → AtomPair F → Except Err (AtomPair F)) :
    c.for_each_atom_pair paraV body =
      (updateEachM c.atom_pairs.length (fun _ => pair_step paraV body) c.atom_pairs).map
        c.with_pairs := by
  unfold HContainer.for_each_atom_pair HContainer.size_atom_pairs
  have e : (fun (_ : Nat) (tmp_ap : AtomPair F) =>
      let iat1 := tmp_ap.atom_i
      let iat2 := tmp_ap.atom_j
      let row_ap := paraV.atom_begin_row iat1
      let col_ap := paraV.atom_begin_col iat2
      if row_ap = -1 ∨ col_ap = -1 then Except.error Err.OwnershipViolation
      else body iat1 iat2 row_ap col_ap tmp_ap) = (fun _ => pair_step paraV body) := rfl
  rw [e]
  cases updateEachM c.atom_pairs.length (fun _ => pair_step paraV body) c.atom_pairs <;> rfl

/-- The loop over the spins is `updateEachM` over the DM(R) store. -/
theorem for_each_spin_eq {TK F : Type} (st : DensityMatrix TK F)
    (body : (ik_begin : Nat) → HContainer F → Except Err (HContainer F)) :
    st.for_each_spin body =
      (updateEachM st._nspin (fun i => body (st._nks * (i + 1 - 1))) st._DMR).map
        st.with_DMR := by
  unfold DensityMatrix.for_each_spin
  cases updateEachM st._nspin (fun i => body (st._nks * (i + 1 - 1))) st._DMR <;> rfl

/-- An element of a list at a position is a member of the list. -/
theorem mem_of_getElem?_eq {α : Type} (xs : List α) (i : Nat) (x : α) (h : xs[i]? = some x) :
    x ∈ xs := by
  obtain ⟨hlt, hx⟩ := List.getElem?_eq_some.mp h
  rw [← hx]
  exact List.getElem_mem hlt

/-- A run of `updateEachM` over the whole list whose steps succeed with a result in the
relation `P` succeeds, and the results are in `P` position by position. -/
theorem updateEachM_all {α : Type} (f : Nat → α → Except Err α) (xs : List α) (n : Nat)
    (hn : n ≤ xs.length) (P : Nat → α → α → Prop)
    (h : ∀ (i : Nat) x, i < n → xs[i]? = some x → ∃ y, f i x = .ok y ∧ P i x y) :
    ∃ ys, updateEachM n f xs = .ok ys ∧ ys.length = xs.length ∧
      (∀ (i : Nat) x, i < n → xs[i]? = some x → ∃ y, ys[i]? = some y ∧ f i x = .ok y ∧ P i x y) ∧
      (∀ i, n ≤ i → ys[i]? = xs[i]?) := by
  obtain ⟨ys, hys, hlen, hlt, hge⟩ := updateEachM_ok n f xs (fun i hi => by
    have hx : xs[i]? = some xs[i] := List.getElem?_eq_getElem (by omega)
    obtain ⟨y, hy, _⟩ := h i xs[i] hi hx
    exact ⟨xs[i], y, hx, hy⟩)
  refine ⟨ys, hys, hlen, fun i x hi hx => ?_, hge⟩
  obtain ⟨y, hy, hyi⟩ := hlt i hi x hx
  obtain ⟨y2, hy2, hP⟩ := h i x hi hx
  rw [hy] at hy2
  cases hy2
  exact ⟨y, hyi, hy, hP⟩

/-- The loop over the translations of a well-formed atom pair succeeds when `body` does on
each stored block, and relates the blocks position by position. -/
theorem for_each_R_ok {F : Type} (ap : AtomPair F)
    (body : Vector3 Int → BaseMatrix F → Except Err (BaseMatrix F))
    (hnd : ap.R_index.Nodup) (hlen : ap.values.length = ap.R_index.length)
    (P : Vector3 Int → BaseMatrix F → BaseMatrix F → Prop)
    (h : ∀ (ir : Nat) r m, ap.R_index[ir]? = some r → ap.values[ir]? = some m →
      ∃ m2, body r m = .ok m2 ∧ P r m m2) :
    ∃ vs, ap.for_each_R body = .ok (ap.with_values vs) ∧ vs.length = ap.values.length ∧
      ∀ (ir : Nat) r m, ap.R_index[ir]? = some r → ap.values[ir]? = some m →
        ∃ m2, vs[ir]? = some m2 ∧ P r m m2 := by
  obtain ⟨vs, hvs, hl, hlt, _⟩ := updateEachM_all (ap.body_at body) ap.values
    ap.R_index.length (by omega)
    (fun ir m m2 => ∀ r, ap.R_index[ir]? = some r → P r m m2)
    (fun ir m hir hm => by
      have hr : ap.R_index[ir]? = some ap.R_index[ir] := List.getElem?_eq_getElem hir
      obtain ⟨m2, hm2, hP⟩ := h ir _ m hr hm
      refine ⟨m2, by simp only [AtomPair.body_at, hr, hm2], fun r hr2 => ?_⟩
      rw [hr] at hr2
      cases hr2
      exact hP)
  refine ⟨vs, by rw [for_each_R_eq ap body hnd hlen, hvs]; rfl, hl, fun ir r m hr hm => ?_⟩
  obtain ⟨m2, h1, _, h3⟩ := hlt ir m (List.getElem?_eq_some.mp hr).1 hm
  exact ⟨m2, h1, h3 r hr⟩

/-- The loop over the atom pairs of a container succeeds when all pairs are resident and
`body` succeeds on each, and relates the pairs position by position. -/
theorem for_each_atom_pair_ok {F : Type} (paraV : Parallel_Orbitals) (c : HContainer F)
    (body : (iat1 iat2 : Nat) → (row_ap col_ap : Int) → AtomPair F → Except Err (AtomPair F))
    (P : AtomPair F → AtomPair F → Prop)
    (h : ∀ ap ∈ c.atom_pairs, ∃ ap2, pair_step paraV body ap = .ok ap2 ∧ P ap ap2) :
    ∃ aps, c.for_each_atom_pair paraV body = .ok (c.with_pairs aps) ∧
      aps.length = c.atom_pairs.length ∧
      ∀ (i : Nat) ap, c.atom_pairs[i]? = some ap → ∃ ap2, aps[i]? = some ap2 ∧ P ap ap2 := by
  obtain ⟨aps, haps, hl, hlt, _⟩ := updateEachM_all (fun _ => pair_step paraV body)
    c.atom_pairs c.atom_pairs.length (Nat.le_refl _) (fun _ => P)
    (fun i ap _ hap => h ap (mem_of_getElem?_eq _ i ap hap))
  refine ⟨aps, by rw [for_each_atom_pair_eq, haps]; rfl, hl, fun i ap hap => ?_⟩
  obtain ⟨ap2, h1, _, h3⟩ := hlt i ap (List.getElem?_eq_some.mp hap).1 hap
  exact ⟨ap2, h1, h3⟩

/-- The loop over the atom pairs of a container fails with the ownership error when some
pair is not resident and `body` succeeds on the resident ones. -/
theorem for_each_atom_pair_error {F : Type} (paraV : Parallel_Orbitals) (c : HContainer F)
    (body : (iat1 iat2 : Nat) → (row_ap col_ap : Int) → AtomPair F → Except Err (AtomPair F))
    (h : ∀ ap ∈ c.atom_pairs, owned paraV ap → ∃ ap2, pair_step paraV body ap = .ok ap2)
    (hex : ∃ ap ∈ c.atom_pairs, ¬ owned paraV ap) :
    c.for_each_atom_pair paraV body = .error .OwnershipViolation := by
  have hstep : ∀ i ap, i < c.atom_pairs.length → c.atom_pairs[i]? = some ap →
      (∃ y, pair_step paraV body ap = .ok y) ∨
        pair_step paraV body ap = .error .OwnershipViolation := by
    intro i ap _ hap
    by_cases ho : owned paraV ap
    · exact Or.inl (h ap (mem_of_getElem?_eq _ i ap hap) ho)
    · right
      unfold pair_step
      rw [if_pos]
      unfold owned at ho
      by_contra hc
      exact ho ⟨fun h1 => hc (Or.inl h1), fun h2 => hc (Or.inr h2)⟩
  rcases updateEachM_dichotomy c.atom_pairs.length (fun _ => pair_step paraV body)
    c.atom_pairs .OwnershipViolation (Nat.le_refl _) hstep with ⟨ys, _, hall⟩ | ⟨herr, _⟩
  · exfalso
    obtain ⟨ap, hmem, hno⟩ := hex
    obtain ⟨i, hi, hget⟩ := List.getElem_of_mem hmem
    obtain ⟨x, y, hx, hy⟩ := hall i hi
    rw [List.getElem?_eq_getElem hi, hget] at hx
    cases hx
    unfold pair_step at hy
    unfold owned at hno
    by_cases hc : paraV.atom_begin_row ap.atom_i = -1 ∨ paraV.atom_begin_col ap.atom_j = -1
    · rw [if_pos hc] at hy
      cases hy
    · exact hno ⟨fun h1 => hc (Or.inl h1), fun h2 => hc (Or.inr h2)⟩
  · rw [for_each_atom_pair_eq, herr]
    rfl

/-- The loop over the spins succeeds when `body` does on each of the first `_nspin`
containers, and relates the containers position by position. -/
theorem for_each_spin_ok {TK F : Type} (st : DensityMatrix TK F)
    (body : (ik_begin : Nat) → HContainer F → Except Err (HContainer F))
    (hn : st._nspin ≤ st._DMR.length) (P : Nat → HContainer F → HContainer F → Prop)
    (h : ∀ (i : Nat) c, i < st._nspin → st._DMR[i]? = some c →
      ∃ c2, body (st._nks * i) c = .ok c2 ∧ P i c c2) :
    ∃ dmr, st.for_each_spin body = .ok (st.with_DMR dmr) ∧ dmr.length = st._DMR.length ∧
      (∀ (i : Nat) c, i < st._nspin → st._DMR[i]? = some c → ∃ c2, dmr[i]? = some c2 ∧ P i c c2) ∧
      (∀ i, st._nspin ≤ i → dmr[i]? = st._DMR[i]?) := by
  obtain ⟨dmr, hdmr, hl, hlt, hge⟩ := updateEachM_all
    (fun i => body (st._nks * (i + 1 - 1))) st._DMR st._nspin hn P
    (fun i c hi hc => h i c hi hc)
  refine ⟨dmr, by rw [for_each_spin_eq, hdmr]; rfl, hl, fun i c hi hc => ?_, hge⟩
  obtain ⟨c2, h1, _, h3⟩ := hlt i c hi hc
  exact ⟨c2, h1, h3⟩

/-- The loop over the spins fails with `e0` when `body` either succeeds or fails with `e0`
on each of the first `_nspin` containers, and fails on one of them. -/
theorem for_each_spin_error {TK F : Type} (st : DensityMatrix TK F)
    (body : (ik_begin : Nat) → HContainer F → Except Err (HContainer F)) (e0 : Err)
    (hn : st._nspin ≤ st._DMR.length)
    (h : ∀ (i : Nat) c, i < st._nspin → st._DMR[i]? = some c →
      (∃ c2, body (st._nks * i) c = .ok c2) ∨ body (st._nks * i) c = .error e0)
    (hex : ∃ i c, i < st._nspin ∧ st._DMR[i]? = some c ∧ body (st._nks * i) c = .error e0) :
    st.for_each_spin body = .error e0 := by
  rcases updateEachM_dichotomy st._nspin (fun i => body (st._nks * (i + 1 - 1))) st._DMR e0 hn
    (fun i c hi hc => h i c hi hc) with ⟨ys, _, hall⟩ | ⟨herr, _⟩
  · exfalso
    obtain ⟨i, c, hi, hc, he⟩ := hex
    obtain ⟨x, y, hx, hy⟩ := hall i hi
    rw [hc] at hx
    cases hx
    have : body (st._nks * i) c = .ok y := hy
    rw [he] at this
    cases this
  · rw [for_each_spin_eq, herr]
    rfl

/-- The plain loop depends on its body only at the counters it runs through. -/
theorem loop_congr {σ : Type} (n : Nat) (f g : Nat → σ → σ) (s : σ)
    (h : ∀ k, k < n → ∀ t, f k t = g k t) : loop n f s = loop n g s := by
  induction n with
  | zero => rfl
  | succ k ih =>
    rw [loop, loop, ih (fun j hj => h j (Nat.lt_succ_of_lt hj)), h k (Nat.lt_succ_self k)]

/-- In exact arithmetic an accumulation loop computes a sum. -/
theorem loop_sum {F : Type} [CommRing F] (n : Nat) (t : Nat → F) (y : F) :
    loop n (fun k y => y + t k) y = y + ∑ k in Finset.range n, t k := by
  induction n with
  | zero => simp [loop]
  | succ k ih => rw [loop, ih, Finset.sum_range_succ, add_assoc]

/-! ## One atom pair -/

/-- On a state with a well-formed DM(k) store the buffers of a spin and the elements that
the transform reads for a pair inside the local matrix are all there. -/
theorem wf_reads_dmk {TK F : Type} [Zero TK] (st : DensityMatrix TK F)
    (hdmk : st.DMK_ok) (i : Nat) (hi : i < st._nspin) (iat1 iat2 : Nat)
    (row_ap col_ap : Int) (h1 : 0 ≤ row_ap)
    (h2 : row_ap + st._paraV.get_row_size iat1 ≤ st._paraV.nrow) (h3 : 0 ≤ col_ap)
    (h4 : col_ap + st._paraV.get_col_size iat2 ≤ st._paraV.ncol) :
    ∃ (B : Nat → List TK) (D : Nat → Nat → Nat → TK),
      (∀ k, k < st._nks → st._DMK[k + st._nks * i]? = some (B k)) ∧
      (∀ k mu nu, k < st._nks → mu < st._paraV.get_row_size iat1 →
        nu < st._paraV.get_col_size iat2 →
        readReal (B k) ((col_ap + nu) * st._paraV.nrow + row_ap + mu) = some (D k mu nu)) := by
  have hidx : ∀ k, k < st._nks → k + st._nks * i < st._DMK.length := by
    intro k hk
    have : st._nks * (i + 1) ≤ st._nks * st._nspin := Nat.mul_le_mul_left _ hi
    have e : st._nks * (i + 1) = st._nks * i + st._nks := Nat.mul_succ _ _
    have := hdmk.1
    rw [Nat.mul_comm st._nspin] at this
    omega
  refine ⟨fun k => (st._DMK[k + st._nks * i]?).getD [],
    fun k mu nu => (readReal ((st._DMK[k + st._nks * i]?).getD [])
      ((col_ap + nu) * st._paraV.nrow + row_ap + mu)).getD 0, ?_, ?_⟩
  · intro k hk
    beta_reduce
    rw [List.getElem?_eq_getElem (hidx k hk)]
    rfl
  · intro k mu nu hk hmu hnu
    beta_reduce
    have hlt := hidx k hk
    have hb : (st._DMK[k + st._nks * i]?).getD [] = st._DMK[k + st._nks * i] := by
      rw [List.getElem?_eq_getElem hlt]
      rfl
    rw [hb]
    have hlen := hdmk.2 _ (List.getElem_mem hlt)
    obtain ⟨o1, o2⟩ := offset_in_range st._paraV.nrow st._paraV.ncol _ _ mu nu row_ap col_ap
      h1 h2 h3 h4 hmu hnu
    exact readReal_some _ _ 0 o1 (by rw [hlen]; exact o2)

/-- On a well-formed state the k-vectors, the DM(k) buffers of a spin and the elements
that the transform reads for a pair inside the local matrix are all there. -/
theorem wf_reads {TK F : Type} [Zero TK] [Zero F] (st : DensityMatrix TK F)
    (hkv : st.kv_ok) (hdmk : st.DMK_ok) (i : Nat) (hi : i < st._nspin) (iat1 iat2 : Nat)
    (row_ap col_ap : Int) (h1 : 0 ≤ row_ap)
    (h2 : row_ap + st._paraV.get_row_size iat1 ≤ st._paraV.nrow) (h3 : 0 ≤ col_ap)
    (h4 : col_ap + st._paraV.get_col_size iat2 ≤ st._paraV.ncol) :
    ∃ (K : Nat → Vector3 F) (B : Nat → List TK) (D : Nat → Nat → Nat → TK),
      (∀ k, k < st._nks → st.kvec_d k = some (K k)) ∧
      (∀ k, k < st._nks → st._DMK[k + st._nks * i]? = some (B k)) ∧
      (∀ k mu nu, k < st._nks → mu < st._paraV.get_row_size iat1 →
        nu < st._paraV.get_col_size iat2 →
        readReal (B k) ((col_ap + nu) * st._paraV.nrow + row_ap + mu) = some (D k mu nu)) := by
  obtain ⟨B, D, hB, hD⟩ := wf_reads_dmk st hdmk i hi iat1 iat2 row_ap col_ap h1 h2 h3 h4
  refine ⟨fun k => (st.kvec_d k).getD ⟨0, 0, 0⟩, B, D, ?_, hB, hD⟩
  intro k hk
  unfold DensityMatrix.kv_ok at hkv
  unfold DensityMatrix.kvec_d
  cases hv : st._kv with
  | none => rw [hv] at hkv; exact hkv.elim
  | some kv =>
    rw [hv] at hkv
    simp only at hkv ⊢
    rw [List.getElem?_eq_getElem (by omega)]
    rfl

/-- The work of the multi-k transform on a resident, well-formed atom pair inside the
local matrix succeeds; it keeps the shape of every block and adds to each element of the
block of translation `r`, for every k-point in turn, `cos * Re D` and then `(-sin) * Im D`. -/
theorem multi_k_pair_ok {F : Type} [Zero F] [Add F] [Mul F] [Neg F] [IntCast F]
    (lm : Libm F) (st : DensityMatrix (Cplx F) F) (i : Nat) (hi : i < st._nspin)
    (hkv : st.kv_ok) (hdmk : st.DMK_ok) (ap : AtomPair F) (hp : PairOK st._paraV ap)
    (ho : owned st._paraV ap) (hin : InRange st._paraV ap) :
    ∃ vs, pair_step st._paraV (fun iat1 iat2 row_ap col_ap tmp_ap =>
        tmp_ap.for_each_R (fun r m =>
          st.cal_DMR_multi_k_block lm (2 * (st._paraV.nrow : Int)) (st._nks * i) iat1 iat2
            row_ap col_ap r m)) ap = .ok (ap.with_values vs) ∧
      vs.length = ap.values.length ∧
      ∀ (ir : Nat) r m, ap.R_index[ir]? = some r → ap.values[ir]? = some m →
        ∃ m2, vs[ir]? = some m2 ∧ m2.nrow_local = m.nrow_local ∧
          m2.ncol_local = m.ncol_local ∧ m2.value_begin.length = m.value_begin.length ∧
          ∀ mu nu, mu < st._paraV.get_row_size ap.atom_i →
            nu < st._paraV.get_col_size ap.atom_j →
            ∀ (K : Nat → Vector3 F) (D : Nat → Cplx F),
              (∀ k, k < st._nks → st.kvec_d k = some (K k)) →
              (∀ k, k < st._nks → st.DMK_at (k + st._nks * i)
                ((st._paraV.atom_begin_col ap.atom_j + nu) * st._paraV.nrow
                  + st._paraV.atom_begin_row ap.atom_i + mu) = some (D k)) →
              m2.value_begin[mu * st._paraV.get_col_size ap.atom_j + nu]? =
                (m.value_begin[mu * st._paraV.get_col_size ap.atom_j + nu]?).map
                  (fun y => loop st._nks (fun k y =>
                    y + (kphase lm (K k) r).re * (D k).re
                      + -(kphase lm (K k) r).im * (D k).im) y) := by
  obtain ⟨K0, B0, D0, hK0, hB0, hD0⟩ := wf_reads st hkv hdmk i hi ap.atom_i ap.atom_j
    (st._paraV.atom_begin_row ap.atom_i) (st._paraV.atom_begin_col ap.atom_j)
    hin.1 hin.2.1 hin.2.2.1 hin.2.2.2
  unfold pair_step
  rw [if_neg (fun h => h.elim ho.1 ho.2)]
  refine for_each_R_ok ap _ hp.1 hp.2.1 _ (fun ir r m hr hm => ?_)
  have hblk := hp.2.2 m (mem_of_getElem?_eq _ ir m hm)
  obtain ⟨m2, h1, h2, h3, h4, h5⟩ := cal_DMR_multi_k_block_ok lm st (st._nks * i) ap.atom_i
    ap.atom_j (st._paraV.atom_begin_row ap.atom_i) (st._paraV.atom_begin_col ap.atom_j) r m
    K0 B0 D0 hK0 hB0 hD0 hblk.2.2
  refine ⟨m2, h1, h2, h3, h4, fun mu nu hmu hnu K D hK hD => ?_⟩
  rw [h5 mu nu hmu hnu]
  congr 1
  funext y
  refine loop_congr _ _ _ _ (fun k hk t => ?_)
  have eK : K0 k = K k := by
    have := hK0 k hk
    rw [hK k hk] at this
    exact (Option.some.inj this).symm
  have eD : D0 k mu nu = D k := by
    have a := hD0 k mu nu hk hmu hnu
    have b := hD k hk
    unfold DensityMatrix.DMK_at at b
    rw [hB0 k hk] at b
    simp only at b
    rw [b] at a
    exact (Option.some.inj a).symm
  rw [eK, eD]

/-- The work of the Gamma-only transform on a resident, well-formed atom pair inside the
local matrix that stores the single translation `(0, 0, 0)` succeeds; it keeps the shape
of the block and adds `1 * d` to each element, `d` being the element of the DM(k) buffer
of the spin. -/
theorem gamma_pair_ok {F : Type} [Zero F] [One F] [Add F] [Mul F]
    (st : DensityMatrix F F) (i : Nat) (hi : i < st._nspin) (hdmk : st.DMK_ok)
    (hnks : st._nks = 1) (ap : AtomPair F) (hp : PairOK st._paraV ap)
    (hR : ap.R_index = [⟨0, 0, 0⟩]) (ho : owned st._paraV ap) (hin : InRange st._paraV ap) :
    ∃ vs, pair_step st._paraV (fun iat1 iat2 row_ap col_ap tmp_ap =>
        st.cal_DMR_gamma_pair st._paraV.nrow (st._nks * i) iat1 iat2 row_ap col_ap tmp_ap) ap
          = .ok (ap.with_values vs) ∧
      vs.length = ap.values.length ∧
      ∀ (ir : Nat) r m, ap.R_index[ir]? = some r → ap.values[ir]? = some m →
        ∃ m2, vs[ir]? = some m2 ∧ m2.nrow_local = m.nrow_local ∧
          m2.ncol_local = m.ncol_local ∧ m2.value_begin.length = m.value_begin.length ∧
          ∀ mu nu, mu < st._paraV.get_row_size ap.atom_i →
            nu < st._paraV.get_col_size ap.atom_j →
            ∀ d : F, st.DMK_at (0 + st._nks * i)
                ((st._paraV.atom_begin_col ap.atom_j + nu) * st._paraV.nrow
                  + st._paraV.atom_begin_row ap.atom_i + mu) = some d →
              m2.value_begin[mu * st._paraV.get_col_size ap.atom_j + nu]? =
                (m.value_begin[mu * st._paraV.get_col_size ap.atom_j + nu]?).map
                  (fun y => y + 1 * d) := by
  obtain ⟨B0, D0, hB0, hD0⟩ := wf_reads_dmk st hdmk i hi ap.atom_i ap.atom_j
    (st._paraV.atom_begin_row ap.atom_i) (st._paraV.atom_begin_col ap.atom_j)
    hin.1 hin.2.1 hin.2.2.1 hin.2.2.2
  have hk0 : 0 < st._nks := by omega
  have hvl : ap.values.length = 1 := by rw [hp.2.1, hR]; rfl
  have hv0 : ap.values[0]? = some ap.values[0] := List.getElem?_eq_getElem (by omega)
  have hr0 : ap.R_index[0]? = some ⟨0, 0, 0⟩ := by rw [hR]; rfl
  have hfind : ap.find_R ⟨0, 0, 0⟩ = some 0 := find_R_getElem ap hp.1 0 _ hr0
  have hblk := hp.2.2 _ (mem_of_getElem?_eq _ 0 _ hv0)
  obtain ⟨m2, h1, h2, h3, h4, h5⟩ := cal_DMR_gamma_sweep_ok st._paraV ap.atom_i ap.atom_j
    (st._paraV.atom_begin_row ap.atom_i) (st._paraV.atom_begin_col ap.atom_j) (B0 0)
    ap.values[0] (D0 0) (fun mu nu hmu hnu => hD0 0 mu nu hk0 hmu hnu) hblk.2.2
  refine ⟨ap.values.set 0 m2, ?_, by simp, fun ir r m hr hm => ?_⟩
  · unfold pair_step
    rw [if_neg (fun h => h.elim ho.1 ho.2)]
    simp only [DensityMatrix.cal_DMR_gamma_pair, AtomPair.get_R_index, hr0,
      AtomPair.find_matrix, hfind, hv0, hB0 0 hk0, h1, AtomPair.store_matrix]
    rfl
  · have hir : ir = 0 := by
      have := (List.getElem?_eq_some.mp hr).1
      rw [hR] at this
      simp at this
      exact this
    subst hir
    rw [hv0] at hm
    have hm2 : ap.values[0] = m := Option.some.inj hm
    subst hm2
    refine ⟨m2, by rw [List.getElem?_set_self (by omega)], h2, h3, h4,
      fun mu nu hmu hnu d hd => ?_⟩
    rw [h5 mu nu hmu hnu]
    have eD : D0 0 mu nu = d := by
      have a := hD0 0 mu nu hk0 hmu hnu
      unfold DensityMatrix.DMK_at at hd
      rw [hB0 0 hk0] at hd
      simp only at hd
      rw [hd] at a
      exact (Option.some.inj a).symm
    rw [eD]

/-! ## The multi-k transform on a whole state -/

/-- Zeroing keeps an atom pair well formed. -/
theorem PairOK_set_zero {F : Type} [Zero F] (paraV : Parallel_Orbitals) (ap : AtomPair F)
    (h : PairOK paraV ap) : PairOK paraV ap.set_zero := by
  refine ⟨h.1, by simp [AtomPair.set_zero, h.2.1], fun m hm => ?_⟩
  simp only [AtomPair.set_zero, List.mem_map] at hm
  obtain ⟨m0, hm0, rfl⟩ := hm
  have := h.2.2 m0 hm0
  refine ⟨this.1, this.2.1, ?_⟩
  show (m0.value_begin.map (fun _ => (0 : F))).length = _
  rw [List.length_map]
  exact this.2.2

/-- The blocks of a zeroed atom pair are the zeroed blocks. -/
theorem set_zero_values_getElem? {F : Type} [Zero F] (ap : AtomPair F) (ir : Nat) :
    ap.set_zero.values[ir]? = (ap.values[ir]?).map BaseMatrix.set_zero := by
  simp [AtomPair.set_zero]

/-- The atom pairs of a zeroed container are the zeroed atom pairs. -/
theorem set_zero_pairs_getElem? {F : Type} [Zero F] (c : HContainer F) (i : Nat) :
    c.set_zero.atom_pairs[i]? = (c.atom_pairs[i]?).map AtomPair.set_zero := by
  simp [HContainer.set_zero]

/-- An element inside a zeroed block is zero. -/
theorem set_zero_value {F : Type} [Zero F] (m : BaseMatrix F) (p : Nat)
    (hp : p < m.value_begin.length) : m.set_zero.value_begin[p]? = some 0 := by
  show (m.value_begin.map (fun _ => (0 : F)))[p]? = some 0
  rw [List.getElem?_map, List.getElem?_eq_getElem hp]
  rfl

/-- The multi-k transform of one container of spin number `i` (counted from 0): it
succeeds when the pairs are resident, well formed and inside the local matrix; the
structure stays and each block element is the accumulation over the k-points, started
from zero. -/
theorem multi_k_container_ok {F : Type} [Zero F] [Add F] [Mul F] [Neg F] [IntCast F]
    (lm : Libm F) (st : DensityMatrix (Cplx F) F) (i : Nat) (hi : i < st._nspin)
    (hkv : st.kv_ok) (hdmk : st.DMK_ok) (c : HContainer F)
    (hc : ∀ ap ∈ c.atom_pairs,
      PairOK st._paraV ap ∧ owned st._paraV ap ∧ InRange st._paraV ap) :
    ∃ c2, c.set_zero.for_each_atom_pair st._paraV (fun iat1 iat2 row_ap col_ap tmp_ap =>
        tmp_ap.for_each_R (fun r m =>
          st.cal_DMR_multi_k_block lm (2 * (st._paraV.nrow : Int)) (st._nks * i) iat1 iat2
            row_ap col_ap r m)) = .ok c2 ∧
      c2.gamma_only = c.gamma_only ∧ blocks_rel (multi_k_block_spec lm st i) c c2 := by
  obtain ⟨aps, h1, h2, h3⟩ := for_each_atom_pair_ok st._paraV c.set_zero _
    (fun ap0 ap2 => ∃ vs, ap2 = ap0.with_values vs ∧ vs.length = ap0.values.length ∧
      ∀ (ir : Nat) r m, ap0.R_index[ir]? = some r → ap0.values[ir]? = some m →
        ∃ m2, vs[ir]? = some m2 ∧ m2.nrow_local = m.nrow_local ∧
          m2.ncol_local = m.ncol_local ∧ m2.value_begin.length = m.value_begin.length ∧
          ∀ mu nu, mu < st._paraV.get_row_size ap0.atom_i →
            nu < st._paraV.get_col_size ap0.atom_j →
            ∀ (K : Nat → Vector3 F) (D : Nat → Cplx F),
              (∀ k, k < st._nks → st.kvec_d k = some (K k)) →
              (∀ k, k < st._nks → st.DMK_at (k + st._nks * i)
                ((st._paraV.atom_begin_col ap0.atom_j + nu) * st._paraV.nrow
                  + st._paraV.atom_begin_row ap0.atom_i + mu) = some (D k)) →
              m2.value_begin[mu * st._paraV.get_col_size ap0.atom_j + nu]? =
                (m.value_begin[mu * st._paraV.get_col_size ap0.atom_j + nu]?).map
                  (fun y => loop st._nks (fun k y =>
                    y + (kphase lm (K k) r).re * (D k).re
                      + -(kphase lm (K k) r).im * (D k).im) y))
    (fun ap0 hap0 => by
      simp only [HContainer.set_zero, List.mem_map] at hap0
      obtain ⟨ap, hap, rfl⟩ := hap0
      obtain ⟨hp, ho, hin⟩ := hc ap hap
      obtain ⟨vs, e1, e2, e3⟩ := multi_k_pair_ok lm st i hi hkv hdmk ap.set_zero
        (PairOK_set_zero _ ap hp) ho hin
      exact ⟨_, e1, vs, rfl, e2, e3⟩)
  refine ⟨_, h1, rfl, by
    show aps.length = _
    rw [h2]; simp [HContainer.set_zero], fun iap ap hap => ?_⟩
  obtain ⟨hp, _, _⟩ := hc ap (mem_of_getElem?_eq _ iap ap hap)
  obtain ⟨ap2, e1, vs, rfl, e2, e3⟩ := h3 iap ap.set_zero
    (by rw [set_zero_pairs_getElem?, hap]; rfl)
  refine ⟨vs, e1, by rw [e2]; simp [AtomPair.set_zero], fun ir r m hr hm => ?_⟩
  obtain ⟨m2, f1, f2, f3, f4, f5⟩ := e3 ir r m.set_zero hr
    (by rw [set_zero_values_getElem?, hm]; rfl)
  refine ⟨m2, f1, f2, f3, by rw [f4]; simp [BaseMatrix.set_zero],
    fun mu nu hmu hnu K D hK hD => ?_⟩
  have hblk := hp.2.2 m (mem_of_getElem?_eq _ ir m hm)
  have hpos : mu * st._paraV.get_col_size ap.atom_j + nu < m.value_begin.length := by
    rw [hblk.2.2]
    exact row_major_lt _ _ mu nu hmu hnu
  have := f5 mu nu hmu hnu K D hK hD
  simp only [AtomPair.set_zero] at this
  rw [this, set_zero_value m _ hpos]
  rfl

/-- Reading the DM(R) store through `DMR_at` finds the block that `blocks_rel` speaks of. -/
theorem DMR_at_of_blocks_rel {TK F : Type} [Zero F] (st2 : DensityMatrix TK F) (s iap : Nat)
    (c c2 : HContainer F) (Q : AtomPair F → Vector3 Int → BaseMatrix F → Prop)
    (h2 : st2._DMR[s - 1]? = some c2) (hrel : blocks_rel Q c c2) (ap : AtomPair F)
    (hap : c.atom_pairs[iap]? = some ap) (hnd : ap.R_index.Nodup)
    (hlen : ap.values.length = ap.R_index.length) (R : Vector3 Int) (hR : R ∈ ap.R_index) :
    ∃ m2, Q ap R m2 ∧ ∀ p, st2.DMR_at s iap R p = m2.value_begin[p]? := by
  obtain ⟨ir, hir, hget⟩ := List.getElem_of_mem hR
  have hr : ap.R_index[ir]? = some R := by rw [List.getElem?_eq_getElem hir, hget]
  have hm : ap.values[ir]? = some ap.values[ir] := List.getElem?_eq_getElem (by omega)
  obtain ⟨vs, e1, _, e3⟩ := hrel.2 iap ap hap
  obtain ⟨m2, f1, _, _, _, f5⟩ := e3 ir R _ hr hm
  refine ⟨m2, f5, fun p => ?_⟩
  have hfind : (ap.set_zero.with_values vs).find_R R = some ir :=
    find_R_getElem (ap.set_zero.with_values vs) hnd ir R hr
  have hv : (ap.set_zero.with_values vs).values[ir]? = some m2 := f1
  simp only [DensityMatrix.DMR_at, h2, HContainer.get_atom_pair, e1, AtomPair.find_matrix,
    hfind, hv]

/-- The multi-k transform of a well-formed state whose stored pairs are all resident
succeeds; it changes the DM(R) store only, keeps its structure, and leaves in each block
the accumulation over the k-points. -/
theorem multi_k_state_ok {F : Type} [Zero F] [Add F] [Mul F] [Neg F] [IntCast F]
    (lm : Libm F) (st : DensityMatrix (Cplx F) F) (hwf : st.WellFormed_multi_k)
    (hown : st.all_owned) :
    ∃ dmr, st.cal_DMR_multi_k lm = .ok (st.with_DMR dmr) ∧ dmr.length = st._DMR.length ∧
      ∀ (i : Nat) c, i < st._nspin → st._DMR[i]? = some c →
        ∃ c2, dmr[i]? = some c2 ∧ c2.gamma_only = c.gamma_only ∧
          blocks_rel (multi_k_block_spec lm st i) c c2 := by
  obtain ⟨⟨hlen, hpairs⟩, hdmk, hkv⟩ := hwf
  obtain ⟨dmr, h1, h2, h3, _⟩ := for_each_spin_ok st
    (fun ik_begin tmp_DMR =>
      tmp_DMR.set_zero.for_each_atom_pair st._paraV (fun iat1 iat2 row_ap col_ap tmp_ap =>
        tmp_ap.for_each_R (fun r_index tmp_matrix =>
          st.cal_DMR_multi_k_block lm (2 * (st._paraV.nrow : Int)) ik_begin iat1 iat2 row_ap
            col_ap r_index tmp_matrix)))
    (by omega)
    (fun i c c2 => c2.gamma_only = c.gamma_only ∧ blocks_rel (multi_k_block_spec lm st i) c c2)
    (fun i c hi hc => by
      have hmem := mem_of_getElem?_eq _ i c hc
      exact multi_k_container_ok lm st i hi hkv hdmk c (fun ap hap =>
        ⟨(hpairs c hmem ap hap).1, hown c hmem ap hap,
          (hpairs c hmem ap hap).2 (hown c hmem ap hap)⟩))
  exact ⟨dmr, h1, h2, h3⟩

/-- C1, amended: on a state without undefined behaviour whose stored atom pairs are all
resident (no ownership error), the multi-k `cal_DMR` succeeds, and for every spin `s`,
stored pair number `iap`, stored translation `R`, row `mu` and column `nu` the block
element at offset `mu * col_size + nu` is the value accumulated from 0 over
`k = 0..nks-1` by `y := (y + cos(a_k) * Re(D_k)) + (-sin(a_k)) * Im(D_k)`, in the
arithmetic of the code, with `a_k = (kvec_d[k] · R) * TWO_PI` and `D_k` the element of the
DM(k) buffer `(s-1) * nks + k` at offset
`(atom_begin_col + nu) * nrow + atom_begin_row + mu`.  No law of arithmetic is assumed. -/
theorem C1_multi_k_accumulation {F : Type} [Zero F] [Add F] [Mul F] [Neg F] [IntCast F]
    (lm : Libm F) (st : DensityMatrix (Cplx F) F)
    (hwf : st.WellFormed_multi_k) (hown : st.all_owned) :
    ∃ st2, st.cal_DMR_multi_k lm = .ok st2 ∧
      ∀ (s iap : Nat) (c : HContainer F) (ap : AtomPair F) (R : Vector3 Int) (mu nu : Nat)
        (K : Nat → Vector3 F) (D : Nat → Cplx F),
        1 ≤ s → s ≤ st._nspin → st._DMR[s - 1]? = some c → c.atom_pairs[iap]? = some ap →
        R ∈ ap.R_index →
        mu < st._paraV.get_row_size ap.atom_i → nu < st._paraV.get_col_size ap.atom_j →
        (∀ k, k < st._nks → st.kvec_d k = some (K k)) →
        (∀ k, k < st._nks → st.DMK_at ((s - 1) * st._nks + k)
          ((st._paraV.atom_begin_col ap.atom_j + nu) * st._paraV.nrow
            + st._paraV.atom_begin_row ap.atom_i + mu) = some (D k)) →
        st2.DMR_at s iap R (mu * st._paraV.get_col_size ap.atom_j + nu) =
          some (loop st._nks (fun k y =>
            y + (lm.sincos ((K k).dot (Vector3.ofInt R) * lm.TWO_PI)).2 * (D k).re
              + -(lm.sincos ((K k).dot (Vector3.ofInt R) * lm.TWO_PI)).1 * (D k).im) 0) := by
  obtain ⟨dmr, h1, _, h3⟩ := multi_k_state_ok lm st hwf hown
  refine ⟨st.with_DMR dmr, h1, ?_⟩
  intro s iap c ap R mu nu K D hs1 hs2 hc hap hR hmu hnu hK hD
  obtain ⟨c2, e1, _, e3⟩ := h3 (s - 1) c (by omega) hc
  have hpair := (hwf.1.2 c (mem_of_getElem?_eq _ _ c hc) ap (mem_of_getElem?_eq _ _ ap hap)).1
  obtain ⟨m2, hQ, hread⟩ := DMR_at_of_blocks_rel (st.with_DMR dmr) s iap c c2 _ e1 e3 ap hap
    hpair.1 hpair.2.1 R hR
  rw [hread, hQ mu nu hmu hnu K D hK (fun k hk => by
    have := hD k hk
    rwa [Nat.mul_comm, Nat.add_comm] at this)]
  rfl

/-- In exact arithmetic (a commutative ring in the place of `double`) the accumulation of
the multi-k `cal_DMR` is the closed form: the block element at offset `mu * col_size + nu`
is the sum over the k-points of `cos(a_k) * Re(D_k) - sin(a_k) * Im(D_k)` with
`a_k = 2π (kvec_d[k] · R)`. -/
theorem multi_k_sum_exact {F : Type} [CommRing F] (lm : Libm F) (st : DensityMatrix (Cplx F) F)
    (hwf : st.WellFormed_multi_k) (hown : st.all_owned) :
    ∃ st2, st.cal_DMR_multi_k lm = .ok st2 ∧
      ∀ (s iap : Nat) (c : HContainer F) (ap : AtomPair F) (R : Vector3 Int) (mu nu : Nat)
        (K : Nat → Vector3 F) (D : Nat → Cplx F),
        1 ≤ s → s ≤ st._nspin → st._DMR[s - 1]? = some c → c.atom_pairs[iap]? = some ap →
        R ∈ ap.R_index →
        mu < st._paraV.get_row_size ap.atom_i → nu < st._paraV.get_col_size ap.atom_j →
        (∀ k, k < st._nks → st.kvec_d k = some (K k)) →
        (∀ k, k < st._nks → st.DMK_at ((s - 1) * st._nks + k)
          ((st._paraV.atom_begin_col ap.atom_j + nu) * st._paraV.nrow
            + st._paraV.atom_begin_row ap.atom_i + mu) = some (D k)) →
        st2.DMR_at s iap R (mu * st._paraV.get_col_size ap.atom_j + nu) =
          some (∑ k in Finset.range st._nks,
            ((lm.sincos (lm.TWO_PI * (K k).dot (Vector3.ofInt R))).2 * (D k).re
              - (lm.sincos (lm.TWO_PI * (K k).dot (Vector3.ofInt R))).1 * (D k).im)) := by
  obtain ⟨dmr, h1, _, h3⟩ := multi_k_state_ok lm st hwf hown
  refine ⟨st.with_DMR dmr, h1, ?_⟩
  intro s iap c ap R mu nu K D hs1 hs2 hc hap hR hmu hnu hK hD
  obtain ⟨c2, e1, _, e3⟩ := h3 (s - 1) c (by omega) hc
  have hpair := (hwf.1.2 c (mem_of_getElem?_eq _ _ c hc) ap (mem_of_getElem?_eq _ _ ap hap)).1
  obtain ⟨m2, hQ, hread⟩ := DMR_at_of_blocks_rel (st.with_DMR dmr) s iap c c2 _ e1 e3 ap hap
    hpair.1 hpair.2.1 R hR
  rw [hread, hQ mu nu hmu hnu K D hK (fun k hk => by
    have := hD k hk
    rwa [Nat.mul_comm, Nat.add_comm] at this)]
  congr 1
  rw [loop_congr _ _ (fun k y => y + ((lm.sincos (lm.TWO_PI * (K k).dot (Vector3.ofInt R))).2
      * (D k).re - (lm.sincos (lm.TWO_PI * (K k).dot (Vector3.ofInt R))).1 * (D k).im)) 0
    (fun k _ t => by
      simp only [kphase, mul_comm ((K k).dot (Vector3.ofInt R)) lm.TWO_PI]
      ring), loop_sum, zero_add]

/-! ## The concrete multi-k state -/

/-- The concrete multi-k state has no undefined behaviour. -/
theorem state_multi_k_wf : state_multi_k.WellFormed_multi_k := by
  decide

/-- The stored pairs of the concrete multi-k state are resident. -/
theorem state_multi_k_owned : state_multi_k.all_owned := by
  decide

/-- C1, amended, on the concrete multi-k state: the element (0, 0) of the block of the
pair (0, 1) at the translation (1, 0, 0) is `0 + 4 * 8 + -3 * 108 + 1 * 1008 + -0 * 2008`. -/
theorem C1_multi_k_accumulation_witness :
    state_multi_k.WellFormed_multi_k ∧ state_multi_k.all_owned ∧
    ∃ st2, state_multi_k.cal_DMR_multi_k libm_Z = .ok st2 ∧
      st2.DMR_at 1 1 ⟨1, 0, 0⟩ (0 * 2 + 0) =
        some (0 + 4 * 8 + -3 * 108 + 1 * 1008 + -0 * 2008) := by
  refine ⟨state_multi_k_wf, state_multi_k_owned, ?_⟩
  obtain ⟨st2, h1, h2⟩ := C1_multi_k_accumulation libm_Z state_multi_k state_multi_k_wf
    state_multi_k_owned
  refine ⟨st2, h1, ?_⟩
  have := h2 1 1 container_2 ⟨0, 1, 2, 2, [⟨0, 0, 0⟩, ⟨1, 0, 0⟩], [block_2x2 5, block_2x2 6]⟩
    ⟨1, 0, 0⟩ 0 0 (fun k => if k = 0 then ⟨1, 0, 0⟩ else ⟨0, 1, 0⟩)
    (fun k => if k = 0 then ⟨8, 108⟩ else ⟨1008, 2008⟩)
    (by decide) (by decide) rfl rfl (by decide) (by decide) (by decide)
    (by decide) (by decide)
  refine this.trans ?_
  decide
/-! ## The Gamma-only transform on a whole state -/

/-- The Gamma-only transform of one container of spin number `i` (counted from 0): it
succeeds when the pairs are resident, well formed, inside the local matrix and store the
single translation `(0, 0, 0)`; the structure stays, the container is marked Gamma-fixed
and each block element is `0 + 1 * d`. -/
theorem gamma_container_ok {F : Type} [Zero F] [One F] [Add F] [Mul F]
    (st : DensityMatrix F F) (i : Nat) (hi : i < st._nspin) (hdmk : st.DMK_ok)
    (hnks : st._nks = 1) (c : HContainer F)
    (hc : ∀ ap ∈ c.atom_pairs, PairOK st._paraV ap ∧ owned st._paraV ap ∧
      InRange st._paraV ap ∧ ap.R_index = [⟨0, 0, 0⟩]) :
    ∃ c2, c.fix_gamma.set_zero.for_each_atom_pair st._paraV
        (fun iat1 iat2 row_ap col_ap tmp_ap =>
          st.cal_DMR_gamma_pair st._paraV.nrow (st._nks * i) iat1 iat2 row_ap col_ap tmp_ap)
          = .ok c2 ∧
      c2.gamma_only = true ∧ blocks_rel (gamma_block_spec st i) c c2 := by
  obtain ⟨aps, h1, h2, h3⟩ := for_each_atom_pair_ok st._paraV c.fix_gamma.set_zero _
    (fun ap0 ap2 => ∃ vs, ap2 = ap0.with_values vs ∧ vs.length = ap0.values.length ∧
      ∀ (ir : Nat) r m, ap0.R_index[ir]? = some r → ap0.values[ir]? = some m →
        ∃ m2, vs[ir]? = some m2 ∧ m2.nrow_local = m.nrow_local ∧
          m2.ncol_local = m.ncol_local ∧ m2.value_begin.length = m.value_begin.length ∧
          ∀ mu nu, mu < st._paraV.get_row_size ap0.atom_i →
            nu < st._paraV.get_col_size ap0.atom_j →
            ∀ d : F, st.DMK_at (0 + st._nks * i)
                ((st._paraV.atom_begin_col ap0.atom_j + nu) * st._paraV.nrow
                  + st._paraV.atom_begin_row ap0.atom_i + mu) = some d →
              m2.value_begin[mu * st._paraV.get_col_size ap0.atom_j + nu]? =
                (m.value_begin[mu * st._paraV.get_col_size ap0.atom_j + nu]?).map
                  (fun y => y + 1 * d))
    (fun ap0 hap0 => by
      simp only [HContainer.set_zero, HContainer.fix_gamma, List.mem_map] at hap0
      obtain ⟨ap, hap, rfl⟩ := hap0
      obtain ⟨hp, ho, hin, hR⟩ := hc ap hap
      obtain ⟨vs, e1, e2, e3⟩ := gamma_pair_ok st i hi hdmk hnks ap.set_zero
        (PairOK_set_zero _ ap hp) hR ho hin
      exact ⟨_, e1, vs, rfl, e2, e3⟩)
  refine ⟨_, h1, rfl, by
    show aps.length = _
    rw [h2]; simp [HContainer.set_zero, HContainer.fix_gamma], fun iap ap hap => ?_⟩
  obtain ⟨hp, _, _⟩ := hc ap (mem_of_getElem?_eq _ iap ap hap)
  obtain ⟨ap2, e1, vs, rfl, e2, e3⟩ := h3 iap ap.set_zero
    (by
      show (c.atom_pairs.map AtomPair.set_zero)[iap]? = _
      rw [List.getElem?_map, hap]; rfl)
  refine ⟨vs, e1, by rw [e2]; simp [AtomPair.set_zero], fun ir r m hr hm => ?_⟩
  obtain ⟨m2, f1, f2, f3, f4, f5⟩ := e3 ir r m.set_zero hr
    (by rw [set_zero_values_getElem?, hm]; rfl)
  refine ⟨m2, f1, f2, f3, by rw [f4]; simp [BaseMatrix.set_zero],
    fun mu nu hmu hnu d hd => ?_⟩
  have hblk := hp.2.2 m (mem_of_getElem?_eq _ ir m hm)
  have hpos : mu * st._paraV.get_col_size ap.atom_j + nu < m.value_begin.length := by
    rw [hblk.2.2]
    exact row_major_lt _ _ mu nu hmu hnu
  have := f5 mu nu hmu hnu d hd
  simp only [AtomPair.set_zero] at this
  rw [this, set_zero_value m _ hpos]
  rfl

/-- The Gamma-only transform of a well-formed state whose stored pairs are all resident
succeeds; it changes the DM(R) store only, keeps its structure, and leaves `0 + 1 * d` in
each block element. -/
theorem gamma_state_ok {F : Type} [Zero F] [One F] [Add F] [Mul F]
    (st : DensityMatrix F F) (hwf : st.WellFormed_gamma) (hown : st.all_owned) :
    ∃ dmr, st.cal_DMR_gamma = .ok (st.with_DMR dmr) ∧ dmr.length = st._DMR.length ∧
      ∀ (i : Nat) c, i < st._nspin → st._DMR[i]? = some c →
        ∃ c2, dmr[i]? = some c2 ∧ c2.gamma_only = true ∧
          blocks_rel (gamma_block_spec st i) c c2 := by
  obtain ⟨⟨hlen, hpairs⟩, hdmk, hnks, hR⟩ := hwf
  obtain ⟨dmr, h1, h2, h3, _⟩ := for_each_spin_ok st
    (fun ik_begin tmp_DMR =>
      tmp_DMR.fix_gamma.set_zero.for_each_atom_pair st._paraV
        (fun iat1 iat2 row_ap col_ap tmp_ap =>
          st.cal_DMR_gamma_pair st._paraV.nrow ik_begin iat1 iat2 row_ap col_ap tmp_ap))
    (by omega)
    (fun i c c2 => c2.gamma_only = true ∧ blocks_rel (gamma_block_spec st i) c c2)
    (fun i c hi hc => by
      have hmem := mem_of_getElem?_eq _ i c hc
      exact gamma_container_ok st i hi hdmk hnks c (fun ap hap =>
        ⟨(hpairs c hmem ap hap).1, hown c hmem ap hap,
          (hpairs c hmem ap hap).2 (hown c hmem ap hap), hR c hmem ap hap⟩))
  exact ⟨dmr, h1, h2, h3⟩

/-- C2: on a Gamma-only state without undefined behaviour (one k-point, every stored pair
with the single translation `(0, 0, 0)`) whose stored atom pairs are all resident (no
ownership error), `cal_DMR` succeeds and for every spin `s`, stored pair number `iap`, row
`mu` and column `nu` the block element at offset `mu * col_size + nu` equals the element
of the DM(k) buffer `s - 1` at offset `(atom_begin_col + nu) * nrow + atom_begin_row + mu`.
The arithmetic enters through `1 * x = x` and `0 + x = x` only. -/
theorem C2_gamma_copy {F : Type} [Zero F] [One F] [Add F] [Mul F]
    (hmul : ∀ x : F, 1 * x = x) (hadd : ∀ x : F, 0 + x = x)
    (st : DensityMatrix F F) (hwf : st.WellFormed_gamma) (hown : st.all_owned) :
    ∃ st2, st.cal_DMR_gamma = .ok st2 ∧
      ∀ (s iap : Nat) (c : HContainer F) (ap : AtomPair F) (mu nu : Nat) (d : F),
        1 ≤ s → s ≤ st._nspin → st._DMR[s - 1]? = some c → c.atom_pairs[iap]? = some ap →
        mu < st._paraV.get_row_size ap.atom_i → nu < st._paraV.get_col_size ap.atom_j →
        st.DMK_at (s - 1)
          ((st._paraV.atom_begin_col ap.atom_j + nu) * st._paraV.nrow
            + st._paraV.atom_begin_row ap.atom_i + mu) = some d →
        st2.DMR_at s iap ⟨0, 0, 0⟩ (mu * st._paraV.get_col_size ap.atom_j + nu) = some d := by
  obtain ⟨dmr, h1, _, h3⟩ := gamma_state_ok st hwf hown
  refine ⟨st.with_DMR dmr, h1, ?_⟩
  intro s iap c ap mu nu d hs1 hs2 hc hap hmu hnu hd
  obtain ⟨c2, e1, _, e3⟩ := h3 (s - 1) c (by omega) hc
  have hcm := mem_of_getElem?_eq _ _ c hc
  have hapm := mem_of_getElem?_eq _ _ ap hap
  have hpair := (hwf.1.2 c hcm ap hapm).1
  have hR : (⟨0, 0, 0⟩ : Vector3 Int) ∈ ap.R_index := by
    rw [hwf.2.2.2 c hcm ap hapm]
    exact List.mem_singleton.mpr rfl
  obtain ⟨m2, hQ, hread⟩ := DMR_at_of_blocks_rel (st.with_DMR dmr) s iap c c2 _ e1 e3 ap hap
    hpair.1 hpair.2.1 ⟨0, 0, 0⟩ hR
  rw [hread, hQ mu nu hmu hnu d (by
    rw [hwf.2.2.1, Nat.one_mul, Nat.zero_add]
    exact hd), hmul, hadd]

/-! ## The ownership error -/

/-- The work of the reference transform on a resident, well-formed atom pair inside the
local matrix succeeds. -/
theorem test_pair_ok {TK F : Type} [Zero TK] [Zero F] [Add F] [Mul F] [IntCast F]
    [HMul (Cplx F) TK (Cplx F)]
    (lm : Libm F) (st : DensityMatrix TK F) (i : Nat) (hi : i < st._nspin)
    (hkv : st.kv_ok) (hdmk : st.DMK_ok) (ap : AtomPair F) (hp : PairOK st._paraV ap)
    (ho : owned st._paraV ap) (hin : InRange st._paraV ap) :
    ∃ ap2, pair_step st._paraV (fun iat1 iat2 row_ap col_ap tmp_ap =>
        tmp_ap.for_each_R (fun r m =>
          st.cal_DMR_test_block lm (st._nks * i) iat1 iat2 row_ap col_ap r m)) ap = .ok ap2 := by
  obtain ⟨K0, B0, D0, hK0, hB0, hD0⟩ := wf_reads st hkv hdmk i hi ap.atom_i ap.atom_j
    (st._paraV.atom_begin_row ap.atom_i) (st._paraV.atom_begin_col ap.atom_j)
    hin.1 hin.2.1 hin.2.2.1 hin.2.2.2
  unfold pair_step
  rw [if_neg (fun h => h.elim ho.1 ho.2)]
  obtain ⟨vs, h1, _⟩ := for_each_R_ok ap (fun r m =>
      st.cal_DMR_test_block lm (st._nks * i) ap.atom_i ap.atom_j
        (st._paraV.atom_begin_row ap.atom_i) (st._paraV.atom_begin_col ap.atom_j) r m)
    hp.1 hp.2.1 (fun _ _ _ => True) (fun ir r m _ hm => by
      have hblk := hp.2.2 m (mem_of_getElem?_eq _ ir m hm)
      obtain ⟨m2, e1, _⟩ := cal_DMR_test_block_ok lm st (st._nks * i) ap.atom_i ap.atom_j
        (st._paraV.atom_begin_row ap.atom_i) (st._paraV.atom_begin_col ap.atom_j) r m
        K0 B0 D0 hK0 (fun k hk => by rw [Nat.add_comm]; exact hB0 k hk) hD0 hblk.2.1 hblk.2.2
      exact ⟨m2, e1, trivial⟩)
  exact ⟨_, h1⟩

/-- The shape shared by the three transforms: the loop over the spins around the loop over
the atom pairs of the zeroed container.  When the work on each resident pair succeeds, the
transform fails with the ownership error exactly when some stored pair is not resident,
and succeeds otherwise. -/
theorem transform_dichotomy {TK F : Type} [Zero F] (st : DensityMatrix TK F)
    (pre : HContainer F → HContainer F)
    (hpre : ∀ c, (pre c).atom_pairs = c.atom_pairs.map AtomPair.set_zero)
    (body : Nat → (iat1 iat2 : Nat) → (row_ap col_ap : Int) → AtomPair F →
      Except Err (AtomPair F))
    (hlen : st._DMR.length = st._nspin)
    (hbody : ∀ i, i < st._nspin → ∀ c ∈ st._DMR, ∀ ap ∈ c.atom_pairs, owned st._paraV ap →
      ∃ ap2, pair_step st._paraV (body (st._nks * i)) ap.set_zero = .ok ap2) :
    (st.for_each_spin (fun ik_begin tmp_DMR =>
        (pre tmp_DMR).for_each_atom_pair st._paraV (body ik_begin))
        = .error .OwnershipViolation ↔ ¬ st.all_owned) ∧
    (st.all_owned → ∃ st2, st.for_each_spin (fun ik_begin tmp_DMR =>
        (pre tmp_DMR).for_each_atom_pair st._paraV (body ik_begin)) = .ok st2) := by
  have hcont : ∀ (i : Nat) c, i < st._nspin → st._DMR[i]? = some c →
      ((∀ ap ∈ c.atom_pairs, owned st._paraV ap) →
        ∃ c2, (pre c).for_each_atom_pair st._paraV (body (st._nks * i)) = .ok c2) ∧
      ((∃ ap ∈ c.atom_pairs, ¬ owned st._paraV ap) →
        (pre c).for_each_atom_pair st._paraV (body (st._nks * i))
          = .error .OwnershipViolation) := by
    intro i c hi hc
    have hmem := mem_of_getElem?_eq _ i c hc
    constructor
    · intro hall
      obtain ⟨aps, h1, _⟩ := for_each_atom_pair_ok st._paraV (pre c) (body (st._nks * i))
        (fun _ _ => True) (fun ap0 hap0 => by
          rw [hpre c, List.mem_map] at hap0
          obtain ⟨ap, hap, rfl⟩ := hap0
          obtain ⟨ap2, h⟩ := hbody i hi c hmem ap hap (hall ap hap)
          exact ⟨ap2, h, trivial⟩)
      exact ⟨_, h1⟩
    · rintro ⟨ap, hap, hno⟩
      refine for_each_atom_pair_error st._paraV (pre c) (body (st._nks * i))
        (fun ap0 hap0 _ => ?_) ⟨ap.set_zero, ?_, hno⟩
      · rw [hpre c, List.mem_map] at hap0
        obtain ⟨ap1, hap1, rfl⟩ := hap0
        exact hbody i hi c hmem ap1 hap1 (by assumption)
      · rw [hpre c]
        exact List.mem_map_of_mem _ hap
  have hok : st.all_owned → ∃ st2, st.for_each_spin (fun ik_begin tmp_DMR =>
      (pre tmp_DMR).for_each_atom_pair st._paraV (body ik_begin)) = .ok st2 := by
    intro hall
    obtain ⟨dmr, h1, _⟩ := for_each_spin_ok st (fun ik_begin tmp_DMR =>
        (pre tmp_DMR).for_each_atom_pair st._paraV (body ik_begin)) (by omega)
      (fun _ _ _ => True) (fun i c hi hc => by
        obtain ⟨c2, h⟩ := (hcont i c hi hc).1 (hall c (mem_of_getElem?_eq _ i c hc))
        exact ⟨c2, h, trivial⟩)
    exact ⟨_, h1⟩
  refine ⟨⟨fun herr hall => ?_, fun hno => ?_⟩, hok⟩
  · obtain ⟨st2, h⟩ := hok hall
    rw [h] at herr
    cases herr
  · have hex : ∃ c ∈ st._DMR, ∃ ap ∈ c.atom_pairs, ¬ owned st._paraV ap := by
      by_contra hcon
      refine hno (fun c hc ap hap => ?_)
      by_contra h2
      exact hcon ⟨c, hc, ap, hap, h2⟩
    obtain ⟨c, hc, hap⟩ := hex
    obtain ⟨i, hi, hget⟩ := List.getElem_of_mem hc
    have hci : st._DMR[i]? = some c := by rw [List.getElem?_eq_getElem hi, hget]
    refine for_each_spin_error st _ .OwnershipViolation (by omega) (fun j d hj hd => ?_)
      ⟨i, c, by omega, hci, (hcont i c (by omega) hci).2 hap⟩
    by_cases hall : ∀ ap ∈ d.atom_pairs, owned st._paraV ap
    · exact Or.inl ((hcont j d hj hd).1 hall)
    · right
      refine (hcont j d hj hd).2 ?_
      by_contra hcon
      refine hall (fun ap hap => ?_)
      by_contra h2
      exact hcon ⟨ap, hap, h2⟩

/-- Some stored pair is not resident exactly when some stored pair has the row offset or
the column offset `-1`. -/
theorem not_all_owned_iff {TK F : Type} (st : DensityMatrix TK F) :
    ¬ st.all_owned ↔ ∃ c ∈ st._DMR, ∃ ap ∈ c.atom_pairs,
      st._paraV.atom_begin_row ap.atom_i = -1 ∨ st._paraV.atom_begin_col ap.atom_j = -1 := by
  constructor
  · intro h
    by_contra hcon
    refine h (fun c hc ap hap => ⟨fun h1 => hcon ⟨c, hc, ap, hap, Or.inl h1⟩,
      fun h2 => hcon ⟨c, hc, ap, hap, Or.inr h2⟩⟩)
  · rintro ⟨c, hc, ap, hap, h⟩ hall
    exact h.elim (hall c hc ap hap).1 (hall c hc ap hap).2

/-- The multi-k transform on a state without undefined behaviour fails with the ownership
error exactly when some stored pair is not resident, and succeeds otherwise. -/
theorem multi_k_dichotomy {F : Type} [Zero F] [Add F] [Mul F] [Neg F] [IntCast F]
    (lm : Libm F) (st : DensityMatrix (Cplx F) F) (hwf : st.WellFormed_multi_k) :
    (st.cal_DMR_multi_k lm = .error .OwnershipViolation ↔ ¬ st.all_owned) ∧
      (st.all_owned → ∃ st2, st.cal_DMR_multi_k lm = .ok st2) := by
  obtain ⟨⟨hlen, hpairs⟩, hdmk, hkv⟩ := hwf
  exact transform_dichotomy st HContainer.set_zero (fun _ => rfl)
    (fun ik_begin iat1 iat2 row_ap col_ap tmp_ap =>
      tmp_ap.for_each_R (fun r m =>
        st.cal_DMR_multi_k_block lm (2 * (st._paraV.nrow : Int)) ik_begin iat1 iat2
          row_ap col_ap r m))
    hlen (fun i hi c hc ap hap ho => by
      obtain ⟨vs, h, _⟩ := multi_k_pair_ok lm st i hi hkv hdmk ap.set_zero
        (PairOK_set_zero _ ap (hpairs c hc ap hap).1) ho ((hpairs c hc ap hap).2 ho)
      exact ⟨_, h⟩)

/-- The Gamma-only transform on a state without undefined behaviour fails with the
ownership error exactly when some stored pair is not resident, and succeeds otherwise. -/
theorem gamma_dichotomy {F : Type} [Zero F] [One F] [Add F] [Mul F]
    (st : DensityMatrix F F) (hwf : st.WellFormed_gamma) :
    (st.cal_DMR_gamma = .error .OwnershipViolation ↔ ¬ st.all_owned) ∧
      (st.all_owned → ∃ st2, st.cal_DMR_gamma = .ok st2) := by
  obtain ⟨⟨hlen, hpairs⟩, hdmk, hnks, hR⟩ := hwf
  exact transform_dichotomy st (fun c => c.fix_gamma.set_zero) (fun _ => rfl)
    (fun ik_begin iat1 iat2 row_ap col_ap tmp_ap =>
      st.cal_DMR_gamma_pair st._paraV.nrow ik_begin iat1 iat2 row_ap col_ap tmp_ap)
    hlen (fun i hi c hc ap hap ho => by
      obtain ⟨vs, h, _⟩ := gamma_pair_ok st i hi hdmk hnks ap.set_zero
        (PairOK_set_zero _ ap (hpairs c hc ap hap).1) (hR c hc ap hap) ho
        ((hpairs c hc ap hap).2 ho)
      exact ⟨_, h⟩)

/-- The reference transform on a state without undefined behaviour fails with the
ownership error exactly when some stored pair is not resident, and succeeds otherwise. -/
theorem test_dichotomy {TK F : Type} [Zero TK] [Zero F] [Add F] [Mul F] [IntCast F]
    [HMul (Cplx F) TK (Cplx F)] (lm : Libm F) (st : DensityMatrix TK F)
    (hwf : st.WellFormed_multi_k) :
    (st.cal_DMR_test lm = .error .OwnershipViolation ↔ ¬ st.all_owned) ∧
      (st.all_owned → ∃ st2, st.cal_DMR_test lm = .ok st2) := by
  obtain ⟨⟨hlen, hpairs⟩, hdmk, hkv⟩ := hwf
  exact transform_dichotomy st HContainer.set_zero (fun _ => rfl)
    (fun ik_begin iat1 iat2 row_ap col_ap tmp_ap =>
      tmp_ap.for_each_R (fun r m =>
        st.cal_DMR_test_block lm ik_begin iat1 iat2 row_ap col_ap r m))
    hlen (fun i hi c hc ap hap ho =>
      test_pair_ok lm st i hi hkv hdmk ap.set_zero
        (PairOK_set_zero _ ap (hpairs c hc ap hap).1) ho ((hpairs c hc ap hap).2 ho))

/-- C7: on a state without undefined behaviour each of the three transforms (multi-k,
Gamma-only, reference) fails with the ownership error if and only if some atom pair stored
in the DM(R) structure has `atom_begin_row = -1` or `atom_begin_col = -1`, and completes
without error when no stored pair has that property. -/
theorem C7_ownership_error {TK F : Type} [Zero TK] [Zero F] [One F] [Add F] [Mul F] [Neg F]
    [IntCast F] [HMul (Cplx F) TK (Cplx F)] (lm : Libm F) :
    (∀ st : DensityMatrix (Cplx F) F, st.WellFormed_multi_k →
      (st.cal_DMR_multi_k lm = .error .OwnershipViolation ↔
        ∃ c ∈ st._DMR, ∃ ap ∈ c.atom_pairs,
          st._paraV.atom_begin_row ap.atom_i = -1 ∨ st._paraV.atom_begin_col ap.atom_j = -1) ∧
      ((¬ ∃ c ∈ st._DMR, ∃ ap ∈ c.atom_pairs,
          st._paraV.atom_begin_row ap.atom_i = -1 ∨ st._paraV.atom_begin_col ap.atom_j = -1) →
        ∃ st2, st.cal_DMR_multi_k lm = .ok st2)) ∧
    (∀ st : DensityMatrix F F, st.WellFormed_gamma →
      (st.cal_DMR_gamma = .error .OwnershipViolation ↔
        ∃ c ∈ st._DMR, ∃ ap ∈ c.atom_pairs,
          st._paraV.atom_begin_row ap.atom_i = -1 ∨ st._paraV.atom_begin_col ap.atom_j = -1) ∧
      ((¬ ∃ c ∈ st._DMR, ∃ ap ∈ c.atom_pairs,
          st._paraV.atom_begin_row ap.atom_i = -1 ∨ st._paraV.atom_begin_col ap.atom_j = -1) →
        ∃ st2, st.cal_DMR_gamma = .ok st2)) ∧
    (∀ st : DensityMatrix TK F, st.WellFormed_multi_k →
      (st.cal_DMR_test lm = .error .OwnershipViolation ↔
        ∃ c ∈ st._DMR, ∃ ap ∈ c.atom_pairs,
          st._paraV.atom_begin_row ap.atom_i = -1 ∨ st._paraV.atom_begin_col ap.atom_j = -1) ∧
      ((¬ ∃ c ∈ st._DMR, ∃ ap ∈ c.atom_pairs,
          st._paraV.atom_begin_row ap.atom_i = -1 ∨ st._paraV.atom_begin_col ap.atom_j = -1) →
        ∃ st2, st.cal_DMR_test lm = .ok st2)) := by
  refine ⟨fun st hwf => ?_, fun st hwf => ?_, fun st hwf => ?_⟩
  · obtain ⟨h1, h2⟩ := multi_k_dichotomy lm st hwf
    rw [← not_all_owned_iff]
    exact ⟨h1, fun h => h2 (not_not.mp h)⟩
  · obtain ⟨h1, h2⟩ := gamma_dichotomy st hwf
    rw [← not_all_owned_iff]
    exact ⟨h1, fun h => h2 (not_not.mp h)⟩
  · obtain ⟨h1, h2⟩ := test_dichotomy lm st hwf
    rw [← not_all_owned_iff]
    exact ⟨h1, fun h => h2 (not_not.mp h)⟩

/-! ## The reference transform against the optimized one -/

/-- The real part of a product of two complex numbers. -/
theorem Cplx.mul_re {F : Type} [Add F] [Sub F] [Mul F] (a b : Cplx F) :
    (a * b : Cplx F).re = a.re * b.re - a.im * b.im := rfl

/-- When adding the difference of two products is adding the first and then the opposite
of the second, as in exact arithmetic, the reference loop and the optimized loop over the
k-points do the same to a block of the right shape when all their reads are defined. -/
theorem block_test_eq_multi_k {F : Type} [Add F] [Sub F] [Mul F] [Neg F] [IntCast F]
    (hlaw : ∀ y c r s i : F, y + (c * r - s * i) = y + c * r + -s * i)
    (lm : Libm F) (st : DensityMatrix (Cplx F) F) (ik_begin iat1 iat2 : Nat)
    (row_ap col_ap : Int) (r : Vector3 Int) (m : BaseMatrix F)
    (K : Nat → Vector3 F) (B : Nat → List (Cplx F)) (D : Nat → Nat → Nat → Cplx F)
    (hK : ∀ k, k < st._nks → st.kvec_d k = some (K k))
    (hB : ∀ k, k < st._nks → st._DMK[k + ik_begin]? = some (B k))
    (hD : ∀ k mu nu, k < st._nks → mu < st._paraV.get_row_size iat1 →
      nu < st._paraV.get_col_size iat2 →
      readReal (B k) ((col_ap + nu) * st._paraV.nrow + row_ap + mu) = some (D k mu nu))
    (hblk : BlockOK st._paraV iat1 iat2 m) :
    st.cal_DMR_test_block lm ik_begin iat1 iat2 row_ap col_ap r m =
      st.cal_DMR_multi_k_block lm (2 * (st._paraV.nrow : Int)) ik_begin iat1 iat2 row_ap col_ap
        r m := by
  obtain ⟨m1, a1, a2, a3, a4, a5⟩ := cal_DMR_test_block_ok lm st ik_begin iat1 iat2 row_ap
    col_ap r m K B D hK (fun k hk => by rw [Nat.add_comm]; exact hB k hk) hD hblk.2.1 hblk.2.2
  obtain ⟨m2, b1, b2, b3, b4, b5⟩ := cal_DMR_multi_k_block_ok lm st ik_begin iat1 iat2 row_ap
    col_ap r m K B D hK hB hD hblk.2.2
  rw [a1, b1]
  congr 1
  refine BaseMatrix.ext_row_major _ _ m1 m2 (by rw [a2, b2]) (by rw [a3, b3])
    (by rw [a4, hblk.2.2]) (by rw [b4, hblk.2.2]) (fun mu nu hmu hnu => ?_)
  rw [a5 mu nu hmu hnu, b5 mu nu hmu hnu]
  congr 1
  funext y
  refine loop_congr _ _ _ _ (fun k _ t => ?_)
  rw [Cplx.mul_re]
  exact hlaw _ _ _ _ _

/-- Under the same law the reference transform and the optimized transform have the same
outcome on a multi-k state without undefined behaviour. -/
theorem test_eq_multi_k {F : Type} [Zero F] [Add F] [Sub F] [Mul F] [Neg F] [IntCast F]
    (hlaw : ∀ y c r s i : F, y + (c * r - s * i) = y + c * r + -s * i)
    (lm : Libm F) (st : DensityMatrix (Cplx F) F) (hwf : st.WellFormed_multi_k) :
    st.cal_DMR_test lm = st.cal_DMR_multi_k lm := by
  obtain ⟨⟨hlen, hpairs⟩, hdmk, hkv⟩ := hwf
  unfold DensityMatrix.cal_DMR_test DensityMatrix.cal_DMR_multi_k
  rw [for_each_spin_eq, for_each_spin_eq]
  congr 1
  refine updateEachM_congr _ _ _ _ _ rfl (fun i hi c d hc hd => ?_) (fun _ _ => rfl)
  rw [hc] at hd
  cases hd
  have hcm := mem_of_getElem?_eq _ i c hc
  rw [for_each_atom_pair_eq, for_each_atom_pair_eq]
  congr 1
  refine updateEachM_congr _ _ _ _ _ rfl (fun j _ ap0 ap1 h0 h1 => ?_) (fun _ _ => rfl)
  rw [h0] at h1
  cases h1
  rw [set_zero_pairs_getElem?] at h0
  cases hap : c.atom_pairs[j]? with
  | none => rw [hap] at h0; cases h0
  | some ap =>
    rw [hap] at h0
    cases h0
    have hapm := mem_of_getElem?_eq _ j ap hap
    obtain ⟨hp, hin⟩ := hpairs c hcm ap hapm
    have hp0 := PairOK_set_zero st._paraV ap hp
    unfold pair_step
    by_cases ho : st._paraV.atom_begin_row ap.set_zero.atom_i = -1 ∨
        st._paraV.atom_begin_col ap.set_zero.atom_j = -1
    · rw [if_pos ho, if_pos ho]
    · rw [if_neg ho, if_neg ho]
      have hown : owned st._paraV ap := ⟨fun h => ho (Or.inl h), fun h => ho (Or.inr h)⟩
      have hr := hin hown
      obtain ⟨K0, B0, D0, hK0, hB0, hD0⟩ := wf_reads st hkv hdmk i hi ap.atom_i ap.atom_j
        (st._paraV.atom_begin_row ap.atom_i) (st._paraV.atom_begin_col ap.atom_j)
        hr.1 hr.2.1 hr.2.2.1 hr.2.2.2
      beta_reduce
      rw [Nat.add_sub_cancel, for_each_R_eq _ _ hp0.1 hp0.2.1,
        for_each_R_eq _ _ hp0.1 hp0.2.1]
      congr 1
      refine updateEachM_congr _ _ _ _ _ rfl (fun ir _ m m1 hm hm1 => ?_) (fun _ _ => rfl)
      rw [hm] at hm1
      cases hm1
      unfold AtomPair.body_at
      cases ap.set_zero.R_index[ir]? with
      | none => rfl
      | some r =>
        exact block_test_eq_multi_k hlaw lm st _ _ _ _ _ r m K0 B0 D0 hK0 hB0 hD0
          (hp0.2.2 m (mem_of_getElem?_eq _ ir m hm))

/-! ## What a successful transform keeps: the structure of the DM(R) store -/

/-- A successful `axpy` keeps the length of `Y`. -/
theorem axpy_length {F : Type} [Add F] [Mul F] (n : Nat) (alpha : F) (X : Int → Option F)
    (incX : Int) (Y Z : List F) (y0 incY : Nat) (h : axpy n alpha X incX Y y0 incY = .ok Z) :
    Z.length = Y.length := by
  refine loopM_inv (fun _ (W : List F) => W.length = Y.length) n _ Y rfl ?_ Z h
  intro i _ s t hs hbody
  split at hbody
  · cases hbody
    simp [hs]
  · cases hbody

/-- Zeroing depends on the shape of a block only. -/
theorem set_zero_with_values {F : Type} [Zero F] (m : BaseMatrix F) (vs : List F)
    (h : vs.length = m.value_begin.length) :
    BaseMatrix.set_zero { m with value_begin := vs } = m.set_zero := by
  simp only [BaseMatrix.set_zero, List.map_const', h]

/-- A successful multi-k sweep keeps the shape of the block. -/
theorem cal_DMR_multi_k_sweep_shape {F : Type} [Zero F] [Add F] [Mul F] [Neg F]
    (paraV : Parallel_Orbitals) (iat1 iat2 : Nat) (row_ap col_ap : Int) (ld_hk2 : Int)
    (kphase : Cplx F) (DMK : List (Cplx F)) (m m2 : BaseMatrix F)
    (h : cal_DMR_multi_k_sweep paraV iat1 iat2 row_ap col_ap ld_hk2 kphase DMK m = .ok m2) :
    m2.set_zero = m.set_zero := by
  unfold cal_DMR_multi_k_sweep at h
  split at h
  · cases h
  · rename_i s hs
    cases h
    refine set_zero_with_values m _ ?_
    refine loopM_inv (fun _ (s : Int × Nat × List F) => s.2.2.length = m.value_begin.length)
      _ _ _ rfl ?_ s hs
    intro i _ s t hlen hbody
    simp only at hbody
    split at hbody
    · cases hbody
    · rename_i Y1 h1
      split at hbody
      · cases hbody
      · rename_i Y2 h2
        cases hbody
        simp only
        rw [axpy_length _ _ _ _ _ _ _ _ h2, axpy_length _ _ _ _ _ _ _ _ h1, hlen]

/-- A successful Gamma-only sweep keeps the shape of the block. -/
theorem cal_DMR_gamma_sweep_shape {F : Type} [Zero F] [One F] [Add F] [Mul F]
    (paraV : Parallel_Orbitals) (iat1 iat2 : Nat) (row_ap col_ap : Int) (ld_hk : Int)
    (DMK : List F) (m m2 : BaseMatrix F)
    (h : cal_DMR_gamma_sweep paraV iat1 iat2 row_ap col_ap ld_hk DMK m = .ok m2) :
    m2.set_zero = m.set_zero := by
  unfold cal_DMR_gamma_sweep at h
  simp only at h
  split at h
  · cases h
  · rename_i s hs
    cases h
    refine set_zero_with_values m _ ?_
    refine loopM_inv (fun _ (s : Int × Nat × List F) => s.2.2.length = m.value_begin.length)
      _ _ _ rfl ?_ s hs
    intro i _ s t hlen hbody
    simp only at hbody
    split at hbody
    · cases hbody
    · rename_i Y1 h1
      cases hbody
      simp only
      rw [axpy_length _ _ _ _ _ _ _ _ h1, hlen]

/-- A successful multi-k loop over the k-points keeps the shape of the block. -/
theorem cal_DMR_multi_k_block_shape {F : Type} [Zero F] [Add F] [Mul F] [Neg F] [IntCast F]
    (lm : Libm F) (st : DensityMatrix (Cplx F) F) (ld_hk2 : Int) (ik_begin iat1 iat2 : Nat)
    (row_ap col_ap : Int) (r : Vector3 Int) (m m2 : BaseMatrix F)
    (h : st.cal_DMR_multi_k_block lm ld_hk2 ik_begin iat1 iat2 row_ap col_ap r m = .ok m2) :
    m2.set_zero = m.set_zero := by
  unfold DensityMatrix.cal_DMR_multi_k_block at h
  refine loopM_inv (fun _ (t : BaseMatrix F) => t.set_zero = m.set_zero) _ _ _ rfl ?_ m2 h
  intro k _ s t hs hbody
  simp only at hbody
  split at hbody
  · cases hbody
  · split at hbody
    · cases hbody
    · split at hbody
      · cases hbody
      · rw [cal_DMR_multi_k_sweep_shape _ _ _ _ _ _ _ _ _ _ hbody, hs]

/-- Writing a block of the same shape keeps the zeroed atom pair. -/
theorem store_matrix_set_zero {F : Type} [Zero F] (ap : AtomPair F) (r : Vector3 Int)
    (m m2 : BaseMatrix F) (hm : ap.find_matrix r = some m) (h : m2.set_zero = m.set_zero) :
    (ap.store_matrix r m2).set_zero = ap.set_zero := by
  unfold AtomPair.find_matrix at hm
  unfold AtomPair.store_matrix
  cases hk : ap.find_R r with
  | none => rfl
  | some k =>
    rw [hk] at hm
    simp only at hm ⊢
    have hv : (ap.values.set k m2).map BaseMatrix.set_zero =
        ap.values.map BaseMatrix.set_zero := by
      rw [List.map_set, h]
      exact set_of_getElem? _ k _ (by rw [List.getElem?_map, hm]; rfl)
    simp only [AtomPair.set_zero, hv]

/-- A successful loop over the translations keeps the zeroed atom pair when `body` keeps
the shape of the blocks. -/
theorem for_each_R_shape {F : Type} [Zero F] (ap ap2 : AtomPair F)
    (body : Vector3 Int → BaseMatrix F → Except Err (BaseMatrix F))
    (hbody : ∀ r m m2, body r m = .ok m2 → m2.set_zero = m.set_zero)
    (h : ap.for_each_R body = .ok ap2) : ap2.set_zero = ap.set_zero := by
  unfold AtomPair.for_each_R at h
  refine loopM_inv (fun _ (t : AtomPair F) => t.set_zero = ap.set_zero) _ _ _ rfl ?_ ap2 h
  intro ir _ s t hs hstep
  simp only at hstep
  split at hstep
  · cases hstep
  · rename_i r hr
    split at hstep
    · cases hstep
    · rename_i m hm
      split at hstep
      · cases hstep
      · rename_i m2 hm2
        cases hstep
        rw [store_matrix_set_zero s r m m2 hm (hbody r m m2 hm2), hs]

/-- A successful work of the Gamma-only transform on an atom pair keeps the zeroed atom
pair. -/
theorem cal_DMR_gamma_pair_shape {F : Type} [Zero F] [One F] [Add F] [Mul F]
    (st : DensityMatrix F F) (ld_hk : Int) (ik_begin iat1 iat2 : Nat) (row_ap col_ap : Int)
    (ap ap2 : AtomPair F)
    (h : st.cal_DMR_gamma_pair ld_hk ik_begin iat1 iat2 row_ap col_ap ap = .ok ap2) :
    ap2.set_zero = ap.set_zero := by
  unfold DensityMatrix.cal_DMR_gamma_pair at h
  split at h
  · cases h
  · rename_i r hr
    split at h
    · cases h
    · rename_i m hm
      split at h
      · cases h
      · split at h
        · cases h
        · rename_i m2 hm2
          cases h
          exact store_matrix_set_zero ap r m m2 hm
            (cal_DMR_gamma_sweep_shape _ _ _ _ _ _ _ _ _ hm2)

/-- Zeroing twice is zeroing once. -/
theorem AtomPair.set_zero_set_zero {F : Type} [Zero F] (ap : AtomPair F) :
    ap.set_zero.set_zero = ap.set_zero := by
  simp only [AtomPair.set_zero, List.map_map]
  congr 1
  apply List.map_congr_left
  intro m _
  simp only [Function.comp, BaseMatrix.set_zero, List.map_map]
  rfl

/-- A successful loop over the atom pairs keeps the Gamma mark and the zeroed atom pairs
when `body` keeps the zeroed atom pair. -/
theorem for_each_atom_pair_shape {F : Type} [Zero F] (paraV : Parallel_Orbitals)
    (c c2 : HContainer F)
    (body : (iat1 iat2 : Nat) → (row_ap col_ap : Int) → AtomPair F → Except Err (AtomPair F))
    (hbody : ∀ iat1 iat2 row_ap col_ap ap ap2, body iat1 iat2 row_ap col_ap ap = .ok ap2 →
      ap2.set_zero = ap.set_zero)
    (h : c.for_each_atom_pair paraV body = .ok c2) :
    c2.gamma_only = c.gamma_only ∧
      c2.atom_pairs.map AtomPair.set_zero = c.atom_pairs.map AtomPair.set_zero := by
  rw [for_each_atom_pair_eq] at h
  cases hu : updateEachM c.atom_pairs.length (fun _ => pair_step paraV body) c.atom_pairs with
  | error e => rw [hu] at h; cases h
  | ok aps =>
    rw [hu] at h
    cases h
    obtain ⟨hl, hlt, _⟩ := updateEachM_inv _ _ _ _ hu
    refine ⟨rfl, ?_⟩
    show aps.map AtomPair.set_zero = _
    apply List.ext_getElem?
    intro i
    rw [List.getElem?_map, List.getElem?_map]
    by_cases hi : i < c.atom_pairs.length
    · obtain ⟨x, y, hx, hy, hyi⟩ := hlt i hi
      rw [hx, hyi]
      unfold pair_step at hy
      split at hy
      · cases hy
      · exact congrArg some (hbody _ _ _ _ _ _ hy)
    · rw [List.getElem?_eq_none (by omega), List.getElem?_eq_none (by omega)]

/-- What a successful loop over the spins did: it replaced each of the first `_nspin`
containers by the result of `body` and changed nothing else. -/
theorem for_each_spin_inv {TK F : Type} (st st2 : DensityMatrix TK F)
    (body : (ik_begin : Nat) → HContainer F → Except Err (HContainer F))
    (h : st.for_each_spin body = .ok st2) :
    ∃ dmr, st2 = st.with_DMR dmr ∧ dmr.length = st._DMR.length ∧
      (∀ i, i < st._nspin → ∃ c c2, st._DMR[i]? = some c ∧
        body (st._nks * i) c = .ok c2 ∧ dmr[i]? = some c2) ∧
      (∀ i, st._nspin ≤ i → dmr[i]? = st._DMR[i]?) := by
  rw [for_each_spin_eq] at h
  cases hu : updateEachM st._nspin (fun i => body (st._nks * (i + 1 - 1))) st._DMR with
  | error e => rw [hu] at h; cases h
  | ok dmr =>
    rw [hu] at h
    cases h
    obtain ⟨hl, hlt, hge⟩ := updateEachM_inv _ _ _ _ hu
    exact ⟨dmr, rfl, hl, fun i hi => hlt i hi, hge⟩

/-! ## Independence from the prior DM(R) values -/

/-- A transform of the shape shared by the three transforms has the same outcome on two
DM(R) stores that are equal after `pre` and equal beyond the containers of the spins. -/
theorem transform_congr {TK F : Type} (st : DensityMatrix TK F) (dmr2 : List (HContainer F))
    (pre : HContainer F → HContainer F)
    (g : Nat → HContainer F → Except Err (HContainer F))
    (hpre : st._DMR.map pre = dmr2.map pre)
    (htail : ∀ i, st._nspin ≤ i → dmr2[i]? = st._DMR[i]?) :
    (st.with_DMR dmr2).for_each_spin (fun ik_begin tmp_DMR => g ik_begin (pre tmp_DMR)) =
      st.for_each_spin (fun ik_begin tmp_DMR => g ik_begin (pre tmp_DMR)) := by
  have hl : dmr2.length = st._DMR.length := by
    have := congrArg List.length hpre
    simpa using this.symm
  rw [for_each_spin_eq, for_each_spin_eq]
  have : updateEachM (st.with_DMR dmr2)._nspin
      (fun i tmp_DMR => g ((st.with_DMR dmr2)._nks * (i + 1 - 1)) (pre tmp_DMR))
      (st.with_DMR dmr2)._DMR =
      updateEachM st._nspin (fun i tmp_DMR => g (st._nks * (i + 1 - 1)) (pre tmp_DMR))
        st._DMR := by
    refine updateEachM_congr st._nspin _ _ dmr2 st._DMR hl (fun i _ x y hx hy => ?_)
      (fun i hi => ?_)
    · have e1 : (dmr2.map pre)[i]? = some (pre x) := by rw [List.getElem?_map, hx]; rfl
      have e2 : (st._DMR.map pre)[i]? = some (pre y) := by rw [List.getElem?_map, hy]; rfl
      rw [hpre, e1] at e2
      have e3 : pre x = pre y := Option.some.inj e2
      show g (st._nks * (i + 1 - 1)) (pre x) = g (st._nks * (i + 1 - 1)) (pre y)
      rw [e3]
    · exact htail i hi
  rw [this]
  cases updateEachM st._nspin (fun i tmp_DMR => g (st._nks * (i + 1 - 1)) (pre tmp_DMR))
    st._DMR <;> rfl

/-- A state is determined by its fields. -/
theorem DensityMatrix.eq_with_DMR {TK F : Type} [Zero F] (st1 st2 : DensityMatrix TK F)
    (h : st1.same_inputs st2) : st2 = st1.with_DMR st2._DMR := by
  obtain ⟨h1, h2, h3, h4, h5, _⟩ := h
  cases st1
  cases st2
  simp only at h1 h2 h3 h4 h5
  subst h1 h2 h3 h4 h5
  rfl

/-- Zeroing a zeroed container, Gamma-fixed or not, changes nothing. -/
theorem fix_gamma_set_zero_congr {F : Type} [Zero F] (c1 c2 : HContainer F)
    (h : c1.set_zero = c2.set_zero) : c1.fix_gamma.set_zero = c2.fix_gamma.set_zero := by
  have h2 : c1.set_zero.atom_pairs = c2.set_zero.atom_pairs := by rw [h]
  show HContainer.mk true (c1.atom_pairs.map AtomPair.set_zero) =
    HContainer.mk true (c2.atom_pairs.map AtomPair.set_zero)
  exact congrArg (HContainer.mk true) h2

/-- C5: a `cal_DMR` (multi-k or Gamma-only) has the same outcome, success with the same
DM(R) values or the same failure, on any two states that agree on the DM(k) store, the
layout, the k-vectors and the sparse structure and differ arbitrarily in the prior DM(R)
block values.  No law of arithmetic is used. -/
theorem C5_prior_values_irrelevant {F : Type} [Zero F] [One F] [Add F] [Mul F] [Neg F]
    [IntCast F] (lm : Libm F) :
    (∀ st1 st2 : DensityMatrix (Cplx F) F, st1.same_inputs st2 →
      st1._DMR.length = st1._nspin →
      st1.cal_DMR_multi_k lm = st2.cal_DMR_multi_k lm) ∧
    (∀ st1 st2 : DensityMatrix F F, st1.same_inputs st2 →
      st1._DMR.length = st1._nspin →
      st1.cal_DMR_gamma = st2.cal_DMR_gamma) := by
  constructor
  · intro st1 st2 h hlen
    rw [DensityMatrix.eq_with_DMR st1 st2 h]
    exact (transform_congr st1 st2._DMR HContainer.set_zero
      (fun ik_begin c => c.for_each_atom_pair st1._paraV
        (fun iat1 iat2 row_ap col_ap tmp_ap =>
          tmp_ap.for_each_R (fun r_index tmp_matrix =>
            st1.cal_DMR_multi_k_block lm (2 * (st1._paraV.nrow : Int)) ik_begin iat1 iat2
              row_ap col_ap r_index tmp_matrix)))
      h.2.2.2.2.2 (fun i hi => by
        have hl : st2._DMR.length = st1._DMR.length := by
          have := congrArg List.length h.2.2.2.2.2
          simpa using this.symm
        rw [List.getElem?_eq_none (by omega), List.getElem?_eq_none (by omega)])).symm
  · intro st1 st2 h hlen
    rw [DensityMatrix.eq_with_DMR st1 st2 h]
    have hpre : st1._DMR.map (fun c => c.fix_gamma.set_zero) =
        st2._DMR.map (fun c => c.fix_gamma.set_zero) := by
      have hz := h.2.2.2.2.2
      apply List.ext_getElem?
      intro i
      have hi := congrArg (fun l => l[i]?) hz
      simp only [List.getElem?_map] at hi ⊢
      cases h1 : st1._DMR[i]? with
      | none =>
        rw [h1] at hi
        cases h2 : st2._DMR[i]? with
        | none => rfl
        | some y => rw [h2] at hi; cases hi
      | some x =>
        rw [h1] at hi
        cases h2 : st2._DMR[i]? with
        | none => rw [h2] at hi; cases hi
        | some y =>
          rw [h2] at hi
          exact congrArg some (fix_gamma_set_zero_congr x y (Option.some.inj hi))
    exact (transform_congr st1 st2._DMR (fun c => c.fix_gamma.set_zero)
      (fun ik_begin c => c.for_each_atom_pair st1._paraV
        (fun iat1 iat2 row_ap col_ap tmp_ap =>
          st1.cal_DMR_gamma_pair st1._paraV.nrow ik_begin iat1 iat2 row_ap col_ap tmp_ap))
      hpre (fun i hi => by
        have hl : st2._DMR.length = st1._DMR.length := by
          have := congrArg List.length h.2.2.2.2.2
          simpa using this.symm
        rw [List.getElem?_eq_none (by omega), List.getElem?_eq_none (by omega)])).symm

/-! ## Idempotence -/

/-- Zeroing the atom pairs twice is zeroing them once. -/
theorem map_set_zero_set_zero {F : Type} [Zero F] (l : List (AtomPair F)) :
    (l.map AtomPair.set_zero).map AtomPair.set_zero = l.map AtomPair.set_zero := by
  rw [List.map_map]
  apply List.map_congr_left
  intro ap _
  exact AtomPair.set_zero_set_zero ap

/-- The zeroed DM(R) store after a successful transform of the shape shared by the three
transforms is the zeroed store before it, when the work on the containers keeps the Gamma
mark and the zeroed atom pairs. -/
theorem transform_keeps_structure {TK F : Type} [Zero F] (st : DensityMatrix TK F)
    (pre : HContainer F → HContainer F)
    (g : Nat → HContainer F → Except Err (HContainer F))
    (hpre : ∀ c1 c2 : HContainer F, c2.gamma_only = (pre c1).gamma_only →
      c2.atom_pairs.map AtomPair.set_zero = (pre c1).atom_pairs.map AtomPair.set_zero →
      pre c2 = pre c1)
    (hg : ∀ ik_begin c c2, g ik_begin c = .ok c2 → c2.gamma_only = c.gamma_only ∧
      c2.atom_pairs.map AtomPair.set_zero = c.atom_pairs.map AtomPair.set_zero)
    (dmr : List (HContainer F))
    (h : st.for_each_spin (fun ik_begin tmp_DMR => g ik_begin (pre tmp_DMR))
      = .ok (st.with_DMR dmr)) :
    st._DMR.map pre = dmr.map pre ∧ ∀ i, st._nspin ≤ i → dmr[i]? = st._DMR[i]? := by
  obtain ⟨dmr2, e1, e2, e3, e4⟩ := for_each_spin_inv st _ _ h
  have hd : dmr = dmr2 := congrArg DensityMatrix._DMR e1
  subst hd
  refine ⟨?_, e4⟩
  apply List.ext_getElem?
  intro i
  rw [List.getElem?_map, List.getElem?_map]
  by_cases hi : i < st._nspin
  · obtain ⟨c, c2, hc, hb, hc2⟩ := e3 i hi
    rw [hc, hc2]
    obtain ⟨g1, g2⟩ := hg _ _ _ hb
    exact congrArg some (hpre c c2 g1 g2).symm
  · rw [e4 i (by omega)]

/-- C4: `cal_DMR` is idempotent.  Whenever `cal_DMR` (multi-k or Gamma-only) succeeds, the
DM(k) store is unchanged and a second call on the resulting state succeeds and returns the
resulting state itself: every DM(R) block of every spin is identical to its value after
the first call.  No law of arithmetic is used. -/
theorem C4_idempotent {F : Type} [Zero F] [One F] [Add F] [Mul F] [Neg F] [IntCast F]
    (lm : Libm F) :
    (∀ st st1 : DensityMatrix (Cplx F) F, st.cal_DMR_multi_k lm = .ok st1 →
      st1._DMK = st._DMK ∧ st1.cal_DMR_multi_k lm = .ok st1) ∧
    (∀ st st1 : DensityMatrix F F, st.cal_DMR_gamma = .ok st1 →
      st1._DMK = st._DMK ∧ st1.cal_DMR_gamma = .ok st1) := by
  constructor
  · intro st st1 h
    have h : st.for_each_spin (fun ik_begin tmp_DMR =>
        (fun ik_begin c => c.for_each_atom_pair st._paraV
        (fun iat1 iat2 row_ap col_ap tmp_ap =>
          tmp_ap.for_each_R (fun r_index tmp_matrix =>
            st.cal_DMR_multi_k_block lm (2 * (st._paraV.nrow : Int)) ik_begin iat1 iat2
              row_ap col_ap r_index tmp_matrix))) ik_begin tmp_DMR.set_zero) = .ok st1 := h
    obtain ⟨dmr, e1, _⟩ := for_each_spin_inv st st1 _ h
    subst e1
    refine ⟨rfl, ?_⟩
    obtain ⟨hz, htail⟩ := transform_keeps_structure st HContainer.set_zero
      (fun ik_begin c => c.for_each_atom_pair st._paraV
        (fun iat1 iat2 row_ap col_ap tmp_ap =>
          tmp_ap.for_each_R (fun r_index tmp_matrix =>
            st.cal_DMR_multi_k_block lm (2 * (st._paraV.nrow : Int)) ik_begin iat1 iat2
              row_ap col_ap r_index tmp_matrix)))
      (fun c1 c2 h1 h2 => by
        show HContainer.mk c2.gamma_only (c2.atom_pairs.map AtomPair.set_zero) =
          HContainer.mk c1.gamma_only (c1.atom_pairs.map AtomPair.set_zero)
        rw [h1, h2]
        show HContainer.mk c1.gamma_only
          ((c1.atom_pairs.map AtomPair.set_zero).map AtomPair.set_zero) = _
        rw [map_set_zero_set_zero])
      (fun ik_begin c c2 hc => for_each_atom_pair_shape _ c c2 _
        (fun _ _ _ _ ap ap2 hap => for_each_R_shape ap ap2 _
          (fun r m m2 hm => cal_DMR_multi_k_block_shape _ _ _ _ _ _ _ _ _ _ _ hm) hap) hc)
      dmr h
    exact (transform_congr st dmr HContainer.set_zero
      (fun ik_begin c => c.for_each_atom_pair st._paraV
        (fun iat1 iat2 row_ap col_ap tmp_ap =>
          tmp_ap.for_each_R (fun r_index tmp_matrix =>
            st.cal_DMR_multi_k_block lm (2 * (st._paraV.nrow : Int)) ik_begin iat1 iat2
              row_ap col_ap r_index tmp_matrix))) hz htail).trans h
  · intro st st1 h
    have h : st.for_each_spin (fun ik_begin tmp_DMR =>
        (fun ik_begin c => c.for_each_atom_pair st._paraV
        (fun iat1 iat2 row_ap col_ap tmp_ap =>
          st.cal_DMR_gamma_pair st._paraV.nrow ik_begin iat1 iat2 row_ap col_ap tmp_ap)) ik_begin tmp_DMR.fix_gamma.set_zero) = .ok st1 := h
    obtain ⟨dmr, e1, _⟩ := for_each_spin_inv st st1 _ h
    subst e1
    refine ⟨rfl, ?_⟩
    obtain ⟨hz, htail⟩ := transform_keeps_structure st (fun c => c.fix_gamma.set_zero)
      (fun ik_begin c => c.for_each_atom_pair st._paraV
        (fun iat1 iat2 row_ap col_ap tmp_ap =>
          st.cal_DMR_gamma_pair st._paraV.nrow ik_begin iat1 iat2 row_ap col_ap tmp_ap))
      (fun c1 c2 _ h2 => by
        show HContainer.mk true (c2.atom_pairs.map AtomPair.set_zero) =
          HContainer.mk true (c1.atom_pairs.map AtomPair.set_zero)
        rw [h2]
        show HContainer.mk true
          ((c1.atom_pairs.map AtomPair.set_zero).map AtomPair.set_zero) = _
        rw [map_set_zero_set_zero])
      (fun ik_begin c c2 hc => for_each_atom_pair_shape _ c c2 _
        (fun _ _ _ _ ap ap2 hap => cal_DMR_gamma_pair_shape _ _ _ _ _ _ _ ap ap2 hap) hc)
      dmr h
    exact (transform_congr st dmr (fun c => c.fix_gamma.set_zero)
      (fun ik_begin c => c.for_each_atom_pair st._paraV
        (fun iat1 iat2 row_ap col_ap tmp_ap =>
          st.cal_DMR_gamma_pair st._paraV.nrow ik_begin iat1 iat2 row_ap col_ap tmp_ap)) hz htail).trans h

/-! ## Multi-k at the single k-point Γ against Gamma-only -/

/-- Two containers in `blocks_rel` to one well-formed container, whose relations force
equal values at every row and column, have the same atom pairs. -/
theorem blocks_rel_ext {F : Type} [Zero F] (paraV : Parallel_Orbitals)
    (Q1 Q2 : AtomPair F → Vector3 Int → BaseMatrix F → Prop) (c c1 c2 : HContainer F)
    (h1 : blocks_rel Q1 c c1) (h2 : blocks_rel Q2 c c2)
    (hp : ∀ ap ∈ c.atom_pairs, PairOK paraV ap)
    (hQ : ∀ ap ∈ c.atom_pairs, ∀ r ∈ ap.R_index, ∀ m1 m2, Q1 ap r m1 → Q2 ap r m2 →
      ∀ mu nu, mu < paraV.get_row_size ap.atom_i → nu < paraV.get_col_size ap.atom_j →
        m1.value_begin[mu * paraV.get_col_size ap.atom_j + nu]? =
          m2.value_begin[mu * paraV.get_col_size ap.atom_j + nu]?) :
    c1.atom_pairs = c2.atom_pairs := by
  apply List.ext_getElem?
  intro i
  cases hap : c.atom_pairs[i]? with
  | none =>
    rw [List.getElem?_eq_none_iff] at hap
    rw [List.getElem?_eq_none (by rw [h1.1]; exact hap),
      List.getElem?_eq_none (by rw [h2.1]; exact hap)]
  | some ap =>
    have hapm := mem_of_getElem?_eq _ i ap hap
    obtain ⟨vs1, a1, a2, a3⟩ := h1.2 i ap hap
    obtain ⟨vs2, b1, b2, b3⟩ := h2.2 i ap hap
    rw [a1, b1]
    have hv : vs1 = vs2 := by
      apply List.ext_getElem?
      intro ir
      by_cases hir : ir < ap.values.length
      · have hm : ap.values[ir]? = some ap.values[ir] := List.getElem?_eq_getElem hir
        have hlt : ir < ap.R_index.length := by rw [← (hp ap hapm).2.1]; exact hir
        have hr : ap.R_index[ir]? = some ap.R_index[ir] := List.getElem?_eq_getElem hlt
        obtain ⟨m1, f1, f2, f3, f4, f5⟩ := a3 ir _ _ hr hm
        obtain ⟨m2, g1, g2, g3, g4, g5⟩ := b3 ir _ _ hr hm
        rw [f1, g1]
        have hblk := (hp ap hapm).2.2 _ (List.getElem_mem hir)
        exact congrArg some (BaseMatrix.ext_row_major _ _ m1 m2 (by rw [f2, g2])
          (by rw [f3, g3]) (by rw [f4, hblk.2.2]) (by rw [g4, hblk.2.2])
          (hQ ap hapm _ (List.getElem_mem hlt) m1 m2 f5 g5))
      · rw [List.getElem?_eq_none (by omega), List.getElem?_eq_none (by omega)]
    rw [hv]

/-- Reading the real part of a complex buffer element by element. -/
theorem readReal_map {α β : Type} (f : α → β) (buf : List α) (off : Int) :
    readReal (buf.map f) off = (readReal buf off).map f := by
  unfold readReal
  by_cases h : off < 0
  · rw [if_pos h, if_pos h]; rfl
  · rw [if_neg h, if_neg h, List.getElem?_map]

/-- C6: in exact arithmetic with `sincos 0 = (0, 1)`, a multi-k state without undefined
behaviour that has exactly one k-point `k = (0, 0, 0)`, all stored pairs resident and each
with the single translation `(0, 0, 0)`, and a Gamma-only state with the same layout, the
same spin count, the same sparse structure and DM(k) buffers equal to the real parts of
the complex ones: both transforms succeed and leave identical DM(R) block values. -/
theorem C6_gamma_equivalence {F : Type} [CommRing F] (lm : Libm F)
    (hsc : lm.sincos 0 = (0, 1))
    (stk : DensityMatrix (Cplx F) F) (stg : DensityMatrix F F)
    (hwf : stk.WellFormed_multi_k) (hown : stk.all_owned) (hnks : stk._nks = 1)
    (hk0 : stk.kvec_d 0 = some ⟨0, 0, 0⟩)
    (hR : ∀ c ∈ stk._DMR, ∀ ap ∈ c.atom_pairs, ap.R_index = [⟨0, 0, 0⟩])
    (hparaV : stg._paraV = stk._paraV) (hnspin : stg._nspin = stk._nspin)
    (hnksg : stg._nks = 1)
    (hDMK : stg._DMK = stk._DMK.map (fun buf => buf.map Cplx.re))
    (hDMR : stg._DMR.map HContainer.set_zero = stk._DMR.map HContainer.set_zero) :
    ∃ rk rg, stk.cal_DMR_multi_k lm = .ok rk ∧ stg.cal_DMR_gamma = .ok rg ∧
      rk._DMR.map HContainer.atom_pairs = rg._DMR.map HContainer.atom_pairs := by
  obtain ⟨dk, k1, k2, k3⟩ := multi_k_state_ok lm stk hwf hown
  have hlenD : stg._DMR.length = stk._DMR.length := by
    have := congrArg List.length hDMR
    simpa using this
  -- the Gamma-only state with the DM(R) store of the multi-k state
  have hwfg : (stg.with_DMR stk._DMR).WellFormed_gamma := by
    refine ⟨⟨?_, ?_⟩, ⟨?_, ?_⟩, hnksg, hR⟩
    · show stk._DMR.length = stg._nspin
      rw [hnspin]; exact hwf.1.1
    · intro c hc ap hap
      show PairOK stg._paraV ap ∧ (owned stg._paraV ap → InRange stg._paraV ap)
      rw [hparaV]
      exact hwf.1.2 c hc ap hap
    · show stg._nspin * stg._nks ≤ stg._DMK.length
      have := hwf.2.1.1
      rw [hnspin, hnksg, hDMK, List.length_map]
      rw [hnks] at this
      exact this
    · intro buf hbuf
      show buf.length = stg._paraV.nrow * stg._paraV.ncol
      change buf ∈ stg._DMK at hbuf
      rw [hDMK, List.mem_map] at hbuf
      obtain ⟨b0, hb0, rfl⟩ := hbuf
      rw [List.length_map, hparaV]
      exact hwf.2.1.2 b0 hb0
  have howng : (stg.with_DMR stk._DMR).all_owned := by
    intro c hc ap hap
    show owned stg._paraV ap
    rw [hparaV]
    exact hown c hc ap hap
  obtain ⟨dg, g1, g2, g3⟩ := gamma_state_ok (stg.with_DMR stk._DMR) hwfg howng
  have hpre : stg._DMR.map (fun c => c.fix_gamma.set_zero) =
      stk._DMR.map (fun c => c.fix_gamma.set_zero) := by
    apply List.ext_getElem?
    intro i
    have hi := congrArg (fun l => l[i]?) hDMR
    simp only [List.getElem?_map] at hi ⊢
    cases h1 : stg._DMR[i]? with
    | none =>
      rw [h1] at hi
      cases h2 : stk._DMR[i]? with
      | none => rfl
      | some y => rw [h2] at hi; cases hi
    | some x =>
      rw [h1] at hi
      cases h2 : stk._DMR[i]? with
      | none => rw [h2] at hi; cases hi
      | some y =>
        rw [h2] at hi
        exact congrArg some (fix_gamma_set_zero_congr x y (Option.some.inj hi))
  have hg := transform_congr stg stk._DMR (fun c => c.fix_gamma.set_zero)
    (fun ik_begin c => c.for_each_atom_pair stg._paraV
      (fun iat1 iat2 row_ap col_ap tmp_ap =>
        stg.cal_DMR_gamma_pair stg._paraV.nrow ik_begin iat1 iat2 row_ap col_ap tmp_ap))
    hpre (fun i hi => by
      have h1 : stk._DMR.length = stk._nspin := hwf.1.1
      rw [List.getElem?_eq_none (by omega), List.getElem?_eq_none (by omega)])
  refine ⟨stk.with_DMR dk, stg.with_DMR dg, k1, hg.symm.trans g1, ?_⟩
  show dk.map HContainer.atom_pairs = dg.map HContainer.atom_pairs
  apply List.ext_getElem?
  intro i
  rw [List.getElem?_map, List.getElem?_map]
  by_cases hi : i < stk._DMR.length
  · have hc : stk._DMR[i]? = some stk._DMR[i] := List.getElem?_eq_getElem hi
    have hin : i < stk._nspin := by rw [← hwf.1.1]; exact hi
    have hcm : stk._DMR[i] ∈ stk._DMR := List.getElem_mem hi
    obtain ⟨c1, a1, _, a3⟩ := k3 i _ hin hc
    obtain ⟨c2, b1, _, b3⟩ := g3 i _ (by show i < stg._nspin; rw [hnspin]; exact hin) hc
    rw [a1, b1]
    refine congrArg some (blocks_rel_ext stk._paraV _ _ _ c1 c2 a3 b3
      (fun ap hap => (hwf.1.2 _ hcm ap hap).1) ?_)
    intro ap hap r hr m1 m2 hQ1 hQ2 mu nu hmu hnu
    have hrange := (hwf.1.2 _ hcm ap hap).2 (hown _ hcm ap hap)
    obtain ⟨B0, D0, hB0, hD0⟩ := wf_reads_dmk stk hwf.2.1 i hin ap.atom_i ap.atom_j
      (stk._paraV.atom_begin_row ap.atom_i) (stk._paraV.atom_begin_col ap.atom_j)
      hrange.1 hrange.2.1 hrange.2.2.1 hrange.2.2.2
    have h0 : 0 < stk._nks := by omega
    have hDk : ∀ k, k < stk._nks → stk.DMK_at (k + stk._nks * i)
        ((stk._paraV.atom_begin_col ap.atom_j + nu) * stk._paraV.nrow
          + stk._paraV.atom_begin_row ap.atom_i + mu) = some (D0 0 mu nu) := by
      intro k hk
      have hk0 : k = 0 := by omega
      subst hk0
      unfold DensityMatrix.DMK_at
      rw [hB0 0 h0]
      exact hD0 0 mu nu h0 hmu hnu
    have hKk : ∀ k, k < stk._nks → stk.kvec_d k = some ((fun _ => (⟨0, 0, 0⟩ : Vector3 F)) k) := by
      intro k hk
      have hk0 : k = 0 := by omega
      subst hk0
      exact hk0
    have v1 := hQ1 mu nu hmu hnu (fun _ => ⟨0, 0, 0⟩) (fun _ => D0 0 mu nu) hKk hDk
    have hDg : (stg.with_DMR stk._DMR).DMK_at (0 + (stg.with_DMR stk._DMR)._nks * i)
        (((stg.with_DMR stk._DMR)._paraV.atom_begin_col ap.atom_j + nu)
          * (stg.with_DMR stk._DMR)._paraV.nrow
          + (stg.with_DMR stk._DMR)._paraV.atom_begin_row ap.atom_i + mu)
        = some (D0 0 mu nu).re := by
      show stg.DMK_at (0 + stg._nks * i) ((stg._paraV.atom_begin_col ap.atom_j + nu)
          * stg._paraV.nrow + stg._paraV.atom_begin_row ap.atom_i + mu) = _
      unfold DensityMatrix.DMK_at
      have hb := hB0 0 h0
      rw [hnksg, hDMK, List.getElem?_map, hparaV]
      rw [hnks] at hb
      rw [hb]
      simp only [Option.map_some', readReal_map, hD0 0 mu nu h0 hmu hnu]
    have v2 := hQ2 mu nu (by show mu < stg._paraV.get_row_size ap.atom_i; rw [hparaV]; exact hmu)
      (by show nu < stg._paraV.get_col_size ap.atom_j; rw [hparaV]; exact hnu) _ hDg
    have e2 : m2.value_begin[mu * stk._paraV.get_col_size ap.atom_j + nu]? =
        some (0 + 1 * (D0 0 mu nu).re) := by
      rw [← hparaV]
      exact v2
    rw [v1, e2, hnks]
    congr 1
    simp only [loop, kphase, Vector3.dot, Vector3.ofInt, zero_mul, add_zero, hsc]
    ring
  · have g2b : dg.length = stk._DMR.length := g2
    rw [List.getElem?_eq_none (by omega), List.getElem?_eq_none (by omega)]

/-! ## The concrete states -/

/-- The concrete Gamma-only state has no undefined behaviour. -/
theorem state_gamma_wf : state_gamma.WellFormed_gamma := by
  decide

/-- The stored pairs of the concrete Gamma-only state are resident. -/
theorem state_gamma_owned : state_gamma.all_owned := by
  decide

/-- C2 on the concrete Gamma-only state: the element (1, 0) of the block of the pair
(0, 1) of spin 2 is the element `100 + 9` of the second buffer, at offset
`(2 + 0) * 4 + 0 + 1`. -/
theorem C2_gamma_copy_witness :
    state_gamma.WellFormed_gamma ∧ state_gamma.all_owned ∧
    ∃ st2, state_gamma.cal_DMR_gamma = .ok st2 ∧
      st2.DMR_at 2 1 ⟨0, 0, 0⟩ (1 * 2 + 0) = some (100 + 9) := by
  refine ⟨state_gamma_wf, state_gamma_owned, ?_⟩
  obtain ⟨st2, h1, h2⟩ := C2_gamma_copy (fun x => Int.one_mul x) (fun x => Int.zero_add x)
    state_gamma state_gamma_wf state_gamma_owned
  refine ⟨st2, h1, ?_⟩
  exact h2 2 1 container_gamma ⟨0, 1, 2, 2, [⟨0, 0, 0⟩], [block_2x2 5]⟩ 1 0 (100 + 9)
    (by decide) (by decide) rfl rfl (by decide) (by decide) (by decide)

/-- C4 on the concrete states: the transforms succeed, and succeed again with the same
state when run on their result. -/
theorem C4_idempotent_witness :
    (∃ st1, state_multi_k.cal_DMR_multi_k libm_Z = .ok st1 ∧
      st1.cal_DMR_multi_k libm_Z = .ok st1) ∧
    (∃ st1, state_gamma.cal_DMR_gamma = .ok st1 ∧ st1.cal_DMR_gamma = .ok st1) := by
  constructor
  · obtain ⟨st1, h⟩ := (multi_k_dichotomy libm_Z state_multi_k state_multi_k_wf).2
      state_multi_k_owned
    exact ⟨st1, h, ((C4_idempotent libm_Z).1 state_multi_k st1 h).2⟩
  · obtain ⟨st1, h⟩ := (gamma_dichotomy state_gamma state_gamma_wf).2 state_gamma_owned
    exact ⟨st1, h, ((C4_idempotent libm_Z).2 state_gamma st1 h).2⟩

/-- C5 on the concrete states: zeroing the stale DM(R) values beforehand does not change
the outcome of the transforms. -/
theorem C5_prior_values_irrelevant_witness :
    state_multi_k.cal_DMR_multi_k libm_Z =
      (state_multi_k.with_DMR [container_2.set_zero]).cal_DMR_multi_k libm_Z ∧
    state_gamma.cal_DMR_gamma =
      (state_gamma.with_DMR [container_gamma.set_zero, container_gamma.set_zero]).cal_DMR_gamma :=
  ⟨(C5_prior_values_irrelevant libm_Z).1 state_multi_k
      (state_multi_k.with_DMR [container_2.set_zero])
      ⟨rfl, rfl, rfl, rfl, rfl, by decide⟩ (by decide),
    (C5_prior_values_irrelevant libm_Z).2 state_gamma
      (state_gamma.with_DMR [container_gamma.set_zero, container_gamma.set_zero])
      ⟨rfl, rfl, rfl, rfl, rfl, by decide⟩ (by decide)⟩

/-- The concrete multi-k state at Γ has no undefined behaviour. -/
theorem state_multi_k_at_gamma_wf : state_multi_k_at_gamma.WellFormed_multi_k := by
  decide

/-- C6 on the concrete states at Γ: both transforms succeed with the same block values. -/
theorem C6_gamma_equivalence_witness :
    ∃ rk rg, state_multi_k_at_gamma.cal_DMR_multi_k libm_Z = .ok rk ∧
      state_gamma.cal_DMR_gamma = .ok rg ∧
      rk._DMR.map HContainer.atom_pairs = rg._DMR.map HContainer.atom_pairs :=
  C6_gamma_equivalence libm_Z rfl state_multi_k_at_gamma state_gamma
    state_multi_k_at_gamma_wf (by decide) rfl rfl (by decide) rfl rfl rfl (by decide)
    (by decide)

/-- The concrete states with a foreign pair have no undefined behaviour. -/
theorem state_foreign_wf :
    state_multi_k_foreign.WellFormed_multi_k ∧ state_gamma_foreign.WellFormed_gamma := by
  decide

/-- C7 on the concrete states: with the foreign pair (0, 2) in the structure the three
transforms fail with the ownership error, without it they succeed. -/
theorem C7_ownership_error_witness :
    (state_multi_k_foreign.cal_DMR_multi_k libm_Z = .error .OwnershipViolation ∧
      state_gamma_foreign.cal_DMR_gamma = .error .OwnershipViolation ∧
      state_multi_k_foreign.cal_DMR_test libm_Z = .error .OwnershipViolation) ∧
    ((∃ st2, state_multi_k.cal_DMR_multi_k libm_Z = .ok st2) ∧
      (∃ st2, state_gamma.cal_DMR_gamma = .ok st2) ∧
      (∃ st2, state_multi_k.cal_DMR_test libm_Z = .ok st2)) := by
  have h := @C7_ownership_error (Cplx Int) Int _ _ _ _ _ _ _ _ libm_Z
  refine ⟨⟨?_, ?_, ?_⟩, ?_, ?_, ?_⟩
  · exact ((h.1 state_multi_k_foreign state_foreign_wf.1).1).mpr (by decide)
  · exact ((h.2.1 state_gamma_foreign state_foreign_wf.2).1).mpr (by decide)
  · exact ((h.2.2 state_multi_k_foreign state_foreign_wf.1).1).mpr (by decide)
  · exact (h.1 state_multi_k state_multi_k_wf).2 (by decide)
  · exact (h.2.1 state_gamma state_gamma_wf).2 (by decide)
  · exact (h.2.2 state_multi_k state_multi_k_wf).2 (by decide)

/-! ## Element access to DM(k) -/

/-- The two constructors leave a state with one or two spins whose DM(k) store has a
buffer of `nrow * ncol` elements for each spin and k-point. -/
theorem constructed_invariants {TK F : Type} [Zero TK] (kv_in : K_Vectors F)
    (paraV_in : Parallel_Orbitals) (nspin : Int) (dm : DensityMatrix TK F)
    (h : DensityMatrix.DensityMatrix_multi_k kv_in paraV_in nspin = .ok dm ∨
      DensityMatrix.DensityMatrix_gamma paraV_in nspin = .ok dm) :
    dm.DMK_ok ∧ (dm._nspin = 1 ∨ dm._nspin = 2) := by
  by_cases hv : nspin = 1 ∨ nspin = 2 ∨ nspin = 4
  · obtain ⟨n, hn⟩ := normalized_cases nspin hv
    have hn12 : n = 1 ∨ n = 2 := hn.elim (fun x => Or.inl x.2) (fun x => Or.inr x.2)
    rcases h with h | h
    · rw [DensityMatrix_multi_k_eq kv_in paraV_in nspin n hn] at h
      cases h
      refine ⟨⟨?_, fun buf hb => ?_⟩, hn12⟩
      · show n * (kv_in.nks / n) ≤ (List.replicate kv_in.nks _).length
        rw [List.length_replicate]
        exact Nat.mul_div_le _ _
      · rw [List.eq_of_mem_replicate hb, List.length_replicate]
    · rw [DensityMatrix_gamma_eq paraV_in nspin n hn] at h
      cases h
      refine ⟨⟨?_, fun buf hb => ?_⟩, hn12⟩
      · show n * 1 ≤ (List.replicate n _).length
        rw [List.length_replicate, Nat.mul_one]
      · rw [List.eq_of_mem_replicate hb, List.length_replicate]
  · rcases h with h | h
    · rw [DensityMatrix_multi_k_error kv_in paraV_in nspin hv] at h
      cases h
    · rw [DensityMatrix_gamma_error paraV_in nspin hv] at h
      cases h

/-- An offset `a * n + b` with `0 ≤ b < n` determines `a` and `b`. -/
theorem offset_split (n a a' b b' : Int) (hb : 0 ≤ b) (hbn : b < n) (hb' : 0 ≤ b')
    (hbn' : b' < n) (h : a * n + b = a' * n + b') : a = a' ∧ b = b' := by
  have hn : 0 ≤ n := by omega
  rcases lt_trichotomy a a' with hlt | heq | hgt
  · have h1 : (a + 1) * n ≤ a' * n := Int.mul_le_mul_of_nonneg_right (by omega) hn
    rw [Int.add_mul, Int.one_mul] at h1
    omega
  · subst heq
    exact ⟨rfl, by omega⟩
  · have h1 : (a' + 1) * n ≤ a * n := Int.mul_le_mul_of_nonneg_right (by omega) hn
    rw [Int.add_mul, Int.one_mul] at h1
    omega

/-- The buffer number `ik + _nks * (ispin - 1)` of a spin in `1..nspin` and a k-point in
`0..nks-1` is a number in `0..nspin*nks-1`. -/
theorem buffer_index_lt (nks nspin : Nat) (s k : Int) (hs : 1 ≤ s) (hsn : s ≤ nspin)
    (hk : 0 ≤ k) (hkn : k < nks) :
    0 ≤ k + nks * (s - 1) ∧ (k + (nks : Int) * (s - 1)).toNat < nspin * nks := by
  have h0 : (0 : Int) ≤ nks * (s - 1) := Int.mul_nonneg (by omega) (by omega)
  have h1 : (nks : Int) * s ≤ nks * (nspin : Int) :=
    Int.mul_le_mul_of_nonneg_left hsn (by omega)
  have e1 : (nks : Int) * (s - 1) = nks * s - nks := by rw [Int.mul_sub, Int.mul_one]
  rw [e1] at h0 ⊢
  refine ⟨by omega, ?_⟩
  have h2 : ((nspin * nks : Nat) : Int) = (nks : Int) * nspin := by
    rw [Nat.cast_mul, Int.mul_comm]
  omega

/-- What `set_DMK` does when the buffer is there and the offset is inside it. -/
theorem set_DMK_eq {TK F : Type} (st : DensityMatrix TK F) (s k i j : Int) (v : TK)
    (buf : List TK) (hidx : 0 ≤ k + st._nks * (s - 1))
    (hb : st._DMK[(k + (st._nks : Int) * (s - 1)).toNat]? = some buf)
    (hoff : 0 ≤ i * st._paraV.nrow + j)
    (hlt : (i * (st._paraV.nrow : Int) + j).toNat < buf.length) :
    st.set_DMK s k i j v = .ok (st.with_DMK
      (st._DMK.set (k + (st._nks : Int) * (s - 1)).toNat
        (buf.set (i * (st._paraV.nrow : Int) + j).toNat v))) := by
  unfold DensityMatrix.set_DMK
  simp only [if_neg (not_lt.mpr hidx), hb, writeAt, if_neg (not_lt.mpr hoff), if_pos hlt]
  rfl

/-- What `get_DMK` does when the buffer is there and the offset is inside it. -/
theorem get_DMK_eq {TK F : Type} (st : DensityMatrix TK F) (s k i j : Int) (w : TK)
    (buf : List TK) (hidx : 0 ≤ k + st._nks * (s - 1))
    (hb : st._DMK[(k + (st._nks : Int) * (s - 1)).toNat]? = some buf)
    (hoff : 0 ≤ i * st._paraV.nrow + j)
    (hw : buf[(i * (st._paraV.nrow : Int) + j).toNat]? = some w) :
    st.get_DMK s k i j = .ok w := by
  unfold DensityMatrix.get_DMK
  simp only [if_neg (not_lt.mpr hidx), hb, readReal, if_neg (not_lt.mpr hoff), hw]

/-- C11: `set_DMK` / `get_DMK` round trip with the transposed layout.  On a state whose
DM(k) store has its `nspin * nks` buffers of `nrow * ncol` elements, for a spin in
`1..nspin`, a k-point in `0..nks-1` and indices whose offset `i * nrow + j` lies inside
the buffer, `set_DMK` returns, the buffer `k + nks * (s - 1)` then holds the value at
the offset `i * nrow + j`, and `get_DMK` with the same arguments returns the value. -/
theorem C11_set_get_round_trip {TK F : Type} (st : DensityMatrix TK F) (hok : st.DMK_ok)
    (s k i j : Int) (v : TK) (hs : 1 ≤ s ∧ s ≤ st._nspin) (hk : 0 ≤ k ∧ k < st._nks)
    (hoff : 0 ≤ i * st._paraV.nrow + j ∧
      i * st._paraV.nrow + j < st._paraV.nrow * st._paraV.ncol) :
    ∃ st2, st.set_DMK s k i j v = .ok st2 ∧
      st2.DMK_at (k + (st._nks : Int) * (s - 1)).toNat (i * st._paraV.nrow + j) = some v ∧
      st2.get_DMK s k i j = .ok v := by
  obtain ⟨hidx, hlt⟩ := buffer_index_lt st._nks st._nspin s k hs.1 hs.2 hk.1 hk.2
  have hlen : (k + (st._nks : Int) * (s - 1)).toNat < st._DMK.length :=
    Nat.lt_of_lt_of_le hlt hok.1
  have hb : st._DMK[(k + (st._nks : Int) * (s - 1)).toNat]? =
      some st._DMK[(k + (st._nks : Int) * (s - 1)).toNat] := List.getElem?_eq_getElem hlen
  have hbl := hok.2 _ (List.getElem_mem hlen)
  have hol : (i * (st._paraV.nrow : Int) + j).toNat <
      st._DMK[(k + (st._nks : Int) * (s - 1)).toNat].length := by
    rw [hbl]
    have := hoff.2
    have h2 : ((st._paraV.nrow * st._paraV.ncol : Nat) : Int) =
        (st._paraV.nrow : Int) * st._paraV.ncol := Nat.cast_mul _ _
    omega
  refine ⟨_, set_DMK_eq st s k i j v _ hidx hb hoff.1 hol, ?_, ?_⟩
  · unfold DensityMatrix.DMK_at
    simp only [DensityMatrix.with_DMK, List.getElem?_set_self hlen, readReal,
      if_neg (not_lt.mpr hoff.1), List.getElem?_set_self hol]
  · exact get_DMK_eq _ s k i j v _ hidx (List.getElem?_set_self hlen) hoff.1
      (List.getElem?_set_self hol)

/-- An offset `i * nrow + j` with `0 ≤ i < ncol` and `0 ≤ j < nrow` lies inside a buffer
of `nrow * ncol` elements. -/
theorem offset_in_buffer (nrow ncol : Nat) (i j : Int) (hi : 0 ≤ i) (hin : i < ncol)
    (hj : 0 ≤ j) (hjn : j < nrow) :
    0 ≤ i * nrow + j ∧ (i * (nrow : Int) + j).toNat < nrow * ncol := by
  have h0 : (0 : Int) ≤ i * nrow := Int.mul_nonneg hi (by omega)
  have h1 : (i + 1) * (nrow : Int) ≤ ncol * nrow :=
    Int.mul_le_mul_of_nonneg_right (by omega) (by omega)
  rw [Int.add_mul, Int.one_mul] at h1
  have h2 : ((nrow * ncol : Nat) : Int) = (ncol : Int) * nrow := by
    rw [Nat.cast_mul, Int.mul_comm]
  omega

/-- C12 as stated fails: on the container built by the multi-k constructor for one spin,
one k-point and a local block of 2 rows and 3 columns, the row indices 0 and 1 and the
column indices 2 and 0 are in range, and `set_DMK(1, 0, 0, 2, 5)` changes what
`get_DMK(1, 0, 1, 0)` returns from 0 to 5: both address the offset 2. -/
theorem C12_counterexample :
    ∃ dm dm2 : DensityMatrix Int Int,
      DensityMatrix.DensityMatrix_multi_k kv_1 paraV_2x3 1 = .ok dm ∧
      (1 : Int) < dm._paraV.nrow ∧ (2 : Int) < dm._paraV.ncol ∧
      dm.set_DMK 1 0 0 2 5 = .ok dm2 ∧
      dm.get_DMK 1 0 1 0 = .ok 0 ∧ dm2.get_DMK 1 0 1 0 = .ok 5 :=
  ⟨_, _, DensityMatrix_multi_k_eq kv_1 paraV_2x3 1 1 (Or.inl ⟨Or.inl rfl, rfl⟩),
    by decide, by decide, rfl, rfl, rfl⟩

/-- C12, amended: `set_DMK` writes exactly one logical element when the first index
runs over `0..ncol-1` and the second over `0..nrow-1`.  On a state whose DM(k) store has
its buffers, for spins in `1..nspin`, k-points in `0..nks-1` and such indices,
`set_DMK(s, k, i, j, v)` returns and `get_DMK(s', k', i', j')` returns the same value
before and after it when `(s', k', i', j')` differs from `(s, k, i, j)`; distinct
(spin, k) pairs address distinct buffers and distinct index pairs distinct offsets. -/
theorem C12_set_DMK_frame {TK F : Type} (st : DensityMatrix TK F) (hok : st.DMK_ok)
    (s s' k k' i i' j j' : Int) (v : TK)
    (hs : 1 ≤ s ∧ s ≤ st._nspin) (hs' : 1 ≤ s' ∧ s' ≤ st._nspin)
    (hk : 0 ≤ k ∧ k < st._nks) (hk' : 0 ≤ k' ∧ k' < st._nks)
    (hi : 0 ≤ i ∧ i < st._paraV.ncol) (hi' : 0 ≤ i' ∧ i' < st._paraV.ncol)
    (hj : 0 ≤ j ∧ j < st._paraV.nrow) (hj' : 0 ≤ j' ∧ j' < st._paraV.nrow)
    (hne : (s', k', i', j') ≠ (s, k, i, j)) :
    (∃ st2 w, st.set_DMK s k i j v = .ok st2 ∧ st.get_DMK s' k' i' j' = .ok w ∧
      st2.get_DMK s' k' i' j' = .ok w) ∧
    ((s', k') ≠ (s, k) →
      (k' + (st._nks : Int) * (s' - 1)).toNat ≠ (k + (st._nks : Int) * (s - 1)).toNat) ∧
    ((i', j') ≠ (i, j) →
      (i' * (st._paraV.nrow : Int) + j').toNat ≠ (i * (st._paraV.nrow : Int) + j).toNat) := by
  obtain ⟨hidx, hlt⟩ := buffer_index_lt st._nks st._nspin s k hs.1 hs.2 hk.1 hk.2
  obtain ⟨hidx', hlt'⟩ := buffer_index_lt st._nks st._nspin s' k' hs'.1 hs'.2 hk'.1 hk'.2
  obtain ⟨hoff, holt⟩ := offset_in_buffer st._paraV.nrow st._paraV.ncol i j hi.1 hi.2 hj.1 hj.2
  obtain ⟨hoff', holt'⟩ :=
    offset_in_buffer st._paraV.nrow st._paraV.ncol i' j' hi'.1 hi'.2 hj'.1 hj'.2
  have hbuf : (s', k') ≠ (s, k) →
      (k' + (st._nks : Int) * (s' - 1)).toNat ≠ (k + (st._nks : Int) * (s - 1)).toNat := by
    intro hsk heq
    have e : (s' - 1) * (st._nks : Int) + k' = (s - 1) * (st._nks : Int) + k := by
      rw [Int.mul_comm (s' - 1), Int.mul_comm (s - 1)]
      omega
    obtain ⟨e1, e2⟩ := offset_split _ _ _ _ _ hk'.1 hk'.2 hk.1 hk.2 e
    exact hsk (by rw [e2, show s' = s by omega])
  have hofs : (i', j') ≠ (i, j) →
      (i' * (st._paraV.nrow : Int) + j').toNat ≠ (i * (st._paraV.nrow : Int) + j).toNat := by
    intro hij heq
    have e : i' * (st._paraV.nrow : Int) + j' = i * (st._paraV.nrow : Int) + j := by omega
    obtain ⟨e1, e2⟩ := offset_split _ _ _ _ _ hj'.1 hj'.2 hj.1 hj.2 e
    exact hij (by rw [e1, e2])
  refine ⟨?_, hbuf, hofs⟩
  have hlen : (k + (st._nks : Int) * (s - 1)).toNat < st._DMK.length :=
    Nat.lt_of_lt_of_le hlt hok.1
  have hlen' : (k' + (st._nks : Int) * (s' - 1)).toNat < st._DMK.length :=
    Nat.lt_of_lt_of_le hlt' hok.1
  have hb := List.getElem?_eq_getElem hlen
  have hb' := List.getElem?_eq_getElem hlen'
  have hbl := hok.2 _ (List.getElem_mem hlen)
  have hbl' := hok.2 _ (List.getElem_mem hlen')
  have hw := List.getElem?_eq_getElem (Nat.lt_of_lt_of_eq holt' hbl'.symm)
  refine ⟨_, _, set_DMK_eq st s k i j v _ hidx hb hoff (Nat.lt_of_lt_of_eq holt hbl.symm),
    get_DMK_eq st s' k' i' j' _ _ hidx' hb' hoff' hw, ?_⟩
  by_cases hsame : (k' + (st._nks : Int) * (s' - 1)).toNat = (k + (st._nks : Int) * (s - 1)).toNat
  · have hsk : (s', k') = (s, k) := by
      by_contra hc
      exact hbuf hc hsame
    rw [Prod.mk.injEq] at hsk
    obtain ⟨hs1, hk1⟩ := hsk
    subst hs1 hk1
    have hij : (i', j') ≠ (i, j) := by
      intro hc
      apply hne
      rw [Prod.mk.injEq] at hc
      rw [hc.1, hc.2]
    have h1 : (st._DMK.set (k' + (st._nks : Int) * (s' - 1)).toNat
        ((st._DMK[(k' + (st._nks : Int) * (s' - 1)).toNat]).set
          (i * (st._paraV.nrow : Int) + j).toNat v))[(k' + (st._nks : Int) * (s' - 1)).toNat]? =
        some ((st._DMK[(k' + (st._nks : Int) * (s' - 1)).toNat]).set
          (i * (st._paraV.nrow : Int) + j).toNat v) := List.getElem?_set_self hlen
    have h2 : ((st._DMK[(k' + (st._nks : Int) * (s' - 1)).toNat]).set
        (i * (st._paraV.nrow : Int) + j).toNat v)[(i' * (st._paraV.nrow : Int) + j').toNat]? =
        some st._DMK[(k' + (st._nks : Int) * (s' - 1)).toNat][(i' *
          (st._paraV.nrow : Int) + j').toNat] := by
      rw [List.getElem?_set_ne (Ne.symm (hofs hij))]
      exact hw
    exact get_DMK_eq (st.with_DMK _) s' k' i' j' _ _ hidx' h1 hoff' h2
  · have h1 : (st._DMK.set (k + (st._nks : Int) * (s - 1)).toNat
        ((st._DMK[(k + (st._nks : Int) * (s - 1)).toNat]).set
          (i * (st._paraV.nrow : Int) + j).toNat v))[(k' + (st._nks : Int) * (s' - 1)).toNat]? =
        some st._DMK[(k' + (st._nks : Int) * (s' - 1)).toNat] := by
      rw [List.getElem?_set_ne (Ne.symm hsame)]
      exact hb'
    exact get_DMK_eq (st.with_DMK _) s' k' i' j' _ _ hidx' h1 hoff' hw

/-! ## Building the sparse structure -/

/-- Merging a pair with a single translation adds the translation when it is new. -/
theorem merge_AtomPair_R {F : Type} (ap : AtomPair F) (iat1 iat2 : Nat) (rx ry rz : Int)
    (paraV : Parallel_Orbitals) :
    ap.merge (AtomPair.AtomPair_R iat1 iat2 rx ry rz paraV) =
      if (⟨rx, ry, rz⟩ : Vector3 Int) ∈ ap.R_index then ap
      else { ap with
        R_index := ap.R_index ++ [⟨rx, ry, rz⟩]
        values := ap.values ++ [⟨paraV.get_row_size iat1, paraV.get_col_size iat2, []⟩] } :=
  rfl

/-- Merging a pair with a single translation keeps the atoms of the pair. -/
theorem merge_atoms {F : Type} (ap : AtomPair F) (iat1 iat2 : Nat) (rx ry rz : Int)
    (paraV : Parallel_Orbitals) :
    (ap.merge (AtomPair.AtomPair_R iat1 iat2 rx ry rz paraV)).atom_i = ap.atom_i ∧
    (ap.merge (AtomPair.AtomPair_R iat1 iat2 rx ry rz paraV)).atom_j = ap.atom_j := by
  rw [merge_AtomPair_R]
  split <;> exact ⟨rfl, rfl⟩

/-- The translations of a pair after merging a pair with a single translation. -/
theorem mem_merge_R_index {F : Type} (ap : AtomPair F) (iat1 iat2 : Nat) (rx ry rz : Int)
    (paraV : Parallel_Orbitals) (R : Vector3 Int) :
    R ∈ (ap.merge (AtomPair.AtomPair_R iat1 iat2 rx ry rz paraV)).R_index ↔
      R ∈ ap.R_index ∨ R = ⟨rx, ry, rz⟩ := by
  rw [merge_AtomPair_R]
  split
  · rename_i h
    constructor
    · exact Or.inl
    · rintro (h1 | h1)
      · exact h1
      · rw [h1]; exact h
  · show R ∈ ap.R_index ++ [_] ↔ _
    rw [List.mem_append, List.mem_singleton]

/-- The tuples of a container after the insertion of a pair with a single translation. -/
theorem has_entry_insert_pair {F : Type} (c : HContainer F) (iat1 iat2 : Nat) (rx ry rz : Int)
    (paraV : Parallel_Orbitals) (i j : Nat) (R : Vector3 Int) :
    (c.insert_pair (AtomPair.AtomPair_R iat1 iat2 rx ry rz paraV)).has_entry i j R ↔
      c.has_entry i j R ∨ (i = iat1 ∧ j = iat2 ∧ R = ⟨rx, ry, rz⟩) := by
  unfold HContainer.insert_pair HContainer.has_entry
  split
  · rename_i hany
    rw [List.any_eq_true] at hany
    obtain ⟨ap0, hap0, hdec⟩ := hany
    have hij := of_decide_eq_true hdec
    show (∃ ap ∈ List.map _ c.atom_pairs, _) ↔ _
    constructor
    · rintro ⟨ap, hap, h1, h2, h3⟩
      rw [List.mem_map] at hap
      obtain ⟨a, ha, rfl⟩ := hap
      by_cases hc : a.atom_i = (AtomPair.AtomPair_R iat1 iat2 rx ry rz paraV : AtomPair F).atom_i ∧
          a.atom_j = (AtomPair.AtomPair_R iat1 iat2 rx ry rz paraV : AtomPair F).atom_j
      · rw [if_pos hc] at h1 h2 h3
        rw [(merge_atoms a iat1 iat2 rx ry rz paraV).1] at h1
        rw [(merge_atoms a iat1 iat2 rx ry rz paraV).2] at h2
        rcases (mem_merge_R_index a iat1 iat2 rx ry rz paraV R).mp h3 with h4 | h4
        · exact Or.inl ⟨a, ha, h1, h2, h4⟩
        · exact Or.inr ⟨h1.symm.trans hc.1, h2.symm.trans hc.2, h4⟩
      · rw [if_neg hc] at h1 h2 h3
        exact Or.inl ⟨a, ha, h1, h2, h3⟩
    · rintro (⟨a, ha, h1, h2, h3⟩ | ⟨h1, h2, h3⟩)
      · refine ⟨_, List.mem_map.mpr ⟨a, ha, rfl⟩, ?_⟩
        split
        · exact ⟨(merge_atoms a iat1 iat2 rx ry rz paraV).1.trans h1,
            (merge_atoms a iat1 iat2 rx ry rz paraV).2.trans h2,
            (mem_merge_R_index a iat1 iat2 rx ry rz paraV R).mpr (Or.inl h3)⟩
        · exact ⟨h1, h2, h3⟩
      · refine ⟨_, List.mem_map.mpr ⟨ap0, hap0, rfl⟩, ?_⟩
        rw [if_pos hij]
        exact ⟨(merge_atoms ap0 iat1 iat2 rx ry rz paraV).1.trans (hij.1.trans h1.symm),
          (merge_atoms ap0 iat1 iat2 rx ry rz paraV).2.trans (hij.2.trans h2.symm),
          (mem_merge_R_index ap0 iat1 iat2 rx ry rz paraV R).mpr (Or.inr h3)⟩
  · rename_i hany
    show (∃ ap ∈ c.atom_pairs ++ [_], _) ↔ _
    constructor
    · rintro ⟨ap, hap, h1, h2, h3⟩
      rw [List.mem_append, List.mem_singleton] at hap
      rcases hap with hap | rfl
      · exact Or.inl ⟨ap, hap, h1, h2, h3⟩
      · refine Or.inr ⟨h1.symm, h2.symm, ?_⟩
        exact List.mem_singleton.mp h3
    · rintro (⟨a, ha, h1, h2, h3⟩ | ⟨h1, h2, h3⟩)
      · exact ⟨a, List.mem_append_left _ ha, h1, h2, h3⟩
      · exact ⟨_, List.mem_append_right _ (List.mem_singleton.mpr rfl), h1.symm, h2.symm,
          List.mem_singleton.mpr h3⟩

/-- The insertion of a pair that passes the ownership filter keeps the container
filtered. -/
theorem filtered_insert_pair {F : Type} (c : HContainer F) (iat1 iat2 : Nat) (rx ry rz : Int)
    (paraV : Parallel_Orbitals) (hc : c.filtered paraV)
    (h1 : 0 < paraV.get_row_size iat1) (h2 : 0 < paraV.get_col_size iat2) :
    (c.insert_pair (AtomPair.AtomPair_R iat1 iat2 rx ry rz paraV)).filtered paraV := by
  unfold HContainer.insert_pair
  split
  · intro ap hap
    rw [List.mem_map] at hap
    obtain ⟨a, ha, rfl⟩ := hap
    split
    · rw [(merge_atoms a iat1 iat2 rx ry rz paraV).1, (merge_atoms a iat1 iat2 rx ry rz paraV).2]
      exact hc a ha
    · exact hc a ha
  · intro ap hap
    rw [List.mem_append, List.mem_singleton] at hap
    rcases hap with hap | rfl
    · exact hc ap hap
    · exact ⟨h1, h2⟩

/-- What a successful pass through the ownership filter and the insertion does: the
container stays filtered, and it gains the tuple exactly when the pair passes the
filter. -/
theorem init_DMR_insert_spec {F : Type} (paraV : Parallel_Orbitals) (c c2 : HContainer F)
    (iat1 iat2 : Nat) (Ro : Option (Vector3 Int))
    (h : init_DMR_insert paraV c iat1 iat2 Ro = .ok c2) :
    (c.filtered paraV → c2.filtered paraV) ∧
    ∀ i j R, c2.has_entry i j R ↔ c.has_entry i j R ∨
      (i = iat1 ∧ j = iat2 ∧ Ro = some R ∧
        0 < paraV.get_row_size iat1 ∧ 0 < paraV.get_col_size iat2) := by
  unfold init_DMR_insert at h
  by_cases hf : paraV.get_row_size iat1 ≤ 0 ∨ paraV.get_col_size iat2 ≤ 0
  · rw [if_pos hf] at h
    cases h
    refine ⟨id, fun i j R => ⟨Or.inl, ?_⟩⟩
    rintro (h1 | ⟨_, _, _, h4, h5⟩)
    · exact h1
    · omega
  · rw [if_neg hf] at h
    cases Ro with
    | none => cases h
    | some R0 =>
      cases h
      have h1 : 0 < paraV.get_row_size iat1 := by omega
      have h2 : 0 < paraV.get_col_size iat2 := by omega
      refine ⟨fun hc => filtered_insert_pair c iat1 iat2 _ _ _ paraV hc h1 h2, fun i j R => ?_⟩
      rw [has_entry_insert_pair]
      constructor
      · rintro (h3 | ⟨h3, h4, h5⟩)
        · exact Or.inl h3
        · exact Or.inr ⟨h3, h4, by rw [h5], h1, h2⟩
      · rintro (h3 | ⟨h3, h4, h5, _, _⟩)
        · exact Or.inl h3
        · exact Or.inr ⟨h3, h4, (Option.some.inj h5).symm⟩

/-- The ownership filter and the insertion succeed when the translation can be read. -/
theorem init_DMR_insert_total {F : Type} (paraV : Parallel_Orbitals) (c : HContainer F)
    (iat1 iat2 : Nat) (R : Vector3 Int) :
    ∃ c2, init_DMR_insert paraV c iat1 iat2 (some R) = .ok c2 := by
  unfold init_DMR_insert
  split
  · exact ⟨_, rfl⟩
  · exact ⟨_, rfl⟩

/-- What a successful step of the walk through the neighbours of `iat1` does. -/
theorem init_DMR_Grid_step_spec {F : Type} (paraV : Parallel_Orbitals)
    (itia2iat : Int → Int → Nat) (adjs : AdjacentAtomInfo) (iat1 ad : Nat)
    (c c2 : HContainer F) (h : init_DMR_Grid_step paraV itia2iat adjs iat1 ad c = .ok c2) :
    (c.filtered paraV → c2.filtered paraV) ∧
    ∀ i j R, c2.has_entry i j R ↔ c.has_entry i j R ∨
      (i = iat1 ∧ 0 < paraV.get_row_size iat1 ∧ 0 < paraV.get_col_size j ∧
        ∃ T2 I2, adjs.ntype[ad]? = some T2 ∧ adjs.natom[ad]? = some I2 ∧
          adjs.box[ad]? = some R ∧ j = itia2iat T2 I2) := by
  unfold init_DMR_Grid_step at h
  cases hT : adjs.ntype[ad]? with
  | none => rw [hT] at h; cases h
  | some T2 =>
    cases hI : adjs.natom[ad]? with
    | none => rw [hT, hI] at h; cases h
    | some I2 =>
      rw [hT, hI] at h
      obtain ⟨h1, h2⟩ := init_DMR_insert_spec paraV c c2 iat1 _ _ h
      refine ⟨h1, fun i j R => ?_⟩
      rw [h2]
      constructor
      · rintro (h3 | ⟨h3, h4, h5, h6, h7⟩)
        · exact Or.inl h3
        · exact Or.inr ⟨h3, h6, by rw [h4]; exact h7, T2, I2, rfl, rfl, h5, h4⟩
      · rintro (h3 | ⟨h3, h4, h5, T, I, h6, h7, h8, h9⟩)
        · exact Or.inl h3
        · cases h6
          cases h7
          exact Or.inr ⟨h3, h9, h8, h4, by rw [← h9]; exact h5⟩

/-- A step of the walk through the neighbours succeeds when the slot is in the arrays. -/
theorem init_DMR_Grid_step_total {F : Type} (paraV : Parallel_Orbitals)
    (itia2iat : Int → Int → Nat) (adjs : AdjacentAtomInfo) (iat1 ad : Nat) (c : HContainer F)
    (h1 : ad < adjs.ntype.length) (h2 : ad < adjs.natom.length) (h3 : ad < adjs.box.length) :
    ∃ c2, init_DMR_Grid_step paraV itia2iat adjs iat1 ad c = .ok c2 := by
  unfold init_DMR_Grid_step
  rw [List.getElem?_eq_getElem h1, List.getElem?_eq_getElem h2, List.getElem?_eq_getElem h3]
  exact init_DMR_insert_total paraV c iat1 _ _

/-- The tuples that `n` slots contribute are those of the first `n - 1` and of the last. -/
theorem holds_succ (adjs : AdjacentAtomInfo) (itia2iat : Int → Int → Nat) (n : Nat)
    (iat2 : Nat) (R : Vector3 Int) :
    adjs.holds itia2iat (n + 1) iat2 R ↔ adjs.holds itia2iat n iat2 R ∨
      ∃ T2 I2, adjs.ntype[n]? = some T2 ∧ adjs.natom[n]? = some I2 ∧
        adjs.box[n]? = some R ∧ iat2 = itia2iat T2 I2 := by
  unfold AdjacentAtomInfo.holds
  constructor
  · rintro ⟨ad, T2, I2, h1, h2⟩
    by_cases hlt : ad < n
    · exact Or.inl ⟨ad, T2, I2, hlt, h2⟩
    · have : ad = n := by omega
      subst this
      exact Or.inr ⟨T2, I2, h2⟩
  · rintro (⟨ad, T2, I2, h1, h2⟩ | ⟨T2, I2, h2⟩)
    · exact ⟨ad, T2, I2, by omega, h2⟩
    · exact ⟨n, T2, I2, by omega, h2⟩

/-- What a successful walk through the first `n` neighbour slots of `iat1` does. -/
theorem init_DMR_Grid_slots_spec {F : Type} (paraV : Parallel_Orbitals)
    (itia2iat : Int → Int → Nat) (adjs : AdjacentAtomInfo) (iat1 n : Nat)
    (c0 c : HContainer F)
    (h : loopM n (fun ad tmp_DMR =>
      init_DMR_Grid_step paraV itia2iat adjs iat1 ad tmp_DMR) c0 = .ok c) :
    (c0.filtered paraV → c.filtered paraV) ∧
    ∀ i j R, c.has_entry i j R ↔ c0.has_entry i j R ∨
      (i = iat1 ∧ 0 < paraV.get_row_size iat1 ∧ 0 < paraV.get_col_size j ∧
        adjs.holds itia2iat n j R) := by
  refine loopM_inv (fun m s => (c0.filtered paraV → s.filtered paraV) ∧
    ∀ i j R, s.has_entry i j R ↔ c0.has_entry i j R ∨
      (i = iat1 ∧ 0 < paraV.get_row_size iat1 ∧ 0 < paraV.get_col_size j ∧
        adjs.holds itia2iat m j R)) n _ c0 ⟨id, fun i j R => ⟨Or.inl, ?_⟩⟩ ?_ c h
  · rintro (h1 | ⟨_, _, _, ad, _, _, h2, _⟩)
    · exact h1
    · omega
  · intro m _ s t hs ht
    obtain ⟨h1, h2⟩ := init_DMR_Grid_step_spec paraV itia2iat adjs iat1 m s t ht
    refine ⟨fun h0 => h1 (hs.1 h0), fun i j R => ?_⟩
    rw [h2, hs.2, holds_succ]
    constructor
    · rintro ((h3 | ⟨h3, h4, h5, h6⟩) | ⟨h3, h4, h5, h6⟩)
      · exact Or.inl h3
      · exact Or.inr ⟨h3, h4, h5, Or.inl h6⟩
      · exact Or.inr ⟨h3, h4, h5, Or.inr h6⟩
    · rintro (h3 | ⟨h3, h4, h5, h6 | h6⟩)
      · exact Or.inl (Or.inl h3)
      · exact Or.inl (Or.inr ⟨h3, h4, h5, h6⟩)
      · exact Or.inr ⟨h3, h4, h5, h6⟩

/-- The walk through the first `n` neighbour slots of `iat1` succeeds when the slots are
in the arrays. -/
theorem init_DMR_Grid_slots_total {F : Type} (paraV : Parallel_Orbitals)
    (itia2iat : Int → Int → Nat) (adjs : AdjacentAtomInfo) (iat1 n : Nat) (c0 : HContainer F)
    (h1 : n ≤ adjs.ntype.length) (h2 : n ≤ adjs.natom.length) (h3 : n ≤ adjs.box.length) :
    ∃ c, loopM n (fun ad tmp_DMR =>
      init_DMR_Grid_step paraV itia2iat adjs iat1 ad tmp_DMR) c0 = .ok c :=
  (loopM_total (fun _ _ => True) n _ c0 trivial (fun ad had s _ =>
    (init_DMR_Grid_step_total paraV itia2iat adjs iat1 ad s (by omega) (by omega)
      (by omega)).imp (fun _ h => ⟨h, trivial⟩))).imp (fun _ h => h.1)

/-- The container without atom pairs stores no tuple and is filtered. -/
theorem HContainer_paraV_empty {F : Type} (paraV : Parallel_Orbitals) :
    (HContainer.HContainer_paraV : HContainer F).filtered paraV ∧
    ∀ i j R, ¬ (HContainer.HContainer_paraV : HContainer F).has_entry i j R := by
  constructor
  · intro ap hap
    cases hap
  · rintro i j R ⟨ap, hap, _⟩
    cases hap

/-- What a successful walk through the atoms of the cell and their neighbours builds:
a filtered container that stores exactly the offered tuples that pass the filter. -/
theorem init_DMR_Grid_atoms_spec {F : Type} (paraV : Parallel_Orbitals)
    (GridD_in : Grid_Driver F) (ucell : UnitCell F) (n : Nat) (c : HContainer F)
    (h : loopM n (fun iat1 tmp_DMR =>
      init_DMR_Grid_atom paraV GridD_in ucell iat1 tmp_DMR) HContainer.HContainer_paraV = .ok c) :
    c.filtered paraV ∧
    ∀ i j R, c.has_entry i j R ↔
      (i < n ∧ 0 < paraV.get_row_size i ∧ 0 < paraV.get_col_size j ∧
        (GridD_in.adjs ucell i).holds ucell.itia2iat ((GridD_in.adjs ucell i).adj_num + 1)
          j R) := by
  refine loopM_inv (fun m s => s.filtered paraV ∧
    ∀ i j R, s.has_entry i j R ↔
      (i < m ∧ 0 < paraV.get_row_size i ∧ 0 < paraV.get_col_size j ∧
        (GridD_in.adjs ucell i).holds ucell.itia2iat ((GridD_in.adjs ucell i).adj_num + 1)
          j R)) n _ _ ⟨(HContainer_paraV_empty paraV).1, fun i j R => ⟨?_, ?_⟩⟩ ?_ c h
  · exact fun h1 => absurd h1 ((HContainer_paraV_empty paraV).2 i j R)
  · rintro ⟨h1, _⟩
    omega
  · intro m _ s t hs ht
    obtain ⟨h1, h2⟩ := init_DMR_Grid_slots_spec paraV ucell.itia2iat (GridD_in.adjs ucell m) m
      ((GridD_in.adjs ucell m).adj_num + 1) s t ht
    refine ⟨h1 hs.1, fun i j R => ?_⟩
    rw [h2, hs.2]
    constructor
    · rintro (⟨h3, h4⟩ | ⟨h3, h4⟩)
      · exact ⟨by omega, h4⟩
      · subst h3
        exact ⟨by omega, h4⟩
    · rintro ⟨h3, h4⟩
      by_cases hlt : i < m
      · exact Or.inl ⟨hlt, h4⟩
      · have : i = m := by omega
        subst this
        exact Or.inr ⟨rfl, h4⟩

/-- The walk through the atoms of the cell succeeds when the arrays of the neighbour
search hold the slots it reads. -/
theorem init_DMR_Grid_atoms_total {F : Type} (paraV : Parallel_Orbitals)
    (GridD_in : Grid_Driver F) (ucell : UnitCell F) (hok : GridD_in.arrays_ok ucell) :
    ∃ c : HContainer F, loopM ucell.nat (fun iat1 tmp_DMR =>
      init_DMR_Grid_atom paraV GridD_in ucell iat1 tmp_DMR) HContainer.HContainer_paraV = .ok c :=
  (loopM_total (fun _ _ => True) ucell.nat _ _ trivial (fun iat1 hi s _ =>
    (init_DMR_Grid_slots_total paraV ucell.itia2iat (GridD_in.adjs ucell iat1) iat1
      ((GridD_in.adjs ucell iat1).adj_num + 1) s (hok iat1 hi).1 (hok iat1 hi).2.1
      (hok iat1 hi).2.2).imp (fun _ h => ⟨h, trivial⟩))).imp (fun _ h => h.1)

/-- A successful step of the walk through the recorded neighbours keeps the container
filtered. -/
theorem init_DMR_RA_step_spec {F : Type} (paraV : Parallel_Orbitals)
    (itia2iat : Int → Int → Nat) (ra : Record_adj) (iat1 ad : Nat) (c c2 : HContainer F)
    (h : init_DMR_RA_step paraV itia2iat ra iat1 ad c = .ok c2) (hc : c.filtered paraV) :
    c2.filtered paraV := by
  unfold init_DMR_RA_step at h
  cases hT : ra.info_at iat1 ad 3 with
  | none => rw [hT] at h; cases h
  | some T2 =>
    cases hI : ra.info_at iat1 ad 4 with
    | none => rw [hT, hI] at h; cases h
    | some I2 =>
      rw [hT, hI] at h
      exact (init_DMR_insert_spec paraV c c2 iat1 _ _ h).1 hc

/-- A step of the walk through the recorded neighbours succeeds when the record holds
the five entries of the neighbour. -/
theorem init_DMR_RA_step_total {F : Type} (paraV : Parallel_Orbitals)
    (itia2iat : Int → Int → Nat) (ra : Record_adj) (iat1 ad : Nat) (c : HContainer F)
    (h : ∀ k, k < 5 → ∃ v, ra.info_at iat1 ad k = some v) :
    ∃ c2, init_DMR_RA_step paraV itia2iat ra iat1 ad c = .ok c2 := by
  obtain ⟨rx, h0⟩ := h 0 (by omega)
  obtain ⟨ry, h1⟩ := h 1 (by omega)
  obtain ⟨rz, h2⟩ := h 2 (by omega)
  obtain ⟨T2, h3⟩ := h 3 (by omega)
  obtain ⟨I2, h4⟩ := h 4 (by omega)
  unfold init_DMR_RA_step Record_adj.box_at
  rw [h0, h1, h2, h3, h4]
  exact init_DMR_insert_total paraV c iat1 _ _

/-- A successful walk through the recorded neighbours of the atoms of the cell builds a
filtered container. -/
theorem init_DMR_RA_atoms_spec {F : Type} (paraV : Parallel_Orbitals) (ra : Record_adj)
    (ucell : UnitCell F) (n : Nat) (c : HContainer F)
    (h : loopM n (fun iat1 tmp_DMR =>
      init_DMR_RA_atom paraV ra ucell iat1 tmp_DMR) HContainer.HContainer_paraV = .ok c) :
    c.filtered paraV := by
  refine loopM_inv (fun _ s => s.filtered paraV) n _ _ (HContainer_paraV_empty paraV).1 ?_ c h
  intro m _ s t hs ht
  unfold init_DMR_RA_atom at ht
  cases hna : ra.na_each[m]? with
  | none => rw [hna] at ht; cases ht
  | some na =>
    rw [hna] at ht
    exact loopM_inv (fun _ s => s.filtered paraV) na _ s hs
      (fun ad _ s1 t1 hs1 ht1 =>
        init_DMR_RA_step_spec paraV ucell.itia2iat ra m ad s1 t1 ht1 hs1) t ht

/-- The walk through the recorded neighbours succeeds when the record holds what it
reads. -/
theorem init_DMR_RA_atoms_total {F : Type} (paraV : Parallel_Orbitals) (ra : Record_adj)
    (ucell : UnitCell F) (hok : ra.arrays_ok ucell.nat) :
    ∃ c : HContainer F, loopM ucell.nat (fun iat1 tmp_DMR =>
      init_DMR_RA_atom paraV ra ucell iat1 tmp_DMR) HContainer.HContainer_paraV = .ok c := by
  refine (loopM_total (fun _ _ => True) ucell.nat _ _ trivial (fun iat1 hi s _ => ?_)).imp
    (fun _ h => h.1)
  obtain ⟨na, hna, hinfo⟩ := hok iat1 hi
  unfold init_DMR_RA_atom
  rw [hna]
  exact (loopM_total (fun _ _ => True) na _ s trivial (fun ad had s1 _ =>
    (init_DMR_RA_step_total paraV ucell.itia2iat ra iat1 ad s1 (hinfo ad had)).imp
      (fun _ h => ⟨h, trivial⟩))).imp (fun _ h => ⟨h.1, trivial⟩)

/-- The store that the two overloads walking the neighbours leave: the allocated
container, once or twice. -/
theorem init_DMR_finish_DMR {TK F : Type} [Zero F] (st : DensityMatrix TK F)
    (tmp_DMR : HContainer F) :
    (st.init_DMR_finish tmp_DMR)._nspin = st._nspin ∧
    (st.init_DMR_finish tmp_DMR)._DMK = st._DMK ∧
    (st.init_DMR_finish tmp_DMR)._DMR =
      if st._nspin = 2 then [tmp_DMR.allocate, tmp_DMR.allocate] else [tmp_DMR.allocate] := by
  unfold DensityMatrix.init_DMR_finish
  split <;> exact ⟨rfl, rfl, rfl⟩

/-- Every container of the store left by `init_DMR_finish` is the allocated container. -/
theorem mem_init_DMR_finish {TK F : Type} [Zero F] (st : DensityMatrix TK F)
    (tmp_DMR c : HContainer F) (hc : c ∈ (st.init_DMR_finish tmp_DMR)._DMR) :
    c = tmp_DMR.allocate := by
  rw [(init_DMR_finish_DMR st tmp_DMR).2.2] at hc
  split at hc
  · rw [List.mem_cons, List.mem_singleton] at hc
    exact hc.elim id id
  · exact List.mem_singleton.mp hc

/-- The store left by `init_DMR_finish` has one container per spin for one or two
spins. -/
theorem length_init_DMR_finish {TK F : Type} [Zero F] (st : DensityMatrix TK F)
    (tmp_DMR : HContainer F) (hnspin : st._nspin = 1 ∨ st._nspin = 2) :
    (st.init_DMR_finish tmp_DMR)._DMR.length = st._nspin := by
  rw [(init_DMR_finish_DMR st tmp_DMR).2.2]
  rcases hnspin with h | h
  · rw [if_neg (by omega), h]
    rfl
  · rw [if_pos h, h]
    rfl

/-- A successful `init_DMR(Grid_Driver*, const UnitCell*)` is a successful walk followed
by `init_DMR_finish`. -/
theorem init_DMR_Grid_inv {TK F : Type} [Zero F] (st st2 : DensityMatrix TK F)
    (GridD_in : Grid_Driver F) (ucell : UnitCell F)
    (h : st.init_DMR_Grid GridD_in ucell = .ok st2) :
    ∃ tmp_DMR, loopM ucell.nat (fun iat1 tmp_DMR =>
        init_DMR_Grid_atom st._paraV GridD_in ucell iat1 tmp_DMR)
        HContainer.HContainer_paraV = .ok tmp_DMR ∧
      st2 = st.init_DMR_finish tmp_DMR := by
  unfold DensityMatrix.init_DMR_Grid at h
  cases hl : loopM ucell.nat (fun iat1 tmp_DMR =>
      init_DMR_Grid_atom st._paraV GridD_in ucell iat1 tmp_DMR)
      HContainer.HContainer_paraV with
  | error e => rw [hl] at h; cases h
  | ok tmp_DMR =>
    rw [hl] at h
    cases h
    exact ⟨tmp_DMR, rfl, rfl⟩

/-- A successful `init_DMR(Record_adj&, const UnitCell*)` is a successful walk followed
by `init_DMR_finish`. -/
theorem init_DMR_RA_inv {TK F : Type} [Zero F] (st st2 : DensityMatrix TK F)
    (ra : Record_adj) (ucell : UnitCell F) (h : st.init_DMR_RA ra ucell = .ok st2) :
    ∃ tmp_DMR, loopM ucell.nat (fun iat1 tmp_DMR =>
        init_DMR_RA_atom st._paraV ra ucell iat1 tmp_DMR)
        HContainer.HContainer_paraV = .ok tmp_DMR ∧
      st2 = st.init_DMR_finish tmp_DMR := by
  unfold DensityMatrix.init_DMR_RA at h
  cases hl : loopM ucell.nat (fun iat1 tmp_DMR =>
      init_DMR_RA_atom st._paraV ra ucell iat1 tmp_DMR)
      HContainer.HContainer_paraV with
  | error e => rw [hl] at h; cases h
  | ok tmp_DMR =>
    rw [hl] at h
    cases h
    exact ⟨tmp_DMR, rfl, rfl⟩

/-- The overload `init_DMR(Grid_Driver*, const UnitCell*)` returns when the arrays of
the neighbour search hold the slots it reads. -/
theorem init_DMR_Grid_total {TK F : Type} [Zero F] (st : DensityMatrix TK F)
    (GridD_in : Grid_Driver F) (ucell : UnitCell F) (hok : GridD_in.arrays_ok ucell) :
    ∃ st2, st.init_DMR_Grid GridD_in ucell = .ok st2 := by
  obtain ⟨c, hc⟩ := init_DMR_Grid_atoms_total st._paraV GridD_in ucell hok
  unfold DensityMatrix.init_DMR_Grid
  rw [hc]
  exact ⟨_, rfl⟩

/-- The overload `init_DMR(Record_adj&, const UnitCell*)` returns when the record holds
what it reads. -/
theorem init_DMR_RA_total {TK F : Type} [Zero F] (st : DensityMatrix TK F)
    (ra : Record_adj) (ucell : UnitCell F) (hok : ra.arrays_ok ucell.nat) :
    ∃ st2, st.init_DMR_RA ra ucell = .ok st2 := by
  obtain ⟨c, hc⟩ := init_DMR_RA_atoms_total st._paraV ra ucell hok
  unfold DensityMatrix.init_DMR_RA
  rw [hc]
  exact ⟨_, rfl⟩

/-- The store left by `init_DMR(const HContainer&)`: the zeroed copy of the template,
once per spin. -/
theorem init_DMR_template_DMR {TK F : Type} [Zero F] (st : DensityMatrix TK F)
    (DMR_in : HContainer F) :
    (st.init_DMR_template DMR_in)._DMR = List.replicate st._nspin DMR_in.set_zero :=
  loop_push_back _ _

/-- Allocation keeps the tuples of a container. -/
theorem has_entry_allocate {F : Type} [Zero F] (c : HContainer F) (i j : Nat)
    (R : Vector3 Int) : c.allocate.has_entry i j R ↔ c.has_entry i j R := by
  unfold HContainer.has_entry HContainer.allocate
  constructor
  · rintro ⟨ap, hap, h⟩
    obtain ⟨a, ha, rfl⟩ := List.mem_map.mp hap
    exact ⟨a, ha, h⟩
  · rintro ⟨a, ha, h⟩
    exact ⟨a.allocate, List.mem_map.mpr ⟨a, ha, rfl⟩, h⟩

/-- Every block of an allocated container has its storage, filled with zeros. -/
theorem allocate_zero {F : Type} [Zero F] (c : HContainer F) (ap : AtomPair F)
    (hap : ap ∈ c.allocate.atom_pairs) (m : BaseMatrix F) (hm : m ∈ ap.values) :
    m.value_begin = List.replicate (m.nrow_local * m.ncol_local) 0 := by
  obtain ⟨a, _, rfl⟩ := List.mem_map.mp hap
  obtain ⟨b, _, rfl⟩ := List.mem_map.mp hm
  rfl

/-- Every element of every block of a zeroed container is zero. -/
theorem set_zero_zero {F : Type} [Zero F] (c : HContainer F) (ap : AtomPair F)
    (hap : ap ∈ c.set_zero.atom_pairs) (m : BaseMatrix F) (hm : m ∈ ap.values) (x : F)
    (hx : x ∈ m.value_begin) : x = 0 := by
  obtain ⟨a, _, rfl⟩ := List.mem_map.mp hap
  obtain ⟨b, _, rfl⟩ := List.mem_map.mp hm
  obtain ⟨y, _, rfl⟩ := List.mem_map.mp hx
  rfl

/-! ## The claims about `init_DMR` -/

/-- C13: after any of the three `init_DMR` overloads, whatever DM(R) store existed
before, the container holds exactly `nspin` sparse containers (`nspin` is 1 or 2, as the
constructors leave it), all with the same tuples `(atom i, atom j, R)` and the same
block dimensions.  The two overloads that walk the neighbours return when the arrays of
the neighbour source hold what is read. -/
theorem C13_init_DMR_containers {TK F : Type} [Zero F] (st : DensityMatrix TK F)
    (hnspin : st._nspin = 1 ∨ st._nspin = 2) (GridD_in : Grid_Driver F) (ucell : UnitCell F)
    (ra : Record_adj) (DMR_in : HContainer F) :
    ((GridD_in.arrays_ok ucell → ∃ st2, st.init_DMR_Grid GridD_in ucell = .ok st2) ∧
      ∀ st2, st.init_DMR_Grid GridD_in ucell = .ok st2 →
        st2._nspin = st._nspin ∧ st2._DMR.length = st._nspin ∧
        ∀ c1 ∈ st2._DMR, ∀ c2 ∈ st2._DMR, c1.entries = c2.entries) ∧
    ((ra.arrays_ok ucell.nat → ∃ st2, st.init_DMR_RA ra ucell = .ok st2) ∧
      ∀ st2, st.init_DMR_RA ra ucell = .ok st2 →
        st2._nspin = st._nspin ∧ st2._DMR.length = st._nspin ∧
        ∀ c1 ∈ st2._DMR, ∀ c2 ∈ st2._DMR, c1.entries = c2.entries) ∧
    ((st.init_DMR_template DMR_in)._nspin = st._nspin ∧
      (st.init_DMR_template DMR_in)._DMR.length = st._nspin ∧
      ∀ c1 ∈ (st.init_DMR_template DMR_in)._DMR, ∀ c2 ∈ (st.init_DMR_template DMR_in)._DMR,
        c1.entries = c2.entries) := by
  refine ⟨⟨init_DMR_Grid_total st GridD_in ucell, ?_⟩, ⟨init_DMR_RA_total st ra ucell, ?_⟩,
    rfl, ?_, ?_⟩
  · intro st2 h
    obtain ⟨tmp_DMR, _, rfl⟩ := init_DMR_Grid_inv st st2 GridD_in ucell h
    refine ⟨(init_DMR_finish_DMR st tmp_DMR).1, length_init_DMR_finish st tmp_DMR hnspin, ?_⟩
    intro c1 h1 c2 h2
    rw [mem_init_DMR_finish st tmp_DMR c1 h1, mem_init_DMR_finish st tmp_DMR c2 h2]
  · intro st2 h
    obtain ⟨tmp_DMR, _, rfl⟩ := init_DMR_RA_inv st st2 ra ucell h
    refine ⟨(init_DMR_finish_DMR st tmp_DMR).1, length_init_DMR_finish st tmp_DMR hnspin, ?_⟩
    intro c1 h1 c2 h2
    rw [mem_init_DMR_finish st tmp_DMR c1 h1, mem_init_DMR_finish st tmp_DMR c2 h2]
  · rw [init_DMR_template_DMR, List.length_replicate]
  · intro c1 h1 c2 h2
    rw [init_DMR_template_DMR] at h1 h2
    rw [List.eq_of_mem_replicate h1, List.eq_of_mem_replicate h2]

/-- C15: ownership filter.  Every tuple `(iat1, iat2, R)` of the structure that
`init_DMR` builds from a neighbour source (either overload) has
`get_row_size(iat1) > 0` and `get_col_size(iat2) > 0`. -/
theorem C15_ownership_filter {TK F : Type} [Zero F] (st : DensityMatrix TK F)
    (GridD_in : Grid_Driver F) (ucell : UnitCell F) (ra : Record_adj) :
    ((GridD_in.arrays_ok ucell → ∃ st2, st.init_DMR_Grid GridD_in ucell = .ok st2) ∧
      ∀ st2, st.init_DMR_Grid GridD_in ucell = .ok st2 →
        ∀ c ∈ st2._DMR, ∀ iat1 iat2 R, c.has_entry iat1 iat2 R →
          0 < st._paraV.get_row_size iat1 ∧ 0 < st._paraV.get_col_size iat2) ∧
    ((ra.arrays_ok ucell.nat → ∃ st2, st.init_DMR_RA ra ucell = .ok st2) ∧
      ∀ st2, st.init_DMR_RA ra ucell = .ok st2 →
        ∀ c ∈ st2._DMR, ∀ iat1 iat2 R, c.has_entry iat1 iat2 R →
          0 < st._paraV.get_row_size iat1 ∧ 0 < st._paraV.get_col_size iat2) := by
  refine ⟨⟨init_DMR_Grid_total st GridD_in ucell, ?_⟩, ⟨init_DMR_RA_total st ra ucell, ?_⟩⟩
  · intro st2 h c hc iat1 iat2 R he
    obtain ⟨tmp_DMR, hl, rfl⟩ := init_DMR_Grid_inv st st2 GridD_in ucell h
    rw [mem_init_DMR_finish st tmp_DMR c hc, has_entry_allocate] at he
    obtain ⟨ap, hap, h1, h2, _⟩ := he
    have := (init_DMR_Grid_atoms_spec st._paraV GridD_in ucell ucell.nat tmp_DMR hl).1 ap hap
    rw [h1, h2] at this
    exact this
  · intro st2 h c hc iat1 iat2 R he
    obtain ⟨tmp_DMR, hl, rfl⟩ := init_DMR_RA_inv st st2 ra ucell h
    rw [mem_init_DMR_finish st tmp_DMR c hc, has_entry_allocate] at he
    obtain ⟨ap, hap, h1, h2, _⟩ := he
    have := init_DMR_RA_atoms_spec st._paraV ra ucell ucell.nat tmp_DMR hl ap hap
    rw [h1, h2] at this
    exact this

/-- C16 as stated fails: on a layout where the atom 1 owns two columns and no row, and
the atom 0 owns rows and columns, the neighbour search offers the candidate
`(0, 1, (0, 0, 0))`, the atom 1 has `get_row_size = 0`, and `init_DMR` inserts the
tuple. -/
theorem C16_counterexample :
    ∃ st2, state_rows.init_DMR_Grid grid_2 ucell_2 = .ok st2 ∧
      grid_2.offers ucell_2 0 1 ⟨0, 0, 0⟩ ∧
      state_rows._paraV.get_row_size 1 = 0 ∧
      ∃ c ∈ st2._DMR, c.has_entry 0 1 ⟨0, 0, 0⟩ :=
  ⟨_, rfl, ⟨by decide, 0, 0, 1, by decide, rfl, rfl, rfl, rfl⟩, rfl, by decide⟩

/-- C16, amended: when `get_row_size(iat1) = 0` or `get_col_size(iat2) = 0`, no tuple of
the atoms `(iat1, iat2)` is in the structure that `init_DMR` builds from a neighbour
source (either overload), whatever the source offers. -/
theorem C16_filtered_out {TK F : Type} [Zero F] (st : DensityMatrix TK F)
    (GridD_in : Grid_Driver F) (ucell : UnitCell F) (ra : Record_adj) (iat1 iat2 : Nat)
    (hzero : st._paraV.get_row_size iat1 = 0 ∨ st._paraV.get_col_size iat2 = 0) :
    ((GridD_in.arrays_ok ucell → ∃ st2, st.init_DMR_Grid GridD_in ucell = .ok st2) ∧
      ∀ st2, st.init_DMR_Grid GridD_in ucell = .ok st2 →
        ∀ c ∈ st2._DMR, ∀ R, ¬ c.has_entry iat1 iat2 R) ∧
    ((ra.arrays_ok ucell.nat → ∃ st2, st.init_DMR_RA ra ucell = .ok st2) ∧
      ∀ st2, st.init_DMR_RA ra ucell = .ok st2 →
        ∀ c ∈ st2._DMR, ∀ R, ¬ c.has_entry iat1 iat2 R) := by
  refine ⟨⟨init_DMR_Grid_total st GridD_in ucell, ?_⟩, ⟨init_DMR_RA_total st ra ucell, ?_⟩⟩
  · intro st2 h c hc R he
    obtain ⟨tmp_DMR, hl, rfl⟩ := init_DMR_Grid_inv st st2 GridD_in ucell h
    rw [mem_init_DMR_finish st tmp_DMR c hc, has_entry_allocate] at he
    obtain ⟨ap, hap, h1, h2, _⟩ := he
    have := (init_DMR_Grid_atoms_spec st._paraV GridD_in ucell ucell.nat tmp_DMR hl).1 ap hap
    rw [h1, h2] at this
    omega
  · intro st2 h c hc R he
    obtain ⟨tmp_DMR, hl, rfl⟩ := init_DMR_RA_inv st st2 ra ucell h
    rw [mem_init_DMR_finish st tmp_DMR c hc, has_entry_allocate] at he
    obtain ⟨ap, hap, h1, h2, _⟩ := he
    have := init_DMR_RA_atoms_spec st._paraV ra ucell ucell.nat tmp_DMR hl ap hap
    rw [h1, h2] at this
    omega

/-- C17: `init_DMR(Grid_Driver, UnitCell)` builds exactly the filtered neighbour set.
The call returns when the arrays of the neighbour search hold the slots `0..adj_num` of
every atom, and the tuples of each container of the result are the tuples
`(iat1, iat2(ad), box[ad])`, for `iat1` in `0..nat-1` and `ad` in `0..adj_num`, with
`get_row_size(iat1) > 0` and `get_col_size(iat2) > 0`: none is missing and no other is
there. -/
theorem C17_filtered_neighbor_set {TK F : Type} [Zero F] (st : DensityMatrix TK F)
    (GridD_in : Grid_Driver F) (ucell : UnitCell F) :
    (GridD_in.arrays_ok ucell → ∃ st2, st.init_DMR_Grid GridD_in ucell = .ok st2) ∧
    ∀ st2, st.init_DMR_Grid GridD_in ucell = .ok st2 →
      st2._DMR ≠ [] ∧
      ∀ c ∈ st2._DMR, ∀ iat1 iat2 R, c.has_entry iat1 iat2 R ↔
        (GridD_in.offers ucell iat1 iat2 R ∧
          0 < st._paraV.get_row_size iat1 ∧ 0 < st._paraV.get_col_size iat2) := by
  refine ⟨init_DMR_Grid_total st GridD_in ucell, ?_⟩
  intro st2 h
  obtain ⟨tmp_DMR, hl, rfl⟩ := init_DMR_Grid_inv st st2 GridD_in ucell h
  constructor
  · rw [(init_DMR_finish_DMR st tmp_DMR).2.2]
    split <;> exact List.cons_ne_nil _ _
  · intro c hc iat1 iat2 R
    rw [mem_init_DMR_finish st tmp_DMR c hc, has_entry_allocate,
      (init_DMR_Grid_atoms_spec st._paraV GridD_in ucell ucell.nat tmp_DMR hl).2]
    unfold Grid_Driver.offers
    constructor
    · rintro ⟨h1, h2, h3, h4⟩
      exact ⟨⟨h1, h4⟩, h2, h3⟩
    · rintro ⟨⟨h1, h4⟩, h2, h3⟩
      exact ⟨h1, h2, h3, h4⟩

/-! ## Spin merge -/

/-- The element loop of the spin merge succeeds on buffers of at least `n` elements: the
first `n` elements become the sums, the others stay. -/
theorem sum_DMR_spin_add_ok {F : Type} [Add F] (n : Nat) (ptr_up ptr_down : List F)
    (hup : n ≤ ptr_up.length) (hdown : n ≤ ptr_down.length) :
    ∃ Z, sum_DMR_spin_add n ptr_up ptr_down = .ok Z ∧ Z.length = ptr_up.length ∧
      (∀ (p : Nat) u d, p < n → ptr_up[p]? = some u → ptr_down[p]? = some d →
        Z[p]? = some (u + d)) ∧
      ∀ (p : Nat), n ≤ p → Z[p]? = ptr_up[p]? := by
  unfold sum_DMR_spin_add
  refine (loopM_total (fun m (s : List F) => m ≤ n ∧ s.length = ptr_up.length ∧
    (∀ (p : Nat) u d, p < m → ptr_up[p]? = some u → ptr_down[p]? = some d →
      s[p]? = some (u + d)) ∧
    ∀ (p : Nat), m ≤ p → s[p]? = ptr_up[p]?) n _ ptr_up
    ⟨Nat.zero_le _, rfl, fun p u d hp => absurd hp (Nat.not_lt_zero _), fun _ _ => rfl⟩
    ?_).imp (fun Z h => ⟨h.1, h.2.2.1, h.2.2.2.1, h.2.2.2.2⟩)
  intro i hi s ⟨_, hlen, hlt, hge⟩
  have hsi : s[i]? = ptr_up[i]? := hge i (Nat.le_refl _)
  have hu : ptr_up[i]? = some ptr_up[i] := List.getElem?_eq_getElem (by omega)
  have hd : ptr_down[i]? = some ptr_down[i] := List.getElem?_eq_getElem (by omega)
  refine ⟨s.set i (ptr_up[i] + ptr_down[i]), ?_, by omega, ?_, ?_, ?_⟩
  · beta_reduce
    rw [hsi, hu, hd]
  · rw [List.length_set, hlen]
  · intro p u d hp hpu hpd
    by_cases hpi : p = i
    · subst hpi
      rw [List.getElem?_set_self (by omega)]
      rw [hu] at hpu
      rw [hd] at hpd
      cases hpu
      cases hpd
      rfl
    · rw [List.getElem?_set_ne (Ne.symm hpi)]
      exact hlt p u d (by omega) hpu hpd
  · intro p hp
    rw [List.getElem?_set_ne (by omega)]
    exact hge p (by omega)

/-- A successful element loop of the spin merge keeps the number of elements. -/
theorem sum_DMR_spin_add_length {F : Type} [Add F] (n : Nat) (ptr_up ptr_down Z : List F)
    (h : sum_DMR_spin_add n ptr_up ptr_down = .ok Z) : Z.length = ptr_up.length := by
  unfold sum_DMR_spin_add at h
  refine loopM_inv (fun _ (s : List F) => s.length = ptr_up.length) n _ ptr_up rfl ?_ Z h
  intro i _ s t hs ht
  beta_reduce at ht
  cases hsi : s[i]? with
  | none => rw [hsi] at ht; cases ht
  | some u =>
    cases hdi : ptr_down[i]? with
    | none => rw [hsi, hdi] at ht; cases ht
    | some d =>
      rw [hsi, hdi] at ht
      cases ht
      rw [List.length_set, hs]

/-- The work of the spin merge on one block changes the values of the block only. -/
theorem sum_DMR_spin_block_shape {F : Type} [Zero F] [Add F] (n : Nat)
    (tmp_ap_down : AtomPair F) (r : Vector3 Int) (m m2 : BaseMatrix F)
    (h : sum_DMR_spin_block n tmp_ap_down r m = .ok m2) : m2.set_zero = m.set_zero := by
  unfold sum_DMR_spin_block at h
  cases hf : tmp_ap_down.find_matrix r with
  | none => rw [hf] at h; cases h
  | some md =>
    rw [hf] at h
    dsimp only at h
    cases ha : sum_DMR_spin_add n m.value_begin md.value_begin with
    | error e => rw [ha] at h; cases h
    | ok Z =>
      rw [ha] at h
      cases h
      exact set_zero_with_values m Z (sum_DMR_spin_add_length n _ _ Z ha)

/-- The work of the spin merge on one atom pair changes the values of its blocks only. -/
theorem sum_DMR_spin_pair_shape {F : Type} [Zero F] [Add F] (tmp_DMR_down : HContainer F)
    (i : Nat) (ap ap2 : AtomPair F) (h : sum_DMR_spin_pair tmp_DMR_down i ap = .ok ap2) :
    ap2.set_zero = ap.set_zero := by
  unfold sum_DMR_spin_pair at h
  cases hd : tmp_DMR_down.get_atom_pair i with
  | none => rw [hd] at h; cases h
  | some ap_down =>
    rw [hd] at h
    dsimp only at h
    exact for_each_R_shape ap ap2 _
      (fun r m m2 hm => sum_DMR_spin_block_shape ap.get_size ap_down r m m2 hm) h

/-- A successful update of the first `n` elements by a function that keeps `g` keeps the
image under `g` of the list. -/
theorem updateEachM_map_eq {α β : Type} (g : α → β) (n : Nat) (f : Nat → α → Except Err α)
    (xs ys : List α) (hf : ∀ i x y, f i x = .ok y → g y = g x)
    (h : updateEachM n f xs = .ok ys) : ys.map g = xs.map g := by
  obtain ⟨hl, hlt, hge⟩ := updateEachM_inv n f xs ys h
  apply List.ext_getElem?
  intro i
  rw [List.getElem?_map, List.getElem?_map]
  by_cases hi : i < n
  · obtain ⟨x, y, hx, hy, hyi⟩ := hlt i hi
    rw [hx, hyi]
    exact congrArg some (hf i x y hy)
  · rw [hge i (by omega)]

/-- What a call of `sum_DMR_spin` that returns does: nothing when the number of spins is
not 2, and otherwise it replaces the atom pairs of the first container by atom pairs
that differ in the values of their blocks only. -/
theorem sum_DMR_spin_inv {TK F : Type} [Zero F] [Add F] (st st2 : DensityMatrix TK F)
    (h : st.sum_DMR_spin = .ok st2) :
    (st._nspin ≠ 2 ∧ st2 = st) ∨
    (st._nspin = 2 ∧ ∃ up aps, st._DMR[0]? = some up ∧
      aps.map AtomPair.set_zero = up.atom_pairs.map AtomPair.set_zero ∧
      st2 = st.with_DMR (st._DMR.set 0 (up.with_pairs aps))) := by
  unfold DensityMatrix.sum_DMR_spin at h
  by_cases h1 : st._nspin = 1
  · rw [if_pos h1] at h
    cases h
    exact Or.inl ⟨by omega, rfl⟩
  · rw [if_neg h1] at h
    by_cases h2 : st._nspin = 2
    · rw [if_pos h2] at h
      cases hup : st._DMR[0]? with
      | none => rw [hup] at h; cases h
      | some up =>
        cases hdown : st._DMR[1]? with
        | none => rw [hup, hdown] at h; cases h
        | some down =>
          rw [hup, hdown] at h
          dsimp only at h
          cases hu : updateEachM up.size_atom_pairs (sum_DMR_spin_pair down) up.atom_pairs with
          | error e => rw [hu] at h; cases h
          | ok aps =>
            rw [hu] at h
            cases h
            exact Or.inr ⟨h2, up, aps, rfl,
              updateEachM_map_eq AtomPair.set_zero _ _ _ _
                (fun i x y hy => sum_DMR_spin_pair_shape down i x y hy) hu, rfl⟩
    · rw [if_neg h2] at h
      cases h
      exact Or.inl ⟨h2, rfl⟩

/-- The translation that `find_R` finds is stored at the position found. -/
theorem find_R_some {F : Type} (ap : AtomPair F) (r : Vector3 Int) (k : Nat)
    (h : ap.find_R r = some k) : ap.R_index[k]? = some r := by
  unfold AtomPair.find_R at h
  dsimp only at h
  split at h
  · rename_i hlt
    cases h
    rw [List.getElem?_eq_getElem hlt, List.getElem_indexOf hlt]
  · cases h

/-- What two atom pairs of the same structure share. -/
theorem same_structure {F : Type} [Zero F] (ap ap2 : AtomPair F)
    (h : ap2.set_zero = ap.set_zero) :
    ap2.R_index = ap.R_index ∧ ap2.values.length = ap.values.length ∧
      ap2.get_size = ap.get_size := by
  have h1 : ap2.set_zero.R_index = ap.set_zero.R_index := congrArg AtomPair.R_index h
  have h2 : ap2.set_zero.values.length = ap.set_zero.values.length :=
    congrArg (fun a => a.values.length) h
  have h3 : ap2.set_zero.row_size = ap.set_zero.row_size := congrArg AtomPair.row_size h
  have h4 : ap2.set_zero.col_size = ap.set_zero.col_size := congrArg AtomPair.col_size h
  refine ⟨h1, ?_, ?_⟩
  · unfold AtomPair.set_zero at h2
    rw [List.length_map, List.length_map] at h2
    exact h2
  · unfold AtomPair.get_size
    have h3b : ap2.row_size = ap.row_size := h3
    have h4b : ap2.col_size = ap.col_size := h4
    rw [h3b, h4b]

/-- The work of the spin merge on an atom pair succeeds when the pair of the second spin
has the same structure and both have their storage: each block becomes the elementwise
sum of the two blocks of its translation. -/
theorem sum_DMR_spin_pair_ok {F : Type} [Zero F] [Add F] (tmp_DMR_down : HContainer F)
    (i : Nat) (ap ap_down : AtomPair F) (hd : tmp_DMR_down.get_atom_pair i = some ap_down)
    (hs : ap.sized) (hsd : ap_down.sized) (hst : ap_down.set_zero = ap.set_zero) :
    ∃ vs, sum_DMR_spin_pair tmp_DMR_down i ap = .ok (ap.with_values vs) ∧
      vs.length = ap.values.length ∧
      ∀ (ir : Nat) r m, ap.R_index[ir]? = some r → ap.values[ir]? = some m →
        ∃ m2, vs[ir]? = some m2 ∧ ∀ md, ap_down.find_matrix r = some md →
          ∀ (p : Nat) u d, m.value_begin[p]? = some u → md.value_begin[p]? = some d →
            m2.value_begin[p]? = some (u + d) := by
  obtain ⟨hR, hvl, hsz⟩ := same_structure ap ap_down hst
  unfold sum_DMR_spin_pair
  rw [hd]
  dsimp only
  refine for_each_R_ok ap _ hs.1 hs.2.1
    (fun r m m2 => ∀ md, ap_down.find_matrix r = some md →
      ∀ (p : Nat) u d, m.value_begin[p]? = some u → md.value_begin[p]? = some d →
        m2.value_begin[p]? = some (u + d)) ?_
  intro ir r m hr hm
  have hir : ir < ap.R_index.length := (List.getElem?_eq_some.mp hr).1
  have hfind : ap_down.find_R r = some ir :=
    find_R_getElem ap_down hsd.1 ir r (by rw [hR]; exact hr)
  have hlt : ir < ap_down.values.length := by
    rw [hvl, hs.2.1]
    exact hir
  have hmd : ap_down.values[ir]? = some ap_down.values[ir] := List.getElem?_eq_getElem hlt
  have hfm : ap_down.find_matrix r = some ap_down.values[ir] := by
    simp only [AtomPair.find_matrix, hfind, hmd]
  have hlm : m.value_begin.length = ap.get_size := hs.2.2 m (mem_of_getElem?_eq _ ir m hm)
  have hlmd : (ap_down.values[ir]).value_begin.length = ap.get_size := by
    rw [← hsz]
    exact hsd.2.2 _ (List.getElem_mem hlt)
  obtain ⟨Z, hZ, _, hZlt, _⟩ := sum_DMR_spin_add_ok ap.get_size m.value_begin
    (ap_down.values[ir]).value_begin (by omega) (by omega)
  refine ⟨{ m with value_begin := Z }, ?_, ?_⟩
  · unfold sum_DMR_spin_block
    rw [hfm]
    dsimp only
    rw [hZ]
  · intro md hmd2 p u d hu hdd
    rw [hfm] at hmd2
    cases hmd2
    have hp : p < ap.get_size := by
      rw [← hlm]
      exact (List.getElem?_eq_some.mp hu).1
    exact hZlt p u d hp hu hdd

/-- What it takes for `DMR_at` to read a value. -/
theorem DMR_at_some {TK F : Type} (st : DensityMatrix TK F) (s iap : Nat) (R : Vector3 Int)
    (p : Nat) (u : F) :
    st.DMR_at s iap R p = some u ↔
      ∃ c ap k m, st._DMR[s - 1]? = some c ∧ c.atom_pairs[iap]? = some ap ∧
        ap.find_R R = some k ∧ ap.values[k]? = some m ∧ m.value_begin[p]? = some u := by
  unfold DensityMatrix.DMR_at HContainer.get_atom_pair AtomPair.find_matrix
  constructor
  · intro h
    cases hc : st._DMR[s - 1]? with
    | none => rw [hc] at h; cases h
    | some c =>
      rw [hc] at h
      dsimp only at h
      cases hap : c.atom_pairs[iap]? with
      | none => rw [hap] at h; cases h
      | some ap =>
        rw [hap] at h
        dsimp only at h
        cases hk : ap.find_R R with
        | none => rw [hk] at h; cases h
        | some k =>
          rw [hk] at h
          dsimp only at h
          cases hm : ap.values[k]? with
          | none => rw [hm] at h; cases h
          | some m =>
            rw [hm] at h
            exact ⟨c, ap, k, m, rfl, hap, hk, hm, h⟩
  · rintro ⟨c, ap, k, m, hc, hap, hk, hm, h⟩
    rw [hc]
    dsimp only
    rw [hap]
    dsimp only
    rw [hk]
    dsimp only
    rw [hm]
    exact h

/-- The spin merge of a well-formed state with two spins succeeds, and each element of
each block of the first spin becomes its sum with the element of the second spin at the
same atom pair, translation and position. -/
theorem sum_DMR_spin_ok {TK F : Type} [Zero F] [Add F] (st : DensityMatrix TK F)
    (hwf : st.WellFormed_sum) :
    ∃ st2, st.sum_DMR_spin = .ok st2 ∧
      ∀ (iap : Nat) (R : Vector3 Int) (p : Nat) (u : F), st.DMR_at 1 iap R p = some u →
        ∃ d, st.DMR_at 2 iap R p = some d ∧ st2.DMR_at 1 iap R p = some (u + d) := by
  obtain ⟨hnspin, hlen, hsized, hsame⟩ := hwf
  have hup : st._DMR[0]? = some st._DMR[0] := List.getElem?_eq_getElem (by omega)
  have hdown : st._DMR[1]? = some st._DMR[1] := List.getElem?_eq_getElem (by omega)
  have hmup : st._DMR[0] ∈ st._DMR := List.getElem_mem _
  have hmdown : st._DMR[1] ∈ st._DMR := List.getElem_mem _
  have hpairs : ∀ (i : Nat) ap, (st._DMR[0]).atom_pairs[i]? = some ap →
      ∃ ap_down, (st._DMR[1]).atom_pairs[i]? = some ap_down ∧
        ap_down.set_zero = ap.set_zero := by
    intro i ap hap
    have h1 := congrArg (fun l => l[i]?) (hsame _ hmdown _ hmup)
    simp only [List.getElem?_map, hap, Option.map_some'] at h1
    cases hd : (st._DMR[1]).atom_pairs[i]? with
    | none => rw [hd] at h1; cases h1
    | some ap_down =>
      rw [hd] at h1
      exact ⟨ap_down, rfl, Option.some.inj h1⟩
  obtain ⟨aps, haps, _, hlt, _⟩ := updateEachM_all (sum_DMR_spin_pair st._DMR[1])
    (st._DMR[0]).atom_pairs (st._DMR[0]).size_atom_pairs (Nat.le_refl _)
    (fun i ap ap2 => ∃ ap_down vs, (st._DMR[1]).atom_pairs[i]? = some ap_down ∧
      ap_down.set_zero = ap.set_zero ∧ ap2 = ap.with_values vs ∧
      ∀ (ir : Nat) r m, ap.R_index[ir]? = some r → ap.values[ir]? = some m →
        ∃ m2, vs[ir]? = some m2 ∧ ∀ md, ap_down.find_matrix r = some md →
          ∀ (p : Nat) u d, m.value_begin[p]? = some u → md.value_begin[p]? = some d →
            m2.value_begin[p]? = some (u + d))
    (fun i ap _ hap => by
      obtain ⟨ap_down, hd, hst⟩ := hpairs i ap hap
      obtain ⟨vs, h1, _, h3⟩ := sum_DMR_spin_pair_ok st._DMR[1] i ap ap_down hd
        (hsized _ hmup ap (mem_of_getElem?_eq _ i ap hap))
        (hsized _ hmdown ap_down (mem_of_getElem?_eq _ i ap_down hd)) hst
      exact ⟨_, h1, ap_down, vs, hd, hst, rfl, h3⟩)
  refine ⟨st.with_DMR (st._DMR.set 0 ((st._DMR[0]).with_pairs aps)), ?_, ?_⟩
  · unfold DensityMatrix.sum_DMR_spin
    rw [if_neg (by omega), if_pos hnspin, hup, hdown]
    dsimp only
    rw [haps]
  · intro iap R p u hu
    obtain ⟨c, ap, k, m, hc, hap, hk, hm, hmu⟩ := (DMR_at_some st 1 iap R p u).mp hu
    rw [show (1 : Nat) - 1 = 0 from rfl, hup] at hc
    cases hc
    obtain ⟨ap2, hap2, _, ap_down, vs, hd, hst, rfl, hvs⟩ :=
      hlt iap ap (List.getElem?_eq_some.mp hap).1 hap
    obtain ⟨hR, hvl, hsz⟩ := same_structure ap ap_down hst
    have hs := hsized _ hmup ap (mem_of_getElem?_eq _ iap ap hap)
    have hsd := hsized _ hmdown ap_down (mem_of_getElem?_eq _ iap ap_down hd)
    have hr := find_R_some ap R k hk
    obtain ⟨m2, hm2, hsum⟩ := hvs k R m hr hm
    have hkd : ap_down.find_R R = some k := by
      unfold AtomPair.find_R
      rw [hR]
      exact hk
    have hklt : k < ap_down.values.length := by
      rw [hvl]
      exact (List.getElem?_eq_some.mp hm).1
    have hmd : ap_down.values[k]? = some ap_down.values[k] := List.getElem?_eq_getElem hklt
    have hplt : p < (ap_down.values[k]).value_begin.length := by
      rw [hsd.2.2 _ (List.getElem_mem hklt), hsz, ← hs.2.2 m (mem_of_getElem?_eq _ k m hm)]
      exact (List.getElem?_eq_some.mp hmu).1
    have hd2 : (ap_down.values[k]).value_begin[p]? = some (ap_down.values[k]).value_begin[p] :=
      List.getElem?_eq_getElem hplt
    have hfm : ap_down.find_matrix R = some ap_down.values[k] := by
      simp only [AtomPair.find_matrix, hkd, hmd]
    refine ⟨_, (DMR_at_some st 2 iap R p _).mpr
      ⟨_, ap_down, k, _, hdown, hd, hkd, hmd, hd2⟩, ?_⟩
    refine (DMR_at_some _ 1 iap R p _).mpr
      ⟨(st._DMR[0]).with_pairs aps, ap.with_values vs, k, m2, ?_, hap2, hk, hm2,
        hsum _ hfm p u _ hmu hd2⟩
    show (st._DMR.set 0 _)[0]? = _
    exact List.getElem?_set_self (by omega)

/-! ## The claims about `sum_DMR_spin`, and the frame of `cal_DMR` -/

/-- C18: `sum_DMR_spin` with two spins.  On a state with two containers of the same
structure and with storage for every block, the call returns, and for every atom pair,
every stored translation and every position of the block, the element of the first spin
after the call is its value before the call plus the element of the second spin before
the call at the same atom pair, translation and position. -/
theorem C18_sum_DMR_spin {TK F : Type} [Zero F] [Add F] (st : DensityMatrix TK F)
    (hwf : st.WellFormed_sum) :
    ∃ st2, st.sum_DMR_spin = .ok st2 ∧
      ∀ (iap : Nat) (R : Vector3 Int) (p : Nat) (u : F), st.DMR_at 1 iap R p = some u →
        ∃ d, st.DMR_at 2 iap R p = some d ∧ st2.DMR_at 1 iap R p = some (u + d) :=
  sum_DMR_spin_ok st hwf

/-- C19: the frame of `sum_DMR_spin`.  With one spin the call returns the state as it
was.  Whenever the call returns, the layout, the k-points, the counts and the DM(k) store
are what they were, every container but the first is what it was (the container of the
second spin with its values), and the DM(R) store with its values zeroed is what it was:
only values of blocks of the first spin change.  With two spins the call returns on a
well-formed state. -/
theorem C19_sum_DMR_spin_frame {TK F : Type} [Zero F] [Add F] (st : DensityMatrix TK F) :
    (st._nspin = 1 → st.sum_DMR_spin = .ok st) ∧
    (∀ st2, st.sum_DMR_spin = .ok st2 →
      st2._kv = st._kv ∧ st2._paraV = st._paraV ∧ st2._nspin = st._nspin ∧
      st2._nks = st._nks ∧ st2._DMK = st._DMK ∧
      (∀ i, 1 ≤ i → st2._DMR[i]? = st._DMR[i]?) ∧
      st2._DMR.map HContainer.set_zero = st._DMR.map HContainer.set_zero) ∧
    (st.WellFormed_sum → ∃ st2, st.sum_DMR_spin = .ok st2) := by
  refine ⟨?_, ?_, fun hwf => (sum_DMR_spin_ok st hwf).imp (fun _ h => h.1)⟩
  · intro h1
    unfold DensityMatrix.sum_DMR_spin
    rw [if_pos h1]
  · intro st2 h
    rcases sum_DMR_spin_inv st st2 h with ⟨_, rfl⟩ | ⟨_, up, aps, hup, haps, rfl⟩
    · exact ⟨rfl, rfl, rfl, rfl, rfl, fun _ _ => rfl, rfl⟩
    · refine ⟨rfl, rfl, rfl, rfl, rfl, fun i hi => ?_, ?_⟩
      · show (st._DMR.set 0 _)[i]? = _
        exact List.getElem?_set_ne (by omega)
      · show (st._DMR.set 0 _).map HContainer.set_zero = _
        apply List.ext_getElem?
        intro i
        rw [List.getElem?_map, List.getElem?_map]
        by_cases hi : i = 0
        · subst hi
          rw [List.getElem?_set_self (List.getElem?_eq_some.mp hup).1, hup]
          show some (HContainer.mk up.gamma_only (aps.map AtomPair.set_zero)) = _
          rw [haps]
          rfl
        · rw [List.getElem?_set_ne (Ne.symm hi)]

/-- The tuples and block dimensions of an atom pair do not depend on the values. -/
theorem entries_set_zero {F : Type} [Zero F] (ap : AtomPair F) :
    ap.set_zero.entries = ap.entries := by
  unfold AtomPair.entries AtomPair.set_zero
  dsimp only
  rw [List.zip_map_right, List.map_map]
  rfl

/-- Containers with the same zeroed atom pairs have the same tuples and block
dimensions. -/
theorem entries_of_set_zero {F : Type} [Zero F] (c c2 : HContainer F)
    (h : c2.atom_pairs.map AtomPair.set_zero = c.atom_pairs.map AtomPair.set_zero) :
    c2.entries = c.entries := by
  unfold HContainer.entries
  have h1 := congrArg (List.map AtomPair.entries) h
  rw [List.map_map, List.map_map] at h1
  have h2 : (AtomPair.entries ∘ AtomPair.set_zero : AtomPair F → _) = AtomPair.entries :=
    funext entries_set_zero
  rw [h2] at h1
  exact h1

/-- A successful transform of the shape shared by the transforms, whose work on the
containers keeps the zeroed atom pairs and whose preparation `pre` does too, keeps the
DM(k) store and the tuples and block dimensions of every container. -/
theorem transform_frame {TK F : Type} [Zero F] (st st2 : DensityMatrix TK F)
    (pre : HContainer F → HContainer F)
    (g : Nat → HContainer F → Except Err (HContainer F))
    (hpre : ∀ c : HContainer F,
      (pre c).atom_pairs.map AtomPair.set_zero = c.atom_pairs.map AtomPair.set_zero)
    (hg : ∀ ik_begin c c2, g ik_begin c = .ok c2 →
      c2.atom_pairs.map AtomPair.set_zero = c.atom_pairs.map AtomPair.set_zero)
    (h : st.for_each_spin (fun ik_begin tmp_DMR => g ik_begin (pre tmp_DMR)) = .ok st2) :
    st2._DMK = st._DMK ∧ st2._DMR.length = st._DMR.length ∧
      st2._DMR.map HContainer.entries = st._DMR.map HContainer.entries := by
  obtain ⟨dmr, rfl, hlen, hlt, hge⟩ := for_each_spin_inv st st2 _ h
  refine ⟨rfl, hlen, ?_⟩
  show dmr.map HContainer.entries = _
  apply List.ext_getElem?
  intro i
  rw [List.getElem?_map, List.getElem?_map]
  by_cases hi : i < st._nspin
  · obtain ⟨c, c2, hc, hb, hc2⟩ := hlt i hi
    rw [hc, hc2]
    exact congrArg some (entries_of_set_zero c c2 ((hg _ _ _ hb).trans (hpre c)))
  · rw [hge i (by omega)]

/-- C20: `cal_DMR` changes DM(R) values only.  Whenever the multi-k or the Gamma-only
`cal_DMR` returns, every DM(k) buffer is what it was before, and each container of the
DM(R) store has the tuples `(atom i, atom j, R)` and the block dimensions that it had
before.  Both return on a state without undefined behaviour whose stored pairs are all
resident. -/
theorem C20_cal_DMR_frame {F : Type} [Zero F] [One F] [Add F] [Mul F] [Neg F] [IntCast F]
    (lm : Libm F) :
    (∀ st st2 : DensityMatrix (Cplx F) F, st.cal_DMR_multi_k lm = .ok st2 →
      st2._DMK = st._DMK ∧ st2._DMR.length = st._DMR.length ∧
      st2._DMR.map HContainer.entries = st._DMR.map HContainer.entries) ∧
    (∀ st st2 : DensityMatrix F F, st.cal_DMR_gamma = .ok st2 →
      st2._DMK = st._DMK ∧ st2._DMR.length = st._DMR.length ∧
      st2._DMR.map HContainer.entries = st._DMR.map HContainer.entries) ∧
    (∀ st : DensityMatrix (Cplx F) F, st.WellFormed_multi_k → st.all_owned →
      ∃ st2, st.cal_DMR_multi_k lm = .ok st2) ∧
    (∀ st : DensityMatrix F F, st.WellFormed_gamma → st.all_owned →
      ∃ st2, st.cal_DMR_gamma = .ok st2) := by
  refine ⟨?_, ?_, fun st hwf hown => (multi_k_dichotomy lm st hwf).2 hown,
    fun st hwf hown => (gamma_dichotomy st hwf).2 hown⟩
  · intro st st2 h
    exact transform_frame st st2 HContainer.set_zero
      (fun ik_begin c => c.for_each_atom_pair st._paraV
        (fun iat1 iat2 row_ap col_ap tmp_ap =>
          tmp_ap.for_each_R (fun r_index tmp_matrix =>
            st.cal_DMR_multi_k_block lm (2 * (st._paraV.nrow : Int)) ik_begin iat1 iat2
              row_ap col_ap r_index tmp_matrix)))
      (fun c => map_set_zero_set_zero c.atom_pairs)
      (fun ik_begin c c2 hc => (for_each_atom_pair_shape _ c c2 _
        (fun _ _ _ _ ap ap2 hap => for_each_R_shape ap ap2 _
          (fun r m m2 hm => cal_DMR_multi_k_block_shape _ _ _ _ _ _ _ _ _ _ _ hm) hap) hc).2)
      h
  · intro st st2 h
    exact transform_frame st st2 (fun c => c.fix_gamma.set_zero)
      (fun ik_begin c => c.for_each_atom_pair st._paraV
        (fun iat1 iat2 row_ap col_ap tmp_ap =>
          st.cal_DMR_gamma_pair st._paraV.nrow ik_begin iat1 iat2 row_ap col_ap tmp_ap))
      (fun c => map_set_zero_set_zero c.atom_pairs)
      (fun ik_begin c c2 hc => (for_each_atom_pair_shape _ c c2 _
        (fun _ _ _ _ ap ap2 hap => cal_DMR_gamma_pair_shape _ _ _ _ _ _ _ ap ap2 hap) hc).2)
      h


/-! ## The reference transform against the optimized one: the outcome -/

/-- A successful pass of the element loops of the reference transform keeps the shape of
the block. -/
theorem cal_DMR_test_fill_shape {TK F : Type} [Zero F] [Add F] [HMul (Cplx F) TK (Cplx F)]
    (paraV : Parallel_Orbitals) (iat1 iat2 : Nat) (row_ap col_ap : Int) (kphase : Cplx F)
    (_DMK : List (List TK)) (ik : Nat) (m m2 : BaseMatrix F)
    (h : cal_DMR_test_fill paraV iat1 iat2 row_ap col_ap kphase _DMK ik m = .ok m2) :
    m2.set_zero = m.set_zero := by
  unfold cal_DMR_test_fill at h
  refine loopM_inv (fun _ (t : BaseMatrix F) => t.set_zero = m.set_zero) _ _ _ rfl ?_ m2 h
  intro i _ s t hs hbody
  refine loopM_inv (fun _ (u : BaseMatrix F) => u.set_zero = m.set_zero) _ _ _ hs ?_ t hbody
  intro j _ u v hu hb
  simp only at hb
  split at hb
  · cases hb
  · split at hb
    · cases hb
    · unfold BaseMatrix.add_element at hb
      split at hb
      · cases hb
      · cases hb
        rw [set_zero_with_values u _ (by simp), hu]

/-- A successful reference loop over the k-points keeps the shape of the block. -/
theorem cal_DMR_test_block_shape {TK F : Type} [Zero F] [Add F] [Mul F] [IntCast F]
    [HMul (Cplx F) TK (Cplx F)] (lm : Libm F) (st : DensityMatrix TK F)
    (ik_begin iat1 iat2 : Nat) (row_ap col_ap : Int) (r : Vector3 Int) (m m2 : BaseMatrix F)
    (h : st.cal_DMR_test_block lm ik_begin iat1 iat2 row_ap col_ap r m = .ok m2) :
    m2.set_zero = m.set_zero := by
  unfold DensityMatrix.cal_DMR_test_block at h
  refine loopM_inv (fun _ (t : BaseMatrix F) => t.set_zero = m.set_zero) _ _ _ rfl ?_ m2 h
  intro k _ s t hs hbody
  simp only at hbody
  split at hbody
  · cases hbody
  · split at hbody
    · cases hbody
    · rw [cal_DMR_test_fill_shape _ _ _ _ _ _ _ _ _ _ hbody, hs]

/-- C3, amended: on a multi-k state without undefined behaviour the scalar reference
`cal_DMR_test` and the optimized `cal_DMR`, started from the same state, either both raise
the ownership error or both finish, with the same DM(k) store and DM(R) stores of the
same structure (the same tuples and block dimensions).  They finish with the same state,
hence the same value in every element of every DM(R) block of every spin, whenever the
arithmetic satisfies `y + (c * r - s * i) = (y + c * r) + (-s) * i`, as exact arithmetic
does: the reference adds `cos * Re - sin * Im` in one step, the optimized path adds the
two terms one after the other. -/
theorem C3_test_equiv {F : Type} [Zero F] [Add F] [Sub F] [Mul F] [Neg F] [IntCast F]
    (lm : Libm F) (st : DensityMatrix (Cplx F) F) (hwf : st.WellFormed_multi_k) :
    ((st.cal_DMR_test lm = .error .OwnershipViolation ∧
        st.cal_DMR_multi_k lm = .error .OwnershipViolation) ∨
      ∃ st2 st3, st.cal_DMR_test lm = .ok st2 ∧ st.cal_DMR_multi_k lm = .ok st3 ∧
        st2._DMK = st3._DMK ∧ st2._DMR.length = st3._DMR.length ∧
        st2._DMR.map HContainer.entries = st3._DMR.map HContainer.entries) ∧
    ((∀ y c r s i : F, y + (c * r - s * i) = y + c * r + -s * i) →
      st.cal_DMR_test lm = st.cal_DMR_multi_k lm) := by
  refine ⟨?_, fun hlaw => test_eq_multi_k hlaw lm st hwf⟩
  by_cases hall : st.all_owned
  · right
    obtain ⟨st2, h2⟩ := (test_dichotomy lm st hwf).2 hall
    obtain ⟨st3, h3⟩ := (multi_k_dichotomy lm st hwf).2 hall
    have f2 := transform_frame st st2 HContainer.set_zero
      (fun ik_begin c => c.for_each_atom_pair st._paraV
        (fun iat1 iat2 row_ap col_ap tmp_ap =>
          tmp_ap.for_each_R (fun r_index tmp_matrix =>
            st.cal_DMR_test_block lm ik_begin iat1 iat2 row_ap col_ap r_index tmp_matrix)))
      (fun c => map_set_zero_set_zero c.atom_pairs)
      (fun ik_begin c c2 hc => (for_each_atom_pair_shape _ c c2 _
        (fun _ _ _ _ ap ap2 hap => for_each_R_shape ap ap2 _
          (fun r m m2 hm => cal_DMR_test_block_shape _ _ _ _ _ _ _ _ _ _ hm) hap) hc).2)
      h2
    have f3 := transform_frame st st3 HContainer.set_zero
      (fun ik_begin c => c.for_each_atom_pair st._paraV
        (fun iat1 iat2 row_ap col_ap tmp_ap =>
          tmp_ap.for_each_R (fun r_index tmp_matrix =>
            st.cal_DMR_multi_k_block lm (2 * (st._paraV.nrow : Int)) ik_begin iat1 iat2
              row_ap col_ap r_index tmp_matrix)))
      (fun c => map_set_zero_set_zero c.atom_pairs)
      (fun ik_begin c c2 hc => (for_each_atom_pair_shape _ c c2 _
        (fun _ _ _ _ ap ap2 hap => for_each_R_shape ap ap2 _
          (fun r m m2 hm => cal_DMR_multi_k_block_shape _ _ _ _ _ _ _ _ _ _ _ hm) hap) hc).2)
      h3
    exact ⟨st2, st3, h2, h3, f2.1.trans f3.1.symm, f2.2.1.trans f3.2.1.symm,
      f2.2.2.trans f3.2.2.symm⟩
  · left
    exact ⟨(test_dichotomy lm st hwf).1.mpr hall, (multi_k_dichotomy lm st hwf).1.mpr hall⟩

/-- C3, amended, on the concrete multi-k state over the integers, whose arithmetic is
exact: the two transforms finish with the same state. -/
theorem C3_test_equiv_witness :
    state_multi_k.WellFormed_multi_k ∧
    state_multi_k.cal_DMR_test libm_Z = state_multi_k.cal_DMR_multi_k libm_Z ∧
    ∃ st2 st3, state_multi_k.cal_DMR_test libm_Z = .ok st2 ∧
      state_multi_k.cal_DMR_multi_k libm_Z = .ok st3 ∧
      st2._DMR.map HContainer.entries = st3._DMR.map HContainer.entries := by
  obtain ⟨h1, h2⟩ := C3_test_equiv libm_Z state_multi_k state_multi_k_wf
  refine ⟨state_multi_k_wf, h2 (fun y c r s i => by ring), ?_⟩
  rcases h1 with ⟨h, _⟩ | ⟨st2, st3, h2, h3, _, _, h6⟩
  · exact absurd ((test_dichotomy libm_Z state_multi_k state_multi_k_wf).1.mp h)
      (not_not.mpr state_multi_k_owned)
  · exact ⟨st2, st3, h2, h3, h6⟩

/-! ## The claims about the accessors, `init_DMR`, `sum_DMR_spin` and the frame of
`cal_DMR` on concrete inputs -/

/-- C11 on the concrete multi-k state: the value written with `set_DMK(1, 1, 2, 3, v)`
is at offset `2 * 4 + 3` of the buffer 1 and is what `get_DMK(1, 1, 2, 3)` returns. -/
theorem C11_set_get_round_trip_witness :
    ∃ st2, state_multi_k.set_DMK 1 1 2 3 ⟨7, 8⟩ = .ok st2 ∧
      st2.DMK_at 1 11 = some ⟨7, 8⟩ ∧ st2.get_DMK 1 1 2 3 = .ok ⟨7, 8⟩ :=
  C11_set_get_round_trip state_multi_k state_multi_k_wf.2.1 1 1 2 3 ⟨7, 8⟩ (by decide)
    (by decide) (by decide)

/-- C12, amended, on the concrete multi-k state: `set_DMK(1, 0, 0, 2, v)` does not change
what `get_DMK(1, 0, 1, 0)` returns. -/
theorem C12_set_DMK_frame_witness :
    ∃ st2 w, state_multi_k.set_DMK 1 0 0 2 ⟨5, 5⟩ = .ok st2 ∧
      state_multi_k.get_DMK 1 0 1 0 = .ok w ∧ st2.get_DMK 1 0 1 0 = .ok w :=
  (C12_set_DMK_frame state_multi_k state_multi_k_wf.2.1 1 1 0 0 0 1 2 0 ⟨5, 5⟩ (by decide)
    (by decide) (by decide) (by decide) (by decide) (by decide) (by decide) (by decide)
    (by decide)).1

/-- The arrays of the concrete neighbour search hold the slots of the two atoms. -/
theorem grid_2_arrays_ok : grid_2.arrays_ok ucell_2 := by
  unfold Grid_Driver.arrays_ok
  decide

/-- The concrete record holds the neighbours of the two atoms. -/
theorem ra_2_arrays_ok : ra_2.arrays_ok ucell_2.nat := by
  intro iat1 hi
  have hi2 : iat1 < 2 := hi
  interval_cases iat1
  · refine ⟨2, rfl, fun ad had c hc => ?_⟩
    interval_cases ad <;> interval_cases c <;> exact ⟨_, rfl⟩
  · refine ⟨2, rfl, fun ad had c hc => ?_⟩
    interval_cases ad <;> interval_cases c <;> exact ⟨_, rfl⟩

/-- C13 on the concrete state with two spins: each overload returns and leaves two
containers with the same tuples and block dimensions. -/
theorem C13_init_DMR_containers_witness :
    (∃ st2, state_rows.init_DMR_Grid grid_2 ucell_2 = .ok st2 ∧ st2._DMR.length = 2 ∧
      ∀ c1 ∈ st2._DMR, ∀ c2 ∈ st2._DMR, c1.entries = c2.entries) ∧
    (∃ st2, state_rows.init_DMR_RA ra_2 ucell_2 = .ok st2 ∧ st2._DMR.length = 2 ∧
      ∀ c1 ∈ st2._DMR, ∀ c2 ∈ st2._DMR, c1.entries = c2.entries) ∧
    (state_rows.init_DMR_template container_2)._DMR.length = 2 := by
  have h := C13_init_DMR_containers state_rows (Or.inr rfl) grid_2 ucell_2 ra_2 container_2
  obtain ⟨st2, hst2⟩ := h.1.1 grid_2_arrays_ok
  obtain ⟨st3, hst3⟩ := h.2.1.1 ra_2_arrays_ok
  exact ⟨⟨st2, hst2, (h.1.2 st2 hst2).2.1, (h.1.2 st2 hst2).2.2⟩,
    ⟨st3, hst3, (h.2.1.2 st3 hst3).2.1, (h.2.1.2 st3 hst3).2.2⟩, h.2.2.2.1⟩

/-- C15 on the concrete state: the tuples of the structure built from the neighbour
search belong to atoms with rows and columns here. -/
theorem C15_ownership_filter_witness :
    ∃ st2, state_rows.init_DMR_Grid grid_2 ucell_2 = .ok st2 ∧
      ∀ c ∈ st2._DMR, ∀ iat1 iat2 R, c.has_entry iat1 iat2 R →
        0 < paraV_rows.get_row_size iat1 ∧ 0 < paraV_rows.get_col_size iat2 :=
  ⟨_, rfl, (C15_ownership_filter state_rows grid_2 ucell_2 ra_2).1.2 _ rfl⟩

/-- C16, amended, on the concrete state: the atom 1 has no row here, and no tuple of the
atoms (1, 0) is in the structure, though the neighbour search offers one. -/
theorem C16_filtered_out_witness :
    grid_2.offers ucell_2 1 0 ⟨0, 0, 0⟩ ∧
    ∃ st2, state_rows.init_DMR_Grid grid_2 ucell_2 = .ok st2 ∧
      ∀ c ∈ st2._DMR, ∀ R, ¬ c.has_entry 1 0 R :=
  ⟨⟨by decide, 0, 0, 0, by decide, rfl, rfl, rfl, rfl⟩, _, rfl,
    (C16_filtered_out state_rows grid_2 ucell_2 ra_2 1 0 (Or.inl rfl)).1.2 _ rfl⟩

/-- C17 on the concrete state: the structure holds the offered tuple of the atoms (0, 1),
which pass the filter, and not the offered tuple of the atoms (1, 1). -/
theorem C17_filtered_neighbor_set_witness :
    ∃ st2, state_rows.init_DMR_Grid grid_2 ucell_2 = .ok st2 ∧
      ∀ c ∈ st2._DMR, c.has_entry 0 1 ⟨0, 0, 0⟩ ∧ ¬ c.has_entry 1 1 ⟨0, 0, 0⟩ := by
  have h := (C17_filtered_neighbor_set state_rows grid_2 ucell_2).2 _ rfl
  refine ⟨_, rfl, fun c hc => ⟨?_, ?_⟩⟩
  · exact (h.2 c hc 0 1 ⟨0, 0, 0⟩).mpr
      ⟨⟨by decide, 0, 0, 1, by decide, rfl, rfl, rfl, rfl⟩, by decide, by decide⟩
  · intro he
    exact absurd ((h.2 c hc 1 1 ⟨0, 0, 0⟩).mp he).2.1 (by decide)

/-- The concrete state with two spins is well-formed for the spin merge. -/
theorem state_two_spins_wf : state_two_spins.WellFormed_sum := by
  decide

/-- C18 on the concrete state with two spins: the first element of the block of the
pair (0, 0) becomes `7 + 1`. -/
theorem C18_sum_DMR_spin_witness :
    ∃ st2, state_two_spins.sum_DMR_spin = .ok st2 ∧
      st2.DMR_at 1 0 ⟨0, 0, 0⟩ 0 = some (7 + 1) := by
  obtain ⟨st2, h1, h2⟩ := C18_sum_DMR_spin state_two_spins state_two_spins_wf
  obtain ⟨d, hd, hs⟩ := h2 0 ⟨0, 0, 0⟩ 0 7 rfl
  have hd1 : some d = some 1 := hd.symm.trans rfl
  cases hd1
  exact ⟨st2, h1, hs⟩

/-- C19 on concrete states: with one spin the merge returns the state as it was; with
two spins it returns and leaves the DM(k) store and the container of the second spin as
they were. -/
theorem C19_sum_DMR_spin_frame_witness :
    state_multi_k.sum_DMR_spin = .ok state_multi_k ∧
    ∃ st2, state_two_spins.sum_DMR_spin = .ok st2 ∧ st2._DMK = state_two_spins._DMK ∧
      st2._DMR[1]? = some container_down := by
  refine ⟨(C19_sum_DMR_spin_frame state_multi_k).1 rfl, ?_⟩
  obtain ⟨st2, h⟩ := (C19_sum_DMR_spin_frame state_two_spins).2.2 state_two_spins_wf
  have hf := (C19_sum_DMR_spin_frame state_two_spins).2.1 st2 h
  exact ⟨st2, h, hf.2.2.2.2.1, (hf.2.2.2.2.2.1 1 (Nat.le_refl _)).trans rfl⟩

/-- C20 on the concrete states: both transforms return and leave the DM(k) store and
the tuples of the DM(R) store as they were. -/
theorem C20_cal_DMR_frame_witness :
    (∃ st2, state_multi_k.cal_DMR_multi_k libm_Z = .ok st2 ∧
      st2._DMK = state_multi_k._DMK ∧
      st2._DMR.map HContainer.entries = state_multi_k._DMR.map HContainer.entries) ∧
    (∃ st2, state_gamma.cal_DMR_gamma = .ok st2 ∧ st2._DMK = state_gamma._DMK ∧
      st2._DMR.map HContainer.entries = state_gamma._DMR.map HContainer.entries) := by
  have h := C20_cal_DMR_frame libm_Z
  obtain ⟨st2, h2⟩ := h.2.2.1 state_multi_k state_multi_k_wf state_multi_k_owned
  obtain ⟨st3, h3⟩ := h.2.2.2 state_gamma state_gamma_wf state_gamma_owned
  exact ⟨⟨st2, h2, (h.1 _ _ h2).1, (h.1 _ _ h2).2.2⟩,
    ⟨st3, h3, (h.2.1 _ _ h3).1, (h.2.1 _ _ h3).2.2⟩⟩


/-! ## The zero filling of `init_DMR` -/

/-- The overload of `init_DMR` that takes a template, with the template carried along:
the state is the one of `init_DMR_template`, and the template is as it was. -/
theorem init_DMR_template_objects_eq {TK F : Type} [Zero F] (st : DensityMatrix TK F)
    (DMR_in : HContainer F) :
    st.init_DMR_template_objects DMR_in = (st.init_DMR_template DMR_in, DMR_in) := by
  have key : ∀ n : Nat,
      loop n (fun _ (s : List (HContainer F) × HContainer F) =>
        (s.1 ++ [(HContainer.HContainer_copy s.2).set_zero],
          HContainer.HContainer_copy_arg s.2)) ([], DMR_in) =
      (loop n (fun _ _DMR => _DMR ++ [(HContainer.HContainer_copy DMR_in).set_zero]) [],
        DMR_in) := by
    intro n
    induction n with
    | zero => rfl
    | succ k ih =>
      show (fun (s : List (HContainer F) × HContainer F) =>
        (s.1 ++ [(HContainer.HContainer_copy s.2).set_zero],
          HContainer.HContainer_copy_arg s.2)) (loop k _ ([], DMR_in)) = _
      rw [ih]
      rfl
  unfold DensityMatrix.init_DMR_template_objects DensityMatrix.init_DMR_template
  dsimp only
  rw [key]
  rfl

/-- C14: after any `init_DMR` overload every element of every block of every spin's
DM(R) container is zero.  The overloads that walk the neighbours return on well-formed
neighbour arrays and leave a store that is not empty, with a container for each spin,
in which each block is its `nrow x ncol` zeros.  The overload that takes a template
leaves `nspin` containers, each the template with its values replaced by zeros: the
tuples and the block dimensions of the template, blocks of the length of the template's
blocks, all elements zero; the template itself is after the call what it was before. -/
theorem C14_init_DMR_zero {TK F : Type} [Zero F] (st : DensityMatrix TK F)
    (GridD_in : Grid_Driver F) (ucell : UnitCell F) (ra : Record_adj) (DMR_in : HContainer F) :
    ((GridD_in.arrays_ok ucell → ∃ st2, st.init_DMR_Grid GridD_in ucell = .ok st2) ∧
      ∀ st2, st.init_DMR_Grid GridD_in ucell = .ok st2 →
        st2._DMR ≠ [] ∧ (st._nspin = 1 ∨ st._nspin = 2 → st2._DMR.length = st._nspin) ∧
        ∀ c ∈ st2._DMR, ∀ ap ∈ c.atom_pairs, ∀ m ∈ ap.values,
          m.value_begin = List.replicate (m.nrow_local * m.ncol_local) 0) ∧
    ((ra.arrays_ok ucell.nat → ∃ st2, st.init_DMR_RA ra ucell = .ok st2) ∧
      ∀ st2, st.init_DMR_RA ra ucell = .ok st2 →
        st2._DMR ≠ [] ∧ (st._nspin = 1 ∨ st._nspin = 2 → st2._DMR.length = st._nspin) ∧
        ∀ c ∈ st2._DMR, ∀ ap ∈ c.atom_pairs, ∀ m ∈ ap.values,
          m.value_begin = List.replicate (m.nrow_local * m.ncol_local) 0) ∧
    ((st.init_DMR_template_objects DMR_in).1 = st.init_DMR_template DMR_in ∧
      (st.init_DMR_template_objects DMR_in).2 = DMR_in ∧
      (st.init_DMR_template DMR_in)._DMR = List.replicate st._nspin DMR_in.set_zero ∧
      DMR_in.set_zero.entries = DMR_in.entries ∧
      DMR_in.set_zero.atom_pairs.map (fun ap => ap.values.map (fun m => m.value_begin.length)) =
        DMR_in.atom_pairs.map (fun ap => ap.values.map (fun m => m.value_begin.length)) ∧
      ∀ ap ∈ DMR_in.set_zero.atom_pairs, ∀ m ∈ ap.values, ∀ x ∈ m.value_begin, x = 0) := by
  have hfin : ∀ tmp_DMR : HContainer F, (st.init_DMR_finish tmp_DMR)._DMR ≠ [] := by
    intro tmp_DMR
    rw [(init_DMR_finish_DMR st tmp_DMR).2.2]
    split <;> exact List.cons_ne_nil _ _
  refine ⟨⟨init_DMR_Grid_total st GridD_in ucell, ?_⟩, ⟨init_DMR_RA_total st ra ucell, ?_⟩, ?_⟩
  · intro st2 h
    obtain ⟨tmp_DMR, _, rfl⟩ := init_DMR_Grid_inv st st2 GridD_in ucell h
    refine ⟨hfin tmp_DMR, length_init_DMR_finish st tmp_DMR, fun c hc ap hap m hm => ?_⟩
    rw [mem_init_DMR_finish st tmp_DMR c hc] at hap
    exact allocate_zero tmp_DMR ap hap m hm
  · intro st2 h
    obtain ⟨tmp_DMR, _, rfl⟩ := init_DMR_RA_inv st st2 ra ucell h
    refine ⟨hfin tmp_DMR, length_init_DMR_finish st tmp_DMR, fun c hc ap hap m hm => ?_⟩
    rw [mem_init_DMR_finish st tmp_DMR c hc] at hap
    exact allocate_zero tmp_DMR ap hap m hm
  · refine ⟨by rw [init_DMR_template_objects_eq], by rw [init_DMR_template_objects_eq],
      init_DMR_template_DMR st DMR_in, ?_, ?_,
      fun ap hap m hm x hx => set_zero_zero DMR_in ap hap m hm x hx⟩
    · unfold HContainer.entries HContainer.set_zero
      dsimp only
      rw [List.map_map]
      exact List.map_congr_left (fun ap _ => entries_set_zero ap)
    · unfold HContainer.set_zero
      dsimp only
      rw [List.map_map]
      refine List.map_congr_left (fun ap _ => ?_)
      show (ap.values.map BaseMatrix.set_zero).map (fun m => m.value_begin.length) = _
      rw [List.map_map]
      refine List.map_congr_left (fun m _ => ?_)
      show (m.value_begin.map (fun _ => (0 : F))).length = _
      rw [List.length_map]

/-- C14 on the concrete state with two spins: each of the three overloads leaves two
containers whose blocks are zeros, and the template, whose blocks hold 7, 5 and 6, is
after the call what it was. -/
theorem C14_init_DMR_zero_witness :
    (∃ st2, state_rows.init_DMR_Grid grid_2 ucell_2 = .ok st2 ∧
      st2._DMR = [⟨false, [⟨0, 1, 2, 2, [⟨0, 0, 0⟩], [block_2x2 0]⟩,
          ⟨0, 0, 2, 2, [⟨0, 0, 0⟩], [block_2x2 0]⟩]⟩,
        ⟨false, [⟨0, 1, 2, 2, [⟨0, 0, 0⟩], [block_2x2 0]⟩,
          ⟨0, 0, 2, 2, [⟨0, 0, 0⟩], [block_2x2 0]⟩]⟩] ∧
      ∀ c ∈ st2._DMR, ∀ ap ∈ c.atom_pairs, ∀ m ∈ ap.values,
        m.value_begin = List.replicate (m.nrow_local * m.ncol_local) 0) ∧
    (∃ st2, state_rows.init_DMR_RA ra_2 ucell_2 = .ok st2 ∧
      st2._DMR = [⟨false, [⟨0, 1, 2, 2, [⟨0, 0, 0⟩], [block_2x2 0]⟩,
          ⟨0, 0, 2, 2, [⟨0, 0, 0⟩], [block_2x2 0]⟩]⟩,
        ⟨false, [⟨0, 1, 2, 2, [⟨0, 0, 0⟩], [block_2x2 0]⟩,
          ⟨0, 0, 2, 2, [⟨0, 0, 0⟩], [block_2x2 0]⟩]⟩] ∧
      ∀ c ∈ st2._DMR, ∀ ap ∈ c.atom_pairs, ∀ m ∈ ap.values,
        m.value_begin = List.replicate (m.nrow_local * m.ncol_local) 0) ∧
    (state_rows.init_DMR_template container_2)._DMR =
      [⟨false, [⟨0, 0, 2, 2, [⟨0, 0, 0⟩], [block_2x2 0]⟩,
          ⟨0, 1, 2, 2, [⟨0, 0, 0⟩, ⟨1, 0, 0⟩], [block_2x2 0, block_2x2 0]⟩]⟩,
        ⟨false, [⟨0, 0, 2, 2, [⟨0, 0, 0⟩], [block_2x2 0]⟩,
          ⟨0, 1, 2, 2, [⟨0, 0, 0⟩, ⟨1, 0, 0⟩], [block_2x2 0, block_2x2 0]⟩]⟩] ∧
    (state_rows.init_DMR_template_objects container_2).2 = container_2 := by
  have h := C14_init_DMR_zero state_rows grid_2 ucell_2 ra_2 container_2
  exact ⟨⟨_, rfl, rfl, (h.1.2 _ rfl).2.2⟩, ⟨_, rfl, rfl, (h.2.1.2 _ rfl).2.2⟩,
    h.2.2.2.2.1.trans rfl, h.2.2.2.1⟩
/-! ## Stress matrices -/

/-- A list of nine elements, spelled out. -/
theorem list_of_length_9 {α : Type} (c : List α) (h : c.length = 9) :
    ∃ a0 a1 a2 a3 a4 a5 a6 a7 a8, c = [a0, a1, a2, a3, a4, a5, a6, a7, a8] := by
  match c, h with
  | [a0, a1, a2, a3, a4, a5, a6, a7, a8], _ => exact ⟨a0, a1, a2, a3, a4, a5, a6, a7, a8, rfl⟩

/-- A list of six elements, spelled out. -/
theorem list_of_length_6 {α : Type} (c : List α) (h : c.length = 6) :
    ∃ a0 a1 a2 a3 a4 a5, c = [a0, a1, a2, a3, a4, a5] := by
  match c, h with
  | [a0, a1, a2, a3, a4, a5], _ => exact ⟨a0, a1, a2, a3, a4, a5, rfl⟩

/-- What `stress_fill_new` leaves in a 3 x 3 matrix: the upper triangle, mirrored, each
entry multiplied by the weight once. -/
theorem stress_fill_new_eq {F : Type} [Zero F] [LT F] [DecidableRel (fun a b : F => a < b)]
    [Mul F] [Div F] (lat0 omega : F) (homega : omega > 0) (a0 a1 a2 a3 a4 a5 a6 a7 a8 : F) :
    StressTools.stress_fill_new lat0 omega ⟨3, 3, [a0, a1, a2, a3, a4, a5, a6, a7, a8]⟩ =
      .ok ⟨3, 3, [a0 * (lat0 / omega), a1 * (lat0 / omega), a2 * (lat0 / omega),
        a1 * (lat0 / omega), a4 * (lat0 / omega), a5 * (lat0 / omega),
        a2 * (lat0 / omega), a5 * (lat0 / omega), a8 * (lat0 / omega)]⟩ := by
  unfold StressTools.stress_fill_new
  rw [if_pos homega]
  rfl

/-- C30: `StressTools::stress_fill_new`.  For a 3 x 3 matrix `S` and `omega > 0` the
call returns a 3 x 3 matrix that is symmetric and whose entry `(i, j)` is
`(lat0 / omega) * S(min(i,j), max(i,j))`: the upper triangle is mirrored and every entry
is multiplied by the weight once.  The code multiplies by the weight on the right; the
product of two `double` does not depend on the order. -/
theorem C30_stress_fill_new {F : Type} [Zero F] [LT F] [DecidableRel (fun a b : F => a < b)]
    [Mul F] [Div F] (hcomm : ∀ a b : F, a * b = b * a) (lat0 omega : F) (homega : omega > 0)
    (S : matrix F) (hnr : S.nr = 3) (hnc : S.nc = 3) (hlen : S.c.length = 9) :
    ∃ S2, StressTools.stress_fill_new lat0 omega S = .ok S2 ∧ S2.nr = 3 ∧ S2.nc = 3 ∧
      (∀ i j, i < 3 → j < 3 →
        ∃ s, S.at (min i j) (max i j) = some s ∧ S2.at i j = some (lat0 / omega * s)) ∧
      ∀ i j, i < 3 → j < 3 → S2.at i j = S2.at j i := by
  obtain ⟨nr, nc, c⟩ := S
  simp only at hnr hnc hlen
  subst hnr hnc
  obtain ⟨a0, a1, a2, a3, a4, a5, a6, a7, a8, rfl⟩ := list_of_length_9 c hlen
  refine ⟨_, stress_fill_new_eq lat0 omega homega a0 a1 a2 a3 a4 a5 a6 a7 a8, rfl, rfl, ?_, ?_⟩
  · intro i j hi hj
    interval_cases i <;> interval_cases j <;>
      exact ⟨_, rfl, congrArg some (hcomm _ _)⟩
  · intro i j hi hj
    interval_cases i <;> interval_cases j <;> rfl

/-- What the stress renormalization of `cal_force_stress` leaves in a 3 x 3 matrix: the
six packed values, each multiplied by the weight, unpacked to the full symmetric
matrix. -/
theorem cal_force_stress_renormalization_eq {F : Type} [Neg F] [OfNat F 2] [Mul F] [Div F]
    (lat0 omega : F) (t0 t1 t2 t3 t4 t5 a0 a1 a2 a3 a4 a5 a6 a7 a8 : F) :
    DFTUNew.cal_force_stress_renormalization true lat0 omega [t0, t1, t2, t3, t4, t5]
        ⟨3, 3, [a0, a1, a2, a3, a4, a5, a6, a7, a8]⟩ =
      .ok ⟨3, 3, [t0 * (-2 * lat0 / omega), t1 * (-2 * lat0 / omega),
        t2 * (-2 * lat0 / omega), t1 * (-2 * lat0 / omega), t3 * (-2 * lat0 / omega),
        t4 * (-2 * lat0 / omega), t2 * (-2 * lat0 / omega), t4 * (-2 * lat0 / omega),
        t5 * (-2 * lat0 / omega)]⟩ :=
  rfl

/-- C29: DFT+U stress unpacking.  When `cal_stress` is true, the end of
`cal_force_stress` leaves in the 3 x 3 stress matrix, with `w = -2 * lat0 / omega` and
`t = stress_tmp`: `stress(0,0) = w t[0]`, `stress(0,1) = stress(1,0) = w t[1]`,
`stress(0,2) = stress(2,0) = w t[2]`, `stress(1,1) = w t[3]`,
`stress(1,2) = stress(2,1) = w t[4]`, `stress(2,2) = w t[5]`; the matrix is symmetric,
and each packed value reaches its places.  The code multiplies by the weight on the
right; the product of two `double` does not depend on the order. -/
theorem C29_stress_unpacking {F : Type} [Neg F] [OfNat F 2] [Mul F] [Div F]
    (hcomm : ∀ a b : F, a * b = b * a) (lat0 omega : F) (stress_tmp : List F)
    (stress : matrix F) (ht : stress_tmp.length = 6) (hnr : stress.nr = 3)
    (hnc : stress.nc = 3) (hlen : stress.c.length = 9) :
    ∃ S2 t0 t1 t2 t3 t4 t5,
      DFTUNew.cal_force_stress_renormalization true lat0 omega stress_tmp stress = .ok S2 ∧
      stress_tmp = [t0, t1, t2, t3, t4, t5] ∧ S2.nr = 3 ∧ S2.nc = 3 ∧
      S2.at 0 0 = some (-2 * lat0 / omega * t0) ∧
      S2.at 0 1 = some (-2 * lat0 / omega * t1) ∧ S2.at 1 0 = some (-2 * lat0 / omega * t1) ∧
      S2.at 0 2 = some (-2 * lat0 / omega * t2) ∧ S2.at 2 0 = some (-2 * lat0 / omega * t2) ∧
      S2.at 1 1 = some (-2 * lat0 / omega * t3) ∧
      S2.at 1 2 = some (-2 * lat0 / omega * t4) ∧ S2.at 2 1 = some (-2 * lat0 / omega * t4) ∧
      S2.at 2 2 = some (-2 * lat0 / omega * t5) ∧
      ∀ i j, i < 3 → j < 3 → S2.at i j = S2.at j i := by
  obtain ⟨nr, nc, c⟩ := stress
  simp only at hnr hnc hlen
  subst hnr hnc
  obtain ⟨a0, a1, a2, a3, a4, a5, a6, a7, a8, rfl⟩ := list_of_length_9 c hlen
  obtain ⟨t0, t1, t2, t3, t4, t5, rfl⟩ := list_of_length_6 stress_tmp ht
  refine ⟨_, t0, t1, t2, t3, t4, t5,
    cal_force_stress_renormalization_eq lat0 omega t0 t1 t2 t3 t4 t5 a0 a1 a2 a3 a4 a5 a6 a7 a8,
    rfl, rfl, rfl, congrArg some (hcomm _ _), congrArg some (hcomm _ _),
    congrArg some (hcomm _ _), congrArg some (hcomm _ _), congrArg some (hcomm _ _),
    congrArg some (hcomm _ _), congrArg some (hcomm _ _), congrArg some (hcomm _ _),
    congrArg some (hcomm _ _), ?_⟩
  intro i j hi hj
  interval_cases i <;> interval_cases j <;> rfl

/-- The stress renormalization does nothing when `cal_stress` is false. -/
theorem cal_force_stress_renormalization_off {F : Type} [Neg F] [OfNat F 2] [Mul F] [Div F]
    (lat0 omega : F) (stress_tmp : List F) (stress : matrix F) :
    DFTUNew.cal_force_stress_renormalization false lat0 omega stress_tmp stress = .ok stress :=
  rfl

/-! ## DFT+U -/

/-- The value `int_sqrt n` is the integer part of the square root of `n`. -/
theorem int_sqrt_spec (n : Nat) :
    int_sqrt n * int_sqrt n ≤ n ∧ n < (int_sqrt n + 1) * (int_sqrt n + 1) := by
  have key : ∀ m, loop m (fun k r => if (k + 1) * (k + 1) ≤ n then k + 1 else r) 0 ≤ m ∧
      loop m (fun k r => if (k + 1) * (k + 1) ≤ n then k + 1 else r) 0 *
        loop m (fun k r => if (k + 1) * (k + 1) ≤ n then k + 1 else r) 0 ≤ n ∧
      ∀ j, j ≤ m → j * j ≤ n →
        j ≤ loop m (fun k r => if (k + 1) * (k + 1) ≤ n then k + 1 else r) 0 := by
    intro m
    induction m with
    | zero =>
      refine ⟨Nat.le_refl _, Nat.zero_le _, fun j hj _ => hj⟩
    | succ m ih =>
      obtain ⟨h1, h2, h3⟩ := ih
      have hstep : loop (m + 1) (fun k r => if (k + 1) * (k + 1) ≤ n then k + 1 else r) 0 =
          if (m + 1) * (m + 1) ≤ n then m + 1
          else loop m (fun k r => if (k + 1) * (k + 1) ≤ n then k + 1 else r) 0 := rfl
      rw [hstep]
      by_cases hc : (m + 1) * (m + 1) ≤ n
      · simp only [if_pos hc]
        exact ⟨Nat.le_refl _, hc, fun j hj _ => hj⟩
      · simp only [if_neg hc]
        refine ⟨by omega, h2, fun j hj hjn => ?_⟩
        by_cases hjm : j ≤ m
        · exact h3 j hjm hjn
        · have : j = m + 1 := by omega
          subst this
          exact absurd hjn hc
  obtain ⟨_, h2, h3⟩ := key n
  refine ⟨h2, ?_⟩
  by_contra hc
  have hle : (int_sqrt n + 1) * (int_sqrt n + 1) ≤ n := by omega
  have h4 : int_sqrt n + 1 ≤ (int_sqrt n + 1) * (int_sqrt n + 1) :=
    Nat.le_mul_of_pos_right _ (by omega)
  have := h3 (int_sqrt n + 1) (by omega) hle
  unfold int_sqrt at this
  omega

/-- C27 fails on the code: with `nspin = 2`, `npol = 1`, `m_size = 1`, one row and one
column orbital, `vu_in = [1, 2]` (the block of the first spin is `1`, that of the second
`2`), a zero density block for the first spin and the density block `[1]` for the second,
`cal_force_IJR` adds `vu_in[0] * nlm1[1 + d] * nlm2[0] * 1 = (1, 10, 100)` to the force,
while the sum with the block of VU of the second spin is `(2, 20, 200)`, and the sum for
the first spin is zero. -/
theorem C27_force_uses_first_VU_block :
    DFTUNew.cal_force_IJR 1 [0] [0] nlm_row nlm_col [1, 2] [[0], [1]] 2 [0, 0, 0] =
      .ok [1, 10, 100] ∧
    (List.range 3).map (force_per_spin_said [0] [0] nlm_row nlm_col [1, 2] [[0], [1]] 1 0) =
      [0, 0, 0] ∧
    (List.range 3).map (force_per_spin_said [0] [0] nlm_row nlm_col [1, 2] [[0], [1]] 1 1) =
      [2, 20, 200] :=
  ⟨rfl, rfl, rfl⟩

/-- C28 fails on the code: for the shell `L = 1` each vector `nlm_target` has
`2 L + 1 = 3` elements, while `calculate_HR` creates `occ` with 3 elements and `VU` with
`2 L + 1 * L * 2 + 1 = 5` elements, so that `m_size` is `int(sqrt(3)) = 1` in
`cal_occupations`, which leaves `occ` with one element, `int(sqrt(1)) = 1` in
`cal_v_of_u`, and `int(sqrt(5)) = 2` in `cal_HR_IJR`; all three calls return.  The
values are integers, with 0 in the place of the literal `0.5`, on which no dimension
depends. -/
theorem C28_m_size_of_p_shell :
    DFTUNew.calculate_HR_nlm_target_size 1 = 3 ∧
    (DFTUNew.calculate_HR_occ 1 : List Int).length = 3 ∧
    (DFTUNew.calculate_HR_VU 1 : List Int).length = 5 ∧
    DFTUNew.m_size_of (DFTUNew.calculate_HR_occ 1 : List Int) = 1 ∧
    DFTUNew.cal_occupations 1 [0] [0] nlm_p nlm_p [5] (DFTUNew.calculate_HR_occ 1) =
      .ok [5] ∧
    DFTUNew.m_size_of [(5 : Int)] = 1 ∧
    DFTUNew.cal_v_of_u 0 [5] 2 (DFTUNew.calculate_HR_VU 1) = .ok [-10, 0, 0, 0, 0] ∧
    DFTUNew.m_size_of [(-10 : Int), 0, 0, 0, 0] = 2 ∧
    DFTUNew.cal_HR_IJR 1 [0] [0] nlm_p nlm_p [-10, 0, 0, 0, 0] [0] = .ok [-10] :=
  ⟨rfl, rfl, rfl, rfl, rfl, rfl, rfl, rfl, rfl⟩

/-! ## Index safety -/

/-- C26 as stated fails: on the container built by the multi-k constructor for one spin,
one k-point and a local block of 3 rows and 2 columns, the row index 2 and the column
index 1 are in range, the offset `2 * 3 + 1 = 7` is not smaller than the buffer length
`3 * 2 = 6`, and `get_DMK(1, 0, 2, 1)` and `set_DMK(1, 0, 2, 1, v)` access the buffer
outside its bounds. -/
theorem C26_counterexample :
    ∃ dm : DensityMatrix Int Int,
      DensityMatrix.DensityMatrix_multi_k kv_1 paraV_3x2 1 = .ok dm ∧
      (2 : Int) < dm._paraV.nrow ∧ (1 : Int) < dm._paraV.ncol ∧
      ¬ ((2 : Int) * dm._paraV.nrow + 1 < dm._paraV.nrow * dm._paraV.ncol) ∧
      dm.get_DMK 1 0 2 1 = .error .Undefined ∧ dm.set_DMK 1 0 2 1 5 = .error .Undefined :=
  ⟨_, DensityMatrix_multi_k_eq kv_1 paraV_3x2 1 1 (Or.inl ⟨Or.inl rfl, rfl⟩),
    by decide, by decide, by decide, rfl, rfl⟩

/-- C26, amended: accessor index safety with the first index in `0..ncol-1` and the
second in `0..nrow-1`.  On a container left by either constructor, for a spin in
`1..nspin`, a k-point in `0..nks-1` and such indices, the offset `i * nrow + j` is
smaller than the length `nrow * ncol` of every buffer, the buffer index
`k + nks * (s - 1)` is smaller than the number of buffers, and `get_DMK` and `set_DMK`
return. -/
theorem C26_accessor_index_safety {TK F : Type} [Zero TK] (kv_in : K_Vectors F)
    (paraV_in : Parallel_Orbitals) (nspin : Int) (dm : DensityMatrix TK F)
    (hdm : DensityMatrix.DensityMatrix_multi_k kv_in paraV_in nspin = .ok dm ∨
      DensityMatrix.DensityMatrix_gamma paraV_in nspin = .ok dm)
    (s k i j : Int) (hs : 1 ≤ s ∧ s ≤ dm._nspin) (hk : 0 ≤ k ∧ k < dm._nks)
    (hi : 0 ≤ i ∧ i < dm._paraV.ncol) (hj : 0 ≤ j ∧ j < dm._paraV.nrow) :
    (0 ≤ i * dm._paraV.nrow + j ∧
      ∀ buf ∈ dm._DMK, (i * (dm._paraV.nrow : Int) + j).toNat < buf.length ∧
        buf.length = dm._paraV.nrow * dm._paraV.ncol) ∧
    (0 ≤ k + dm._nks * (s - 1) ∧
      (k + (dm._nks : Int) * (s - 1)).toNat < dm._DMK.length) ∧
    (∃ v, dm.get_DMK s k i j = .ok v) ∧ ∀ v, ∃ dm2, dm.set_DMK s k i j v = .ok dm2 := by
  obtain ⟨hok, _⟩ := constructed_invariants kv_in paraV_in nspin dm hdm
  obtain ⟨hidx, hlt⟩ := buffer_index_lt dm._nks dm._nspin s k hs.1 hs.2 hk.1 hk.2
  obtain ⟨hoff, holt⟩ := offset_in_buffer dm._paraV.nrow dm._paraV.ncol i j hi.1 hi.2 hj.1 hj.2
  have hlen : (k + (dm._nks : Int) * (s - 1)).toNat < dm._DMK.length :=
    Nat.lt_of_lt_of_le hlt hok.1
  have hb := List.getElem?_eq_getElem hlen
  have hbl := hok.2 _ (List.getElem_mem hlen)
  refine ⟨⟨hoff, fun buf hbuf => ⟨by rw [hok.2 buf hbuf]; exact holt, hok.2 buf hbuf⟩⟩,
    ⟨hidx, hlen⟩, ⟨_, get_DMK_eq dm s k i j _ _ hidx hb hoff
      (List.getElem?_eq_getElem (Nat.lt_of_lt_of_eq holt hbl.symm))⟩,
    fun v => ⟨_, set_DMK_eq dm s k i j v _ hidx hb hoff (Nat.lt_of_lt_of_eq holt hbl.symm)⟩⟩

/-- A read through `readReal` at an offset inside the buffer finds the element. -/
theorem readReal_in_bounds {T : Type} (buf : List T) (off : Int) (h0 : 0 ≤ off)
    (h1 : off < buf.length) : ∃ z, readReal buf off = some z := by
  unfold readReal
  rw [if_neg (by omega), List.getElem?_eq_getElem (by omega)]
  exact ⟨_, rfl⟩

/-- C25: index safety of the transform.  For a stored pair whose rows and columns lie
inside the local `nrow x ncol` matrix, and local indices `mu < row_size`,
`nu < col_size`: the offset `(atom_begin_col + nu) * nrow + atom_begin_row + mu`, which
moves with stride `nrow` in `nu`, lies inside a buffer of `nrow * ncol` elements, the
doubles at `2 * offset` and `2 * offset + 1` of a complex buffer are the real and the
imaginary part of its element, and the offset `mu * col_size + nu` lies inside a block of
`row_size * col_size` elements.  On a well-formed state whose stored pairs all lie inside
the local matrix both realizations of `cal_DMR` return: no access is outside its
bounds. -/
theorem C25_index_safety {F : Type} [Zero F] [One F] [Add F] [Mul F] [Neg F] [IntCast F]
    (lm : Libm F) :
    (∀ (paraV : Parallel_Orbitals) (ap : AtomPair F), InRange paraV ap →
      ∀ mu nu : Nat, mu < paraV.get_row_size ap.atom_i → nu < paraV.get_col_size ap.atom_j →
        (0 ≤ (paraV.atom_begin_col ap.atom_j + nu) * paraV.nrow
            + paraV.atom_begin_row ap.atom_i + mu ∧
          (paraV.atom_begin_col ap.atom_j + nu) * paraV.nrow
            + paraV.atom_begin_row ap.atom_i + mu < ((paraV.nrow * paraV.ncol : Nat) : Int) ∧
          (paraV.atom_begin_col ap.atom_j + nu) * paraV.nrow
            + paraV.atom_begin_row ap.atom_i + mu =
            (paraV.atom_begin_col ap.atom_j * paraV.nrow + paraV.atom_begin_row ap.atom_i)
              + mu + nu * paraV.nrow) ∧
        (∀ buf : List (Cplx F), buf.length = paraV.nrow * paraV.ncol →
          ∃ z, readReal buf ((paraV.atom_begin_col ap.atom_j + nu) * paraV.nrow
              + paraV.atom_begin_row ap.atom_i + mu) = some z ∧
            readInterleaved buf (2 * ((paraV.atom_begin_col ap.atom_j + nu) * paraV.nrow
              + paraV.atom_begin_row ap.atom_i + mu)) = some z.re ∧
            readInterleaved buf (2 * ((paraV.atom_begin_col ap.atom_j + nu) * paraV.nrow
              + paraV.atom_begin_row ap.atom_i + mu) + 1) = some z.im) ∧
        (∀ buf : List F, buf.length = paraV.nrow * paraV.ncol →
          ∃ x, readReal buf ((paraV.atom_begin_col ap.atom_j + nu) * paraV.nrow
              + paraV.atom_begin_row ap.atom_i + mu) = some x) ∧
        (∀ m : BaseMatrix F, m.value_begin.length =
            paraV.get_row_size ap.atom_i * paraV.get_col_size ap.atom_j →
          ∃ y, m.value_begin[mu * paraV.get_col_size ap.atom_j + nu]? = some y)) ∧
    (∀ st : DensityMatrix (Cplx F) F, st.WellFormed_multi_k →
      (∀ c ∈ st._DMR, ∀ ap ∈ c.atom_pairs, InRange st._paraV ap) →
      ∃ st2, st.cal_DMR_multi_k lm = .ok st2) ∧
    (∀ st : DensityMatrix F F, st.WellFormed_gamma →
      (∀ c ∈ st._DMR, ∀ ap ∈ c.atom_pairs, InRange st._paraV ap) →
      ∃ st2, st.cal_DMR_gamma = .ok st2) := by
  refine ⟨?_, ?_, ?_⟩
  · intro paraV ap hin mu nu hmu hnu
    obtain ⟨h0, h1⟩ := offset_in_range paraV.nrow paraV.ncol (paraV.get_row_size ap.atom_i)
      (paraV.get_col_size ap.atom_j) mu nu (paraV.atom_begin_row ap.atom_i)
      (paraV.atom_begin_col ap.atom_j) hin.1 hin.2.1 hin.2.2.1 hin.2.2.2 hmu hnu
    refine ⟨⟨h0, h1, by ring⟩, ?_, ?_, ?_⟩
    · intro buf hbuf
      obtain ⟨z, hz⟩ := readReal_in_bounds buf _ h0 (by rw [hbuf]; exact h1)
      refine ⟨z, hz, ?_, ?_⟩
      · rw [readInterleaved_even, hz]
        rfl
      · rw [readInterleaved_odd, hz]
        rfl
    · intro buf hbuf
      exact readReal_in_bounds buf _ h0 (by rw [hbuf]; exact h1)
    · intro m hm
      have hlt := row_major_lt (paraV.get_row_size ap.atom_i) (paraV.get_col_size ap.atom_j)
        mu nu hmu hnu
      exact ⟨_, List.getElem?_eq_getElem (by rw [hm]; exact hlt)⟩
  · intro st hwf hin
    exact (multi_k_dichotomy lm st hwf).2 (fun c hc ap hap => by
      have h := hin c hc ap hap
      exact ⟨by have := h.1; omega, by have := h.2.2.1; omega⟩)
  · intro st hwf hin
    exact (gamma_dichotomy st hwf).2 (fun c hc ap hap => by
      have h := hin c hc ap hap
      exact ⟨by have := h.1; omega, by have := h.2.2.1; omega⟩)

/-! ## The DM(k) store under the operations of the container -/

/-- A state with its own DM(k) store put back is the state. -/
theorem with_DMK_self {TK F : Type} (st : DensityMatrix TK F) : st.with_DMK st._DMK = st := by
  cases st
  rfl

/-- A state with the same layout and the same DM(k) store keeps the shape of the store. -/
theorem keeps_of_same_DMK {TK F : Type} (st st2 : DensityMatrix TK F)
    (h1 : st2._paraV = st._paraV) (h2 : st2._DMK = st._DMK) : st.keeps_DMK_shape st2 :=
  ⟨h1, by rw [h2], fun h buf hbuf => h buf (by rw [← h2]; exact hbuf)⟩

/-- A state with the same layout and buffers of the same lengths keeps the shape of the
store. -/
theorem keeps_of_lengths {TK F : Type} (st st2 : DensityMatrix TK F)
    (h1 : st2._paraV = st._paraV)
    (h2 : st2._DMK.map List.length = st._DMK.map List.length) : st.keeps_DMK_shape st2 := by
  refine ⟨h1, ?_, fun h buf hbuf => ?_⟩
  · have := congrArg List.length h2
    rw [List.length_map, List.length_map] at this
    exact this
  · have hm : buf.length ∈ st2._DMK.map List.length := List.mem_map.mpr ⟨buf, hbuf, rfl⟩
    rw [h2] at hm
    obtain ⟨b, hb, hbl⟩ := List.mem_map.mp hm
    rw [← hbl]
    exact h b hb

/-- Writing an element of a buffer of the store keeps the lengths of the buffers. -/
theorem lengths_set_set {α : Type} (dmk : List (List α)) (idx off : Nat) (buf : List α)
    (v : α) (h : dmk[idx]? = some buf) :
    (dmk.set idx (buf.set off v)).map List.length = dmk.map List.length := by
  apply List.ext_getElem?
  intro i
  rw [List.getElem?_map, List.getElem?_map]
  by_cases hi : i = idx
  · subst hi
    rw [List.getElem?_set_self (List.getElem?_eq_some.mp h).1, h]
    show some (buf.set off v).length = some buf.length
    rw [List.length_set]
  · rw [List.getElem?_set_ne (Ne.symm hi)]

/-- What `writeAt` returns when it returns. -/
theorem writeAt_some {α : Type} (buf buf2 : List α) (d : Int) (v : α)
    (h : writeAt buf d v = some buf2) : buf2 = buf.set d.toNat v := by
  unfold writeAt at h
  split at h
  · cases h
  · split at h
    · exact (Option.some.inj h).symm
    · cases h

/-- A call of `set_DMK` that returns keeps the layout and the lengths of the buffers. -/
theorem set_DMK_inv {TK F : Type} (st st2 : DensityMatrix TK F) (s k i j : Int) (v : TK)
    (h : st.set_DMK s k i j v = .ok st2) :
    st2._paraV = st._paraV ∧ st2._DMK.map List.length = st._DMK.map List.length := by
  unfold DensityMatrix.set_DMK at h
  dsimp only at h
  by_cases hidx : k + (st._nks : Int) * (s - 1) < 0
  · rw [if_pos hidx] at h
    cases h
  · rw [if_neg hidx] at h
    cases hb : st._DMK[(k + (st._nks : Int) * (s - 1)).toNat]? with
    | none => rw [hb] at h; cases h
    | some buf =>
      rw [hb] at h
      dsimp only at h
      cases hw : writeAt buf (i * (st._paraV.nrow : Int) + j) v with
      | none => rw [hw] at h; cases h
      | some buf2 =>
        rw [hw] at h
        cases h
        rw [writeAt_some buf buf2 _ v hw]
        exact ⟨rfl, lengths_set_set _ _ _ _ _ hb⟩

/-- A call of `set_DMK_pointer` that returns keeps the shape of the DM(k) store. -/
theorem set_DMK_pointer_inv {TK F : Type} (st st2 : DensityMatrix TK F) (ik : Int)
    (DMK_in : List TK) (h : st.set_DMK_pointer ik DMK_in = .ok st2) :
    st.keeps_DMK_shape st2 := by
  unfold DensityMatrix.set_DMK_pointer at h
  split at h
  · cases h
  · cases hb : st._DMK[ik.toNat]? with
    | none => rw [hb] at h; cases h
    | some buf =>
      rw [hb] at h
      dsimp only at h
      split at h
      · cases h
      · rename_i hlen
        cases h
        refine ⟨rfl, ?_, fun hall b hbm => ?_⟩
        · show (st._DMK.set _ _).length = _
          rw [List.length_set]
        · have hbm2 : b ∈ st._DMK.set ik.toNat
              (DMK_in.take (st._paraV.nrow * st._paraV.ncol)) := hbm
          rcases List.mem_or_eq_of_mem_set hbm2 with h1 | h1
          · exact hall b h1
          · rw [h1, List.length_take]
            omega

/-- A step of the loops of `read_DMK` that returns keeps the lengths of the buffers. -/
theorem read_DMK_element_shape {S TK F : Type} (io : InStream S TK F)
    (st : DensityMatrix TK F) (ispin ik : Int) (i j : Nat) (s s2 : S × List (List TK))
    (h : st.read_DMK_element io ispin ik i j s = .ok s2) :
    s2.2.map List.length = s.2.map List.length := by
  unfold DensityMatrix.read_DMK_element at h
  dsimp only at h
  split at h
  · cases h
  · cases hb : s.2[(ik + (st._nks : Int) * (ispin - 1)).toNat]? with
    | none => rw [hb] at h; cases h
    | some buf =>
      rw [hb] at h
      dsimp only at h
      cases hx : buf[i * st._paraV.ncol + j]? with
      | none => rw [hx] at h; cases h
      | some x =>
        rw [hx] at h
        cases h
        exact lengths_set_set _ _ _ _ _ hb

/-- A call of `read_DMK` that returns changes the DM(k) store only, and keeps the
lengths of its buffers. -/
theorem read_DMK_inv {S TK F : Type} (io : InStream S TK F) (st st2 : DensityMatrix TK F)
    (directory : String) (ispin ik : Int) (h : st.read_DMK io directory ispin ik = .ok st2) :
    ∃ dmk, st2 = st.with_DMK dmk ∧ dmk.map List.length = st._DMK.map List.length := by
  unfold DensityMatrix.read_DMK at h
  dsimp only at h
  cases hh : st.read_DMK_header io ik (io.ifs_open (dmk_file_name directory ispin ik)) with
  | error e => rw [hh] at h; cases h
  | ok ifs =>
    rw [hh] at h
    dsimp only at h
    cases hl : loopM st._paraV.nrow (fun i s =>
        loopM st._paraV.ncol (fun j s => st.read_DMK_element io ispin ik i j s) s)
        (ifs, st._DMK) with
    | error e => rw [hl] at h; cases h
    | ok s =>
      rw [hl] at h
      cases h
      refine ⟨s.2, rfl, ?_⟩
      exact loopM_inv (fun _ (t : S × List (List TK)) =>
        t.2.map List.length = st._DMK.map List.length) _ _ _ rfl
        (fun i _ t u ht hu => loopM_inv (fun _ (t : S × List (List TK)) =>
          t.2.map List.length = st._DMK.map List.length) _ _ t ht
          (fun j _ t1 u1 ht1 hu1 =>
            (read_DMK_element_shape io st ispin ik i j t1 u1 hu1).trans ht1) u hu) s hl

/-- The end of the two overloads of `init_DMR` that walk the neighbours keeps the layout. -/
theorem init_DMR_finish_paraV {TK F : Type} [Zero F] (st : DensityMatrix TK F)
    (tmp_DMR : HContainer F) : (st.init_DMR_finish tmp_DMR)._paraV = st._paraV := by
  unfold DensityMatrix.init_DMR_finish
  split <;> rfl

/-- C21: the number of DM(k) buffers and the length `nrow * ncol` of each buffer are
invariant under the mutating operations of the container.  Whenever `set_DMK`,
`set_DMK_pointer`, an overload of `init_DMR`, `cal_DMR` (multi-k or Gamma-only),
`cal_DMR_test`, `sum_DMR_spin` or `read_DMK` returns, the layout and the number of
buffers are what they were, and every buffer has `nrow * ncol` elements if every buffer
had. -/
theorem C21_DMK_shape_invariant {S TK F : Type} [Zero TK] [Zero F] [One F] [Add F] [Mul F]
    [Neg F] [IntCast F] [HMul (Cplx F) TK (Cplx F)] (lm : Libm F) (io : InStream S TK F) :
    (∀ (st st2 : DensityMatrix TK F) (s k i j : Int) (v : TK),
      st.set_DMK s k i j v = .ok st2 → st.keeps_DMK_shape st2) ∧
    (∀ (st st2 : DensityMatrix TK F) (ik : Int) (DMK_in : List TK),
      st.set_DMK_pointer ik DMK_in = .ok st2 → st.keeps_DMK_shape st2) ∧
    (∀ (st st2 : DensityMatrix TK F) (GridD_in : Grid_Driver F) (ucell : UnitCell F),
      st.init_DMR_Grid GridD_in ucell = .ok st2 → st.keeps_DMK_shape st2) ∧
    (∀ (st st2 : DensityMatrix TK F) (ra : Record_adj) (ucell : UnitCell F),
      st.init_DMR_RA ra ucell = .ok st2 → st.keeps_DMK_shape st2) ∧
    (∀ (st : DensityMatrix TK F) (DMR_in : HContainer F),
      st.keeps_DMK_shape (st.init_DMR_template DMR_in)) ∧
    (∀ st st2 : DensityMatrix (Cplx F) F,
      st.cal_DMR_multi_k lm = .ok st2 → st.keeps_DMK_shape st2) ∧
    (∀ st st2 : DensityMatrix F F, st.cal_DMR_gamma = .ok st2 → st.keeps_DMK_shape st2) ∧
    (∀ st st2 : DensityMatrix TK F, st.cal_DMR_test lm = .ok st2 → st.keeps_DMK_shape st2) ∧
    (∀ st st2 : DensityMatrix TK F, st.sum_DMR_spin = .ok st2 → st.keeps_DMK_shape st2) ∧
    (∀ (st st2 : DensityMatrix TK F) (directory : String) (ispin ik : Int),
      st.read_DMK io directory ispin ik = .ok st2 → st.keeps_DMK_shape st2) := by
  refine ⟨?_, ?_, ?_, ?_, ?_, ?_, ?_, ?_, ?_, ?_⟩
  · intro st st2 s k i j v h
    obtain ⟨h1, h2⟩ := set_DMK_inv st st2 s k i j v h
    exact keeps_of_lengths st st2 h1 h2
  · intro st st2 ik DMK_in h
    exact set_DMK_pointer_inv st st2 ik DMK_in h
  · intro st st2 GridD_in ucell h
    obtain ⟨tmp_DMR, _, rfl⟩ := init_DMR_Grid_inv st st2 GridD_in ucell h
    exact keeps_of_same_DMK st _ (init_DMR_finish_paraV st tmp_DMR)
      (init_DMR_finish_DMR st tmp_DMR).2.1
  · intro st st2 ra ucell h
    obtain ⟨tmp_DMR, _, rfl⟩ := init_DMR_RA_inv st st2 ra ucell h
    exact keeps_of_same_DMK st _ (init_DMR_finish_paraV st tmp_DMR)
      (init_DMR_finish_DMR st tmp_DMR).2.1
  · intro st DMR_in
    exact keeps_of_same_DMK st _ rfl rfl
  · intro st st2 h
    unfold DensityMatrix.cal_DMR_multi_k at h
    obtain ⟨dmr, rfl, _⟩ := for_each_spin_inv st st2 _ h
    exact keeps_of_same_DMK st _ rfl rfl
  · intro st st2 h
    unfold DensityMatrix.cal_DMR_gamma at h
    obtain ⟨dmr, rfl, _⟩ := for_each_spin_inv st st2 _ h
    exact keeps_of_same_DMK st _ rfl rfl
  · intro st st2 h
    unfold DensityMatrix.cal_DMR_test at h
    obtain ⟨dmr, rfl, _⟩ := for_each_spin_inv st st2 _ h
    exact keeps_of_same_DMK st _ rfl rfl
  · intro st st2 h
    rcases sum_DMR_spin_inv st st2 h with ⟨_, h2⟩ | ⟨_, up, aps, _, _, h2⟩
    · exact keeps_of_same_DMK st st2 (by rw [h2]) (by rw [h2])
    · exact keeps_of_same_DMK st st2 (by rw [h2]; rfl) (by rw [h2]; rfl)
  · intro st st2 directory ispin ik h
    obtain ⟨dmk, rfl, hl⟩ := read_DMK_inv io st st2 directory ispin ik h
    exact keeps_of_lengths st _ rfl hl

/-- On a stream in a failed state whose extraction does nothing, a step of the loops of
`read_DMK` on an element inside its buffer leaves the stream and the store as they
were. -/
theorem read_DMK_element_failed {S TK F : Type} (io : InStream S TK F)
    (hsentry : ∀ s x, io.fail s = true → io.extract s x = (s, x))
    (st : DensityMatrix TK F) (hok : st.DMK_ok) (ispin ik : Int)
    (hs : 1 ≤ ispin ∧ ispin ≤ st._nspin) (hk : 0 ≤ ik ∧ ik < st._nks) (i j : Nat)
    (hi : i < st._paraV.nrow) (hj : j < st._paraV.ncol) (ifs : S)
    (hfail : io.fail ifs = true) :
    st.read_DMK_element io ispin ik i j (ifs, st._DMK) = .ok (ifs, st._DMK) := by
  obtain ⟨hidx, hlt⟩ := buffer_index_lt st._nks st._nspin ispin ik hs.1 hs.2 hk.1 hk.2
  have hlen : (ik + (st._nks : Int) * (ispin - 1)).toNat < st._DMK.length :=
    Nat.lt_of_lt_of_le hlt hok.1
  have hb := List.getElem?_eq_getElem hlen
  have hbl := hok.2 _ (List.getElem_mem hlen)
  have hoff : i * st._paraV.ncol + j <
      (st._DMK[(ik + (st._nks : Int) * (ispin - 1)).toNat]).length := by
    rw [hbl]
    exact row_major_lt _ _ i j hi hj
  have hx := List.getElem?_eq_getElem hoff
  unfold DensityMatrix.read_DMK_element
  dsimp only
  rw [if_neg (not_lt.mpr hidx), hb]
  dsimp only
  rw [hx]
  dsimp only
  rw [hsentry ifs _ hfail]
  dsimp only
  rw [set_of_getElem? _ _ _ hx, set_of_getElem? _ _ _ hb]

/-- C23: `read_DMK` on a missing snapshot file.  When the file cannot be opened (the
stream is in a failed state, in which `operator>>` leaves the stream and its operand
untouched), for a spin in `1..nspin` and a k-point in `0..nks-1` of a state whose DM(k)
store has its buffers, the call returns without error and the state, with every element
of every DM(k) buffer, is what it was. -/
theorem C23_read_DMK_missing_file {S TK F : Type} (io : InStream S TK F)
    (hsentry : ∀ s x, io.fail s = true → io.extract s x = (s, x))
    (st : DensityMatrix TK F) (hok : st.DMK_ok) (directory : String) (ispin ik : Int)
    (hs : 1 ≤ ispin ∧ ispin ≤ st._nspin) (hk : 0 ≤ ik ∧ ik < st._nks)
    (hmiss : io.fail (io.ifs_open (dmk_file_name directory ispin ik)) = true) :
    st.read_DMK io directory ispin ik = .ok st := by
  unfold DensityMatrix.read_DMK
  dsimp only
  have hh : st.read_DMK_header io ik (io.ifs_open (dmk_file_name directory ispin ik)) =
      .ok (io.ifs_open (dmk_file_name directory ispin ik)) := by
    unfold DensityMatrix.read_DMK_header
    rw [if_pos hmiss]
  rw [hh]
  dsimp only
  obtain ⟨t, ht, hteq⟩ := loopM_total (fun _ (t : S × List (List TK)) =>
    t = (io.ifs_open (dmk_file_name directory ispin ik), st._DMK)) st._paraV.nrow
    (fun i s => loopM st._paraV.ncol (fun j s => st.read_DMK_element io ispin ik i j s) s)
    (io.ifs_open (dmk_file_name directory ispin ik), st._DMK) rfl
    (fun i hi s hs0 => by
      subst hs0
      exact loopM_total (fun _ (t : S × List (List TK)) =>
        t = (io.ifs_open (dmk_file_name directory ispin ik), st._DMK)) st._paraV.ncol _ _ rfl
        (fun j hj s1 hs1 => by
          subst hs1
          exact ⟨_, read_DMK_element_failed io hsentry st hok ispin ik hs hk i j hi hj _ hmiss,
            rfl⟩))
  rw [ht, hteq]
  dsimp only
  rw [with_DMK_self]


/-! ## The layout of the snapshot files -/

/-- The layout of a list of values with one more value at the end. -/
theorem value_layout_snoc {F : Type} (brk : Nat → Bool) (vs : List F) (v : F) (p : Nat) :
    value_layout brk p (vs ++ [v]) =
      value_layout brk p vs ++ ((if brk (p + vs.length) then [OutItem.str "\n"] else []) ++
        [.str " ", .dbl v]) := by
  induction vs generalizing p with
  | nil => simp [value_layout]
  | cons w ws ih =>
    have e : p + (w :: ws).length = p + 1 + ws.length := by
      rw [List.length_cons]
      omega
    rw [e]
    show (if brk p then [OutItem.str "\n"] else []) ++ [.str " ", .dbl w] ++
        value_layout brk (p + 1) (ws ++ [v]) =
      ((if brk p then [OutItem.str "\n"] else []) ++ [.str " ", .dbl w] ++
        value_layout brk (p + 1) ws) ++ _
    rw [ih]
    simp only [List.append_assoc]

/-- The values of a layout are the values that were laid out. -/
theorem values_value_layout {F : Type} (brk : Nat → Bool) (vs : List F) (p : Nat) :
    OutItem.values (value_layout brk p vs) = vs := by
  induction vs generalizing p with
  | nil => rfl
  | cons w ws ih =>
    unfold value_layout
    by_cases hb : brk p = true
    · rw [if_pos hb]
      show w :: OutItem.values (value_layout brk (p + 1) ws) = w :: ws
      rw [ih]
    · rw [if_neg hb]
      show w :: OutItem.values (value_layout brk (p + 1) ws) = w :: ws
      rw [ih]

/-- One more element of the buffer in the list of the values written so far. -/
theorem take_map_succ {TK F : Type} (re : TK → F) (buf : List TK) (n : Nat) (x : TK)
    (hx : buf[n]? = some x) :
    (buf.take (n + 1)).map re = (buf.take n).map re ++ [re x] := by
  rw [List.take_succ, hx]
  simp

/-- The inner loop of `write_DMK` appends the layout of one row. -/
theorem write_DMK_row {TK F : Type} (re : TK → F) (st : DensityMatrix TK F)
    (ispin ik : Int) (buf : List TK)
    (hidx : 0 ≤ ik + st._nks * (ispin - 1))
    (hbuf : st._DMK[(ik + st._nks * (ispin - 1)).toNat]? = some buf)
    (hlen : st._paraV.nrow * st._paraV.ncol ≤ buf.length)
    (pre : List (OutItem F)) (i : Nat) (hi : i < st._paraV.nrow) :
    loopM st._paraV.ncol (fun j ofs => st.write_DMK_element re ispin ik i j ofs)
        (pre ++ value_layout (fun p => decide (p % st._paraV.ncol % 8 = 0)) 0
          ((buf.take (i * st._paraV.ncol)).map re)) =
      .ok (pre ++ value_layout (fun p => decide (p % st._paraV.ncol % 8 = 0)) 0
          ((buf.take ((i + 1) * st._paraV.ncol)).map re)) := by
  obtain ⟨t, ht, hinv⟩ := loopM_total
    (fun j ofs => ofs = pre ++ value_layout (fun p => decide (p % st._paraV.ncol % 8 = 0)) 0
      ((buf.take (i * st._paraV.ncol + j)).map re))
    st._paraV.ncol (fun j ofs => st.write_DMK_element re ispin ik i j ofs) _ rfl
    (by
      intro j hj s hs
      have hlt : i * st._paraV.ncol + j < buf.length := by
        have h1 : i * st._paraV.ncol + st._paraV.ncol ≤ st._paraV.nrow * st._paraV.ncol := by
          rw [← Nat.succ_mul]
          exact Nat.mul_le_mul_right _ hi
        omega
      have hx : buf[i * st._paraV.ncol + j]? = some (buf.get ⟨_, hlt⟩) :=
        List.getElem?_eq_getElem hlt
      have hmod : (i * st._paraV.ncol + j) % st._paraV.ncol = j := by
        rw [Nat.add_comm, Nat.add_mul_mod_self_right]
        exact Nat.mod_eq_of_lt hj
      have hl : ((buf.take (i * st._paraV.ncol + j)).map re).length =
          i * st._paraV.ncol + j := by
        rw [List.length_map, List.length_take]
        omega
      refine ⟨_, ?_, rfl⟩
      unfold DensityMatrix.write_DMK_element
      simp only [if_neg (not_lt.mpr hidx), hbuf, hx]
      rw [← Nat.add_assoc, take_map_succ re buf _ _ hx, value_layout_snoc, hl, Nat.zero_add,
        hmod, hs]
      by_cases h8 : j % 8 = 0
      · simp [h8]
      · simp [h8])
  rw [Nat.add_zero] at ht
  rw [ht, hinv, Nat.succ_mul]

/-- What `write_DMK` inserts into the stream, for both specializations. -/
theorem write_DMK_with_eq {TK F : Type} (re : TK → F) (st : DensityMatrix TK F)
    (directory : String) (ispin ik : Int) (kvec : Vector3 F) (buf : List TK)
    (hkv : st.kvec_d_int ik = some kvec)
    (hidx : 0 ≤ ik + st._nks * (ispin - 1))
    (hbuf : st._DMK[(ik + st._nks * (ispin - 1)).toNat]? = some buf)
    (hlen : st._paraV.nrow * st._paraV.ncol ≤ buf.length) :
    st.write_DMK_with re directory ispin ik =
      .ok (directory ++ "SPIN" ++ toString ispin ++ "_" ++ toString ik ++ ".dmk",
        snapshot_items kvec st._paraV.nrow st._paraV.ncol
          (fun p => decide (p % st._paraV.ncol % 8 = 0))
          ((buf.take (st._paraV.nrow * st._paraV.ncol)).map re)) := by
  obtain ⟨t, ht, hinv⟩ := loopM_total
    (fun i ofs => ofs = snapshot_items kvec st._paraV.nrow st._paraV.ncol
      (fun p => decide (p % st._paraV.ncol % 8 = 0))
      ((buf.take (i * st._paraV.ncol)).map re))
    st._paraV.nrow (fun i ofs =>
        loopM st._paraV.ncol (fun j ofs => st.write_DMK_element re ispin ik i j ofs) ofs)
    ([.dbl kvec.x, .str " ", .dbl kvec.y, .str " ", .dbl kvec.z, .endl] ++
      [.str "\n  ", .int st._paraV.nrow, .str " ", .int st._paraV.ncol, .endl] ++
      [.setprecision 3] ++ [.scientific])
    (by simp [snapshot_items, value_layout])
    (by
      intro i hi s hs
      refine ⟨_, ?_, rfl⟩
      rw [hs]
      exact write_DMK_row re st ispin ik buf hidx hbuf hlen _ i hi)
  unfold DensityMatrix.write_DMK_with
  simp only [hkv]
  rw [ht, hinv]
  rfl

/-- The claim C24 as stated fails on the code. With a 2 x 12 block whose values are the
numbers 0 to 23, `write_DMK` returns the file name and the header the claim describes,
but the line breaks do not stand after every 8 values: what follows the header is not
the layout with a line break at the value tokens 0, 8 and 16; a line break stands after
the 12 values of the first row (before the token 12), and none after 16 values (the
tokens 15 and 16 are on one line). -/
theorem C24_counterexample :
    ∃ out, state_2x12.write_DMK_gamma "out/" 1 0 = .ok ("out/SPIN1_0.dmk", out) ∧
      out.take 13 = [.dbl 0, .str " ", .dbl 0, .str " ", .dbl 0, .endl,
        .str "\n  ", .int 2, .str " ", .int 12, .endl, .setprecision 3, .scientific] ∧
      OutItem.values (out.drop 13) = (List.range 24).map (fun n => (n : Int)) ∧
      out.drop 13 ≠ value_layout (fun p => decide (p % 8 = 0)) 0
        ((List.range 24).map (fun n => (n : Int))) ∧
      (out.drop 38).take 4 = [.dbl 11, .str "\n", .str " ", .dbl 12] ∧
      (out.drop 47).take 3 = [.dbl 15, .str " ", .dbl 16] :=
  ⟨_, rfl, by decide, by decide, by decide, by decide, by decide⟩

/-- The claim C24, amended: for a spin and a k-point whose k-vector and DM(k) buffer
exist, `write_DMK` (both specializations) writes to the file
`directory + "SPIN" + ispin + "_" + ik + ".dmk"` the three components of the k-vector
and the end of the line, an empty line, `nrow` and `ncol` and the end of the line, and
then the `nrow * ncol` values, of which the token `p = i * ncol + j` is the element
`p` of the buffer (its real part for complex elements), each after a blank; a line break
stands before the first value of every row and after every 8 values of a row, that is
before the token `p` exactly when `(p % ncol) % 8 = 0`. -/
theorem C24_write_DMK_layout {F : Type} (directory : String) (ispin ik : Int)
    (kvec : Vector3 F) :
    (∀ (st : DensityMatrix F F) (buf : List F),
      st.kvec_d_int ik = some kvec → 0 ≤ ik + st._nks * (ispin - 1) →
      st._DMK[(ik + st._nks * (ispin - 1)).toNat]? = some buf →
      buf.length = st._paraV.nrow * st._paraV.ncol →
      ∃ out, st.write_DMK_gamma directory ispin ik =
          .ok (directory ++ "SPIN" ++ toString ispin ++ "_" ++ toString ik ++ ".dmk", out) ∧
        out = snapshot_items kvec st._paraV.nrow st._paraV.ncol
          (fun p => decide (p % st._paraV.ncol % 8 = 0)) buf ∧
        OutItem.values (out.drop 13) = buf ∧
        (OutItem.values (out.drop 13)).length = st._paraV.nrow * st._paraV.ncol) ∧
    (∀ (st : DensityMatrix (Cplx F) F) (buf : List (Cplx F)),
      st.kvec_d_int ik = some kvec → 0 ≤ ik + st._nks * (ispin - 1) →
      st._DMK[(ik + st._nks * (ispin - 1)).toNat]? = some buf →
      buf.length = st._paraV.nrow * st._paraV.ncol →
      ∃ out, st.write_DMK_multi_k directory ispin ik =
          .ok (directory ++ "SPIN" ++ toString ispin ++ "_" ++ toString ik ++ ".dmk", out) ∧
        out = snapshot_items kvec st._paraV.nrow st._paraV.ncol
          (fun p => decide (p % st._paraV.ncol % 8 = 0)) (buf.map Cplx.re) ∧
        OutItem.values (out.drop 13) = buf.map Cplx.re ∧
        (OutItem.values (out.drop 13)).length = st._paraV.nrow * st._paraV.ncol) := by
  constructor
  · intro st buf hkv hidx hbuf hlen
    have h := write_DMK_with_eq (fun x => x) st directory ispin ik kvec buf hkv hidx hbuf
      (le_of_eq hlen.symm)
    rw [← hlen, List.take_length, List.map_id'] at h
    refine ⟨_, h, rfl, ?_, ?_⟩
    · show OutItem.values (value_layout _ 0 buf) = buf
      exact values_value_layout _ _ _
    · rw [show OutItem.values (List.drop 13 (snapshot_items kvec st._paraV.nrow
        st._paraV.ncol (fun p => decide (p % st._paraV.ncol % 8 = 0)) buf)) = buf from
        values_value_layout _ _ _]
      exact hlen
  · intro st buf hkv hidx hbuf hlen
    have h := write_DMK_with_eq Cplx.re st directory ispin ik kvec buf hkv hidx hbuf
      (le_of_eq hlen.symm)
    rw [← hlen, List.take_length] at h
    refine ⟨_, h, rfl, ?_, ?_⟩
    · show OutItem.values (value_layout _ 0 (buf.map Cplx.re)) = buf.map Cplx.re
      exact values_value_layout _ _ _
    · rw [show OutItem.values (List.drop 13 (snapshot_items kvec st._paraV.nrow
        st._paraV.ncol (fun p => decide (p % st._paraV.ncol % 8 = 0)) (buf.map Cplx.re))) =
        buf.map Cplx.re from values_value_layout _ _ _, List.length_map]
      exact hlen

/-! ## The claims about the shape of the DM(k) store, the persistence, the index safety
and the stress on concrete inputs -/

/-- The DM(k) store of the concrete 2 x 12 state has its buffer. -/
theorem state_2x12_DMK_ok : state_2x12.DMK_ok := by
  decide

/-- C21 on the concrete 2 x 12 state: `set_DMK(1, 0, 0, 0, 5)` returns and the store has
the shape it had. -/
theorem C21_DMK_shape_invariant_witness :
    ∃ st2, state_2x12.set_DMK 1 0 0 0 5 = .ok st2 ∧ state_2x12.keeps_DMK_shape st2 :=
  ⟨_, rfl, (C21_DMK_shape_invariant libm_Z stream_missing).1 state_2x12 _ 1 0 0 0 5 rfl⟩

/-- C23 on the concrete 2 x 12 state and a directory without snapshot files: `read_DMK`
returns the state as it was. -/
theorem C23_read_DMK_missing_file_witness :
    state_2x12.DMK_ok ∧ state_2x12.read_DMK stream_missing "out/" 1 0 = .ok state_2x12 :=
  ⟨state_2x12_DMK_ok,
    C23_read_DMK_missing_file stream_missing (fun _ _ _ => rfl) state_2x12 state_2x12_DMK_ok
      "out/" 1 0 (by decide) (by decide) rfl⟩

/-- C24, amended, on the concrete 2 x 12 state: the snapshot of spin 1 and k-point 0 is
written to `out/SPIN1_0.dmk` and its values are laid out with a line break before the
tokens 0, 8, 12 and 20. -/
theorem C24_write_DMK_layout_witness :
    ∃ out, state_2x12.write_DMK_gamma "out/" 1 0 = .ok ("out/SPIN1_0.dmk", out) ∧
      out = snapshot_items ⟨0, 0, 0⟩ 2 12 (fun p => decide (p % 12 % 8 = 0))
        ((List.range 24).map (fun n => (n : Int))) ∧
      (List.range 24).filter (fun p => decide (p % 12 % 8 = 0)) = [0, 8, 12, 20] := by
  obtain ⟨out, h1, h2, _⟩ := (C24_write_DMK_layout "out/" 1 0 ⟨0, 0, 0⟩).1 state_2x12
    ((List.range 24).map (fun n => (n : Int))) rfl (by decide) rfl rfl
  exact ⟨out, h1, h2, by decide⟩

/-- C25 on the concrete states: both transforms return. -/
theorem C25_index_safety_witness :
    (∃ st2, state_multi_k.cal_DMR_multi_k libm_Z = .ok st2) ∧
    ∃ st2, state_gamma.cal_DMR_gamma = .ok st2 :=
  ⟨(C25_index_safety libm_Z).2.1 state_multi_k state_multi_k_wf (by decide),
    (C25_index_safety libm_Z).2.2 state_gamma state_gamma_wf (by decide)⟩

/-- C26, amended, on the container constructed with a 3 x 2 layout: the first index 1
and the second index 2 are inside, and `get_DMK` and `set_DMK` return. -/
theorem C26_accessor_index_safety_witness :
    ∃ dm : DensityMatrix Int Int,
      DensityMatrix.DensityMatrix_multi_k kv_1 paraV_3x2 1 = .ok dm ∧
      (∃ v, dm.get_DMK 1 0 1 2 = .ok v) ∧ ∀ v, ∃ dm2, dm.set_DMK 1 0 1 2 v = .ok dm2 :=
  ⟨_, DensityMatrix_multi_k_eq kv_1 paraV_3x2 1 1 (Or.inl ⟨Or.inl rfl, rfl⟩),
    (C26_accessor_index_safety kv_1 paraV_3x2 1 _
      (Or.inl (DensityMatrix_multi_k_eq kv_1 paraV_3x2 1 1 (Or.inl ⟨Or.inl rfl, rfl⟩)))
      1 0 1 2 (by decide) (by decide) (by decide) (by decide)).2.2⟩

/-- C29 on rational numbers: with `lat0 = 1`, `omega = 2` and the packed values 1 to 6
the entries (0, 1) and (1, 0) of the stress matrix are `-2 * 1 / 2 * 2` and the entry
(2, 2) is `-2 * 1 / 2 * 6`. -/
theorem C29_stress_unpacking_witness :
    ∃ S2, DFTUNew.cal_force_stress_renormalization true (1 : ℚ) 2 [1, 2, 3, 4, 5, 6]
        matrix_3x3 = .ok S2 ∧
      S2.at 0 1 = some (-2 * 1 / 2 * 2) ∧ S2.at 1 0 = some (-2 * 1 / 2 * 2) ∧
      S2.at 2 2 = some (-2 * 1 / 2 * 6) := by
  obtain ⟨S2, t0, t1, t2, t3, t4, t5, h, ht, _, _, _, h01, h10, _, _, _, _, _, h22, _⟩ :=
    C29_stress_unpacking (fun a b : ℚ => mul_comm a b) 1 2 [1, 2, 3, 4, 5, 6] matrix_3x3
      rfl rfl rfl rfl
  cases ht
  exact ⟨S2, h, h01, h10, h22⟩

/-- C30 on rational numbers: with `lat0 = 1` and `omega = 2 > 0`, `stress_fill_new`
returns a symmetric matrix whose entry (2, 0) is half the entry (0, 2) of the input. -/
theorem C30_stress_fill_new_witness :
    (2 : ℚ) > 0 ∧ ∃ S2, StressTools.stress_fill_new (1 : ℚ) 2 matrix_3x3 = .ok S2 ∧
      S2.at 2 0 = some (1 / 2 * 3) ∧ S2.at 0 2 = some (1 / 2 * 3) ∧
      S2.at 1 0 = S2.at 0 1 := by
  have hpos : (2 : ℚ) > 0 := by norm_num
  obtain ⟨S2, h, _, _, hval, hsym⟩ := C30_stress_fill_new (fun a b : ℚ => mul_comm a b) 1 2
    hpos matrix_3x3 rfl rfl rfl
  obtain ⟨s, hs, h20⟩ := hval 2 0 (by decide) (by decide)
  obtain ⟨s2, hs2, h02⟩ := hval 0 2 (by decide) (by decide)
  have e : some s = some (3 : ℚ) := hs.symm.trans rfl
  have e2 : some s2 = some (3 : ℚ) := hs2.symm.trans rfl
  cases e
  cases e2
  exact ⟨hpos, S2, h, h20, h02, hsym 1 0 (by decide) (by decide)⟩

/-! ## The transform in the arithmetic of `double` -/

set_option maxRecDepth 100000

/-- The concrete state over `double` has no undefined behaviour. -/
theorem state_dbl_wf : state_dbl.WellFormed_multi_k := by
  decide

/-- The stored pair of the concrete state over `double` is resident. -/
theorem state_dbl_owned : state_dbl.all_owned := by
  decide

/-- The claim C1 as stated fails on the code in the arithmetic of `double`.  On the
concrete state (k-points (0, 0, 0) and (0.5, 0, 0), translation (1, 0, 0), DM(k) elements
`1` and `1 + i`, so that the phases are `1` and `-1 + 1.2246467991473532e-16 i`) the
multi-k `cal_DMR` returns and leaves `((0 + 1 * 1) + (-0) * 0 + (-1) * 1) + (-sin) * 1`,
which is `-1.2246467991473532e-16`, in the element.  The summands of the closed form are
`1` and `-1 - 1.2246467991473532e-16`, rounded to `-1.0000000000000002`, and their sum,
in either order and with or without the initial zero, is `-2.220446049250313e-16`. -/
theorem C1_counterexample :
    state_dbl.WellFormed_multi_k ∧ state_dbl.all_owned ∧
    (∃ st2, state_dbl.cal_DMR_multi_k libm_dbl = .ok st2 ∧
      st2.DMR_at 1 0 ⟨1, 0, 0⟩ 0 = some ⟨-4967757600021511, -105⟩) ∧
    closed_form_term libm_dbl ⟨0, 0, 0⟩ ⟨1, 0, 0⟩ ⟨1, 0⟩ = 1 ∧
    closed_form_term libm_dbl ⟨dbl_half, 0, 0⟩ ⟨1, 0, 0⟩ ⟨1, 1⟩ = ⟨-4503599627370497, -52⟩ ∧
    (1 : Dbl) + ⟨-4503599627370497, -52⟩ = ⟨-4503599627370496, -104⟩ ∧
    (0 : Dbl) + 1 + ⟨-4503599627370497, -52⟩ = ⟨-4503599627370496, -104⟩ ∧
    (⟨-4503599627370497, -52⟩ : Dbl) + 1 = ⟨-4503599627370496, -104⟩ ∧
    (⟨-4503599627370496, -104⟩ : Dbl) ≠ ⟨-4967757600021511, -105⟩ :=
  ⟨state_dbl_wf, state_dbl_owned, ⟨_, rfl, rfl⟩, by decide, by decide, by decide, by decide,
    by decide, by decide⟩

/-- The claim C3 as stated fails on the code in the arithmetic of `double`.  On the
concrete state both transforms return; the reference `cal_DMR_test` leaves
`(0 + (1 * 1 - 0 * 0)) + ((-1) * 1 - sin * 1) = -2.220446049250313e-16` in the element
and the optimized `cal_DMR` leaves
`((0 + 1 * 1) + (-0) * 0 + (-1) * 1) + (-sin) * 1 = -1.2246467991473532e-16`. -/
theorem C3_counterexample :
    state_dbl.WellFormed_multi_k ∧
    (∃ st2 st3, state_dbl.cal_DMR_test libm_dbl = .ok st2 ∧
      state_dbl.cal_DMR_multi_k libm_dbl = .ok st3 ∧
      st2.DMR_at 1 0 ⟨1, 0, 0⟩ 0 = some ⟨-4503599627370496, -104⟩ ∧
      st3.DMR_at 1 0 ⟨1, 0, 0⟩ 0 = some ⟨-4967757600021511, -105⟩ ∧
      st2.DMR_at 1 0 ⟨1, 0, 0⟩ 0 ≠ st3.DMR_at 1 0 ⟨1, 0, 0⟩ 0) ∧
    state_dbl.cal_DMR_test libm_dbl ≠ state_dbl.cal_DMR_multi_k libm_dbl := by
  have h2 : state_dbl.cal_DMR_test libm_dbl = .ok (state_dbl.with_DMR
      [⟨false, [⟨0, 0, 1, 1, [⟨1, 0, 0⟩], [⟨1, 1, [⟨-4503599627370496, -104⟩]⟩]⟩]⟩]) := rfl
  have h3 : state_dbl.cal_DMR_multi_k libm_dbl = .ok (state_dbl.with_DMR
      [⟨false, [⟨0, 0, 1, 1, [⟨1, 0, 0⟩], [⟨1, 1, [⟨-4967757600021511, -105⟩]⟩]⟩]⟩]) := rfl
  refine ⟨state_dbl_wf, ⟨_, _, h2, h3, rfl, rfl, by decide⟩, ?_⟩
  rw [h2, h3]
  intro h
  have h4 := congrArg (fun r => match r with
    | .ok (st : DensityMatrix (Cplx Dbl) Dbl) => st.DMR_at 1 0 ⟨1, 0, 0⟩ 0
    | .error _ => none) h
  revert h4
  decide

/-! ## Writing a snapshot and reading it back -/

end elecstate
